import Mathlib

/-!
# Dynamic game trajectory planner

A shallow embedding of `src/dynamic_game_planner.cpp`.

* `double` is an arbitrary linearly ordered field `K` (exact arithmetic); the
  library functions `cos`, `sin`, `tan`, `sqrt` are parameters.
* `double*` buffers are total functions `Nat → K`, a store `a[i] = e` is
  `Function.update a i e`.
* A counted loop `for (int i = 0; i < n; i++)` is `forLoop n body init`.
* The members of the class changed by the code are the fields of `Planner`;
  every method takes the planner and returns what it changes.
-/

namespace DynamicGamePlanner

/-! ## Constants of the header -/

/-- The constants of `dynamic_game_planner.h` used by the source file, taken as parameters,
together with the `libm` functions the source calls. `rho_0` is the value the member `rho`
has in a newly constructed planner; `num_threads` is `std::thread::hardware_concurrency()`. -/
structure Config (K : Type) where
  N : Nat
  nx : Nat
  nu : Nat
  dt : K
  tau : K
  k : K
  cg_ratio : K
  length : K
  weight_target_speed : K
  weight_center_lane : K
  weight_heading : K
  weight_input : K
  qf : K
  d_low : K
  d_up : K
  F_low : K
  F_up : K
  r_safe : K
  r_lane : K
  eps : K
  gamma : K
  rho_0 : K
  num_threads : Nat
  cos : K → K
  sin : K → K
  tan : K → K
  sqrt : K → K

/-- Modelled from the spec: the header's per-step state width `nX`; the spec lists the state
components `x, y, v, ψ, s, l`. -/
def nX : Nat := 6

/-- Modelled from the spec: the header's per-step control width `nU`; the spec lists the
control components `d, F`. -/
def nU : Nat := 2

/-- Modelled from the spec: index of the state component `x` (the header's enumeration, in the
order the spec lists the components). -/
def x : Nat := 0

/-- Modelled from the spec: index of the state component `y`. -/
def y : Nat := 1

/-- Modelled from the spec: index of the state component `v`. -/
def v : Nat := 2

/-- Modelled from the spec: index of the state component `psi`. -/
def psi : Nat := 3

/-- Modelled from the spec: index of the state component `s`. -/
def s : Nat := 4

/-- Modelled from the spec: index of the state component `l`. -/
def l : Nat := 5

/-- Modelled from the spec: index of the control component `d` (steering). -/
def d : Nat := 0

/-- Modelled from the spec: index of the control component `F` (longitudinal force). -/
def F : Nat := 1

/-! ## Data model -/

/-- A lane as the source uses it: the two splines, the heading, the parameter range and the
presence flag. -/
structure Lane (K : Type) where
  spline_x : K → K
  spline_y : K → K
  compute_heading : K → K
  s_max : K
  present : Bool

/-- One sample of a predicted trajectory. -/
structure TrajectoryPoint (K : Type) where
  x : K
  y : K
  psi : K
  v : K
  omega : K
  beta : K
  t_start : K
  t_end : K

/-- One sample of a predicted control. -/
structure Input (K : Type) where
  a : K
  delta : K

/-- One traffic participant. -/
structure TrafficParticipant (K : Type) where
  x : K
  y : K
  v : K
  psi : K
  v_target : K
  centerlane : Lane K
  leftlane : Lane K
  rightlane : Lane K
  predicted_trajectory : List (TrajectoryPoint K)
  predicted_control : List (Input K)

/-- The members of `DynamicGamePlanner` that the source assigns. -/
structure Planner (K : Type) where
  traffic : List (TrafficParticipant K)
  M : Nat
  nC_i : Nat
  nC : Nat
  nX_ : Nat
  nU_ : Nat
  nG : Nat
  ul : Nat → K
  uu : Nat → K
  lagrangian_multipliers : Nat → K
  rho : K

section Defs

variable {K : Type} [LinearOrderedField K]

instance : Inhabited (Lane K) :=
  ⟨{ spline_x := fun _ => 0, spline_y := fun _ => 0, compute_heading := fun _ => 0,
     s_max := 0, present := false }⟩

instance : Inhabited (TrafficParticipant K) :=
  ⟨{ x := 0, y := 0, v := 0, psi := 0, v_target := 0, centerlane := default,
     leftlane := default, rightlane := default, predicted_trajectory := [],
     predicted_control := [] }⟩

/-- The counted loop `for (int i = 0; i < n; i++) body`: runs `body 0`, ..., `body (n-1)`. -/
def forLoop {σ : Type} : Nat → (Nat → σ → σ) → σ → σ
  | 0, _, st => st
  | n + 1, body, st => body n (forLoop n body st)

/-- The content of a local buffer before its first store. -/
def uninit : Nat → K := fun _ => 0

/-- The element `traffic[i]`. -/
def Planner.agent (p : Planner K) (i : Nat) : TrafficParticipant K :=
  p.traffic.getD i default

/-- A newly constructed planner: the constructor body is empty, `rho` has its in-class
initial value. -/
def Planner.fresh (cfg : Config K) : Planner K :=
  { traffic := [], M := 0, nC_i := 0, nC := 0, nX_ := 0, nU_ := 0, nG := 0,
    ul := uninit, uu := uninit, lagrangian_multipliers := uninit, rho := cfg.rho_0 }

/-! ## `setup` -/

/-- Body of the loop of `setup` that fills the control limits. -/
def setup_limits (cfg : Config K) (j : Nat) (b : (Nat → K) × (Nat → K)) :
    (Nat → K) × (Nat → K) :=
  let ul1 := Function.update b.1 (nU * j + d) cfg.d_low
  let uu1 := Function.update b.2 (nU * j + d) cfg.d_up
  let ul2 := Function.update ul1 (nU * j + F) cfg.F_low
  let uu2 := Function.update uu1 (nU * j + F) cfg.F_up
  (ul2, uu2)

/-- `DynamicGamePlanner::setup`. The size `nC_i` is computed with `int` arithmetic. -/
def setup (cfg : Config K) (p : Planner K) : Planner K :=
  let M := p.traffic.length
  let nC_i : Nat :=
    Int.toNat (2 * (nU : Int) * (cfg.N + 1) + (cfg.N + 1) * ((M : Int) - 1) + (cfg.N + 1))
  let nC := nC_i * M
  let nX_ := nX * (cfg.N + 1) * M
  let nU_ := nU * (cfg.N + 1) * M
  let nG := nU_
  let lim := forLoop (cfg.N + 1) (setup_limits cfg) (p.ul, p.uu)
  { p with M := M, nC_i := nC_i, nC := nC, nX_ := nX_, nU_ := nU_, nG := nG,
           ul := lim.1, uu := lim.2, lagrangian_multipliers := fun _ => 0 }

/-! ## Dynamics and integration -/

/-- `DynamicGamePlanner::dynamic_step`: stores the six derivatives into `d_state`. -/
def dynamic_step (cfg : Config K) (d_state state ref_state control : Nat → K) : Nat → K :=
  let d1 := Function.update d_state x
    (state v * cfg.cos (state psi + cfg.cg_ratio * control d))
  let d2 := Function.update d1 y
    (state v * cfg.sin (state psi + cfg.cg_ratio * control d))
  let d3 := Function.update d2 v ((-1 / cfg.tau) * state v + cfg.k * control F)
  let d4 := Function.update d3 psi
    (state v * cfg.tan (control d) * cfg.cos (cfg.cg_ratio * control d) / cfg.length)
  let d5 := Function.update d4 l
    (cfg.weight_target_speed * (state v - ref_state v) * (state v - ref_state v)
      + cfg.weight_center_lane * ((ref_state x - state x) * (ref_state x - state x)
          + (ref_state y - state y) * (ref_state y - state y))
      + cfg.weight_heading * ((cfg.cos (ref_state psi) - cfg.cos (state psi))
            * (cfg.cos (ref_state psi) - cfg.cos (state psi))
          + (cfg.sin (ref_state psi) - cfg.sin (state psi))
            * (cfg.sin (ref_state psi) - cfg.sin (state psi)))
      + cfg.weight_input * control F * control F)
  Function.update d5 s (state v)

/-- The state `s_t0` with which `integrate` starts agent `i`. -/
def initial_state (tr : TrafficParticipant K) : Nat → K :=
  let s1 := Function.update (uninit : Nat → K) x tr.x
  let s2 := Function.update s1 y tr.y
  let s3 := Function.update s2 v tr.v
  let s4 := Function.update s3 psi tr.psi
  let s5 := Function.update s4 s 0
  Function.update s5 l 0

/-- The reference point `sr_t0` of step `j` for the running state `s_t0`. -/
def reference_state (cfg : Config K) (tr : TrafficParticipant K) (j : Nat) (s_t0 : Nat → K) :
    Nat → K :=
  let s_ref := s_t0 s
  let r1 := Function.update (uninit : Nat → K) x (tr.centerlane.spline_x s_ref)
  let r2 := Function.update r1 y (tr.centerlane.spline_y s_ref)
  let r3 := Function.update r2 psi (tr.centerlane.compute_heading s_ref)
  Function.update r3 v (tr.v + (j : K) * (tr.v_target - tr.v) / (cfg.N : K))

/-- The control `u_t0` of step `j` of agent `i`. -/
def control_at (U_ : Nat → K) (tu : Nat) : Nat → K :=
  let u1 := Function.update (uninit : Nat → K) d (U_ (tu + d))
  Function.update u1 F (U_ (tu + F))

/-- The Euler update of `s_t0` in the body of the inner loop of `integrate`, the clipping of
the speed included. The buffers hold numbers of the field; for a NaN speed the test
`s_t0[v] < 0.0` of the source is false and the speed stays NaN, see `speed_update_nan`. -/
def euler_update (cfg : Config K) (s_t0 ds_t0 : Nat → K) : Nat → K :=
  let s1 := Function.update s_t0 x (s_t0 x + cfg.dt * ds_t0 x)
  let s2 := Function.update s1 y (s1 y + cfg.dt * ds_t0 y)
  let s3 := Function.update s2 v (s2 v + cfg.dt * ds_t0 v)
  let s4 := Function.update s3 psi (s3 psi + cfg.dt * ds_t0 psi)
  let s5 := Function.update s4 s (s4 s + cfg.dt * ds_t0 s)
  let s6 := Function.update s5 l (s5 l + cfg.dt * ds_t0 l)
  if s6 v < 0 then Function.update s6 v 0 else s6

/-- The six stores of the running state into `X_` at offset `td`. -/
def save_state (X_ : Nat → K) (td : Nat) (s_t0 : Nat → K) : Nat → K :=
  let X1 := Function.update X_ (td + x) (s_t0 x)
  let X2 := Function.update X1 (td + y) (s_t0 y)
  let X3 := Function.update X2 (td + v) (s_t0 v)
  let X4 := Function.update X3 (td + psi) (s_t0 psi)
  let X5 := Function.update X4 (td + s) (s_t0 s)
  Function.update X5 (td + l) (s_t0 l)

/-- Body of the inner loop of `integrate` (step `j` of agent `i`); the loop state is the
buffer `X_` and the running state `s_t0`. The buffers `sr_t0`, `u_t0`, `ds_t0` are stored
anew in every pass before they are read. -/
def integrate_step (cfg : Config K) (tr : TrafficParticipant K) (U_ : Nat → K) (i j : Nat)
    (st : (Nat → K) × (Nat → K)) : (Nat → K) × (Nat → K) :=
  let tu := nU * (cfg.N + 1) * i + nU * j
  let td := nX * (cfg.N + 1) * i + nX * j
  let sr_t0 := reference_state cfg tr j st.2
  let u_t0 := control_at U_ tu
  let ds_t0 := dynamic_step cfg uninit st.2 sr_t0 u_t0
  let s_t0 := euler_update cfg st.2 ds_t0
  (save_state st.1 td s_t0, s_t0)

/-- Body of the outer loop of `integrate` (agent `i`). -/
def integrate_agent (cfg : Config K) (p : Planner K) (U_ : Nat → K) (i : Nat)
    (X_ : Nat → K) : Nat → K :=
  (forLoop (cfg.N + 1) (integrate_step cfg (p.agent i) U_ i)
    (X_, initial_state (p.agent i))).1

/-- `DynamicGamePlanner::integrate`. -/
def integrate (cfg : Config K) (p : Planner K) (X_ U_ : Nat → K) : Nat → K :=
  forLoop p.M (integrate_agent cfg p U_) X_

/-- Body of the inner loop of `initial_guess`. -/
def initial_guess_step (cfg : Config K) (i j : Nat) (U_ : Nat → K) : Nat → K :=
  let U1 := Function.update U_ (nU * (cfg.N + 1) * i + nU * j + d) 0
  Function.update U1 (nU * (cfg.N + 1) * i + nU * j + F) (3 / 10)

/-- `DynamicGamePlanner::initial_guess`: returns the buffers `(X_, U_)`. -/
def initial_guess (cfg : Config K) (p : Planner K) (X_ U_ : Nat → K) :
    (Nat → K) × (Nat → K) :=
  let U1 := forLoop p.M (fun i U => forLoop (cfg.N + 1) (initial_guess_step cfg i) U) U_
  (integrate cfg p X_ U1, U1)

/-! ## Constraints -/

/-- The sequence of stores `a[i] = e` applied to a buffer, first store first. -/
def store_all (a : Nat → K) (ws : List (Nat × K)) : Nat → K :=
  ws.foldl (fun b w => Function.update b w.1 w.2) a

/-- `DynamicGamePlanner::compute_squared_distances_vector`. -/
def compute_squared_distances_vector (cfg : Config K) (squared_distances X_ : Nat → K)
    (ego j : Nat) : Nat → K :=
  forLoop (cfg.N + 1) (fun k sq =>
    let x_ego := X_ (cfg.nx * ego + nX * k + x)
    let y_ego := X_ (cfg.nx * ego + nX * k + y)
    let x_j := X_ (cfg.nx * j + nX * k + x)
    let y_j := X_ (cfg.nx * j + nX * k + y)
    let distance := (x_ego - x_j) * (x_ego - x_j) + (y_ego - y_j) * (y_ego - y_j)
    Function.update sq k distance) squared_distances

/-- The value `dist2_c[j]` of the lane loop: the sentinel `1e3`, replaced when the centre lane
reaches `s_`. -/
def lane_dist2_center (cfg : Config K) (lane : Lane K) (s_ x_ y_ : K) : K :=
  if s_ < lane.s_max then
    let x_c := lane.spline_x s_
    let y_c := lane.spline_y s_
    let psi_c := lane.compute_heading s_
    let dist_c := (x_ - x_c) * (x_ - x_c) + (y_ - y_c) * (y_ - y_c)
    let dist_long_c := ((x_ - x_c) * cfg.cos psi_c + (y_ - y_c) * cfg.sin psi_c)
      * ((x_ - x_c) * cfg.cos psi_c + (y_ - y_c) * cfg.sin psi_c)
    dist_c - dist_long_c
  else 1000

/-- The value `dist2_l[j]` (and `dist2_r[j]`) of the lane loop: the sentinel `1e3`, replaced
when the side lane is present, reaches `s_` and is longer than `10`. -/
def lane_dist2_side (cfg : Config K) (lane : Lane K) (s_ x_ y_ : K) : K :=
  if lane.present = true ∧ s_ < lane.s_max ∧ lane.s_max > 10 then
    let x_l := lane.spline_x s_
    let y_l := lane.spline_y s_
    let psi_l := lane.compute_heading s_
    let dist_l := (x_ - x_l) * (x_ - x_l) + (y_ - y_l) * (y_ - y_l)
    let dist_long_l := ((x_ - x_l) * cfg.cos psi_l + (y_ - y_l) * cfg.sin psi_l)
      * ((x_ - x_l) * cfg.cos psi_l + (y_ - y_l) * cfg.sin psi_l)
    dist_l - dist_long_l
  else 1000

/-- The value stored in `squared_distances_[j]` by the lane loop. -/
def lane_dist2 (cfg : Config K) (tr : TrafficParticipant K) (X_ : Nat → K) (i j : Nat) : K :=
  let s_ := X_ (cfg.nx * i + nX * j + s)
  let x_ := X_ (cfg.nx * i + nX * j + x)
  let y_ := X_ (cfg.nx * i + nX * j + y)
  let dist2_c := lane_dist2_center cfg tr.centerlane s_ x_ y_
  let dist2_l := lane_dist2_side cfg tr.leftlane s_ x_ y_
  let dist2_r := lane_dist2_side cfg tr.rightlane s_ x_ y_
  let dist2_rl_min := min dist2_l dist2_r
  min dist2_rl_min dist2_c

/-- `DynamicGamePlanner::compute_squared_lateral_distance_vector`. The buffers `dist2_c`,
`dist2_l`, `dist2_r` are stored and read at index `j` only, within pass `j`. -/
def compute_squared_lateral_distance_vector (cfg : Config K) (p : Planner K)
    (squared_distances_ X_ : Nat → K) (i : Nat) : Nat → K :=
  forLoop (cfg.N + 1) (fun j sq => Function.update sq j (lane_dist2 cfg (p.agent i) X_ i j))
    squared_distances_

/-- The four stores of pass `k` of the input-bound loop of `compute_constraints_vehicle_i`. -/
def input_stores (p : Planner K) (cfg : Config K) (U_ : Nat → K) (i k : Nat) :
    List (Nat × K) :=
  let indU := nU * (cfg.N + 1) * i
  let indCu := nU * (cfg.N + 1)
  [ (nU * k + d, 1000 * (U_ (indU + nU * k + d) - p.uu (nU * k + d))),
    (nU * k + F, 1000 * (U_ (indU + nU * k + F) - p.uu (nU * k + F))),
    (indCu + nU * k + d, 1000 * (p.ul (nU * k + d) - U_ (indU + nU * k + d))),
    (indCu + nU * k + F, 1000 * (p.ul (nU * k + F) - U_ (indU + nU * k + F))) ]

/-- Pass `k` of the collision loop of `compute_constraints_vehicle_i`; the loop state is the
stores made so far and the counter `ind`. -/
def collision_pass (cfg : Config K) (X_ : Nat → K) (i k : Nat)
    (st : List (Nat × K) × Nat) : List (Nat × K) × Nat :=
  if k ≠ i then
    let indCl := nU * (cfg.N + 1) + nU * (cfg.N + 1)
    let indCto := indCl + (cfg.N + 1) * st.2
    let dist2t := compute_squared_distances_vector cfg uninit X_ i k
    (forLoop (cfg.N + 1)
      (fun j ws => ws ++ [(indCto + j, cfg.r_safe * cfg.r_safe - dist2t j)]) st.1, st.2 + 1)
  else st

/-- The stores of `compute_constraints_vehicle_i` into `constraints_i`, in program order.
The function is called for `i < M` only, where `M - 1` is the same in `int` and `Nat`. -/
def constraint_stores (cfg : Config K) (p : Planner K) (X_ U_ : Nat → K) (i : Nat) :
    List (Nat × K) :=
  let indCu := nU * (cfg.N + 1)
  let indCl := indCu + nU * (cfg.N + 1)
  let ws1 := forLoop (cfg.N + 1) (fun k ws => ws ++ input_stores p cfg U_ i k) []
  let ws2 := (forLoop p.M (collision_pass cfg X_ i) (ws1, 0)).1
  let indCto := indCl + (cfg.N + 1) * (p.M - 1)
  let latdist2t := compute_squared_lateral_distance_vector cfg p uninit X_ i
  forLoop (cfg.N + 1)
    (fun k ws => ws ++ [(indCto + k, latdist2t k - cfg.r_lane * cfg.r_lane)]) ws2

/-- `DynamicGamePlanner::compute_constraints_vehicle_i`. -/
def compute_constraints_vehicle_i (cfg : Config K) (p : Planner K)
    (constraints_i X_ U_ : Nat → K) (i : Nat) : Nat → K :=
  store_all constraints_i (constraint_stores cfg p X_ U_ i)

/-- Pass `i` of the loop of `compute_constraints`; the loop state is the buffer `constraints`
and the local buffer `constraints_i`. -/
def compute_constraints_pass (cfg : Config K) (p : Planner K) (X_ U_ : Nat → K) (i : Nat)
    (st : (Nat → K) × (Nat → K)) : (Nat → K) × (Nat → K) :=
  let constraints_i := compute_constraints_vehicle_i cfg p st.2 X_ U_ i
  (forLoop p.nC_i (fun j c => Function.update c (p.nC_i * i + j) (constraints_i j)) st.1,
    constraints_i)

/-- `DynamicGamePlanner::compute_constraints`. -/
def compute_constraints (cfg : Config K) (p : Planner K) (constraints X_ U_ : Nat → K) :
    Nat → K :=
  (forLoop p.M (compute_constraints_pass cfg p X_ U_) (constraints, uninit)).1

/-! ## Multipliers, penalty, augmented Lagrangian -/

/-- `DynamicGamePlanner::increasing_schedule`. -/
def increasing_schedule (cfg : Config K) (p : Planner K) : Planner K :=
  { p with rho := cfg.gamma * p.rho }

/-- `DynamicGamePlanner::save_lagrangian_multipliers`. -/
def save_lagrangian_multipliers (p : Planner K) (lagrangian_multipliers_ : Nat → K) :
    Planner K :=
  let saved := forLoop p.nC (fun i lm => Function.update lm i (lagrangian_multipliers_ i))
    p.lagrangian_multipliers
  { p with lagrangian_multipliers := saved }

/-- `DynamicGamePlanner::compute_lagrangian_multipliers`. On numbers `std::max(l, 0.0)` is the
maximum; for a NaN `l` it returns `l`, see `compute_lagrangian_multipliers_nan`. -/
def compute_lagrangian_multipliers (p : Planner K)
    (lagrangian_multipliers_ constraints_ : Nat → K) : Nat → K :=
  forLoop p.nC (fun i lm =>
    let l := p.lagrangian_multipliers i + p.rho * constraints_ i
    Function.update lm i (max l 0)) lagrangian_multipliers_

/-- `DynamicGamePlanner::compute_cost_vehicle_i`. -/
def compute_cost_vehicle_i (cfg : Config K) (X_ : Nat → K) (i : Nat) : K :=
  let final_lagrangian := X_ (cfg.nx * i + nX * cfg.N + l)
  (1 / 2) * final_lagrangian * cfg.qf * final_lagrangian

/-- `DynamicGamePlanner::compute_lagrangian_vehicle_i`. -/
def compute_lagrangian_vehicle_i (p : Planner K) (cost_i : K) (constraints_i : Nat → K)
    (i : Nat) : K :=
  forLoop p.nC_i (fun k lagrangian_i =>
    let constraints := max 0 (constraints_i k)
    lagrangian_i + ((1 / 2) * p.rho * constraints * constraints
      + p.lagrangian_multipliers (i * p.nC_i + k) * constraints_i k)) cost_i

/-- Pass `i` of the loop of `compute_lagrangian`; the loop state is the buffer `lagrangian`
and the local buffer `constraints_i`. -/
def compute_lagrangian_pass (cfg : Config K) (p : Planner K) (X_ U_ : Nat → K) (i : Nat)
    (st : (Nat → K) × (Nat → K)) : (Nat → K) × (Nat → K) :=
  let cost_i := compute_cost_vehicle_i cfg X_ i
  let constraints_i := compute_constraints_vehicle_i cfg p st.2 X_ U_ i
  let lagrangian_i := compute_lagrangian_vehicle_i p cost_i constraints_i i
  (Function.update st.1 i lagrangian_i, constraints_i)

/-- `DynamicGamePlanner::compute_lagrangian`. -/
def compute_lagrangian (cfg : Config K) (p : Planner K) (lagrangian X_ U_ : Nat → K) :
    Nat → K :=
  (forLoop p.M (compute_lagrangian_pass cfg p X_ U_) (lagrangian, uninit)).1

/-! ## Gradient -/

/-- The counted loop `for (int i = start; i < end; i++) body`. -/
def forRange {σ : Type} (start stop : Nat) (body : Nat → σ → σ) (st : σ) : σ :=
  forLoop (stop - start) (fun k => body (start + k)) st

/-- The buffers a gradient worker keeps between the passes of its loop, and the stores it has
made into the shared gradient. -/
structure WorkerState (K : Type) where
  dU : Nat → K
  dX : Nat → K
  constraints_i : Nat → K
  stores : List (Nat × K)

/-- Pass `i` of the loop of the worker `computeGradient`; `lagrangian` is the baseline. -/
def computeGradient_pass (cfg : Config K) (p : Planner K) (U_ lagrangian : Nat → K) (i : Nat)
    (w : WorkerState K) : WorkerState K :=
  let index := i / cfg.nu
  let dU1 := Function.update w.dU i (U_ i + cfg.eps)
  let dX1 := integrate cfg p w.dX dU1
  let constraints_i := compute_constraints_vehicle_i cfg p w.constraints_i dX1 dU1 index
  let cost_i := compute_cost_vehicle_i cfg dX1 index
  let lagrangian_i := compute_lagrangian_vehicle_i p cost_i constraints_i index
  { dU := Function.update dU1 i (U_ i)
    dX := dX1
    constraints_i := constraints_i
    stores := w.stores ++ [(i, (lagrangian_i - lagrangian index) / cfg.eps)] }

/-- The worker `computeGradient(start, end)` of `compute_gradient`: the stores it makes into
`gradient`, in order. -/
def computeGradient (cfg : Config K) (p : Planner K) (U_ : Nat → K) (start stop : Nat) :
    List (Nat × K) :=
  let dU := forLoop p.nU_ (fun i b => Function.update b i (U_ i)) uninit
  let X_ := integrate cfg p uninit U_
  let lagrangian := compute_lagrangian cfg p uninit X_ U_
  (forRange start stop (computeGradient_pass cfg p U_ lagrangian)
    { dU := dU, dX := uninit, constraints_i := uninit, stores := [] }).stores

/-- The stores of all workers of `compute_gradient`, worker `0` first. Worker `i` gets the
range from `i * work_per_thread` to `start_index + work_per_thread`, the last worker to
`nU_`. -/
def gradient_stores (cfg : Config K) (p : Planner K) (U_ : Nat → K) : List (Nat × K) :=
  let num_threads := cfg.num_threads
  let work_per_thread := p.nU_ / num_threads
  forLoop num_threads (fun i ws =>
    let start_index := i * work_per_thread
    let end_index := if i = num_threads - 1 then p.nU_ else start_index + work_per_thread
    ws ++ computeGradient cfg p U_ start_index end_index) []

/-- `DynamicGamePlanner::compute_gradient`; the workers only store into `gradient`, their
stores are applied worker by worker. -/
def compute_gradient (cfg : Config K) (p : Planner K) (gradient U_ : Nat → K) : Nat → K :=
  store_all gradient (gradient_stores cfg p U_)

/-- `DynamicGamePlanner::gradient_norm` (the squared norm). -/
def gradient_norm (p : Planner K) (gradient : Nat → K) : K :=
  forLoop p.nG (fun j norm => norm + gradient j * gradient j) 0

/-! ## Trust-region subproblem and SR1 update -/

/-- The `(0,0)` entry of `a.transpose() * b` for two columns of `n` rows. -/
def dot (n : Nat) (a b : Nat → K) : K :=
  ∑ i ∈ Finset.range n, a i * b i

/-- The product `H * a` of an `n × n` matrix and a column. -/
def mulVec (n : Nat) (H : Nat → Nat → K) (a : Nat → K) : Nat → K :=
  fun i => ∑ j ∈ Finset.range n, H i j * a j

/-- The product `a.transpose() * H` of a row and an `n × n` matrix. -/
def vecMul (n : Nat) (a : Nat → K) (H : Nat → Nat → K) : Nat → K :=
  fun j => ∑ i ∈ Finset.range n, a i * H i j

/-- `DynamicGamePlanner::quadratic_problem_solver`: returns the step `s_`; the matrices have
`nu` rows. For a zero gradient the source divides `0` by `normG = 0`, which gives NaN for
doubles, while the division of the field gives `0`: the embedding follows the source for a
gradient with a nonzero entry. -/
def quadratic_problem_solver (cfg : Config K) (G_ : Nat → K) (H_ : Nat → Nat → K)
    (Delta : K) : Nat → K :=
  let GTHG := dot cfg.nu (vecMul cfg.nu G_ H_) G_
  let normG := cfg.sqrt (dot cfg.nu G_ G_)
  let ps : Nat → K := fun i => -Delta * (G_ i / normG)
  let tau :=
    if GTHG ≤ 0 then 1
    else
      let tau_c := (normG * normG * normG) / (Delta * GTHG)
      min tau_c 1
  fun i => tau * ps i

/-- `DynamicGamePlanner::hessian_SR1_update`: returns the new `H_`. -/
def hessian_SR1_update (cfg : Config K) (H_ : Nat → Nat → K) (s_ y_ : Nat → K) (r_ : K) :
    Nat → Nat → K :=
  let w : Nat → K := fun i => y_ i - mulVec cfg.nu H_ s_ i
  if |dot cfg.nu s_ w| > r_ * dot cfg.nu s_ s_ * dot cfg.nu w w then
    fun i j => H_ i j + (w i * w j) / dot cfg.nu w s_
  else H_

/-! ## Post-processing -/

/-- Pass `j` of the inner loop of `correctionU` for agent `i`. For `N = 0` the source reads at
`j - 1 = -1`, before the slice of the agent; the embedding follows the source for
`N ≥ 1`. The buffer holds numbers of the field; for a NaN steering entry both tests of the
source are false, see `correctionU_step_nan`. -/
def correctionU_step (cfg : Config K) (i j : Nat) (U_ : Nat → K) : Nat → K :=
  let U1 :=
    if j = cfg.N then
      let Ua := Function.update U_ (nU * (cfg.N + 1) * i + nU * j + d)
        (U_ (nU * (cfg.N + 1) * i + nU * (j - 1) + d))
      Function.update Ua (nU * (cfg.N + 1) * i + nU * j + F)
        (Ua (nU * (cfg.N + 1) * i + nU * (j - 1) + F))
    else U_
  let U2 :=
    if U1 (nU * (cfg.N + 1) * i + nU * j + d) > cfg.d_up then
      Function.update U1 (nU * (cfg.N + 1) * i + nU * j + d) cfg.d_up
    else U1
  if U2 (nU * (cfg.N + 1) * i + nU * j + d) < cfg.d_low then
    Function.update U2 (nU * (cfg.N + 1) * i + nU * j + d) cfg.d_low
  else U2

/-- `DynamicGamePlanner::correctionU`. -/
def correctionU (cfg : Config K) (p : Planner K) (U_ : Nat → K) : Nat → K :=
  forLoop p.M (fun i U => forLoop (cfg.N + 1) (correctionU_step cfg i) U) U_

/-- The loop state of the inner loop of `set_prediction`. -/
structure PredictionState (K : Type) where
  trajectory : List (TrajectoryPoint K)
  control : List (Input K)
  time : K

/-- Pass `j` of the inner loop of `set_prediction` for agent `i`. -/
def set_prediction_step (cfg : Config K) (X_ U_ : Nat → K) (i j : Nat)
    (st : PredictionState K) : PredictionState K :=
  let input_a := (-1 / cfg.tau) * X_ (cfg.nx * i + nX * j + v)
    + cfg.k * U_ (cfg.nu * i + nU * j + F)
  let input_delta := U_ (cfg.nu * i + nU * j + d)
  let point_v := X_ (cfg.nx * i + nX * j + v)
  let point : TrajectoryPoint K :=
    { x := X_ (cfg.nx * i + nX * j + x)
      y := X_ (cfg.nx * i + nX * j + y)
      psi := X_ (cfg.nx * i + nX * j + psi)
      v := point_v
      omega := point_v * cfg.tan input_delta * cfg.cos (cfg.cg_ratio * input_delta)
        / cfg.length
      beta := (1 / 2) * input_delta
      t_start := st.time
      t_end := st.time + cfg.dt }
  let input : Input K := { a := input_a, delta := input_delta }
  { trajectory := st.trajectory ++ [point]
    control := st.control ++ [input]
    time := st.time + cfg.dt }

/-- Pass `i` of the outer loop of `set_prediction`. -/
def set_prediction_agent (cfg : Config K) (X_ U_ : Nat → K) (i : Nat)
    (traffic_ : List (TrafficParticipant K)) : List (TrafficParticipant K) :=
  let st := forLoop (cfg.N + 1) (set_prediction_step cfg X_ U_ i)
    { trajectory := [], control := [], time := 0 }
  traffic_.set i { traffic_.getD i default with
    predicted_trajectory := st.trajectory, predicted_control := st.control }

/-- `DynamicGamePlanner::set_prediction`. -/
def set_prediction (cfg : Config K) (p : Planner K) (X_ U_ : Nat → K) :
    List (TrafficParticipant K) :=
  forLoop p.M (set_prediction_agent cfg X_ U_) p.traffic

/-! ## Trust-region solver -/

/-- The local variables of `trust_region_solver` that live across the iteration loop, together
with the planner (whose members `lagrangian_multipliers` and `rho` the loop assigns). -/
structure SolverState (K : Type) where
  planner : Planner K
  convergence : Bool
  iter : Nat
  gradient : Nat → K
  dU : Nat → K
  dU_ : Nat → K
  dX : Nat → K
  dX_ : Nat → K
  d_gradient : Nat → K
  d_lagrangian : Nat → K
  lagrangian : Nat → K
  constraints : Nat → K
  lagrangian_multipliers : Nat → K
  actual_reduction : Nat → K
  predicted_reduction : Nat → K
  delta : Nat → K
  H_ : Nat → Nat → Nat → K
  g_ : Nat → Nat → K
  s_ : Nat → Nat → K
  y_ : Nat → Nat → K

/-- The constant `iter_lim` of `trust_region_solver`. -/
def iter_lim : Nat := 20

/-- The constant `eta` of `trust_region_solver`. -/
def eta : K := 1 / 10000

/-- The constant `r_` of `trust_region_solver`. -/
def r_ : K := 1 / 100000000

/-- The value `threshold_gradient_norm` of `trust_region_solver`. -/
def threshold_gradient_norm (p : Planner K) : K := (p.M : K) * (1 / 100)

/-- The identity matrix. -/
def identity : Nat → Nat → K := fun i j => if i = j then 1 else 0

/-- The initialisation of `trust_region_solver`, up to the first convergence test: the state
with which the iteration loop is entered. -/
def solver_init (cfg : Config K) (p : Planner K) (U_ : Nat → K) : SolverState K :=
  let dX := integrate cfg p uninit U_
  let dUs := forLoop p.nU_ (fun i b =>
    (Function.update b.1 i (U_ i), Function.update b.2 i (U_ i)))
    ((uninit : Nat → K), (uninit : Nat → K))
  let dX_ := forLoop p.nX_ (fun i b => Function.update b i (dX i)) uninit
  let dH := forLoop p.M (fun i b =>
    (Function.update b.1 i 1, Function.update b.2 i identity))
    ((uninit : Nat → K), (fun _ _ => uninit : Nat → Nat → Nat → K))
  let gradient := compute_gradient cfg p uninit dUs.2
  { planner := p
    convergence := if gradient_norm p gradient < threshold_gradient_norm p then true else false
    iter := 1
    gradient := gradient
    dU := dUs.1
    dU_ := dUs.2
    dX := dX
    dX_ := dX_
    d_gradient := uninit
    d_lagrangian := uninit
    lagrangian := uninit
    constraints := uninit
    lagrangian_multipliers := uninit
    actual_reduction := uninit
    predicted_reduction := uninit
    delta := dH.1
    H_ := dH.2
    g_ := fun _ => uninit
    s_ := fun _ => uninit
    y_ := fun _ => uninit }

/-- Pass `i` of the first agent loop of an iteration: packs the gradient of agent `i`, solves
the subproblem and stores the tentative controls. -/
def propose_step (cfg : Config K) (i : Nat) (st : SolverState K) : SolverState K :=
  let g_i := forLoop (cfg.N + 1) (fun j g =>
    let g1 := Function.update g (j * nU + d) (st.gradient (cfg.nu * i + j * nU + d))
    Function.update g1 (j * nU + F) (st.gradient (cfg.nu * i + j * nU + F))) (st.g_ i)
  let s_i := quadratic_problem_solver cfg g_i (st.H_ i) (st.delta i)
  let dU := forLoop (cfg.N + 1) (fun j b =>
    let b1 := Function.update b (cfg.nu * i + j * nU + d)
      (st.dU_ (cfg.nu * i + j * nU + d) + s_i (j * nU + d))
    Function.update b1 (cfg.nu * i + j * nU + F)
      (st.dU_ (cfg.nu * i + j * nU + F) + s_i (j * nU + F))) st.dU
  { st with g_ := Function.update st.g_ i g_i, s_ := Function.update st.s_ i s_i, dU := dU }

/-- Pass `i` of the second agent loop of an iteration: acceptance test, radius update, SR1
update and commit of the controls of agent `i`. -/
def accept_step (cfg : Config K) (i : Nat) (st : SolverState K) : SolverState K :=
  let actual_reduction_i := st.lagrangian i - st.d_lagrangian i
  let predicted_reduction_i :=
    -(dot cfg.nu (st.g_ i) (st.s_ i)
      + dot cfg.nu (vecMul cfg.nu (fun a => (1 / 2) * st.s_ i a) (st.H_ i)) (st.s_ i))
  let dU1 :=
    if actual_reduction_i / predicted_reduction_i < eta then
      forLoop (cfg.N + 1) (fun j b =>
        let b1 := Function.update b (cfg.nu * i + j * nU + d)
          (st.dU_ (cfg.nu * i + j * nU + d))
        Function.update b1 (cfg.nu * i + j * nU + F) (st.dU_ (cfg.nu * i + j * nU + F)))
        st.dU
    else st.dU
  let delta1 :=
    if actual_reduction_i / predicted_reduction_i > 3 / 4 then
      if cfg.sqrt (dot cfg.nu (st.s_ i) (st.s_ i)) > (4 / 5) * st.delta i then
        Function.update st.delta i (2 * st.delta i)
      else st.delta
    else st.delta
  let delta2 :=
    if actual_reduction_i / predicted_reduction_i < 1 / 10 then
      Function.update delta1 i ((1 / 2) * delta1 i)
    else delta1
  let y_i := forLoop (cfg.N + 1) (fun j b =>
    let b1 := Function.update b (j * nU + d)
      (st.d_gradient (cfg.nu * i + j * nU + d) - st.gradient (cfg.nu * i + j * nU + d))
    Function.update b1 (j * nU + F)
      (st.d_gradient (cfg.nu * i + j * nU + F) - st.gradient (cfg.nu * i + j * nU + F)))
    (st.y_ i)
  let H_i := hessian_SR1_update cfg (st.H_ i) (st.s_ i) y_i r_
  let dU_1 := forLoop (cfg.N + 1) (fun j b =>
    let b1 := Function.update b (cfg.nu * i + j * nU + d) (dU1 (cfg.nu * i + j * nU + d))
    Function.update b1 (cfg.nu * i + j * nU + F) (dU1 (cfg.nu * i + j * nU + F))) st.dU_
  { st with
    actual_reduction := Function.update st.actual_reduction i actual_reduction_i
    predicted_reduction := Function.update st.predicted_reduction i predicted_reduction_i
    dU := dU1
    delta := delta2
    y_ := Function.update st.y_ i y_i
    H_ := Function.update st.H_ i H_i
    dU_ := dU_1 }

/-- The part of an iteration before the multiplier update: gradient and Lagrangian at the
current controls, the tentative step, gradient and Lagrangian there, acceptance, and the
convergence test on the gradient computed at the start of the iteration. -/
def commit_phase (cfg : Config K) (st : SolverState K) : SolverState K :=
  let p := st.planner
  let dX_1 := integrate cfg p st.dX_ st.dU_
  let gradient := compute_gradient cfg p st.gradient st.dU_
  let lagrangian := compute_lagrangian cfg p st.lagrangian dX_1 st.dU_
  let st1 := forLoop p.M (propose_step cfg)
    { st with dX_ := dX_1, gradient := gradient, lagrangian := lagrangian }
  let dX1 := integrate cfg p st1.dX st1.dU
  let d_gradient := compute_gradient cfg p st1.d_gradient st1.dU
  let d_lagrangian := compute_lagrangian cfg p st1.d_lagrangian dX1 st1.dU
  let st2 := forLoop p.M (accept_step cfg)
    { st1 with dX := dX1, d_gradient := d_gradient, d_lagrangian := d_lagrangian }
  if gradient_norm p st2.gradient < threshold_gradient_norm p then
    { st2 with convergence := true }
  else st2

/-- The end of an iteration: re-integration with the committed controls, constraints,
multiplier update, penalty growth, `iter++`. -/
def multiplier_phase (cfg : Config K) (st : SolverState K) : SolverState K :=
  let p := st.planner
  let dX_1 := integrate cfg p st.dX_ st.dU_
  let constraints := compute_constraints cfg p st.constraints dX_1 st.dU_
  let lagrangian_multipliers :=
    compute_lagrangian_multipliers p st.lagrangian_multipliers constraints
  let p1 := save_lagrangian_multipliers p lagrangian_multipliers
  let p2 := increasing_schedule cfg p1
  { st with
    planner := p2
    dX_ := dX_1
    constraints := constraints
    lagrangian_multipliers := lagrangian_multipliers
    iter := st.iter + 1 }

/-- The body of the iteration loop of `trust_region_solver`. -/
def outer_iteration (cfg : Config K) (st : SolverState K) : SolverState K :=
  multiplier_phase cfg (commit_phase cfg st)

/-- The loop `while (convergence == false && iter < iter_lim)`, with a bound on the number of
passes. -/
def solver_loop (cfg : Config K) : Nat → SolverState K → SolverState K
  | 0, st => st
  | fuel + 1, st =>
    if st.convergence = false ∧ st.iter < iter_lim then
      solver_loop cfg fuel (outer_iteration cfg st)
    else st

/-- The state of `trust_region_solver` when its loop is left; `iter_lim` passes are enough,
the counter starts at `1`. -/
def solver_exit (cfg : Config K) (p : Planner K) (U_ : Nat → K) : SolverState K :=
  solver_loop cfg iter_lim (solver_init cfg p U_)

/-- `DynamicGamePlanner::trust_region_solver`: returns the planner and the buffer `U_`. -/
def trust_region_solver (cfg : Config K) (p : Planner K) (U_ : Nat → K) :
    Planner K × (Nat → K) :=
  let st := solver_exit cfg p U_
  let dU_ := correctionU cfg st.planner st.dU_
  (st.planner, forLoop st.planner.nU_ (fun k b => Function.update b k (dU_ k)) U_)

/-! ## `run` -/

/-- The state with which a call `run(traffic_state)` enters the iteration loop of
`trust_region_solver`. -/
def run_loop_entry (cfg : Config K) (p : Planner K)
    (traffic_state : List (TrafficParticipant K)) : SolverState K :=
  let p1 := setup cfg { p with traffic := traffic_state }
  let XU := initial_guess cfg p1 uninit uninit
  solver_init cfg p1 XU.2

/-- `DynamicGamePlanner::run`; the diagnostic output is left out. -/
def run (cfg : Config K) (p : Planner K) (traffic_state : List (TrafficParticipant K)) :
    Planner K :=
  let p1 := setup cfg { p with traffic := traffic_state }
  let XU := initial_guess cfg p1 uninit uninit
  let pU := trust_region_solver cfg p1 XU.2
  let X := integrate cfg pU.1 XU.1 pU.2
  let _constraints := compute_constraints cfg pU.1 uninit X pU.2
  { pU.1 with traffic := set_prediction cfg pU.1 X pU.2 }

/-! ## Auxiliary definitions for the statements -/

/-- The running state `s_t0` of agent `i` in `integrate` after `n` passes of the inner loop
(`n = 0`: the measured pose). -/
def agent_state (cfg : Config K) (tr : TrafficParticipant K) (U_ : Nat → K) (i n : Nat) :
    Nat → K :=
  (forLoop n (integrate_step cfg tr U_ i) (uninit, initial_state tr)).2

/-- The two tests of `correctionU` on one steering entry, in the order of the source. -/
def clamp_steering (cfg : Config K) (u : K) : K :=
  let u1 := if u > cfg.d_up then cfg.d_up else u
  if u1 < cfg.d_low then cfg.d_low else u1

/-- The copy `U_[N] = U_[N-1]` that `correctionU` makes in its pass `j = N`. -/
def copy_last (cfg : Config K) (i j : Nat) (U_ : Nat → K) : Nat → K :=
  if j = cfg.N then
    let Ua := Function.update U_ (nU * (cfg.N + 1) * i + nU * j + d)
      (U_ (nU * (cfg.N + 1) * i + nU * (j - 1) + d))
    Function.update Ua (nU * (cfg.N + 1) * i + nU * j + F)
      (Ua (nU * (cfg.N + 1) * i + nU * (j - 1) + F))
  else U_

/-- The content of index `a` after the inner loop of `correctionU` has run for agent `i` on the
buffer `U0` (for `N ≥ 1`): clamped steering at the steps before `N`, the entries of step
`N - 1` at step `N`, everything else as in `U0`. -/
def corrected_entry (cfg : Config K) (i : Nat) (U0 : Nat → K) (a : Nat) : K :=
  if nU * (cfg.N + 1) * i ≤ a ∧ a < nU * (cfg.N + 1) * i + nU * cfg.N then
    if (a - nU * (cfg.N + 1) * i) % nU = d then clamp_steering cfg (U0 a) else U0 a
  else if a = nU * (cfg.N + 1) * i + nU * cfg.N + d then
    clamp_steering cfg (clamp_steering cfg (U0 (nU * (cfg.N + 1) * i + nU * (cfg.N - 1) + d)))
  else if a = nU * (cfg.N + 1) * i + nU * cfg.N + F then
    U0 (nU * (cfg.N + 1) * i + nU * (cfg.N - 1) + F)
  else U0 a

/-- The trajectory sample that pass `j` of `set_prediction` appends for agent `i`, with the
time `j * dt` written out. -/
def predicted_point (cfg : Config K) (X_ U_ : Nat → K) (i j : Nat) : TrajectoryPoint K :=
  { x := X_ (cfg.nx * i + nX * j + x)
    y := X_ (cfg.nx * i + nX * j + y)
    psi := X_ (cfg.nx * i + nX * j + psi)
    v := X_ (cfg.nx * i + nX * j + v)
    omega := X_ (cfg.nx * i + nX * j + v) * cfg.tan (U_ (cfg.nu * i + nU * j + d))
      * cfg.cos (cfg.cg_ratio * U_ (cfg.nu * i + nU * j + d)) / cfg.length
    beta := (1 / 2) * U_ (cfg.nu * i + nU * j + d)
    t_start := (j : K) * cfg.dt
    t_end := (j : K) * cfg.dt + cfg.dt }

/-- The control sample that pass `j` of `set_prediction` appends for agent `i`. -/
def predicted_input (cfg : Config K) (X_ U_ : Nat → K) (i j : Nat) : Input K :=
  { a := (-1 / cfg.tau) * X_ (cfg.nx * i + nX * j + v) + cfg.k * U_ (cfg.nu * i + nU * j + F)
    delta := U_ (cfg.nu * i + nU * j + d) }

/-- The value `d_full² - d_long²` of a lane at parameter `s_` for the position `(x_, y_)`. -/
def lane_lateral2 (cfg : Config K) (lane : Lane K) (s_ x_ y_ : K) : K :=
  ((x_ - lane.spline_x s_) * (x_ - lane.spline_x s_)
      + (y_ - lane.spline_y s_) * (y_ - lane.spline_y s_))
    - ((x_ - lane.spline_x s_) * cfg.cos (lane.compute_heading s_)
        + (y_ - lane.spline_y s_) * cfg.sin (lane.compute_heading s_))
      * ((x_ - lane.spline_x s_) * cfg.cos (lane.compute_heading s_)
        + (y_ - lane.spline_y s_) * cfg.sin (lane.compute_heading s_))

/-- In the words of the spec: the values `d_full² - d_long²` of the lanes available to an
agent at parameter `s_`. The centre lane is available when `s_ < s_max`, a side lane when it
is present, `s_max > 10` and `s_ < s_max`. -/
def available_lane_values (cfg : Config K) (tr : TrafficParticipant K) (s_ x_ y_ : K) :
    List K :=
  (if s_ < tr.centerlane.s_max then [lane_lateral2 cfg tr.centerlane s_ x_ y_] else [])
  ++ (if tr.leftlane.present = true ∧ tr.leftlane.s_max > 10 ∧ s_ < tr.leftlane.s_max then
        [lane_lateral2 cfg tr.leftlane s_ x_ y_] else [])
  ++ (if tr.rightlane.present = true ∧ tr.rightlane.s_max > 10 ∧ s_ < tr.rightlane.s_max then
        [lane_lateral2 cfg tr.rightlane s_ x_ y_] else [])

/-! ## Example data -/

/-- A configuration with horizon `N = 1`, used for the concrete instances. -/
def sampleConfig (cos sin tan sqrt : K → K) : Config K :=
  { N := 1, nx := 12, nu := 4, dt := 1, tau := 2, k := 1, cg_ratio := 1 / 2, length := 5
    weight_target_speed := 10, weight_center_lane := 1, weight_heading := 1
    weight_input := 0, qf := 1
    d_low := -7 / 10, d_up := 7 / 10, F_low := -1, F_up := 1
    r_safe := 3, r_lane := 3, eps := 1 / 1000000, gamma := 13 / 10, rho_0 := 1 / 1000
    num_threads := 1, cos := cos, sin := sin, tan := tan, sqrt := sqrt }

/-- A straight lane along the `x` axis, of length `100`. -/
def straightLane : Lane K :=
  { spline_x := fun s_ => s_, spline_y := fun _ => 0, compute_heading := fun _ => 0
    s_max := 100, present := true }

/-- A side lane that is not there. -/
def absentLane : Lane K :=
  { spline_x := fun _ => 0, spline_y := fun _ => 0, compute_heading := fun _ => 0
    s_max := 0, present := false }

/-- An agent at `(x0, y0)` with speed `v0`, heading along the `x` axis, on the straight lane
without side lanes, with target speed `0`. -/
def sampleAgent (x0 y0 v0 : K) : TrafficParticipant K :=
  { x := x0, y := y0, v := v0, psi := 0, v_target := 0
    centerlane := straightLane, leftlane := absentLane, rightlane := absentLane
    predicted_trajectory := [], predicted_control := [] }

/-- The planner after `setup` for the traffic `ts`, from a newly constructed planner. -/
def samplePlanner (cfg : Config K) (ts : List (TrafficParticipant K)) : Planner K :=
  setup cfg { Planner.fresh cfg with traffic := ts }

/-- In the words of the spec (sections 4.1 and 4.2): component `c` of the state after one
forward Euler step of the dynamics from `state`. -/
def reference_euler_step (cfg : Config K) (tr : TrafficParticipant K) (j : Nat)
    (state : Nat → K) (u_d u_F : K) (c : Nat) : K :=
  let x_ref := tr.centerlane.spline_x (state s)
  let y_ref := tr.centerlane.spline_y (state s)
  let psi_ref := tr.centerlane.compute_heading (state s)
  let v_ref := tr.v + (j : K) * (tr.v_target - tr.v) / (cfg.N : K)
  if c = x then state x + cfg.dt * (state v * cfg.cos (state psi + cfg.cg_ratio * u_d))
  else if c = y then state y + cfg.dt * (state v * cfg.sin (state psi + cfg.cg_ratio * u_d))
  else if c = v then max 0 (state v + cfg.dt * (-(state v) / cfg.tau + cfg.k * u_F))
  else if c = psi then
    state psi + cfg.dt * (state v * cfg.tan u_d * cfg.cos (cfg.cg_ratio * u_d) / cfg.length)
  else if c = s then state s + cfg.dt * state v
  else
    state l + cfg.dt * (cfg.weight_target_speed * (state v - v_ref) ^ 2
      + cfg.weight_center_lane * ((x_ref - state x) ^ 2 + (y_ref - state y) ^ 2)
      + cfg.weight_heading * ((cfg.cos psi_ref - cfg.cos (state psi)) ^ 2
          + (cfg.sin psi_ref - cfg.sin (state psi)) ^ 2)
      + cfg.weight_input * u_F ^ 2)

/-- In the words of the spec: the measured pose of an agent with `s = l = 0`. -/
def measured_pose (tr : TrafficParticipant K) (c : Nat) : K :=
  if c = x then tr.x else if c = y then tr.y else if c = v then tr.v
  else if c = psi then tr.psi else 0

/-- In the words of the spec: the quadratic model `m(p) = gᵀp + ½ pᵀHp` of the subproblem. -/
def quadratic_model (n : Nat) (g : Nat → K) (H : Nat → Nat → K) (p : Nat → K) : K :=
  dot n g p + (1 / 2) * dot n (vecMul n p H) p

/-- In the words of the spec: the SR1 update of `H` with the skipping rule
`|sᵀω| > r * ‖s‖ * ‖ω‖` on the Euclidean norms, `ω = y - H s`. -/
def reference_SR1_update (cfg : Config K) (H_ : Nat → Nat → K) (s_ y_ : Nat → K) (r_ : K) :
    Nat → Nat → K :=
  let w : Nat → K := fun i => y_ i - mulVec cfg.nu H_ s_ i
  if |dot cfg.nu s_ w| > r_ * cfg.sqrt (dot cfg.nu s_ s_) * cfg.sqrt (dot cfg.nu w w) then
    fun i j => H_ i j + (w i * w j) / dot cfg.nu w s_
  else H_

/-- The augmented Lagrangian of agent `i` at the joint control vector `V`: the trajectory is
integrated from `V` into a new buffer, then cost, constraints and Lagrangian of agent `i` are
evaluated on it. -/
def lagrangian_of (cfg : Config K) (p : Planner K) (V : Nat → K) (i : Nat) : K :=
  compute_lagrangian_vehicle_i p (compute_cost_vehicle_i cfg (integrate cfg p uninit V) i)
    (compute_constraints_vehicle_i cfg p uninit (integrate cfg p uninit V) V i) i

/-- The value `work_per_thread` of `compute_gradient` for the length `n` and `T` workers. -/
def work_per_thread (n T : Nat) : Nat := n / T

/-- The value `start_index` of worker `t`. -/
def start_index (n T t : Nat) : Nat := t * work_per_thread n T

/-- The value `end_index` of worker `t`. -/
def end_index (n T t : Nat) : Nat :=
  if t = T - 1 then n else start_index n T t + work_per_thread n T

/-- The forward difference that a gradient worker stores at index `a`. -/
def forward_difference (cfg : Config K) (p : Planner K) (U_ : Nat → K) (a : Nat) : K :=
  (lagrangian_of cfg p (Function.update U_ a (U_ a + cfg.eps)) (a / cfg.nu)
    - lagrangian_of cfg p U_ (a / cfg.nu)) / cfg.eps

/-- The state of an iteration of `trust_region_solver` when its acceptance loop is entered:
gradient and Lagrangian at the current controls, the steps of all agents and the tentative
controls `dU`, gradient and Lagrangian there. -/
def tentative_state (cfg : Config K) (st : SolverState K) : SolverState K :=
  let p := st.planner
  let dX_1 := integrate cfg p st.dX_ st.dU_
  let gradient := compute_gradient cfg p st.gradient st.dU_
  let lagrangian := compute_lagrangian cfg p st.lagrangian dX_1 st.dU_
  let st1 := forLoop p.M (propose_step cfg)
    { st with dX_ := dX_1, gradient := gradient, lagrangian := lagrangian }
  let dX1 := integrate cfg p st1.dX st1.dU
  let d_gradient := compute_gradient cfg p st1.d_gradient st1.dU
  let d_lagrangian := compute_lagrangian cfg p st1.d_lagrangian dX1 st1.dU
  { st1 with dX := dX1, d_gradient := d_gradient, d_lagrangian := d_lagrangian }

/-- The quotient `actual_reduction[i] / predicted_reduction[i]` that the tests of the
acceptance loop read, from the state `ts` in which pass `i` starts. -/
def step_ratio (cfg : Config K) (ts : SolverState K) (i : Nat) : K :=
  (ts.lagrangian i - ts.d_lagrangian i)
    / -(dot cfg.nu (ts.g_ i) (ts.s_ i)
        + dot cfg.nu (vecMul cfg.nu (fun a => (1 / 2) * ts.s_ i a) (ts.H_ i)) (ts.s_ i))

/-- The packing loop of the agent loops of `trust_region_solver`: the entries of agent `i` in
`src` are stored into the column `col`. -/
def packed_column (cfg : Config K) (src : Nat → K) (col : Nat → K) (i : Nat) : Nat → K :=
  forLoop (cfg.N + 1) (fun j g =>
    let g1 := Function.update g (j * nU + d) (src (cfg.nu * i + j * nU + d))
    Function.update g1 (j * nU + F) (src (cfg.nu * i + j * nU + F))) col

/-- The value `predicted_reduction[i]` of the acceptance loop, from the state `ts` in which
pass `i` starts. -/
def predicted_reduction_of (cfg : Config K) (ts : SolverState K) (i : Nat) : K :=
  -(dot cfg.nu (ts.g_ i) (ts.s_ i)
    + dot cfg.nu (vecMul cfg.nu (fun a => (1 / 2) * ts.s_ i a) (ts.H_ i)) (ts.s_ i))

/-- An agent at rest at the origin, heading along the `x` axis, on the straight lane without
side lanes, with target speed `vt`. -/
def restAgent (vt : K) : TrafficParticipant K :=
  { x := 0, y := 0, v := 0, psi := 0, v_target := vt
    centerlane := straightLane, leftlane := absentLane, rightlane := absentLane
    predicted_trajectory := [], predicted_control := [] }

/-- The state in which the second pass of the loop of `trust_region_solver` starts in a call
`run(traffic_state)` whose loop makes a first pass: the state after that pass. -/
def second_pass_entry (cfg : Config K) (p : Planner K)
    (traffic_state : List (TrafficParticipant K)) : SolverState K :=
  outer_iteration cfg (run_loop_entry cfg p traffic_state)

/-! ## Doubles that may be NaN

The buffers of the embedding hold numbers of an ordered field, which has no NaN. The
definitions below follow the same lines of the source for doubles that may be NaN: `none`
stands for NaN, an arithmetic operation with a NaN operand gives NaN, a comparison with a NaN
operand is false. Rounding, overflow and the infinities are not modelled. -/

/-- The comparison `a < b` of two doubles: false when one of them is NaN. -/
def lt_nan (a b : Option K) : Bool :=
  match a, b with
  | some u, some w => decide (u < w)
  | _, _ => false

/-- The sum `a + b` of two doubles: NaN when one of them is NaN. -/
def add_nan (a b : Option K) : Option K :=
  match a, b with
  | some u, some w => some (u + w)
  | _, _ => none

/-- The product `a * b` of two doubles: NaN when one of them is NaN. -/
def mul_nan (a b : Option K) : Option K :=
  match a, b with
  | some u, some w => some (u * w)
  | _, _ => none

/-- `std::max(a, b)`, which is `(a < b) ? b : a`. -/
def max_nan (a b : Option K) : Option K :=
  if lt_nan a b then b else a

/-- The two tests of `correctionU` on one steering entry that may be NaN, in the order of the
source: `if (u > d_up) u = d_up; if (u < d_low) u = d_low;`. -/
def clamp_steering_nan (cfg : Config K) (u : Option K) : Option K :=
  let u1 := if lt_nan (some cfg.d_up) u then some cfg.d_up else u
  if lt_nan u1 (some cfg.d_low) then some cfg.d_low else u1

/-- Pass `j` of the inner loop of `correctionU` for agent `i`, on a buffer whose entries may
be NaN. -/
def correctionU_step_nan (cfg : Config K) (i j : Nat) (U_ : Nat → Option K) :
    Nat → Option K :=
  let U1 :=
    if j = cfg.N then
      let Ua := Function.update U_ (nU * (cfg.N + 1) * i + nU * j + d)
        (U_ (nU * (cfg.N + 1) * i + nU * (j - 1) + d))
      Function.update Ua (nU * (cfg.N + 1) * i + nU * j + F)
        (Ua (nU * (cfg.N + 1) * i + nU * (j - 1) + F))
    else U_
  let U2 :=
    if lt_nan (some cfg.d_up) (U1 (nU * (cfg.N + 1) * i + nU * j + d)) then
      Function.update U1 (nU * (cfg.N + 1) * i + nU * j + d) (some cfg.d_up)
    else U1
  if lt_nan (U2 (nU * (cfg.N + 1) * i + nU * j + d)) (some cfg.d_low) then
    Function.update U2 (nU * (cfg.N + 1) * i + nU * j + d) (some cfg.d_low)
  else U2

/-- `DynamicGamePlanner::correctionU` on a buffer whose entries may be NaN. -/
def correctionU_nan (cfg : Config K) (p : Planner K) (U_ : Nat → Option K) :
    Nat → Option K :=
  forLoop p.M (fun i U => forLoop (cfg.N + 1) (correctionU_step_nan cfg i) U) U_

/-- The speed in one pass of the inner loop of `integrate`, for a speed and a force that may
be NaN: the derivative `(-1/tau) * v + k * F` of `dynamic_step`, the Euler update
`v += dt * dv` and the test `if (v < 0.0) v = 0.0`. -/
def speed_update_nan (cfg : Config K) (v_ F_ : Option K) : Option K :=
  let dv := add_nan (mul_nan (some (-1 / cfg.tau)) v_) (mul_nan (some cfg.k) F_)
  let v1 := add_nan v_ (mul_nan (some cfg.dt) dv)
  if lt_nan v1 (some 0) then some 0 else v1

/-- The speeds that `integrate` stores for one agent, step by step, from the measured speed
`v0` and the forces `F_ 0, F_ 1, ...` of the agent, which may be NaN: entry `j` is the speed
stored at step `j`. -/
def stored_speed_nan (cfg : Config K) (v0 : Option K) (F_ : Nat → Option K) : Nat → Option K
  | 0 => speed_update_nan cfg v0 (F_ 0)
  | j + 1 => speed_update_nan cfg (stored_speed_nan cfg v0 F_ j) (F_ (j + 1))

/-- `DynamicGamePlanner::compute_lagrangian_multipliers` for `nC` constraints, on multipliers,
a penalty and constraints that may be NaN. -/
def compute_lagrangian_multipliers_nan (nC : Nat) (lagrangian_multipliers : Nat → Option K)
    (rho : Option K) (lagrangian_multipliers_ constraints_ : Nat → Option K) :
    Nat → Option K :=
  forLoop nC (fun i lm =>
    let l := add_nan (lagrangian_multipliers i) (mul_nan rho (constraints_ i))
    Function.update lm i (max_nan l (some 0))) lagrangian_multipliers_

/-- The copy `U_[N] = U_[N-1]` that `correctionU` makes in its pass `j = N`, on a buffer whose
entries may be NaN. -/
def copy_last_nan (cfg : Config K) (i j : Nat) (U_ : Nat → Option K) : Nat → Option K :=
  if j = cfg.N then
    let Ua := Function.update U_ (nU * (cfg.N + 1) * i + nU * j + d)
      (U_ (nU * (cfg.N + 1) * i + nU * (j - 1) + d))
    Function.update Ua (nU * (cfg.N + 1) * i + nU * j + F)
      (Ua (nU * (cfg.N + 1) * i + nU * (j - 1) + F))
  else U_

/-- The content of index `a` after the inner loop of `correctionU` has run for agent `i` on the
buffer `U0` whose entries may be NaN (for `N ≥ 1`). -/
def corrected_entry_nan (cfg : Config K) (i : Nat) (U0 : Nat → Option K) (a : Nat) :
    Option K :=
  if nU * (cfg.N + 1) * i ≤ a ∧ a < nU * (cfg.N + 1) * i + nU * cfg.N then
    if (a - nU * (cfg.N + 1) * i) % nU = d then clamp_steering_nan cfg (U0 a) else U0 a
  else if a = nU * (cfg.N + 1) * i + nU * cfg.N + d then
    clamp_steering_nan cfg
      (clamp_steering_nan cfg (U0 (nU * (cfg.N + 1) * i + nU * (cfg.N - 1) + d)))
  else if a = nU * (cfg.N + 1) * i + nU * cfg.N + F then
    U0 (nU * (cfg.N + 1) * i + nU * (cfg.N - 1) + F)
  else U0 a

end Defs

section Loops

variable {K : Type}

/-! ## Loops and buffers -/

@[simp] theorem forLoop_zero {σ : Type} (body : Nat → σ → σ) (st : σ) :
    forLoop 0 body st = st := rfl

theorem forLoop_succ {σ : Type} (n : Nat) (body : Nat → σ → σ) (st : σ) :
    forLoop (n + 1) body st = body n (forLoop n body st) := rfl

/-- Loop invariant rule for a counted loop. -/
theorem forLoop_invariant {σ : Type} (P : Nat → σ → Prop) (n : Nat) (body : Nat → σ → σ)
    (st : σ) (h0 : P 0 st) (hstep : ∀ k t, k < n → P k t → P (k + 1) (body k t)) :
    P n (forLoop n body st) := by
  induction n with
  | zero => exact h0
  | succ m ih =>
    rw [forLoop_succ]
    exact hstep m _ (Nat.lt_succ_self m)
      (ih (fun k t hk hP => hstep k t (Nat.lt_succ_of_lt hk) hP))

/-- A loop that stores `f k` at index `k` in pass `k`. -/
theorem forLoop_update_apply (n : Nat) (f : Nat → K) (a : Nat → K) (j : Nat) :
    forLoop n (fun k b => Function.update b k (f k)) a j = if j < n then f j else a j := by
  induction n with
  | zero => simp
  | succ m ih =>
    rw [forLoop_succ, Function.update_apply, ih]
    by_cases h : j = m
    · subst h; simp
    · simp only [h, if_false]
      by_cases h2 : j < m
      · simp [h2, Nat.lt_succ_of_lt h2]
      · have : ¬ j < m + 1 := by omega
        simp [h2, this]

/-- A loop that appends the stores `f k` of pass `k` collects them pass by pass. -/
theorem forLoop_append {α : Type} (n : Nat) (f : Nat → List α) (ws : List α) :
    forLoop n (fun k acc => acc ++ f k) ws = ws ++ (List.range n).flatMap f := by
  induction n with
  | zero => simp
  | succ m ih =>
    rw [forLoop_succ, ih, List.range_succ, List.flatMap_append]
    simp

/-- A loop that appends one store `f k` in pass `k`. -/
theorem forLoop_append_single {α : Type} (n : Nat) (f : Nat → α) (ws : List α) :
    forLoop n (fun k acc => acc ++ [f k]) ws = ws ++ (List.range n).map f := by
  induction n with
  | zero => simp
  | succ m ih =>
    rw [forLoop_succ, ih, List.range_succ, List.map_append]
    simp

/-- The second buffer of a loop that copies `U_` into two buffers. -/
theorem copy_pair_snd (U_ a1 a2 : Nat → K) (n j : Nat) :
    (forLoop n (fun i (b : (Nat → K) × (Nat → K)) =>
      (Function.update b.1 i (U_ i), Function.update b.2 i (U_ i))) (a1, a2)).2 j
      = if j < n then U_ j else a2 j := by
  induction n with
  | zero => simp
  | succ m ih =>
    rw [forLoop_succ]
    simp only [Function.update_apply, ih]
    by_cases h : j = m
    · subst h; simp
    · simp only [h, if_false]
      by_cases h2 : j < m
      · rw [if_pos h2, if_pos (by omega)]
      · rw [if_neg h2, if_neg (by omega)]

/-- A store list whose indices are pairwise different gives each index its stored value. -/
theorem store_all_mem (ws : List (Nat × K)) (a : Nat → K) (i : Nat) (e : K)
    (hnd : (ws.map Prod.fst).Nodup) (hmem : (i, e) ∈ ws) : store_all a ws i = e := by
  induction ws using List.reverseRecOn with
  | nil => simp at hmem
  | append_singleton ws w ih =>
    unfold store_all at ih ⊢
    rw [List.foldl_append]
    simp only [List.foldl_cons, List.foldl_nil, Function.update_apply]
    rw [List.map_append, List.nodup_append] at hnd
    obtain ⟨hnd1, _, hdisj⟩ := hnd
    rcases List.mem_append.mp hmem with h | h
    · have hne : i ≠ w.1 := by
        intro hiw
        have h1 : i ∈ ws.map Prod.fst := List.mem_map.mpr ⟨(i, e), h, rfl⟩
        have h2 : i ∈ [w].map Prod.fst := by simp [hiw]
        exact hdisj h1 h2
      simp only [hne, if_false]
      exact ih hnd1 h
    · simp only [List.mem_singleton] at h
      subst h
      simp

/-- An index no store names keeps its content. -/
theorem store_all_not_mem (ws : List (Nat × K)) (a : Nat → K) (i : Nat)
    (h : i ∉ ws.map Prod.fst) : store_all a ws i = a i := by
  induction ws using List.reverseRecOn with
  | nil => rfl
  | append_singleton ws w ih =>
    unfold store_all at ih ⊢
    rw [List.foldl_append]
    simp only [List.foldl_cons, List.foldl_nil, Function.update_apply]
    rw [List.map_append, List.mem_append, not_or] at h
    have hne : i ≠ w.1 := by
      intro hiw; apply h.2; simp [hiw]
    simp only [hne, if_false]
    exact ih h.1

end Loops

section Integrate

variable {K : Type} [LinearOrderedField K]

/-! ## `integrate` -/

theorem save_state_apply (X_ : Nat → K) (td : Nat) (s_t0 : Nat → K) (a : Nat) :
    save_state X_ td s_t0 a = if td ≤ a ∧ a < td + nX then s_t0 (a - td) else X_ a := by
  unfold save_state
  simp only [Function.update_apply, x, y, v, psi, s, l, nX]
  split_ifs <;> first | rfl | omega | (congr 1; omega)

theorem integrate_step_snd (cfg : Config K) (tr : TrafficParticipant K) (U_ : Nat → K)
    (i j : Nat) (st : (Nat → K) × (Nat → K)) :
    (integrate_step cfg tr U_ i j st).2
      = euler_update cfg st.2
          (dynamic_step cfg uninit st.2 (reference_state cfg tr j st.2)
            (control_at U_ (nU * (cfg.N + 1) * i + nU * j))) := rfl

theorem integrate_inner_snd (cfg : Config K) (tr : TrafficParticipant K) (U_ : Nat → K)
    (i n : Nat) (X0 : Nat → K) :
    (forLoop n (integrate_step cfg tr U_ i) (X0, initial_state tr)).2
      = agent_state cfg tr U_ i n := by
  unfold agent_state
  induction n with
  | zero => rfl
  | succ m ih =>
    rw [forLoop_succ, forLoop_succ, integrate_step_snd, integrate_step_snd, ih]

theorem agent_state_succ (cfg : Config K) (tr : TrafficParticipant K) (U_ : Nat → K)
    (i n : Nat) :
    agent_state cfg tr U_ i (n + 1)
      = euler_update cfg (agent_state cfg tr U_ i n)
          (dynamic_step cfg uninit (agent_state cfg tr U_ i n)
            (reference_state cfg tr n (agent_state cfg tr U_ i n))
            (control_at U_ (nU * (cfg.N + 1) * i + nU * n))) := by
  rfl

/-- The buffer after `n` passes of the inner loop of `integrate` for agent `i`. -/
theorem integrate_inner_fst (cfg : Config K) (tr : TrafficParticipant K) (U_ : Nat → K)
    (i n : Nat) (X0 : Nat → K) (a : Nat) :
    (forLoop n (integrate_step cfg tr U_ i) (X0, initial_state tr)).1 a
      = if nX * (cfg.N + 1) * i ≤ a ∧ a < nX * (cfg.N + 1) * i + nX * n then
          agent_state cfg tr U_ i ((a - nX * (cfg.N + 1) * i) / nX + 1)
            ((a - nX * (cfg.N + 1) * i) % nX)
        else X0 a := by
  induction n with
  | zero =>
    rw [if_neg (by omega)]
    rfl
  | succ m ih =>
    rw [forLoop_succ]
    have h2 := integrate_inner_snd cfg tr U_ i m X0
    have h3 := integrate_inner_snd cfg tr U_ i (m + 1) X0
    rw [forLoop_succ] at h3
    have h1 : (integrate_step cfg tr U_ i m
        (forLoop m (integrate_step cfg tr U_ i) (X0, initial_state tr))).1
        = save_state (forLoop m (integrate_step cfg tr U_ i) (X0, initial_state tr)).1
            (nX * (cfg.N + 1) * i + nX * m) (agent_state cfg tr U_ i (m + 1)) := by
      rw [← h3]; rfl
    rw [h1, save_state_apply, ih]
    generalize nX * (cfg.N + 1) * i = B
    simp only [nX]
    by_cases hc : B + 6 * m ≤ a ∧ a < B + 6 * m + 6
    · have e1 : (a - B) / 6 = m := by omega
      have e2 : (a - B) % 6 = a - (B + 6 * m) := by omega
      have e3 : B ≤ a ∧ a < B + 6 * (m + 1) := by omega
      rw [if_pos hc, if_pos e3, e1, e2]
    · rw [if_neg hc]
      by_cases hd : B ≤ a ∧ a < B + 6 * m
      · have e3 : B ≤ a ∧ a < B + 6 * (m + 1) := by omega
        rw [if_pos hd, if_pos e3]
      · have e3 : ¬ (B ≤ a ∧ a < B + 6 * (m + 1)) := by omega
        rw [if_neg hd, if_neg e3]

/-- What `integrate` leaves in the buffer: the slice of every agent `i < M` holds the running
states of that agent, step by step; the rest of the buffer is untouched. -/
theorem integrate_loop (cfg : Config K) (p : Planner K) (X_ U_ : Nat → K) (m : Nat) :
    (∀ a, nX * (cfg.N + 1) * m ≤ a → forLoop m (integrate_agent cfg p U_) X_ a = X_ a) ∧
    (∀ i j c, i < m → j ≤ cfg.N → c < nX →
      forLoop m (integrate_agent cfg p U_) X_ (nX * (cfg.N + 1) * i + nX * j + c)
        = agent_state cfg (p.agent i) U_ i (j + 1) c) := by
  induction m with
  | zero => exact ⟨fun a _ => rfl, fun i j c hi => absurd hi (Nat.not_lt_zero i)⟩
  | succ m ih =>
    obtain ⟨ih1, ih2⟩ := ih
    have hB : nX * (cfg.N + 1) * (m + 1) = nX * (cfg.N + 1) * m + nX * (cfg.N + 1) := by ring
    constructor
    · intro a ha
      rw [forLoop_succ]
      unfold integrate_agent
      rw [integrate_inner_fst, if_neg (by omega)]
      exact ih1 a (by omega)
    · intro i j c hi hj hc
      rw [forLoop_succ]
      unfold integrate_agent
      rw [integrate_inner_fst]
      rcases Nat.lt_succ_iff_lt_or_eq.mp hi with him | him
      · have hle : nX * (cfg.N + 1) * (i + 1) ≤ nX * (cfg.N + 1) * m :=
          Nat.mul_le_mul_left _ him
        have hB2 : nX * (cfg.N + 1) * (i + 1) = nX * (cfg.N + 1) * i + nX * (cfg.N + 1) := by
          ring
        have hj2 : nX * j + c < nX * (cfg.N + 1) := by
          have : nX * j + nX ≤ nX * (cfg.N + 1) := by
            rw [← Nat.mul_succ]; exact Nat.mul_le_mul_left _ (Nat.succ_le_succ hj)
          omega
        rw [if_neg (by omega)]
        exact ih2 i j c him hj hc
      · subst him
        have hj2 : nX * j + c < nX * (cfg.N + 1) := by
          have : nX * j + nX ≤ nX * (cfg.N + 1) := by
            rw [← Nat.mul_succ]; exact Nat.mul_le_mul_left _ (Nat.succ_le_succ hj)
          omega
        rw [if_pos (by omega)]
        have e0 : nX * (cfg.N + 1) * i + nX * j + c - nX * (cfg.N + 1) * i = nX * j + c := by
          omega
        rw [e0]
        have e1 : (nX * j + c) / nX = j := by
          simp only [nX] at hc ⊢; omega
        have e2 : (nX * j + c) % nX = c := by
          simp only [nX] at hc ⊢; omega
        rw [e1, e2]

/-- The entry of `X_` for agent `i`, step `j`, component `c` after `integrate`. -/
theorem integrate_apply (cfg : Config K) (p : Planner K) (X_ U_ : Nat → K) (i j c : Nat)
    (hi : i < p.M) (hj : j ≤ cfg.N) (hc : c < nX) :
    integrate cfg p X_ U_ (nX * (cfg.N + 1) * i + nX * j + c)
      = agent_state cfg (p.agent i) U_ i (j + 1) c :=
  (integrate_loop cfg p X_ U_ p.M).2 i j c hi hj hc

/-- After every Euler update the speed is clipped at zero. -/
theorem euler_update_speed (cfg : Config K) (s_t0 ds_t0 : Nat → K) :
    0 ≤ euler_update cfg s_t0 ds_t0 v := by
  unfold euler_update
  split_ifs with h
  · simp
  · exact not_lt.mp h

end Integrate

section Solver

variable {K : Type} [LinearOrderedField K]

/-! ## What an iteration of the solver does to the planner -/

theorem propose_loop_planner (cfg : Config K) (m : Nat) (st : SolverState K) :
    (forLoop m (propose_step cfg) st).planner = st.planner ∧
    (forLoop m (propose_step cfg) st).iter = st.iter := by
  induction m with
  | zero => exact ⟨rfl, rfl⟩
  | succ k ih => rw [forLoop_succ]; exact ih

theorem accept_loop_planner (cfg : Config K) (m : Nat) (st : SolverState K) :
    (forLoop m (accept_step cfg) st).planner = st.planner ∧
    (forLoop m (accept_step cfg) st).iter = st.iter := by
  induction m with
  | zero => exact ⟨rfl, rfl⟩
  | succ k ih => rw [forLoop_succ]; exact ih

/-- The first part of an iteration leaves the members of the planner and the counter as they
are. -/
theorem commit_phase_planner (cfg : Config K) (st : SolverState K) :
    (commit_phase cfg st).planner = st.planner ∧ (commit_phase cfg st).iter = st.iter := by
  unfold commit_phase
  simp only
  split_ifs
  · refine ⟨?_, ?_⟩
    · show (forLoop _ (accept_step cfg) _).planner = _
      rw [(accept_loop_planner cfg _ _).1]
      show (forLoop _ (propose_step cfg) _).planner = _
      rw [(propose_loop_planner cfg _ _).1]
    · show (forLoop _ (accept_step cfg) _).iter = _
      rw [(accept_loop_planner cfg _ _).2]
      show (forLoop _ (propose_step cfg) _).iter = _
      rw [(propose_loop_planner cfg _ _).2]
  · refine ⟨?_, ?_⟩
    · rw [(accept_loop_planner cfg _ _).1]
      show (forLoop _ (propose_step cfg) _).planner = _
      rw [(propose_loop_planner cfg _ _).1]
    · rw [(accept_loop_planner cfg _ _).2]
      show (forLoop _ (propose_step cfg) _).iter = _
      rw [(propose_loop_planner cfg _ _).2]

/-- The penalty after an iteration. -/
theorem outer_iteration_rho (cfg : Config K) (st : SolverState K) :
    (outer_iteration cfg st).planner.rho = cfg.gamma * st.planner.rho := by
  show cfg.gamma * (commit_phase cfg st).planner.rho = _
  rw [(commit_phase_planner cfg st).1]

/-- The counter after an iteration. -/
theorem outer_iteration_iter (cfg : Config K) (st : SolverState K) :
    (outer_iteration cfg st).iter = st.iter + 1 := by
  show (commit_phase cfg st).iter + 1 = _
  rw [(commit_phase_planner cfg st).2]

/-- The sizes and the traffic after an iteration. -/
theorem outer_iteration_sizes (cfg : Config K) (st : SolverState K) :
    (outer_iteration cfg st).planner.M = st.planner.M ∧
    (outer_iteration cfg st).planner.nC = st.planner.nC ∧
    (outer_iteration cfg st).planner.nC_i = st.planner.nC_i ∧
    (outer_iteration cfg st).planner.nU_ = st.planner.nU_ ∧
    (outer_iteration cfg st).planner.traffic = st.planner.traffic := by
  refine ⟨?_, ?_, ?_, ?_, ?_⟩
  · show (commit_phase cfg st).planner.M = _
    rw [(commit_phase_planner cfg st).1]
  · show (commit_phase cfg st).planner.nC = _
    rw [(commit_phase_planner cfg st).1]
  · show (commit_phase cfg st).planner.nC_i = _
    rw [(commit_phase_planner cfg st).1]
  · show (commit_phase cfg st).planner.nU_ = _
    rw [(commit_phase_planner cfg st).1]
  · show (commit_phase cfg st).planner.traffic = _
    rw [(commit_phase_planner cfg st).1]

/-- The committed controls are those the multiplier update sees and the next iteration starts
from. -/
theorem outer_iteration_dU_ (cfg : Config K) (st : SolverState K) :
    (outer_iteration cfg st).dU_ = (commit_phase cfg st).dU_ := rfl

/-- The multipliers after an iteration: entry `k < nC` becomes `max (λ_k + ρ C_k) 0`, with
the penalty of before the iteration and the constraints of the committed controls. -/
theorem outer_iteration_multipliers (cfg : Config K) (st : SolverState K) (k : Nat) :
    (outer_iteration cfg st).planner.lagrangian_multipliers k
      = if k < st.planner.nC then
          max (st.planner.lagrangian_multipliers k + st.planner.rho
            * compute_constraints cfg st.planner (commit_phase cfg st).constraints
                (integrate cfg st.planner (commit_phase cfg st).dX_ (commit_phase cfg st).dU_)
                (commit_phase cfg st).dU_ k) 0
        else st.planner.lagrangian_multipliers k := by
  have hp := (commit_phase_planner cfg st).1
  show forLoop (commit_phase cfg st).planner.nC (fun i lm => Function.update lm i
      (compute_lagrangian_multipliers (commit_phase cfg st).planner
        (commit_phase cfg st).lagrangian_multipliers
        (compute_constraints cfg (commit_phase cfg st).planner (commit_phase cfg st).constraints
          (integrate cfg (commit_phase cfg st).planner (commit_phase cfg st).dX_
            (commit_phase cfg st).dU_) (commit_phase cfg st).dU_) i))
      (commit_phase cfg st).planner.lagrangian_multipliers k = _
  rw [forLoop_update_apply, hp]
  split_ifs with hk
  · unfold compute_lagrangian_multipliers
    rw [forLoop_update_apply, if_pos hk]
  · rfl

end Solver

section SolverLoop

variable {K : Type} [LinearOrderedField K]

/-! ## The iteration loop as a whole -/

/-- The loop only moves the counter up, and the penalty has grown by one factor `gamma` for
every pass made. -/
theorem solver_loop_rho (cfg : Config K) (fuel : Nat) (st : SolverState K) :
    st.iter ≤ (solver_loop cfg fuel st).iter ∧
    (solver_loop cfg fuel st).planner.rho
      = cfg.gamma ^ ((solver_loop cfg fuel st).iter - st.iter) * st.planner.rho := by
  induction fuel generalizing st with
  | zero => simp [solver_loop]
  | succ n ih =>
    unfold solver_loop
    split_ifs with h
    · obtain ⟨h1, h2⟩ := ih (outer_iteration cfg st)
      rw [outer_iteration_iter] at h1
      refine ⟨by omega, ?_⟩
      rw [h2, outer_iteration_rho, outer_iteration_iter]
      have e : (solver_loop cfg n (outer_iteration cfg st)).iter - st.iter
          = ((solver_loop cfg n (outer_iteration cfg st)).iter - (st.iter + 1)) + 1 := by omega
      rw [e, pow_succ]
      ring
    · simp

/-- The bound on the number of passes is never what stops the loop: when it is left, the loop
condition of the source is false. -/
theorem solver_loop_exit (cfg : Config K) (fuel : Nat) (st : SolverState K)
    (hfuel : iter_lim ≤ st.iter + fuel) :
    ¬ ((solver_loop cfg fuel st).convergence = false ∧
        (solver_loop cfg fuel st).iter < iter_lim) := by
  induction fuel generalizing st with
  | zero =>
    simp only [solver_loop]
    intro h
    omega
  | succ n ih =>
    unfold solver_loop
    split_ifs with h
    · apply ih
      rw [outer_iteration_iter]
      omega
    · exact h

/-- A loop entered without convergence makes at least one pass. -/
theorem solver_loop_progress (cfg : Config K) (fuel : Nat) (st : SolverState K)
    (hc : st.convergence = false) (hi : st.iter < iter_lim) :
    st.iter + 1 ≤ (solver_loop cfg (fuel + 1) st).iter := by
  unfold solver_loop
  rw [if_pos ⟨hc, hi⟩]
  have h := (solver_loop_rho cfg fuel (outer_iteration cfg st)).1
  rw [outer_iteration_iter] at h
  exact h

/-- The loop leaves the sizes and the traffic of the planner as they are. -/
theorem solver_loop_sizes (cfg : Config K) (fuel : Nat) (st : SolverState K) :
    (solver_loop cfg fuel st).planner.M = st.planner.M ∧
    (solver_loop cfg fuel st).planner.nC = st.planner.nC ∧
    (solver_loop cfg fuel st).planner.nC_i = st.planner.nC_i ∧
    (solver_loop cfg fuel st).planner.nU_ = st.planner.nU_ ∧
    (solver_loop cfg fuel st).planner.traffic = st.planner.traffic := by
  induction fuel generalizing st with
  | zero => simp [solver_loop]
  | succ n ih =>
    unfold solver_loop
    split_ifs with h
    · obtain ⟨h1, h2, h3, h4, h5⟩ := ih (outer_iteration cfg st)
      obtain ⟨g1, g2, g3, g4, g5⟩ := outer_iteration_sizes cfg st
      exact ⟨h1.trans g1, h2.trans g2, h3.trans g3, h4.trans g4, h5.trans g5⟩
    · simp

/-- The state with which the loop is entered: radii and Hessians. -/
theorem solver_init_radius (cfg : Config K) (p : Planner K) (U_ : Nat → K) (i : Nat)
    (hi : i < p.M) :
    (solver_init cfg p U_).delta i = 1 ∧ (solver_init cfg p U_).H_ i = identity := by
  have key : ∀ m, i < m →
      (forLoop m (fun i (b : (Nat → K) × (Nat → Nat → Nat → K)) =>
        (Function.update b.1 i 1, Function.update b.2 i identity))
        ((uninit : Nat → K), (fun _ _ => uninit : Nat → Nat → Nat → K))).1 i = 1 ∧
      (forLoop m (fun i (b : (Nat → K) × (Nat → Nat → Nat → K)) =>
        (Function.update b.1 i 1, Function.update b.2 i identity))
        ((uninit : Nat → K), (fun _ _ => uninit : Nat → Nat → Nat → K))).2 i = identity := by
    intro m
    induction m with
    | zero => intro h; omega
    | succ k ih =>
      intro h
      rw [forLoop_succ]
      by_cases hik : i = k
      · subst hik; simp
      · have := ih (by omega)
        simp only [Function.update_apply, hik, if_false]
        exact this
  exact key p.M hi

theorem solver_init_planner (cfg : Config K) (p : Planner K) (U_ : Nat → K) :
    (solver_init cfg p U_).planner = p ∧ (solver_init cfg p U_).iter = 1 := ⟨rfl, rfl⟩

theorem setup_members (cfg : Config K) (p : Planner K) :
    (setup cfg p).M = p.traffic.length ∧ (setup cfg p).rho = p.rho ∧
    (setup cfg p).traffic = p.traffic ∧
    (setup cfg p).nC = (setup cfg p).nC_i * p.traffic.length ∧
    (setup cfg p).nU_ = nU * (cfg.N + 1) * p.traffic.length ∧
    (∀ k, (setup cfg p).lagrangian_multipliers k = 0) :=
  ⟨rfl, rfl, rfl, rfl, rfl, fun _ => rfl⟩

/-- The penalty with which `run` leaves the planner. -/
theorem run_rho (cfg : Config K) (p : Planner K) (ts : List (TrafficParticipant K)) :
    (run cfg p ts).rho
      = cfg.gamma ^ ((solver_loop cfg iter_lim (run_loop_entry cfg p ts)).iter - 1) * p.rho := by
  have h := (solver_loop_rho cfg iter_lim (run_loop_entry cfg p ts)).2
  exact h

/-- The penalty after `t` outer iterations. -/
theorem iterate_rho (cfg : Config K) (st : SolverState K) (t : Nat) :
    ((outer_iteration cfg)^[t] st).planner.rho = st.planner.rho * cfg.gamma ^ t := by
  induction t with
  | zero => simp
  | succ n ih =>
    rw [Function.iterate_succ_apply', outer_iteration_rho, ih, pow_succ]
    ring

/-- The state with which a call of `run` enters the loop: multipliers, radii and Hessians are
fresh, the penalty is the one the planner had before the call. -/
theorem run_loop_entry_members (cfg : Config K) (p : Planner K)
    (ts : List (TrafficParticipant K)) :
    (∀ k, (run_loop_entry cfg p ts).planner.lagrangian_multipliers k = 0) ∧
    (∀ i, i < ts.length →
      (run_loop_entry cfg p ts).delta i = 1 ∧ (run_loop_entry cfg p ts).H_ i = identity) ∧
    (run_loop_entry cfg p ts).planner.rho = p.rho ∧
    (run_loop_entry cfg p ts).iter = 1 :=
  ⟨fun _ => rfl, fun i hi => solver_init_radius cfg _ _ i hi, rfl, rfl⟩

/-- What `trust_region_solver` returns in `U_`: the controls with which the loop is left,
after `correctionU`. -/
theorem trust_region_solver_controls (cfg : Config K) (p : Planner K) (U_ : Nat → K) (a : Nat)
    (ha : a < p.nU_) :
    (trust_region_solver cfg p U_).2 a
      = correctionU cfg (solver_exit cfg p U_).planner (solver_exit cfg p U_).dU_ a := by
  have hn : (solver_exit cfg p U_).planner.nU_ = p.nU_ :=
    (solver_loop_sizes cfg iter_lim (solver_init cfg p U_)).2.2.2.1
  unfold trust_region_solver
  simp only
  rw [forLoop_update_apply, hn, if_pos ha]

end SolverLoop

section Correction

variable {K : Type} [LinearOrderedField K]

/-! ## `correctionU` -/

theorem clamp_steering_eq (cfg : Config K) (u : K) (h : cfg.d_low ≤ cfg.d_up) :
    clamp_steering cfg u = max cfg.d_low (min u cfg.d_up) := by
  unfold clamp_steering
  simp only [gt_iff_lt]
  split_ifs with h1 h2 h3
  · exact absurd h2 (not_lt.mpr h)
  · rw [min_eq_right (le_of_lt h1), max_eq_right h]
  · rw [min_eq_left (not_lt.mp h1), max_eq_left (le_of_lt h3)]
  · rw [min_eq_left (not_lt.mp h1), max_eq_right (not_lt.mp h3)]

theorem clamp_steering_idem (cfg : Config K) (u : K) (h : cfg.d_low ≤ cfg.d_up) :
    clamp_steering cfg (clamp_steering cfg u) = clamp_steering cfg u := by
  rw [clamp_steering_eq cfg _ h, clamp_steering_eq cfg u h]
  have h1 : cfg.d_low ≤ max cfg.d_low (min u cfg.d_up) := le_max_left _ _
  have h2 : max cfg.d_low (min u cfg.d_up) ≤ cfg.d_up := max_le h (min_le_right _ _)
  rw [min_eq_left h2, max_eq_right h1]

/-- A pass of `correctionU`: the copy (in the last pass), then the clamped steering entry. -/
theorem correctionU_step_eq (cfg : Config K) (i j : Nat) (U_ : Nat → K) :
    correctionU_step cfg i j U_
      = Function.update (copy_last cfg i j U_) (nU * (cfg.N + 1) * i + nU * j + d)
          (clamp_steering cfg (copy_last cfg i j U_ (nU * (cfg.N + 1) * i + nU * j + d))) := by
  have key : ∀ (W : Nat → K) (I : Nat),
      (if (if W I > cfg.d_up then Function.update W I cfg.d_up else W) I < cfg.d_low then
          Function.update (if W I > cfg.d_up then Function.update W I cfg.d_up else W) I
            cfg.d_low
        else (if W I > cfg.d_up then Function.update W I cfg.d_up else W))
        = Function.update W I (clamp_steering cfg (W I)) := by
    intro W I
    unfold clamp_steering
    by_cases h1 : W I > cfg.d_up
    · simp only [h1, if_true, Function.update_same]
      by_cases h2 : cfg.d_up < cfg.d_low
      · simp only [h2, if_true, Function.update_idem]
      · simp only [h2, if_false]
    · simp only [h1, if_false]
      by_cases h2 : W I < cfg.d_low
      · simp only [h2, if_true]
      · simp only [h2, if_false, Function.update_eq_self]
  exact key (copy_last cfg i j U_) _

/-- The slice of agent `i` after the first `n ≤ N` passes of the inner loop. -/
theorem correctionU_prefix (cfg : Config K) (i n : Nat) (U0 : Nat → K) (hn : n ≤ cfg.N) :
    ∀ a, forLoop n (correctionU_step cfg i) U0 a
      = if nU * (cfg.N + 1) * i ≤ a ∧ a < nU * (cfg.N + 1) * i + nU * n
            ∧ (a - nU * (cfg.N + 1) * i) % nU = 0 then
          clamp_steering cfg (U0 a)
        else U0 a := by
  induction n with
  | zero => intro a; rw [if_neg (by omega)]; rfl
  | succ m ih =>
    have ihf := ih (by omega)
    intro a
    rw [forLoop_succ, correctionU_step_eq]
    have hcopy : copy_last cfg i m (forLoop m (correctionU_step cfg i) U0)
        = forLoop m (correctionU_step cfg i) U0 := by
      unfold copy_last
      rw [if_neg (by omega)]
    rw [hcopy, Function.update_apply, ihf, ihf]
    generalize nU * (cfg.N + 1) * i = B
    simp only [nU, d, Nat.add_zero]
    by_cases h1 : a = B + 2 * m
    · subst h1
      split_ifs <;> first | rfl | (exfalso; omega)
    · split_ifs <;> first | rfl | (exfalso; omega)

/-- The inner loop of `correctionU` for agent `i`, entry by entry. -/
theorem correctionU_agent_apply (cfg : Config K) (i : Nat) (U0 : Nat → K) (hN : 1 ≤ cfg.N)
    (a : Nat) :
    forLoop (cfg.N + 1) (correctionU_step cfg i) U0 a = corrected_entry cfg i U0 a := by
  have hp := correctionU_prefix cfg i cfg.N U0 (le_refl _)
  rw [forLoop_succ, correctionU_step_eq]
  unfold copy_last corrected_entry
  rw [if_pos rfl]
  simp only [Function.update_apply, hp]
  generalize nU * (cfg.N + 1) * i = B
  simp only [nU, d, F, Nat.add_zero]
  by_cases h1 : a = B + 2 * cfg.N
  · subst h1
    split_ifs <;> first | rfl | (exfalso; omega)
  · by_cases h2 : a = B + 2 * cfg.N + 1
    · subst h2
      split_ifs <;> first | rfl | (exfalso; omega)
    · split_ifs <;> first | rfl | (exfalso; omega)

/-- What `correctionU` leaves in the buffer: the slice of every agent `i < M` is corrected
from the content it had at the call, the rest is untouched. -/
theorem correctionU_loop (cfg : Config K) (U0 : Nat → K) (hN : 1 ≤ cfg.N) (m : Nat) :
    (∀ a, nU * (cfg.N + 1) * m ≤ a →
      forLoop m (fun i U => forLoop (cfg.N + 1) (correctionU_step cfg i) U) U0 a = U0 a) ∧
    (∀ i a, i < m → nU * (cfg.N + 1) * i ≤ a → a < nU * (cfg.N + 1) * (i + 1) →
      forLoop m (fun i U => forLoop (cfg.N + 1) (correctionU_step cfg i) U) U0 a
        = corrected_entry cfg i U0 a) := by
  induction m with
  | zero => exact ⟨fun a _ => rfl, fun i a hi => absurd hi (Nat.not_lt_zero i)⟩
  | succ m ih =>
    obtain ⟨ih1, ih2⟩ := ih
    have hB : nU * (cfg.N + 1) * (m + 1) = nU * (cfg.N + 1) * m + nU * (cfg.N + 1) := by ring
    have hS : nU * (cfg.N + 1) = nU * cfg.N + nU := by ring
    constructor
    · intro a ha
      rw [forLoop_succ, correctionU_agent_apply cfg m _ hN]
      unfold corrected_entry
      simp only [nU, d, F] at hB hS ha ⊢
      rw [if_neg (by omega), if_neg (by omega), if_neg (by omega)]
      exact ih1 a (by simp only [nU]; omega)
    · intro i a hi ha1 ha2
      rw [forLoop_succ, correctionU_agent_apply cfg m _ hN]
      rcases Nat.lt_succ_iff_lt_or_eq.mp hi with him | him
      · have hle : nU * (cfg.N + 1) * (i + 1) ≤ nU * (cfg.N + 1) * m :=
          Nat.mul_le_mul_left _ him
        rw [← ih2 i a him ha1 ha2]
        unfold corrected_entry
        simp only [nU, d, F] at hB hS ha1 ha2 hle ⊢
        rw [if_neg (by omega), if_neg (by omega), if_neg (by omega)]
      · subst him
        have e1 : nU * cfg.N = nU * (cfg.N - 1) + nU := by
          simp only [nU]; omega
        unfold corrected_entry
        simp only [nU, d, F] at hB hS ha1 ha2 e1 ⊢
        have g1 : ∀ b, 2 * (cfg.N + 1) * i ≤ b →
            forLoop i (fun i U => forLoop (cfg.N + 1) (correctionU_step cfg i) U) U0 b
              = U0 b := by
          intro b hb
          exact ih1 b (by simp only [nU]; exact hb)
        rw [g1 a ha1, g1 _ (by omega), g1 _ (by omega)]

/-- The entries of `correctionU cfg p U_` for an agent `i < M`. -/
theorem correctionU_apply (cfg : Config K) (p : Planner K) (U_ : Nat → K) (hN : 1 ≤ cfg.N)
    (i a : Nat) (hi : i < p.M) (ha1 : nU * (cfg.N + 1) * i ≤ a)
    (ha2 : a < nU * (cfg.N + 1) * (i + 1)) :
    correctionU cfg p U_ a = corrected_entry cfg i U_ a :=
  (correctionU_loop cfg U_ hN p.M).2 i a hi ha1 ha2

/-- The entries of agent `i < M` after `correctionU`, step by step (for `N ≥ 1`). -/
theorem correctionU_entries (cfg : Config K) (p : Planner K) (U_ : Nat → K) (hN : 1 ≤ cfg.N)
    (i : Nat) (hi : i < p.M) :
    (∀ j, j < cfg.N →
      correctionU cfg p U_ (nU * (cfg.N + 1) * i + nU * j + d)
        = clamp_steering cfg (U_ (nU * (cfg.N + 1) * i + nU * j + d)) ∧
      correctionU cfg p U_ (nU * (cfg.N + 1) * i + nU * j + F)
        = U_ (nU * (cfg.N + 1) * i + nU * j + F)) ∧
    correctionU cfg p U_ (nU * (cfg.N + 1) * i + nU * cfg.N + d)
      = clamp_steering cfg
          (clamp_steering cfg (U_ (nU * (cfg.N + 1) * i + nU * (cfg.N - 1) + d))) ∧
    correctionU cfg p U_ (nU * (cfg.N + 1) * i + nU * cfg.N + F)
      = U_ (nU * (cfg.N + 1) * i + nU * (cfg.N - 1) + F) := by
  have hB : nU * (cfg.N + 1) * (i + 1) = nU * (cfg.N + 1) * i + nU * (cfg.N + 1) := by ring
  have hS : nU * (cfg.N + 1) = nU * cfg.N + nU := by ring
  refine ⟨fun j hj => ⟨?_, ?_⟩, ?_, ?_⟩
  · rw [correctionU_apply cfg p U_ hN i _ hi (by omega)
      (by simp only [nU, d] at hB hS ⊢; omega)]
    unfold corrected_entry
    simp only [nU, d, F] at hB hS ⊢
    rw [if_pos (by omega), if_pos (by omega)]
  · rw [correctionU_apply cfg p U_ hN i _ hi (by omega)
      (by simp only [nU, F] at hB hS ⊢; omega)]
    unfold corrected_entry
    simp only [nU, d, F] at hB hS ⊢
    rw [if_pos (by omega), if_neg (by omega)]
  · rw [correctionU_apply cfg p U_ hN i _ hi (by omega)
      (by simp only [nU, d] at hB hS ⊢; omega)]
    unfold corrected_entry
    simp only [nU, d, F] at hB hS ⊢
    rw [if_neg (by omega), if_pos trivial]
  · rw [correctionU_apply cfg p U_ hN i _ hi (by omega)
      (by simp only [nU, F] at hB hS ⊢; omega)]
    unfold corrected_entry
    simp only [nU, d, F] at hB hS ⊢
    rw [if_neg (by omega), if_neg (by omega), if_pos trivial]

end Correction

section Prediction

variable {K : Type} [LinearOrderedField K]

/-! ## `set_prediction` -/

/-- The inner loop of `set_prediction` after `n` passes. -/
theorem set_prediction_inner (cfg : Config K) (X_ U_ : Nat → K) (i n : Nat) :
    forLoop n (set_prediction_step cfg X_ U_ i) { trajectory := [], control := [], time := 0 }
      = { trajectory := (List.range n).map (predicted_point cfg X_ U_ i)
          control := (List.range n).map (predicted_input cfg X_ U_ i)
          time := (n : K) * cfg.dt } := by
  induction n with
  | zero => simp
  | succ m ih =>
    rw [forLoop_succ, ih]
    unfold set_prediction_step predicted_point predicted_input
    simp only [List.range_succ, List.map_append, List.map_cons, List.map_nil, Nat.cast_add,
      Nat.cast_one, add_mul, one_mul]

theorem set_prediction_agent_eq (cfg : Config K) (X_ U_ : Nat → K) (i : Nat)
    (ts : List (TrafficParticipant K)) :
    set_prediction_agent cfg X_ U_ i ts
      = ts.set i { ts.getD i default with
          predicted_trajectory := (List.range (cfg.N + 1)).map (predicted_point cfg X_ U_ i)
          predicted_control := (List.range (cfg.N + 1)).map (predicted_input cfg X_ U_ i) } := by
  unfold set_prediction_agent
  rw [set_prediction_inner]

/-- The outer loop of `set_prediction` after `m` passes: the records before `m` carry their
predictions, the records from `m` on are as they were. -/
theorem set_prediction_loop (cfg : Config K) (X_ U_ : Nat → K)
    (ts : List (TrafficParticipant K)) (m : Nat) :
    (forLoop m (set_prediction_agent cfg X_ U_) ts).length = ts.length ∧
    ∀ i, (forLoop m (set_prediction_agent cfg X_ U_) ts)[i]?
      = if i < m then
          (ts[i]?).map (fun r => { r with
            predicted_trajectory := (List.range (cfg.N + 1)).map (predicted_point cfg X_ U_ i)
            predicted_control := (List.range (cfg.N + 1)).map (predicted_input cfg X_ U_ i) })
        else ts[i]? := by
  induction m with
  | zero => exact ⟨rfl, fun i => by simp⟩
  | succ m ih =>
    obtain ⟨ihl, ihg⟩ := ih
    rw [forLoop_succ, set_prediction_agent_eq]
    refine ⟨by rw [List.length_set]; exact ihl, ?_⟩
    intro i
    rw [List.getElem?_set]
    by_cases him : m = i
    · subst him
      rw [if_pos rfl, if_pos (Nat.lt_succ_self _), ihl]
      have hm := ihg m
      rw [if_neg (Nat.lt_irrefl _)] at hm
      by_cases hlen : m < ts.length
      · rw [if_pos hlen, List.getD_eq_getElem?_getD, hm, List.getElem?_eq_getElem hlen]
        rfl
      · rw [if_neg hlen, List.getElem?_eq_none (by omega)]
        rfl
    · rw [if_neg him, ihg i]
      by_cases h1 : i < m
      · rw [if_pos h1, if_pos (by omega)]
      · rw [if_neg h1, if_neg (by omega)]

end Prediction

section Constraints

variable {K : Type} [LinearOrderedField K]

/-! ## `compute_constraints_vehicle_i` -/

/-- The collision loop after `m` passes: one block of `N + 1` stores for every agent `k < m`
other than `i`, at the block number `k` (before `i`) or `k - 1` (after `i`). -/
theorem collision_loop (cfg : Config K) (X_ : Nat → K) (i m : Nat) (ws : List (Nat × K)) :
    forLoop m (collision_pass cfg X_ i) (ws, 0)
      = (ws ++ (List.range m).flatMap (fun k =>
          if k ≠ i then
            (List.range (cfg.N + 1)).map (fun j =>
              (nU * (cfg.N + 1) + nU * (cfg.N + 1) + (cfg.N + 1) * (if k < i then k else k - 1)
                + j,
               cfg.r_safe * cfg.r_safe - compute_squared_distances_vector cfg uninit X_ i k j))
          else []),
        if m ≤ i then m else m - 1) := by
  induction m with
  | zero => simp
  | succ m ih =>
    rw [forLoop_succ, ih]
    unfold collision_pass
    by_cases hmi : m = i
    · subst hmi
      simp [List.range_succ]
    · have hc : (if m ≤ i then m else m - 1) = (if m < i then m else m - 1) := by
        split_ifs <;> omega
      have hc2 : (if m ≤ i then m else m - 1) + 1 = (if m + 1 ≤ i then m + 1 else m + 1 - 1) := by
        split_ifs <;> omega
      rw [if_pos hmi]
      simp only
      rw [forLoop_append_single, hc2, List.range_succ (n := m), List.flatMap_append,
        List.flatMap_cons, List.flatMap_nil, List.append_nil, if_pos hmi, hc,
        List.append_assoc]

/-- The stores of `compute_constraints_vehicle_i` in closed form: input bounds, collision
blocks, lane containment. -/
theorem constraint_stores_eq (cfg : Config K) (p : Planner K) (X_ U_ : Nat → K) (i : Nat) :
    constraint_stores cfg p X_ U_ i
      = (List.range (cfg.N + 1)).flatMap (input_stores p cfg U_ i)
        ++ (List.range p.M).flatMap (fun k =>
          if k ≠ i then
            (List.range (cfg.N + 1)).map (fun j =>
              (nU * (cfg.N + 1) + nU * (cfg.N + 1) + (cfg.N + 1) * (if k < i then k else k - 1)
                + j,
               cfg.r_safe * cfg.r_safe - compute_squared_distances_vector cfg uninit X_ i k j))
          else [])
        ++ (List.range (cfg.N + 1)).map (fun k =>
            (nU * (cfg.N + 1) + nU * (cfg.N + 1) + (cfg.N + 1) * (p.M - 1) + k,
             compute_squared_lateral_distance_vector cfg p uninit X_ i k
               - cfg.r_lane * cfg.r_lane)) := by
  unfold constraint_stores
  simp only
  rw [forLoop_append_single, forLoop_append, collision_loop, List.nil_append]

/-- Membership of the input-bound stores of step `k`. -/
theorem input_stores_mem (cfg : Config K) (p : Planner K) (X_ U_ : Nat → K) (i k : Nat)
    (hk : k ≤ cfg.N) (w : Nat × K) (hw : w ∈ input_stores p cfg U_ i k) :
    w ∈ constraint_stores cfg p X_ U_ i := by
  rw [constraint_stores_eq]
  apply List.mem_append_left
  apply List.mem_append_left
  exact List.mem_flatMap.mpr ⟨k, List.mem_range.mpr (by omega), hw⟩

/-- Membership of the collision stores of agent `k ≠ i`. -/
theorem collision_store_mem (cfg : Config K) (p : Planner K) (X_ U_ : Nat → K) (i k j : Nat)
    (hk : k < p.M) (hki : k ≠ i) (hj : j ≤ cfg.N) :
    (nU * (cfg.N + 1) + nU * (cfg.N + 1) + (cfg.N + 1) * (if k < i then k else k - 1) + j,
      cfg.r_safe * cfg.r_safe - compute_squared_distances_vector cfg uninit X_ i k j)
      ∈ constraint_stores cfg p X_ U_ i := by
  rw [constraint_stores_eq]
  apply List.mem_append_left
  apply List.mem_append_right
  refine List.mem_flatMap.mpr ⟨k, List.mem_range.mpr hk, ?_⟩
  rw [if_pos hki]
  exact List.mem_map.mpr ⟨j, List.mem_range.mpr (by omega), rfl⟩

/-- Membership of the lane stores. -/
theorem lane_store_mem (cfg : Config K) (p : Planner K) (X_ U_ : Nat → K) (i k : Nat)
    (hk : k ≤ cfg.N) :
    (nU * (cfg.N + 1) + nU * (cfg.N + 1) + (cfg.N + 1) * (p.M - 1) + k,
      compute_squared_lateral_distance_vector cfg p uninit X_ i k - cfg.r_lane * cfg.r_lane)
      ∈ constraint_stores cfg p X_ U_ i := by
  rw [constraint_stores_eq]
  apply List.mem_append_right
  exact List.mem_map.mpr ⟨k, List.mem_range.mpr (by omega), rfl⟩

theorem flatMap_range_length {α : Type} (f : Nat → List α) (c n : Nat)
    (h : ∀ k, (f k).length = c) : ((List.range n).flatMap f).length = c * n := by
  induction n with
  | zero => simp
  | succ m ih =>
    rw [List.range_succ, List.flatMap_append, List.length_append, ih]
    simp [h, Nat.mul_succ]

/-- The number of stores of `compute_constraints_vehicle_i` for an agent `i < M`. -/
theorem constraint_stores_length (cfg : Config K) (p : Planner K) (X_ U_ : Nat → K) (i : Nat)
    (hi : i < p.M) :
    (constraint_stores cfg p X_ U_ i).length
      = 2 * nU * (cfg.N + 1) + (cfg.N + 1) * (p.M - 1) + (cfg.N + 1) := by
  rw [constraint_stores_eq]
  have h1 : ((List.range (cfg.N + 1)).flatMap (input_stores p cfg U_ i)).length
      = 4 * (cfg.N + 1) := flatMap_range_length _ 4 _ (fun k => rfl)
  have h2 : ∀ m, ((List.range m).flatMap (fun k =>
      if k ≠ i then
        (List.range (cfg.N + 1)).map (fun j =>
          (nU * (cfg.N + 1) + nU * (cfg.N + 1) + (cfg.N + 1) * (if k < i then k else k - 1)
            + j,
           cfg.r_safe * cfg.r_safe - compute_squared_distances_vector cfg uninit X_ i k j))
      else [])).length = (cfg.N + 1) * (if m ≤ i then m else m - 1) := by
    intro m
    induction m with
    | zero => simp
    | succ m ih =>
      rw [List.range_succ, List.flatMap_append, List.length_append, ih]
      by_cases hmi : m = i
      · subst hmi
        simp
      · have e : (if m + 1 ≤ i then m + 1 else m + 1 - 1) = (if m ≤ i then m else m - 1) + 1 := by
          split_ifs <;> omega
        rw [e]
        simp [hmi, Nat.mul_succ]
  rw [List.length_append, List.length_append, h1, h2, List.length_map, List.length_range,
    if_neg (by omega)]
  simp only [nU]

/-- Every index below `nC_i` is named by a store. -/
theorem constraint_stores_cover (cfg : Config K) (p : Planner K) (X_ U_ : Nat → K) (i : Nat)
    (hi : i < p.M) (a : Nat)
    (ha : a < 2 * nU * (cfg.N + 1) + (cfg.N + 1) * (p.M - 1) + (cfg.N + 1)) :
    a ∈ (constraint_stores cfg p X_ U_ i).map Prod.fst := by
  simp only [nU] at ha
  by_cases h1 : a < 2 * (cfg.N + 1)
  · -- upper bounds
    have hk : a / 2 ≤ cfg.N := by omega
    rcases Nat.mod_two_eq_zero_or_one a with hm | hm
    · refine List.mem_map.mpr ⟨_, input_stores_mem cfg p X_ U_ i (a / 2) hk _
        (List.mem_cons_self _ _), ?_⟩
      simp only [nU, d]; omega
    · refine List.mem_map.mpr ⟨_, input_stores_mem cfg p X_ U_ i (a / 2) hk _
        (List.mem_cons_of_mem _ (List.mem_cons_self _ _)), ?_⟩
      simp only [nU, F]; omega
  · by_cases h2 : a < 4 * (cfg.N + 1)
    · -- lower bounds
      have hk : (a - 2 * (cfg.N + 1)) / 2 ≤ cfg.N := by omega
      rcases Nat.mod_two_eq_zero_or_one (a - 2 * (cfg.N + 1)) with hm | hm
      · refine List.mem_map.mpr ⟨_, input_stores_mem cfg p X_ U_ i _ hk _
          (List.mem_cons_of_mem _ (List.mem_cons_of_mem _ (List.mem_cons_self _ _))), ?_⟩
        simp only [nU, d]; omega
      · refine List.mem_map.mpr ⟨_, input_stores_mem cfg p X_ U_ i _ hk _
          (List.mem_cons_of_mem _ (List.mem_cons_of_mem _
            (List.mem_cons_of_mem _ (List.mem_cons_self _ _)))), ?_⟩
        simp only [nU, F]; omega
    · by_cases h3 : a < 4 * (cfg.N + 1) + (cfg.N + 1) * (p.M - 1)
      · -- collision blocks
        have hr : a - 4 * (cfg.N + 1) < (cfg.N + 1) * (p.M - 1) := by omega
        have hb : (a - 4 * (cfg.N + 1)) / (cfg.N + 1) < p.M - 1 :=
          Nat.div_lt_of_lt_mul hr
        have hj : (a - 4 * (cfg.N + 1)) % (cfg.N + 1) < cfg.N + 1 :=
          Nat.mod_lt _ (Nat.succ_pos _)
        have hdm := Nat.div_add_mod (a - 4 * (cfg.N + 1)) (cfg.N + 1)
        generalize (a - 4 * (cfg.N + 1)) / (cfg.N + 1) = b at hb hdm
        generalize (a - 4 * (cfg.N + 1)) % (cfg.N + 1) = j at hj hdm
        by_cases hbi : b < i
        · refine List.mem_map.mpr ⟨_, collision_store_mem cfg p X_ U_ i b j (by omega)
            (by omega) (by omega), ?_⟩
          simp only [nU, if_pos hbi]; omega
        · refine List.mem_map.mpr ⟨_, collision_store_mem cfg p X_ U_ i (b + 1) j (by omega)
            (by omega) (by omega), ?_⟩
          have e : ¬ (b + 1 < i) := by omega
          simp only [nU, if_neg e, Nat.add_sub_cancel]; omega
      · -- lane containment
        refine List.mem_map.mpr ⟨_, lane_store_mem cfg p X_ U_ i
          (a - (4 * (cfg.N + 1) + (cfg.N + 1) * (p.M - 1))) (by omega), ?_⟩
        simp only [nU]; omega

/-- The indices stored by `compute_constraints_vehicle_i` for an agent `i < M` are the numbers
below `nC_i`, each once. -/
theorem constraint_stores_perm (cfg : Config K) (p : Planner K) (X_ U_ : Nat → K) (i : Nat)
    (hi : i < p.M) :
    ((constraint_stores cfg p X_ U_ i).map Prod.fst).Perm
      (List.range (2 * nU * (cfg.N + 1) + (cfg.N + 1) * (p.M - 1) + (cfg.N + 1))) := by
  have hsub : List.range (2 * nU * (cfg.N + 1) + (cfg.N + 1) * (p.M - 1) + (cfg.N + 1))
      ⊆ (constraint_stores cfg p X_ U_ i).map Prod.fst := by
    intro a ha
    exact constraint_stores_cover cfg p X_ U_ i hi a (List.mem_range.mp ha)
  have hsp := List.subperm_of_subset (List.nodup_range _) hsub
  refine (hsp.perm_of_length_le ?_).symm
  rw [List.length_map, constraint_stores_length cfg p X_ U_ i hi, List.length_range]

/-- The value of an entry of `constraints_i` after `compute_constraints_vehicle_i`: the value
of the store that names it. -/
theorem compute_constraints_vehicle_i_apply (cfg : Config K) (p : Planner K)
    (c0 X_ U_ : Nat → K) (i : Nat) (hi : i < p.M) (w : Nat × K)
    (hw : w ∈ constraint_stores cfg p X_ U_ i) :
    compute_constraints_vehicle_i cfg p c0 X_ U_ i w.1 = w.2 := by
  unfold compute_constraints_vehicle_i
  apply store_all_mem
  · exact (constraint_stores_perm cfg p X_ U_ i hi).nodup_iff.mpr (List.nodup_range _)
  · exact hw

/-! ## `setup` and `compute_constraints` -/

/-- The size `nC_i` that `setup` computes when there is at least one agent. -/
theorem setup_nC_i (cfg : Config K) (p : Planner K) (h : 1 ≤ p.traffic.length) :
    (setup cfg p).nC_i
      = 2 * nU * (cfg.N + 1) + (cfg.N + 1) * (p.traffic.length - 1) + (cfg.N + 1) := by
  show Int.toNat (2 * (nU : Int) * (cfg.N + 1) + (cfg.N + 1) * ((p.traffic.length : Int) - 1)
    + (cfg.N + 1)) = _
  have e : (2 * (nU : Int) * (cfg.N + 1) + (cfg.N + 1) * ((p.traffic.length : Int) - 1)
      + (cfg.N + 1))
      = ((2 * nU * (cfg.N + 1) + (cfg.N + 1) * (p.traffic.length - 1) + (cfg.N + 1) : Nat)
          : Int) := by
    push_cast [Nat.cast_sub h]
    ring
  rw [e, Int.toNat_natCast]

/-- The control limits that `setup` stores. -/
theorem setup_limits_loop (cfg : Config K) (b : (Nat → K) × (Nat → K)) (n k : Nat)
    (hk : k < n) :
    (forLoop n (setup_limits cfg) b).1 (nU * k + d) = cfg.d_low ∧
    (forLoop n (setup_limits cfg) b).1 (nU * k + F) = cfg.F_low ∧
    (forLoop n (setup_limits cfg) b).2 (nU * k + d) = cfg.d_up ∧
    (forLoop n (setup_limits cfg) b).2 (nU * k + F) = cfg.F_up := by
  induction n with
  | zero => omega
  | succ m ih =>
    rw [forLoop_succ]
    unfold setup_limits
    simp only [Function.update_apply, nU, d, F] at ih ⊢
    by_cases hkm : k = m
    · subst hkm
      refine ⟨?_, ?_, ?_, ?_⟩ <;> simp
    · obtain ⟨h1, h2, h3, h4⟩ := ih (by omega)
      have e1 : ¬ (2 * k + 0 = 2 * m + 1) := by omega
      have e2 : ¬ (2 * k + 0 = 2 * m + 0) := by omega
      have e3 : ¬ (2 * k + 1 = 2 * m + 1) := by omega
      have e4 : ¬ (2 * k + 1 = 2 * m + 0) := by omega
      simp only [e1, e2, e3, e4, if_false]
      exact ⟨h1, h2, h3, h4⟩

theorem setup_limits_apply (cfg : Config K) (p : Planner K) (k : Nat) (hk : k ≤ cfg.N) :
    (setup cfg p).ul (nU * k + d) = cfg.d_low ∧ (setup cfg p).ul (nU * k + F) = cfg.F_low ∧
    (setup cfg p).uu (nU * k + d) = cfg.d_up ∧ (setup cfg p).uu (nU * k + F) = cfg.F_up :=
  setup_limits_loop cfg (p.ul, p.uu) (cfg.N + 1) k (by omega)

/-- The block of agent `i` in the buffer that `compute_constraints` fills, when every agent
gets `nC_i` stores: entry `j` of the block is entry `j` of `compute_constraints_vehicle_i`. -/
theorem compute_constraints_loop (cfg : Config K) (p : Planner K) (c0 X_ U_ : Nat → K)
    (hC : p.nC_i = 2 * nU * (cfg.N + 1) + (cfg.N + 1) * (p.M - 1) + (cfg.N + 1)) (m : Nat)
    (hm : m ≤ p.M) :
    (∀ a, p.nC_i * m ≤ a →
      (forLoop m (compute_constraints_pass cfg p X_ U_) (c0, uninit)).1 a = c0 a) ∧
    (∀ i j, i < m → j < p.nC_i →
      (forLoop m (compute_constraints_pass cfg p X_ U_) (c0, uninit)).1 (p.nC_i * i + j)
        = compute_constraints_vehicle_i cfg p uninit X_ U_ i j) := by
  induction m with
  | zero => exact ⟨fun a _ => rfl, fun i j hi => absurd hi (Nat.not_lt_zero i)⟩
  | succ m ih =>
    obtain ⟨ih1, ih2⟩ := ih (by omega)
    have hstep : ∀ (st : (Nat → K) × (Nat → K)) (a : Nat),
        (compute_constraints_pass cfg p X_ U_ m st).1 a
          = if p.nC_i * m ≤ a ∧ a < p.nC_i * m + p.nC_i then
              compute_constraints_vehicle_i cfg p st.2 X_ U_ m (a - p.nC_i * m)
            else st.1 a := by
      intro st a
      unfold compute_constraints_pass
      simp only
      generalize compute_constraints_vehicle_i cfg p st.2 X_ U_ m = ci
      generalize p.nC_i * m = B
      generalize p.nC_i = n
      induction n with
      | zero => rw [if_neg (by omega)]; rfl
      | succ n ihn =>
        rw [forLoop_succ, Function.update_apply, ihn]
        by_cases h1 : a = B + n
        · subst h1
          rw [if_pos rfl, if_pos (by omega)]
          congr 1; omega
        · rw [if_neg h1]
          by_cases h2 : B ≤ a ∧ a < B + n
          · rw [if_pos h2, if_pos (by omega)]
          · rw [if_neg h2, if_neg (by omega)]
    have hB : p.nC_i * (m + 1) = p.nC_i * m + p.nC_i := by ring
    -- the content of an entry does not depend on what the local buffer held before
    have hindep : ∀ (c1 : Nat → K) (j : Nat), j < p.nC_i →
        compute_constraints_vehicle_i cfg p c1 X_ U_ m j
          = compute_constraints_vehicle_i cfg p uninit X_ U_ m j := by
      intro c1 j hj
      have hmem := constraint_stores_cover cfg p X_ U_ m (by omega) j (by rw [← hC]; exact hj)
      obtain ⟨w, hw, hw1⟩ := List.mem_map.mp hmem
      rw [← hw1, compute_constraints_vehicle_i_apply cfg p c1 X_ U_ m (by omega) w hw,
        compute_constraints_vehicle_i_apply cfg p uninit X_ U_ m (by omega) w hw]
    constructor
    · intro a ha
      rw [forLoop_succ, hstep, if_neg (by omega)]
      exact ih1 a (by omega)
    · intro i j hi hj
      rw [forLoop_succ, hstep]
      rcases Nat.lt_succ_iff_lt_or_eq.mp hi with him | him
      · have hle : p.nC_i * (i + 1) ≤ p.nC_i * m := Nat.mul_le_mul_left _ him
        have hB2 : p.nC_i * (i + 1) = p.nC_i * i + p.nC_i := by ring
        rw [if_neg (by omega)]
        exact ih2 i j him hj
      · subst him
        rw [if_pos (by omega)]
        have e : p.nC_i * i + j - p.nC_i * i = j := by omega
        rw [e]
        exact hindep _ j hj

/-! ## Distances -/

theorem compute_squared_distances_vector_apply (cfg : Config K) (sq X_ : Nat → K)
    (ego j k : Nat) (hk : k ≤ cfg.N) :
    compute_squared_distances_vector cfg sq X_ ego j k
      = (X_ (cfg.nx * ego + nX * k + x) - X_ (cfg.nx * j + nX * k + x))
          * (X_ (cfg.nx * ego + nX * k + x) - X_ (cfg.nx * j + nX * k + x))
        + (X_ (cfg.nx * ego + nX * k + y) - X_ (cfg.nx * j + nX * k + y))
          * (X_ (cfg.nx * ego + nX * k + y) - X_ (cfg.nx * j + nX * k + y)) := by
  unfold compute_squared_distances_vector
  simp only
  rw [forLoop_update_apply, if_pos (by omega)]

theorem compute_squared_lateral_distance_vector_apply (cfg : Config K) (p : Planner K)
    (sq X_ : Nat → K) (i j : Nat) (hj : j ≤ cfg.N) :
    compute_squared_lateral_distance_vector cfg p sq X_ i j
      = lane_dist2 cfg (p.agent i) X_ i j := by
  unfold compute_squared_lateral_distance_vector
  rw [forLoop_update_apply, if_pos (by omega)]

/-- The collision entry of agent `i` against agent `k ≠ i` at step `j`. -/
theorem collision_entry (cfg : Config K) (p : Planner K) (c0 X_ U_ : Nat → K) (i k j : Nat)
    (hi : i < p.M) (hk : k < p.M) (hki : k ≠ i) (hj : j ≤ cfg.N) :
    compute_constraints_vehicle_i cfg p c0 X_ U_ i
        (2 * nU * (cfg.N + 1) + (cfg.N + 1) * (if k < i then k else k - 1) + j)
      = cfg.r_safe * cfg.r_safe - compute_squared_distances_vector cfg uninit X_ i k j := by
  have h := compute_constraints_vehicle_i_apply cfg p c0 X_ U_ i hi _
    (collision_store_mem cfg p X_ U_ i k j hk hki hj)
  simp only at h
  rw [← h]
  congr 1
  simp only [nU]
  omega

/-- The lane entry of agent `i` at step `j`. -/
theorem lane_entry (cfg : Config K) (p : Planner K) (c0 X_ U_ : Nat → K) (i j : Nat)
    (hi : i < p.M) (hj : j ≤ cfg.N) :
    compute_constraints_vehicle_i cfg p c0 X_ U_ i
        (2 * nU * (cfg.N + 1) + (cfg.N + 1) * (p.M - 1) + j)
      = lane_dist2 cfg (p.agent i) X_ i j - cfg.r_lane * cfg.r_lane := by
  have h := compute_constraints_vehicle_i_apply cfg p c0 X_ U_ i hi _
    (lane_store_mem cfg p X_ U_ i j hj)
  simp only at h
  rw [compute_squared_lateral_distance_vector_apply cfg p _ X_ i j hj] at h
  rw [← h]
  congr 1
  simp only [nU]
  omega

/-- The four input-bound entries of agent `i` at step `k`. -/
theorem input_entries (cfg : Config K) (p : Planner K) (c0 X_ U_ : Nat → K) (i k : Nat)
    (hi : i < p.M) (hk : k ≤ cfg.N) :
    compute_constraints_vehicle_i cfg p c0 X_ U_ i (nU * k + d)
      = 1000 * (U_ (nU * (cfg.N + 1) * i + nU * k + d) - p.uu (nU * k + d)) ∧
    compute_constraints_vehicle_i cfg p c0 X_ U_ i (nU * k + F)
      = 1000 * (U_ (nU * (cfg.N + 1) * i + nU * k + F) - p.uu (nU * k + F)) ∧
    compute_constraints_vehicle_i cfg p c0 X_ U_ i (nU * (cfg.N + 1) + nU * k + d)
      = 1000 * (p.ul (nU * k + d) - U_ (nU * (cfg.N + 1) * i + nU * k + d)) ∧
    compute_constraints_vehicle_i cfg p c0 X_ U_ i (nU * (cfg.N + 1) + nU * k + F)
      = 1000 * (p.ul (nU * k + F) - U_ (nU * (cfg.N + 1) * i + nU * k + F)) := by
  refine ⟨?_, ?_, ?_, ?_⟩
  · exact compute_constraints_vehicle_i_apply cfg p c0 X_ U_ i hi _
      (input_stores_mem cfg p X_ U_ i k hk _ (List.mem_cons_self _ _))
  · exact compute_constraints_vehicle_i_apply cfg p c0 X_ U_ i hi _
      (input_stores_mem cfg p X_ U_ i k hk _
        (List.mem_cons_of_mem _ (List.mem_cons_self _ _)))
  · exact compute_constraints_vehicle_i_apply cfg p c0 X_ U_ i hi _
      (input_stores_mem cfg p X_ U_ i k hk _
        (List.mem_cons_of_mem _ (List.mem_cons_of_mem _ (List.mem_cons_self _ _))))
  · exact compute_constraints_vehicle_i_apply cfg p c0 X_ U_ i hi _
      (input_stores_mem cfg p X_ U_ i k hk _
        (List.mem_cons_of_mem _ (List.mem_cons_of_mem _
          (List.mem_cons_of_mem _ (List.mem_cons_self _ _)))))

/-- The value the lane loop stores, in terms of the lanes: every lane gives its
`d_full² - d_long²` when it is available and the sentinel `1000` when it is not. -/
theorem lane_dist2_eq (cfg : Config K) (tr : TrafficParticipant K) (X_ : Nat → K) (i j : Nat) :
    lane_dist2 cfg tr X_ i j
      = min (min
          (if tr.leftlane.present = true ∧ tr.leftlane.s_max > 10
              ∧ X_ (cfg.nx * i + nX * j + s) < tr.leftlane.s_max then
            lane_lateral2 cfg tr.leftlane (X_ (cfg.nx * i + nX * j + s))
              (X_ (cfg.nx * i + nX * j + x)) (X_ (cfg.nx * i + nX * j + y)) else 1000)
          (if tr.rightlane.present = true ∧ tr.rightlane.s_max > 10
              ∧ X_ (cfg.nx * i + nX * j + s) < tr.rightlane.s_max then
            lane_lateral2 cfg tr.rightlane (X_ (cfg.nx * i + nX * j + s))
              (X_ (cfg.nx * i + nX * j + x)) (X_ (cfg.nx * i + nX * j + y)) else 1000))
          (if X_ (cfg.nx * i + nX * j + s) < tr.centerlane.s_max then
            lane_lateral2 cfg tr.centerlane (X_ (cfg.nx * i + nX * j + s))
              (X_ (cfg.nx * i + nX * j + x)) (X_ (cfg.nx * i + nX * j + y)) else 1000) := by
  unfold lane_dist2 lane_dist2_center lane_dist2_side lane_lateral2
  have e : ∀ (lane : Lane K) (u : K),
      (lane.present = true ∧ u < lane.s_max ∧ lane.s_max > 10)
        ↔ (lane.present = true ∧ lane.s_max > 10 ∧ u < lane.s_max) :=
    fun lane u => ⟨fun h => ⟨h.1, h.2.2, h.2.1⟩, fun h => ⟨h.1, h.2.2, h.2.1⟩⟩
  simp only [e]

/-- The minimum of the values of the available lanes against the sentinels of the others. -/
theorem min_with_sentinels (a b c : Prop) [Decidable a] [Decidable b] [Decidable c]
    (va vb vc m : K)
    (hm : m ∈ (if c then [vc] else []) ++ (if a then [va] else []) ++ (if b then [vb] else []))
    (hmin : ∀ u ∈ (if c then [vc] else []) ++ (if a then [va] else [])
      ++ (if b then [vb] else []), m ≤ u) :
    min (min (if a then va else 1000) (if b then vb else 1000)) (if c then vc else 1000)
      = if ((if c then [vc] else []) ++ (if a then [va] else [])
          ++ (if b then [vb] else [])).length = 3 then m else min m 1000 := by
  by_cases ha : a <;> by_cases hb : b <;> by_cases hc : c <;>
    simp [ha, hb, hc] at hm hmin ⊢ <;>
    (apply le_antisymm <;>
      simp only [le_min_iff, min_le_iff, le_refl, true_or, or_true, and_true, true_and]) <;>
    (rcases hm with rfl | rfl | rfl <;> simp [hmin])

end Constraints

section Example

variable {K : Type} [LinearOrderedField K]

/-! ## A call of `run`, evaluated -/

/-- The sample agent at rest at the origin, driven straight ahead: its state after the first
pass of `integrate`. -/
theorem sample_state_one (cos sin tan sqrt : K → K) (hc : cos 0 = 1) (hs : sin 0 = 0)
    (ht : tan 0 = 0) (U_ : Nat → K) (h0 : U_ 0 = 0) (hF : 0 ≤ U_ 1) :
    agent_state (sampleConfig cos sin tan sqrt) (sampleAgent 0 0 0) U_ 0 1 x = 0 ∧
    agent_state (sampleConfig cos sin tan sqrt) (sampleAgent 0 0 0) U_ 0 1 y = 0 ∧
    agent_state (sampleConfig cos sin tan sqrt) (sampleAgent 0 0 0) U_ 0 1 v = U_ 1 ∧
    agent_state (sampleConfig cos sin tan sqrt) (sampleAgent 0 0 0) U_ 0 1 psi = 0 ∧
    agent_state (sampleConfig cos sin tan sqrt) (sampleAgent 0 0 0) U_ 0 1 s = 0 ∧
    agent_state (sampleConfig cos sin tan sqrt) (sampleAgent 0 0 0) U_ 0 1 l = 0 := by
  have hn : ¬ (U_ 1 < 0) := not_lt.mpr hF
  rw [agent_state_succ]
  simp [agent_state, euler_update, dynamic_step, reference_state, control_at, initial_state,
    Function.update_apply, x, y, v, psi, s, l, d, F, nU, sampleConfig, sampleAgent,
    straightLane, uninit, hc, hs, ht, h0, hn]

/-- The same agent after the second pass: it has moved `U_ 1` along the lane and accumulated
the running cost `10 * (U_ 1)^2`. -/
theorem sample_state_two (cos sin tan sqrt : K → K) (hc : cos 0 = 1) (hs : sin 0 = 0)
    (ht : tan 0 = 0) (U_ : Nat → K) (h0 : U_ 0 = 0) (h2 : U_ 2 = 0) (hF : 0 ≤ U_ 1) :
    agent_state (sampleConfig cos sin tan sqrt) (sampleAgent 0 0 0) U_ 0 2 x = U_ 1 ∧
    agent_state (sampleConfig cos sin tan sqrt) (sampleAgent 0 0 0) U_ 0 2 y = 0 ∧
    agent_state (sampleConfig cos sin tan sqrt) (sampleAgent 0 0 0) U_ 0 2 s = U_ 1 ∧
    agent_state (sampleConfig cos sin tan sqrt) (sampleAgent 0 0 0) U_ 0 2 l
      = 10 * U_ 1 * U_ 1 := by
  obtain ⟨e1, e2, e3, e4, e5, e6⟩ := sample_state_one cos sin tan sqrt hc hs ht U_ h0 hF
  rw [agent_state_succ]
  generalize agent_state (sampleConfig cos sin tan sqrt) (sampleAgent 0 0 0) U_ 0 1 = st
    at e1 e2 e3 e4 e5 e6 ⊢
  simp only [x, y, v, psi, s, l] at e1 e2 e3 e4 e5 e6
  unfold euler_update
  refine ⟨?_, ?_, ?_, ?_⟩ <;>
  · split_ifs <;>
    simp [dynamic_step, reference_state, control_at,
      Function.update_apply, x, y, v, psi, s, l, d, F, nU, sampleConfig, sampleAgent,
      straightLane, uninit, hc, hs, ht, h2, e1, e2, e3, e4, e5, e6]

/-- The entries of `X_` that cost and lane constraints of the sample agent read. -/
theorem sample_integrate (q : Planner K) (cos sin tan sqrt : K → K) (hc : cos 0 = 1) (hs : sin 0 = 0)
    (ht : tan 0 = 0) (X_ U_ : Nat → K) (h0 : U_ 0 = 0) (h2 : U_ 2 = 0) (hF : 0 ≤ U_ 1) :
    integrate (sampleConfig cos sin tan sqrt)
      (setup (sampleConfig cos sin tan sqrt) { q with traffic := [sampleAgent 0 0 0] }) X_ U_ 0 = 0 ∧
    integrate (sampleConfig cos sin tan sqrt)
      (setup (sampleConfig cos sin tan sqrt) { q with traffic := [sampleAgent 0 0 0] }) X_ U_ 1 = 0 ∧
    integrate (sampleConfig cos sin tan sqrt)
      (setup (sampleConfig cos sin tan sqrt) { q with traffic := [sampleAgent 0 0 0] }) X_ U_ 4 = 0 ∧
    integrate (sampleConfig cos sin tan sqrt)
      (setup (sampleConfig cos sin tan sqrt) { q with traffic := [sampleAgent 0 0 0] }) X_ U_ 6 = U_ 1 ∧
    integrate (sampleConfig cos sin tan sqrt)
      (setup (sampleConfig cos sin tan sqrt) { q with traffic := [sampleAgent 0 0 0] }) X_ U_ 7 = 0 ∧
    integrate (sampleConfig cos sin tan sqrt)
      (setup (sampleConfig cos sin tan sqrt) { q with traffic := [sampleAgent 0 0 0] }) X_ U_ 10 = U_ 1 ∧
    integrate (sampleConfig cos sin tan sqrt)
      (setup (sampleConfig cos sin tan sqrt) { q with traffic := [sampleAgent 0 0 0] }) X_ U_ 11
        = 10 * U_ 1 * U_ 1 := by
  obtain ⟨a1, a2, _, _, a5, _⟩ := sample_state_one cos sin tan sqrt hc hs ht U_ h0 hF
  obtain ⟨b1, b2, b3, b4⟩ := sample_state_two cos sin tan sqrt hc hs ht U_ h0 h2 hF
  have hX : ∀ a j c, a = 6 * j + c → j ≤ 1 → c < 6 →
      integrate (sampleConfig cos sin tan sqrt)
        (setup (sampleConfig cos sin tan sqrt) { q with traffic := [sampleAgent 0 0 0] }) X_ U_ a
        = agent_state (sampleConfig cos sin tan sqrt) (sampleAgent 0 0 0) U_ 0 (j + 1) c := by
    intro a j c ha hj hcc
    have h := integrate_apply (sampleConfig cos sin tan sqrt)
      (setup (sampleConfig cos sin tan sqrt) { q with traffic := [sampleAgent 0 0 0] }) X_ U_ 0 j c
      Nat.zero_lt_one hj hcc
    rw [ha]
    simpa [nX] using h
  refine ⟨?_, ?_, ?_, ?_, ?_, ?_, ?_⟩
  · exact (hX 0 0 0 rfl (by decide) (by decide)).trans a1
  · exact (hX 1 0 1 rfl (by decide) (by decide)).trans a2
  · exact (hX 4 0 4 rfl (by decide) (by decide)).trans a5
  · exact (hX 6 1 0 rfl (by decide) (by decide)).trans b1
  · exact (hX 7 1 1 rfl (by decide) (by decide)).trans b2
  · exact (hX 10 1 4 rfl (by decide) (by decide)).trans b3
  · exact (hX 11 1 5 rfl (by decide) (by decide)).trans b4

/-- The squared norm of the gradient is at least the square of each of its entries. -/
theorem gradient_norm_ge (p : Planner K) (g : Nat → K) (a : Nat) (ha : a < p.nG) :
    g a * g a ≤ gradient_norm p g := by
  unfold gradient_norm
  have key : ∀ n, 0 ≤ forLoop n (fun j norm => norm + g j * g j) 0 ∧
      (a < n → g a * g a ≤ forLoop n (fun j norm => norm + g j * g j) 0) := by
    intro n
    induction n with
    | zero => exact ⟨le_refl _, fun h => absurd h (Nat.not_lt_zero a)⟩
    | succ m ih =>
      rw [forLoop_succ]
      refine ⟨add_nonneg ih.1 (mul_self_nonneg _), fun h => ?_⟩
      rcases Nat.lt_succ_iff_lt_or_eq.mp h with h1 | h1
      · exact le_trans (ih.2 h1) (le_add_of_nonneg_right (mul_self_nonneg _))
      · subst h1
        exact le_add_of_nonneg_left ih.1
  exact (key p.nG).2 ha

/-- With zero multipliers and no violated constraint the augmented Lagrangian is the cost. -/
theorem compute_lagrangian_vehicle_i_feasible (p : Planner K) (cost_i : K)
    (constraints_i : Nat → K) (i : Nat)
    (hC : ∀ k, k < p.nC_i → constraints_i k ≤ 0)
    (hl : ∀ k, p.lagrangian_multipliers k = 0) :
    compute_lagrangian_vehicle_i p cost_i constraints_i i = cost_i := by
  unfold compute_lagrangian_vehicle_i
  have key : ∀ n, n ≤ p.nC_i → forLoop n (fun k lagrangian_i =>
      lagrangian_i + ((1 / 2) * p.rho * max 0 (constraints_i k) * max 0 (constraints_i k)
        + p.lagrangian_multipliers (i * p.nC_i + k) * constraints_i k)) cost_i = cost_i := by
    intro n hn
    induction n with
    | zero => rfl
    | succ m ih =>
      rw [forLoop_succ, ih (by omega), hl, max_eq_left (hC m (by omega))]
      ring
  exact key p.nC_i (le_refl _)

/-- An agent none of whose stores is positive has no positive constraint entry. -/
theorem constraints_nonpos (cfg : Config K) (p : Planner K) (c0 X_ U_ : Nat → K) (i : Nat)
    (hi : i < p.M)
    (hC : p.nC_i = 2 * nU * (cfg.N + 1) + (cfg.N + 1) * (p.M - 1) + (cfg.N + 1))
    (hw : ∀ w ∈ constraint_stores cfg p X_ U_ i, w.2 ≤ 0) (k : Nat) (hk : k < p.nC_i) :
    compute_constraints_vehicle_i cfg p c0 X_ U_ i k ≤ 0 := by
  obtain ⟨w, hmem, hw1⟩ := List.mem_map.mp
    (constraint_stores_cover cfg p X_ U_ i hi k (by rw [← hC]; exact hk))
  rw [← hw1, compute_constraints_vehicle_i_apply cfg p c0 X_ U_ i hi w hmem]
  exact hw w hmem


/-- The constraints of the sample agent driven straight ahead within the control bounds: no
store is positive. -/
theorem sample_stores_nonpos (q : Planner K) (cos sin tan sqrt : K → K) (hc : cos 0 = 1) (hs : sin 0 = 0)
    (ht : tan 0 = 0) (X_ U_ : Nat → K) (h0 : U_ 0 = 0) (h2 : U_ 2 = 0) (hF : 0 ≤ U_ 1)
    (hF1 : U_ 1 ≤ 1) (hF3 : -1 ≤ U_ 3) (hF3' : U_ 3 ≤ 1) :
    ∀ w ∈ constraint_stores (sampleConfig cos sin tan sqrt)
        (setup (sampleConfig cos sin tan sqrt) { q with traffic := [sampleAgent 0 0 0] })
        (integrate (sampleConfig cos sin tan sqrt)
          (setup (sampleConfig cos sin tan sqrt) { q with traffic := [sampleAgent 0 0 0] }) X_ U_) U_ 0,
      w.2 ≤ 0 := by
  obtain ⟨x0, x1, x4, x6, x7, x10, _⟩ :=
    sample_integrate q cos sin tan sqrt hc hs ht X_ U_ h0 h2 hF
  generalize integrate (sampleConfig cos sin tan sqrt)
    (setup (sampleConfig cos sin tan sqrt) { q with traffic := [sampleAgent 0 0 0] }) X_ U_ = X
    at x0 x1 x4 x6 x7 x10 ⊢
  intro w hw
  rw [constraint_stores_eq] at hw
  rcases List.mem_append.mp hw with h | h
  · rcases List.mem_append.mp h with h | h
    · obtain ⟨k, hk, hwk⟩ := List.mem_flatMap.mp h
      have hk' : k ≤ (sampleConfig cos sin tan sqrt).N := by
        have := List.mem_range.mp hk
        omega
      obtain ⟨l1, l2, l3, l4⟩ := setup_limits_apply (sampleConfig cos sin tan sqrt)
        { q with traffic := [sampleAgent 0 0 0] } k hk'
      have hk2 : k = 0 ∨ k = 1 := by
        have : k ≤ 1 := hk'
        omega
      unfold input_stores at hwk
      simp only [List.mem_cons, List.mem_singleton, List.not_mem_nil, or_false] at hwk
      rcases hwk with rfl | rfl | rfl | rfl
      · show 1000 * (_ - (setup _ _).uu _) ≤ 0
        rw [l3]
        rcases hk2 with rfl | rfl <;> simp [nU, d, sampleConfig, h0, h2] <;> norm_num
      · show 1000 * (_ - (setup _ _).uu _) ≤ 0
        rw [l4]
        rcases hk2 with rfl | rfl <;> simp [nU, F, sampleConfig] <;> linarith
      · show 1000 * ((setup _ _).ul _ - _) ≤ 0
        rw [l1]
        rcases hk2 with rfl | rfl <;> simp [nU, d, sampleConfig, h0, h2] <;> norm_num
      · show 1000 * ((setup _ _).ul _ - _) ≤ 0
        rw [l2]
        rcases hk2 with rfl | rfl <;> simp [nU, F, sampleConfig] <;> linarith
    · obtain ⟨k, hk, hwk⟩ := List.mem_flatMap.mp h
      have hk0 : k = 0 := by
        have := List.mem_range.mp hk
        have hM : (setup (sampleConfig cos sin tan sqrt) { q with traffic := [sampleAgent 0 0 0] }).M = 1 :=
          rfl
        omega
      subst hk0
      simp at hwk
  · obtain ⟨k, hk, rfl⟩ := List.mem_map.mp h
    have hk' : k ≤ (sampleConfig cos sin tan sqrt).N := by
      have := List.mem_range.mp hk
      omega
    have hk2 : k = 0 ∨ k = 1 := by
      have : k ≤ 1 := hk'
      omega
    simp only
    rw [compute_squared_lateral_distance_vector_apply _ _ _ _ _ _ hk', lane_dist2_eq]
    have hag : (setup (sampleConfig cos sin tan sqrt) { q with traffic := [sampleAgent 0 0 0] }).agent 0
        = sampleAgent 0 0 0 := rfl
    rw [hag]
    have h100 : U_ 1 < 100 := by linarith
    rcases hk2 with rfl | rfl
    · simp [lane_lateral2, sampleAgent, straightLane, absentLane, sampleConfig, nX, x, y, s,
        x0, x1, x4, hc, hs]
    · simp [lane_lateral2, sampleAgent, straightLane, absentLane, sampleConfig, nX, x, y, s,
        x6, x7, x10, hc, hs, h100]


/-- The augmented Lagrangian of the sample agent driven straight ahead within the control
bounds, with the multipliers of `setup`: the terminal cost `50 * (U_ 1)^4`. -/
theorem sample_lagrangian (q : Planner K) (cos sin tan sqrt : K → K) (hc : cos 0 = 1) (hs : sin 0 = 0)
    (ht : tan 0 = 0) (c0 X_ U_ : Nat → K) (h0 : U_ 0 = 0) (h2 : U_ 2 = 0) (hF : 0 ≤ U_ 1)
    (hF1 : U_ 1 ≤ 1) (hF3 : -1 ≤ U_ 3) (hF3' : U_ 3 ≤ 1) :
    compute_lagrangian_vehicle_i
      (setup (sampleConfig cos sin tan sqrt) { q with traffic := [sampleAgent 0 0 0] })
      (compute_cost_vehicle_i (sampleConfig cos sin tan sqrt)
        (integrate (sampleConfig cos sin tan sqrt)
          (setup (sampleConfig cos sin tan sqrt) { q with traffic := [sampleAgent 0 0 0] }) X_ U_) 0)
      (compute_constraints_vehicle_i (sampleConfig cos sin tan sqrt)
        (setup (sampleConfig cos sin tan sqrt) { q with traffic := [sampleAgent 0 0 0] }) c0
        (integrate (sampleConfig cos sin tan sqrt)
          (setup (sampleConfig cos sin tan sqrt) { q with traffic := [sampleAgent 0 0 0] }) X_ U_) U_ 0) 0
      = 50 * U_ 1 ^ 4 := by
  have hC : (setup (sampleConfig cos sin tan sqrt) { q with traffic := [sampleAgent 0 0 0] }).nC_i
      = 2 * nU * ((sampleConfig cos sin tan sqrt).N + 1)
        + ((sampleConfig cos sin tan sqrt).N + 1)
          * ((setup (sampleConfig cos sin tan sqrt) { q with traffic := [sampleAgent 0 0 0] }).M - 1)
        + ((sampleConfig cos sin tan sqrt).N + 1) :=
    setup_nC_i (sampleConfig cos sin tan sqrt) _ (le_refl _)
  rw [compute_lagrangian_vehicle_i_feasible _ _ _ _
    (constraints_nonpos _ _ _ _ _ 0 Nat.zero_lt_one hC
      (sample_stores_nonpos q cos sin tan sqrt hc hs ht X_ U_ h0 h2 hF hF1 hF3 hF3'))
    (fun _ => rfl)]
  obtain ⟨_, _, _, _, _, _, x11⟩ :=
    sample_integrate q cos sin tan sqrt hc hs ht X_ U_ h0 h2 hF
  generalize integrate (sampleConfig cos sin tan sqrt)
    (setup (sampleConfig cos sin tan sqrt) { q with traffic := [sampleAgent 0 0 0] }) X_ U_ = X at x11 ⊢
  unfold compute_cost_vehicle_i
  simp only [sampleConfig, nX, l, Nat.mul_zero, Nat.zero_add, Nat.mul_one, Nat.reduceAdd, x11]
  ring


theorem computeGradient_pass_stores (cfg : Config K) (p : Planner K) (U_ lag : Nat → K)
    (i : Nat) (w : WorkerState K) :
    (computeGradient_pass cfg p U_ lag i w).stores
      = w.stores ++ [(i, (compute_lagrangian_vehicle_i p
          (compute_cost_vehicle_i cfg
            (integrate cfg p w.dX (Function.update w.dU i (U_ i + cfg.eps))) (i / cfg.nu))
          (compute_constraints_vehicle_i cfg p w.constraints_i
            (integrate cfg p w.dX (Function.update w.dU i (U_ i + cfg.eps)))
            (Function.update w.dU i (U_ i + cfg.eps)) (i / cfg.nu)) (i / cfg.nu)
          - lag (i / cfg.nu)) / cfg.eps)] := rfl

theorem computeGradient_pass_dU (cfg : Config K) (p : Planner K) (U_ lag : Nat → K)
    (i : Nat) (w : WorkerState K) :
    (computeGradient_pass cfg p U_ lag i w).dU
      = Function.update (Function.update w.dU i (U_ i + cfg.eps)) i (U_ i) := rfl

/-- With one worker the stores of `compute_gradient` are those of the worker for the whole
range. -/
theorem gradient_stores_one_thread (cfg : Config K) (p : Planner K) (U_ : Nat → K)
    (h : cfg.num_threads = 1) :
    gradient_stores cfg p U_ = computeGradient cfg p U_ 0 p.nU_ := by
  unfold gradient_stores
  rw [h]
  simp [forLoop]

/-- The baseline Lagrangian of the only agent of a planner with one agent. -/
theorem compute_lagrangian_single (cfg : Config K) (p : Planner K) (L0 X_ U_ : Nat → K)
    (hM : p.M = 1) :
    compute_lagrangian cfg p L0 X_ U_ 0
      = compute_lagrangian_vehicle_i p (compute_cost_vehicle_i cfg X_ 0)
          (compute_constraints_vehicle_i cfg p uninit X_ U_ 0) 0 := by
  unfold compute_lagrangian
  rw [hM, forLoop_succ, forLoop_zero]
  unfold compute_lagrangian_pass
  simp only [Function.update_same]

/-- The gradient entry of the first force of the sample agent: the forward difference of the
terminal cost. -/
theorem sample_gradient_entry (q : Planner K) (cos sin tan sqrt : K → K) (hc : cos 0 = 1) (hs : sin 0 = 0)
    (ht : tan 0 = 0) (g0 U_ : Nat → K) (h0 : U_ 0 = 0) (h2 : U_ 2 = 0) (hF : 0 ≤ U_ 1)
    (hF1 : U_ 1 + 1 / 1000000 ≤ 1) (hF3 : -1 ≤ U_ 3) (hF3' : U_ 3 ≤ 1) :
    compute_gradient (sampleConfig cos sin tan sqrt)
      (setup (sampleConfig cos sin tan sqrt) { q with traffic := [sampleAgent 0 0 0] }) g0 U_ 1
      = (50 * (U_ 1 + 1 / 1000000) ^ 4 - 50 * U_ 1 ^ 4) / (1 / 1000000) := by
  unfold compute_gradient
  rw [gradient_stores_one_thread _ _ _ rfl]
  have hn : (setup (sampleConfig cos sin tan sqrt) { q with traffic := [sampleAgent 0 0 0] }).nU_ = 4 := rfl
  rw [hn]
  unfold computeGradient forRange
  rw [hn]
  simp only [Nat.sub_zero]
  rw [forLoop_succ, forLoop_succ, forLoop_succ, forLoop_succ, forLoop_zero]
  simp only [computeGradient_pass_stores, store_all, List.foldl_append, List.foldl_cons,
    List.foldl_nil, Function.update_apply, Nat.zero_add, Nat.reduceAdd, Nat.reduceEqDiff,
    OfNat.ofNat_ne_one, OfNat.one_ne_ofNat, if_false, if_true, List.nil_append]
  have hidx : 1 / (sampleConfig cos sin tan sqrt).nu = 0 :=
    Nat.div_eq_of_lt (by show 1 < 4; omega)
  have heps : (sampleConfig cos sin tan sqrt).eps = 1 / 1000000 := rfl
  rw [hidx, heps, computeGradient_pass_dU]
  -- the controls of the second pass: the first force moved by `eps`
  have hV0 : Function.update (Function.update (Function.update
      (forLoop 4 (fun i b => Function.update b i (U_ i)) uninit)
      0 (U_ 0 + 1 / 1000000)) 0 (U_ 0)) 1 (U_ 1 + 1 / 1000000) 0 = 0 := by
    simp [Function.update_apply, h0]
  have hV1 : Function.update (Function.update (Function.update
      (forLoop 4 (fun i b => Function.update b i (U_ i)) uninit)
      0 (U_ 0 + 1 / 1000000)) 0 (U_ 0)) 1 (U_ 1 + 1 / 1000000) 1 = U_ 1 + 1 / 1000000 := by
    simp [Function.update_apply]
  have hV2 : Function.update (Function.update (Function.update
      (forLoop 4 (fun i b => Function.update b i (U_ i)) uninit)
      0 (U_ 0 + 1 / 1000000)) 0 (U_ 0)) 1 (U_ 1 + 1 / 1000000) 2 = 0 := by
    simp [Function.update_apply, forLoop_update_apply, h2]
  have hV3 : Function.update (Function.update (Function.update
      (forLoop 4 (fun i b => Function.update b i (U_ i)) uninit)
      0 (U_ 0 + 1 / 1000000)) 0 (U_ 0)) 1 (U_ 1 + 1 / 1000000) 3 = U_ 3 := by
    simp [Function.update_apply, forLoop_update_apply]
  rw [heps]
  generalize Function.update (Function.update (Function.update
      (forLoop 4 (fun i b => Function.update b i (U_ i)) uninit)
      0 (U_ 0 + 1 / 1000000)) 0 (U_ 0)) 1 (U_ 1 + 1 / 1000000) = V at hV0 hV1 hV2 hV3 ⊢
  rw [sample_lagrangian q cos sin tan sqrt hc hs ht _ _ V hV0 hV2
      (by rw [hV1]; linarith) (by rw [hV1]; exact hF1) (by rw [hV3]; exact hF3)
      (by rw [hV3]; exact hF3'),
    compute_lagrangian_single _ _ _ _ _ rfl,
    sample_lagrangian q cos sin tan sqrt hc hs ht _ _ U_ h0 h2 hF (by linarith) hF3 hF3', hV1]


/-- A call of `run` for the sample agent at rest enters the loop without convergence, whatever
state the planner was left in: the squared gradient norm of the initial guess is above the
threshold. -/
theorem sample_not_converged (q : Planner K) (cos sin tan sqrt : K → K) (hc : cos 0 = 1)
    (hs : sin 0 = 0) (ht : tan 0 = 0) :
    (run_loop_entry (sampleConfig cos sin tan sqrt) q [sampleAgent 0 0 0]).convergence
      = false := by
  unfold run_loop_entry solver_init
  simp only
  have hn : (setup (sampleConfig cos sin tan sqrt)
      { q with traffic := [sampleAgent 0 0 0] }).nU_ = 4 := rfl
  rw [hn]
  -- the initial guess
  have hU : ∀ j, (initial_guess (sampleConfig cos sin tan sqrt)
      (setup (sampleConfig cos sin tan sqrt) { q with traffic := [sampleAgent 0 0 0] })
      uninit uninit).2 j = if j = 1 ∨ j = 3 then 3 / 10 else 0 := by
    intro j
    have hM : (setup (sampleConfig cos sin tan sqrt)
      { q with traffic := [sampleAgent 0 0 0] }).M = 1 := rfl
    unfold initial_guess
    simp only [hM]
    rw [forLoop_succ, forLoop_zero]
    have hN : (sampleConfig cos sin tan sqrt).N + 1 = 2 := rfl
    rw [hN, forLoop_succ, forLoop_succ, forLoop_zero]
    unfold initial_guess_step
    simp only [Function.update_apply, nU, d, F, hN, uninit]
    split_ifs <;> first | rfl | (exfalso; omega)
  generalize (initial_guess (sampleConfig cos sin tan sqrt)
      (setup (sampleConfig cos sin tan sqrt) { q with traffic := [sampleAgent 0 0 0] })
      uninit uninit).2 = U0 at hU ⊢
  have hV : ∀ j, (forLoop 4 (fun i (b : (Nat → K) × (Nat → K)) =>
      (Function.update b.1 i (U0 i), Function.update b.2 i (U0 i)))
      ((uninit : Nat → K), (uninit : Nat → K))).2 j = if j = 1 ∨ j = 3 then 3 / 10 else 0 := by
    intro j
    rw [copy_pair_snd, hU]
    split_ifs <;> first | rfl | (exfalso; omega)
  generalize (forLoop 4 (fun i (b : (Nat → K) × (Nat → K)) =>
      (Function.update b.1 i (U0 i), Function.update b.2 i (U0 i)))
      ((uninit : Nat → K), (uninit : Nat → K))).2 = V at hV ⊢
  have h0 : V 0 = 0 := by rw [hV]; simp
  have h1 : V 1 = 3 / 10 := by rw [hV]; simp
  have h2 : V 2 = 0 := by rw [hV]; simp
  have h3 : V 3 = 3 / 10 := by rw [hV]; simp
  have hg := sample_gradient_entry q cos sin tan sqrt hc hs ht uninit V h0 h2
    (by rw [h1]; norm_num) (by rw [h1]; norm_num) (by rw [h3]; norm_num)
    (by rw [h3]; norm_num)
  have hge := gradient_norm_ge (setup (sampleConfig cos sin tan sqrt)
    { q with traffic := [sampleAgent 0 0 0] })
    (compute_gradient (sampleConfig cos sin tan sqrt)
      (setup (sampleConfig cos sin tan sqrt) { q with traffic := [sampleAgent 0 0 0] })
      uninit V) 1 (by show 1 < 4; omega)
  rw [hg, h1] at hge
  have hth : threshold_gradient_norm (setup (sampleConfig cos sin tan sqrt)
      { q with traffic := [sampleAgent 0 0 0] }) = (1 / 100 : K) := by
    show ((1 : Nat) : K) * (1 / 100) = 1 / 100
    simp
  rw [hth, if_neg]
  rw [not_lt]
  refine le_trans ?_ hge
  norm_num


/-- A call of `run` for the sample agent at rest makes at least one outer iteration, and
leaves the penalty above the one it found (for `gamma = 13/10` and a positive penalty). -/
theorem sample_run_rho (q : Planner K) (cos sin tan sqrt : K → K) (hc : cos 0 = 1)
    (hs : sin 0 = 0) (ht : tan 0 = 0) (hq : 0 < q.rho) :
    q.rho < (run (sampleConfig cos sin tan sqrt) q [sampleAgent 0 0 0]).rho := by
  have hnc := sample_not_converged q cos sin tan sqrt hc hs ht
  have hprog := solver_loop_progress (sampleConfig cos sin tan sqrt) 19
    (run_loop_entry (sampleConfig cos sin tan sqrt) q [sampleAgent 0 0 0]) hnc
    (by show 1 < 20; omega)
  have hiter : (run_loop_entry (sampleConfig cos sin tan sqrt) q [sampleAgent 0 0 0]).iter = 1 :=
    rfl
  rw [hiter] at hprog
  rw [run_rho]
  have hne : (solver_loop (sampleConfig cos sin tan sqrt) iter_lim
      (run_loop_entry (sampleConfig cos sin tan sqrt) q [sampleAgent 0 0 0])).iter - 1 ≠ 0 := by
    have : (solver_loop (sampleConfig cos sin tan sqrt) iter_lim
      (run_loop_entry (sampleConfig cos sin tan sqrt) q [sampleAgent 0 0 0])).iter
        = (solver_loop (sampleConfig cos sin tan sqrt) (19 + 1)
      (run_loop_entry (sampleConfig cos sin tan sqrt) q [sampleAgent 0 0 0])).iter := rfl
    omega
  have hg : (1 : K) < (sampleConfig cos sin tan sqrt).gamma := by
    show (1 : K) < 13 / 10
    norm_num
  have hpow := one_lt_pow₀ hg hne
  calc q.rho = 1 * q.rho := (one_mul _).symm
    _ < _ := mul_lt_mul_of_pos_right hpow hq

end Example

section EulerStep

variable {K : Type} [LinearOrderedField K]

/-! ## The Euler step of `integrate`, component by component -/

theorem euler_update_components (cfg : Config K) (st ds : Nat → K) :
    euler_update cfg st ds x = st x + cfg.dt * ds x ∧
    euler_update cfg st ds y = st y + cfg.dt * ds y ∧
    euler_update cfg st ds v = max 0 (st v + cfg.dt * ds v) ∧
    euler_update cfg st ds psi = st psi + cfg.dt * ds psi ∧
    euler_update cfg st ds s = st s + cfg.dt * ds s ∧
    euler_update cfg st ds l = st l + cfg.dt * ds l := by
  unfold euler_update
  simp only [x, y, v, psi, s, l]
  refine ⟨?_, ?_, ?_, ?_, ?_, ?_⟩ <;> split_ifs with h <;>
    simp [Function.update_apply] at h ⊢
  all_goals first | exact h | exact (le_of_lt h)

theorem dynamic_step_components (cfg : Config K) (d0 st ref u : Nat → K) :
    dynamic_step cfg d0 st ref u x = st v * cfg.cos (st psi + cfg.cg_ratio * u d) ∧
    dynamic_step cfg d0 st ref u y = st v * cfg.sin (st psi + cfg.cg_ratio * u d) ∧
    dynamic_step cfg d0 st ref u v = (-1 / cfg.tau) * st v + cfg.k * u F ∧
    dynamic_step cfg d0 st ref u psi
      = st v * cfg.tan (u d) * cfg.cos (cfg.cg_ratio * u d) / cfg.length ∧
    dynamic_step cfg d0 st ref u s = st v ∧
    dynamic_step cfg d0 st ref u l
      = cfg.weight_target_speed * (st v - ref v) * (st v - ref v)
        + cfg.weight_center_lane * ((ref x - st x) * (ref x - st x)
            + (ref y - st y) * (ref y - st y))
        + cfg.weight_heading * ((cfg.cos (ref psi) - cfg.cos (st psi))
              * (cfg.cos (ref psi) - cfg.cos (st psi))
            + (cfg.sin (ref psi) - cfg.sin (st psi))
              * (cfg.sin (ref psi) - cfg.sin (st psi)))
        + cfg.weight_input * u F * u F := by
  unfold dynamic_step
  simp [Function.update_apply, x, y, v, psi, s, l]

theorem reference_state_components (cfg : Config K) (tr : TrafficParticipant K) (j : Nat)
    (st : Nat → K) :
    reference_state cfg tr j st x = tr.centerlane.spline_x (st s) ∧
    reference_state cfg tr j st y = tr.centerlane.spline_y (st s) ∧
    reference_state cfg tr j st psi = tr.centerlane.compute_heading (st s) ∧
    reference_state cfg tr j st v = tr.v + (j : K) * (tr.v_target - tr.v) / (cfg.N : K) := by
  unfold reference_state
  simp [Function.update_apply, x, y, v, psi, s]

theorem control_at_components (U_ : Nat → K) (tu : Nat) :
    control_at U_ tu d = U_ (tu + d) ∧ control_at U_ tu F = U_ (tu + F) := by
  unfold control_at
  simp [Function.update_apply, d, F]

/-- One pass of the inner loop of `integrate` is the Euler step of the spec. -/
theorem euler_step_component (cfg : Config K) (tr : TrafficParticipant K) (U_ : Nat → K)
    (tu j : Nat) (st st' : Nat → K) (hst : ∀ c, c < nX → st c = st' c) (c : Nat) (hc : c < nX) :
    euler_update cfg st
        (dynamic_step cfg uninit st (reference_state cfg tr j st) (control_at U_ tu)) c
      = reference_euler_step cfg tr j st' (U_ (tu + d)) (U_ (tu + F)) c := by
  obtain ⟨e1, e2, e3, e4, e5, e6⟩ := euler_update_components cfg st
    (dynamic_step cfg uninit st (reference_state cfg tr j st) (control_at U_ tu))
  obtain ⟨d1, d2, d3, d4, d5, d6⟩ := dynamic_step_components cfg uninit st
    (reference_state cfg tr j st) (control_at U_ tu)
  obtain ⟨r1, r2, r3, r4⟩ := reference_state_components cfg tr j st
  obtain ⟨u1, u2⟩ := control_at_components U_ tu
  have h0 : st' x = st x := (hst 0 (by decide)).symm
  have h1 : st' y = st y := (hst 1 (by decide)).symm
  have h2 : st' v = st v := (hst 2 (by decide)).symm
  have h3 : st' psi = st psi := (hst 3 (by decide)).symm
  have h4 : st' s = st s := (hst 4 (by decide)).symm
  have h5 : st' l = st l := (hst 5 (by decide)).symm
  unfold reference_euler_step
  simp only [h0, h1, h2, h3, h4, h5]
  have hcases : c = x ∨ c = y ∨ c = v ∨ c = psi ∨ c = s ∨ c = l := by
    simp only [nX] at hc
    simp only [x, y, v, psi, s, l]
    omega
  rcases hcases with rfl | rfl | rfl | rfl | rfl | rfl
  · rw [e1, d1, u1, if_pos rfl]
  · rw [e2, d2, u1, if_neg (by decide), if_pos rfl]
  · rw [e3, d3, u2, if_neg (by decide), if_neg (by decide), if_pos rfl]
    congr 2
    ring
  · rw [e4, d4, u1, if_neg (by decide), if_neg (by decide), if_neg (by decide), if_pos rfl]
  · rw [e5, d5, if_neg (by decide), if_neg (by decide), if_neg (by decide),
      if_neg (by decide), if_pos rfl]
  · rw [e6, d6, r1, r2, r3, r4, u2, if_neg (by decide), if_neg (by decide),
      if_neg (by decide), if_neg (by decide), if_neg (by decide)]
    ring

theorem initial_state_components (tr : TrafficParticipant K) (c : Nat) (hc : c < nX) :
    initial_state tr c = measured_pose tr c := by
  unfold initial_state measured_pose
  simp only [nX] at hc
  interval_cases c <;> simp [Function.update_apply, x, y, v, psi, s, l]

end EulerStep

section Subproblem

variable {K : Type} [LinearOrderedField K]

/-! ## The trust-region subproblem -/

theorem dot_smul_smul (n : Nat) (c e : K) (a b : Nat → K) :
    dot n (fun i => c * a i) (fun i => e * b i) = c * e * dot n a b := by
  unfold dot
  rw [Finset.mul_sum]
  exact Finset.sum_congr rfl (fun i _ => by ring)

theorem vecMul_smul (n : Nat) (c : K) (a : Nat → K) (H : Nat → Nat → K) (j : Nat) :
    vecMul n (fun i => c * a i) H j = c * vecMul n a H j := by
  unfold vecMul
  rw [Finset.mul_sum]
  exact Finset.sum_congr rfl (fun i _ => by ring)

theorem dot_self_nonneg (n : Nat) (a : Nat → K) : 0 ≤ dot n a a :=
  Finset.sum_nonneg (fun i _ => mul_self_nonneg (a i))

theorem dot_self_pos (n : Nat) (a : Nat → K) (h : ∃ i, i < n ∧ a i ≠ 0) : 0 < dot n a a := by
  obtain ⟨i, hi, hne⟩ := h
  unfold dot
  exact Finset.sum_pos' (fun j _ => mul_self_nonneg (a j))
    ⟨i, Finset.mem_range.mpr hi, mul_self_pos.mpr hne⟩

/-- A square root is determined by its two properties. -/
theorem sqrt_unique (sqrt : K → K)
    (hsqrt : ∀ z, 0 ≤ z → 0 ≤ sqrt z ∧ sqrt z * sqrt z = z) (z w : K) (hw : 0 ≤ w)
    (hz : w * w = z) : sqrt z = w := by
  have h0 : 0 ≤ z := hz ▸ mul_self_nonneg w
  obtain ⟨h1, h2⟩ := hsqrt z h0
  exact (mul_self_inj_of_nonneg h1 hw).mp (h2.trans hz.symm)

/-- The value of the model on the ray `p = c * g`. -/
theorem quadratic_model_ray (n : Nat) (g : Nat → K) (H : Nat → Nat → K) (c : K) :
    quadratic_model n g H (fun i => c * g i)
      = c * dot n g g + (1 / 2) * (c * c) * dot n (vecMul n g H) g := by
  unfold quadratic_model
  have h1 : dot n g (fun i => c * g i) = c * dot n g g := by
    have := dot_smul_smul n 1 c g g
    simpa using this
  have h2 : dot n (vecMul n (fun i => c * g i) H) (fun i => c * g i)
      = c * c * dot n (vecMul n g H) g := by
    rw [show vecMul n (fun i => c * g i) H = fun j => c * vecMul n g H j from
      funext (vecMul_smul n c g H)]
    exact dot_smul_smul n c c _ g
  rw [h1, h2]
  ring

/-- The factor `tau` of `quadratic_problem_solver`. -/
theorem quadratic_problem_solver_eq (cfg : Config K) (G_ : Nat → K) (H_ : Nat → Nat → K)
    (Delta : K) (i : Nat) :
    quadratic_problem_solver cfg G_ H_ Delta i
      = (if dot cfg.nu (vecMul cfg.nu G_ H_) G_ ≤ 0 then 1
          else min (cfg.sqrt (dot cfg.nu G_ G_) ^ 3
            / (Delta * dot cfg.nu (vecMul cfg.nu G_ H_) G_)) 1)
        * (-Delta * (G_ i / cfg.sqrt (dot cfg.nu G_ G_))) := by
  unfold quadratic_problem_solver
  simp only [pow_succ, pow_zero, one_mul]

theorem subproblem_tau (n b Delta : K) (hn : 0 < n) (hD : 0 < Delta) :
    0 < (if b ≤ 0 then (1 : K) else min (n ^ 3 / (Delta * b)) 1) ∧
    (if b ≤ 0 then (1 : K) else min (n ^ 3 / (Delta * b)) 1) ≤ 1 := by
  split_ifs with hb
  · exact ⟨one_pos, le_refl _⟩
  · have hb' : 0 < b := not_le.mp hb
    exact ⟨lt_min (div_pos (pow_pos hn 3) (mul_pos hD hb')) one_pos, min_le_right _ _⟩

/-- The step is a multiple of the gradient, and its norm is `tau * Delta`. -/
theorem quadratic_problem_solver_norm (cfg : Config K) (G_ : Nat → K) (H_ : Nat → Nat → K)
    (Delta : K) (hsqrt : ∀ z, 0 ≤ z → 0 ≤ cfg.sqrt z ∧ cfg.sqrt z * cfg.sqrt z = z)
    (hg : ∃ i, i < cfg.nu ∧ G_ i ≠ 0) (hD : 0 < Delta) :
    0 < cfg.sqrt (dot cfg.nu G_ G_) ∧
    quadratic_problem_solver cfg G_ H_ Delta
      = (fun i => -((if dot cfg.nu (vecMul cfg.nu G_ H_) G_ ≤ 0 then 1
          else min (cfg.sqrt (dot cfg.nu G_ G_) ^ 3
            / (Delta * dot cfg.nu (vecMul cfg.nu G_ H_) G_)) 1)
          * Delta / cfg.sqrt (dot cfg.nu G_ G_)) * G_ i) ∧
    cfg.sqrt (dot cfg.nu (quadratic_problem_solver cfg G_ H_ Delta)
        (quadratic_problem_solver cfg G_ H_ Delta))
      = (if dot cfg.nu (vecMul cfg.nu G_ H_) G_ ≤ 0 then 1
          else min (cfg.sqrt (dot cfg.nu G_ G_) ^ 3
            / (Delta * dot cfg.nu (vecMul cfg.nu G_ H_) G_)) 1) * Delta := by
  have ha := dot_self_pos cfg.nu G_ hg
  obtain ⟨hn0, hnn⟩ := hsqrt _ (le_of_lt ha)
  have hn : 0 < cfg.sqrt (dot cfg.nu G_ G_) := by
    rcases eq_or_lt_of_le hn0 with h | h
    · rw [← h] at hnn
      simp only [mul_zero] at hnn
      exact absurd hnn (ne_of_lt ha)
    · exact h
  obtain ⟨ht0, _⟩ := subproblem_tau (cfg.sqrt (dot cfg.nu G_ G_))
    (dot cfg.nu (vecMul cfg.nu G_ H_) G_) Delta hn hD
  have hs : quadratic_problem_solver cfg G_ H_ Delta
      = (fun i => -((if dot cfg.nu (vecMul cfg.nu G_ H_) G_ ≤ 0 then 1
          else min (cfg.sqrt (dot cfg.nu G_ G_) ^ 3
            / (Delta * dot cfg.nu (vecMul cfg.nu G_ H_) G_)) 1)
          * Delta / cfg.sqrt (dot cfg.nu G_ G_)) * G_ i) := by
    funext i
    rw [quadratic_problem_solver_eq]
    ring
  refine ⟨hn, hs, ?_⟩
  generalize (if dot cfg.nu (vecMul cfg.nu G_ H_) G_ ≤ 0 then (1 : K)
      else min (cfg.sqrt (dot cfg.nu G_ G_) ^ 3
        / (Delta * dot cfg.nu (vecMul cfg.nu G_ H_) G_)) 1) = tau at hs ht0 ⊢
  rw [hs]
  apply sqrt_unique cfg.sqrt hsqrt
  · exact mul_nonneg (le_of_lt ht0) (le_of_lt hD)
  · rw [dot_smul_smul]
    generalize cfg.sqrt (dot cfg.nu G_ G_) = n at hnn hn
    rw [← hnn]
    field_simp

theorem ray_min_boundary (a b T t : K) (ht : t ≤ T) (h : b * (T + t) ≤ 2 * a) :
    -T * a + 1 / 2 * (T * T) * b ≤ -t * a + 1 / 2 * (t * t) * b := by
  nlinarith [mul_nonneg (sub_nonneg.mpr ht) (sub_nonneg.mpr h)]

theorem ray_min_interior (q b t : K) (hb : 0 ≤ b) :
    -q * (q * b) + 1 / 2 * (q * q) * b ≤ -t * (q * b) + 1 / 2 * (t * t) * b := by
  nlinarith [mul_nonneg hb (mul_self_nonneg (t - q))]

/-- Along the ray `-t * g`, `0 ≤ t ≤ Delta / n` with `n * n = a`, the model
`-t a + t² b / 2` is least at `t = tau * Delta / n`. -/
theorem ray_min (a b n Delta t : K) (hn : 0 < n) (hnn : n * n = a) (hD : 0 < Delta)
    (ht0 : 0 ≤ t) (ht : t * n ≤ Delta) :
    -((if b ≤ 0 then (1 : K) else min (n ^ 3 / (Delta * b)) 1) * Delta / n) * a
        + 1 / 2 * (-((if b ≤ 0 then (1 : K) else min (n ^ 3 / (Delta * b)) 1) * Delta / n)
          * -((if b ≤ 0 then (1 : K) else min (n ^ 3 / (Delta * b)) 1) * Delta / n)) * b
      ≤ -t * a + 1 / 2 * (-t * -t) * b := by
  have ha : 0 < a := hnn ▸ mul_pos hn hn
  have hT : t ≤ Delta / n := (le_div_iff₀ hn).mpr ht
  have hT0 : 0 < Delta / n := div_pos hD hn
  rw [neg_mul_neg, neg_mul_neg]
  split_ifs with hb
  · rw [one_mul]
    apply ray_min_boundary a b (Delta / n) t hT
    have : b * (Delta / n + t) ≤ 0 :=
      mul_nonpos_of_nonpos_of_nonneg hb (add_nonneg (le_of_lt hT0) ht0)
    linarith
  · have hb' : 0 < b := not_le.mp hb
    rcases le_total (n ^ 3 / (Delta * b)) 1 with h1 | h1
    · rw [min_eq_left h1]
      have e : n ^ 3 / (Delta * b) * Delta / n = a / b := by
        rw [← hnn]
        field_simp
        ring
      rw [e]
      have e2 : a / b * b = a := div_mul_cancel₀ a (ne_of_gt hb')
      have := ray_min_interior (a / b) b t (le_of_lt hb')
      rw [e2] at this
      exact this
    · rw [min_eq_right h1, one_mul]
      apply ray_min_boundary a b (Delta / n) t hT
      have h2 : Delta * b ≤ n ^ 3 := by
        have := (le_div_iff₀ (mul_pos hD hb')).mp h1
        linarith
      have h3 : b * (Delta / n) ≤ a := by
        rw [← hnn, mul_div_assoc', div_le_iff₀ hn]
        calc b * Delta = Delta * b := mul_comm _ _
          _ ≤ n ^ 3 := h2
          _ = n * n * n := by ring
      have h4 : b * t ≤ b * (Delta / n) := mul_le_mul_of_nonneg_left hT (le_of_lt hb')
      linarith

end Subproblem

section Lagrangian

variable {K : Type} [LinearOrderedField K]

/-! ## The augmented Lagrangian -/

/-- A loop that adds up is a sum. -/
theorem forLoop_sum (n : Nat) (f : Nat → K) (c : K) :
    forLoop n (fun k acc => acc + f k) c = c + ∑ k ∈ Finset.range n, f k := by
  induction n with
  | zero => simp
  | succ m ih => rw [forLoop_succ, ih, Finset.sum_range_succ, add_assoc]

/-- The augmented Lagrangian of one agent as a sum. -/
theorem compute_lagrangian_vehicle_i_sum (p : Planner K) (cost_i : K) (constraints_i : Nat → K)
    (i : Nat) :
    compute_lagrangian_vehicle_i p cost_i constraints_i i
      = cost_i + ∑ k ∈ Finset.range p.nC_i,
          ((1 / 2) * p.rho * max 0 (constraints_i k) * max 0 (constraints_i k)
            + p.lagrangian_multipliers (i * p.nC_i + k) * constraints_i k) := by
  unfold compute_lagrangian_vehicle_i
  exact forLoop_sum p.nC_i _ cost_i

/-- Only the entries below `nC_i` of `constraints_i` are read. -/
theorem compute_lagrangian_vehicle_i_congr (p : Planner K) (cost_i : K) (C C' : Nat → K)
    (i : Nat) (h : ∀ k, k < p.nC_i → C k = C' k) :
    compute_lagrangian_vehicle_i p cost_i C i = compute_lagrangian_vehicle_i p cost_i C' i := by
  rw [compute_lagrangian_vehicle_i_sum, compute_lagrangian_vehicle_i_sum]
  congr 1
  exact Finset.sum_congr rfl (fun k hk => by rw [h k (Finset.mem_range.mp hk)])

/-- Every entry below `nC_i` is stored by `compute_constraints_vehicle_i`, whatever the buffer
held before. -/
theorem compute_constraints_vehicle_i_buffer (cfg : Config K) (p : Planner K)
    (c0 c1 X_ U_ : Nat → K) (i : Nat) (hi : i < p.M)
    (hC : p.nC_i = 2 * nU * (cfg.N + 1) + (cfg.N + 1) * (p.M - 1) + (cfg.N + 1))
    (k : Nat) (hk : k < p.nC_i) :
    compute_constraints_vehicle_i cfg p c0 X_ U_ i k
      = compute_constraints_vehicle_i cfg p c1 X_ U_ i k := by
  obtain ⟨w, hmem, hw1⟩ := List.mem_map.mp
    (constraint_stores_cover cfg p X_ U_ i hi k (by rw [← hC]; exact hk))
  rw [← hw1, compute_constraints_vehicle_i_apply cfg p c0 X_ U_ i hi w hmem,
    compute_constraints_vehicle_i_apply cfg p c1 X_ U_ i hi w hmem]

/-- The entries of `lagrangian` after `m` passes of the loop of `compute_lagrangian`. -/
theorem compute_lagrangian_loop (cfg : Config K) (p : Planner K) (L0 X_ U_ : Nat → K)
    (hC : p.nC_i = 2 * nU * (cfg.N + 1) + (cfg.N + 1) * (p.M - 1) + (cfg.N + 1)) (m : Nat)
    (hm : m ≤ p.M) (i : Nat) :
    (forLoop m (compute_lagrangian_pass cfg p X_ U_) (L0, uninit)).1 i
      = if i < m then
          compute_lagrangian_vehicle_i p (compute_cost_vehicle_i cfg X_ i)
            (compute_constraints_vehicle_i cfg p uninit X_ U_ i) i
        else L0 i := by
  induction m with
  | zero => simp
  | succ n ih =>
    rw [forLoop_succ]
    show Function.update (forLoop n (compute_lagrangian_pass cfg p X_ U_) (L0, uninit)).1 n
      (compute_lagrangian_vehicle_i p (compute_cost_vehicle_i cfg X_ n)
        (compute_constraints_vehicle_i cfg p
          (forLoop n (compute_lagrangian_pass cfg p X_ U_) (L0, uninit)).2 X_ U_ n) n) i = _
    rw [Function.update_apply]
    by_cases h : i = n
    · subst h
      rw [if_pos rfl, if_pos (Nat.lt_succ_self _)]
      exact compute_lagrangian_vehicle_i_congr p _ _ _ i
        (fun k hk => compute_constraints_vehicle_i_buffer cfg p _ _ X_ U_ i (by omega) hC k hk)
    · rw [if_neg h, ih (by omega)]
      by_cases h2 : i < n
      · rw [if_pos h2, if_pos (by omega)]
      · rw [if_neg h2, if_neg (by omega)]

/-- The entry of agent `i` that `compute_lagrangian` stores. -/
theorem compute_lagrangian_apply (cfg : Config K) (p : Planner K) (L0 X_ U_ : Nat → K)
    (hC : p.nC_i = 2 * nU * (cfg.N + 1) + (cfg.N + 1) * (p.M - 1) + (cfg.N + 1)) (i : Nat)
    (hi : i < p.M) :
    compute_lagrangian cfg p L0 X_ U_ i
      = compute_lagrangian_vehicle_i p (compute_cost_vehicle_i cfg X_ i)
          (compute_constraints_vehicle_i cfg p uninit X_ U_ i) i := by
  unfold compute_lagrangian
  rw [compute_lagrangian_loop cfg p L0 X_ U_ hC p.M (le_refl _) i, if_pos hi]

end Lagrangian

section Locality

variable {K : Type} [LinearOrderedField K]

/-! ## What the Lagrangian of an agent reads -/

theorem slice_lt (B i M r : Nat) (hi : i < M) (hr : r < B) : B * i + r < B * M :=
  calc B * i + r < B * i + B := Nat.add_lt_add_left hr _
    _ = B * (i + 1) := (Nat.mul_succ B i).symm
    _ ≤ B * M := Nat.mul_le_mul_left B hi

/-- The running state of agent `i` depends on the controls of agent `i` only. -/
theorem agent_state_congr (cfg : Config K) (tr : TrafficParticipant K) (V V' : Nat → K)
    (i n : Nat) (hn : n ≤ cfg.N + 1)
    (hV : ∀ j, j ≤ cfg.N →
      V' (nU * (cfg.N + 1) * i + nU * j + d) = V (nU * (cfg.N + 1) * i + nU * j + d) ∧
      V' (nU * (cfg.N + 1) * i + nU * j + F) = V (nU * (cfg.N + 1) * i + nU * j + F)) :
    agent_state cfg tr V' i n = agent_state cfg tr V i n := by
  induction n with
  | zero => simp only [agent_state, forLoop_zero]
  | succ m ih =>
    have hc : control_at V' (nU * (cfg.N + 1) * i + nU * m)
        = control_at V (nU * (cfg.N + 1) * i + nU * m) := by
      unfold control_at
      rw [(hV m (by omega)).1, (hV m (by omega)).2]
    have e1 := agent_state_succ cfg tr V' i m
    have e2 := agent_state_succ cfg tr V i m
    rw [ih (by omega), hc] at e1
    exact e1.trans e2.symm

/-- Controls that agree below `nU * (N + 1) * M` give the same trajectory, whatever the buffer
held before. -/
theorem integrate_congr (cfg : Config K) (p : Planner K) (X0 X1 V V' : Nat → K)
    (hV : ∀ a, a < nU * (cfg.N + 1) * p.M → V' a = V a) (i j c : Nat) (hi : i < p.M)
    (hj : j ≤ cfg.N) (hc : c < nX) :
    integrate cfg p X0 V' (nX * (cfg.N + 1) * i + nX * j + c)
      = integrate cfg p X1 V (nX * (cfg.N + 1) * i + nX * j + c) := by
  rw [integrate_apply cfg p X0 V' i j c hi hj hc, integrate_apply cfg p X1 V i j c hi hj hc,
    agent_state_congr cfg (p.agent i) V V' i (j + 1) (by omega)]
  intro k hk
  have h1 : nU * k + d < nU * (cfg.N + 1) := by simp only [nU, d]; omega
  have h2 : nU * k + F < nU * (cfg.N + 1) := by simp only [nU, F]; omega
  constructor
  · rw [Nat.add_assoc]
    exact hV _ (slice_lt _ i p.M _ hi h1)
  · rw [Nat.add_assoc]
    exact hV _ (slice_lt _ i p.M _ hi h2)

/-- The stores of `compute_constraints_vehicle_i` read the trajectory at the entries of the
agents and the controls below `nU * (N + 1) * M` only. -/
theorem constraint_stores_congr (cfg : Config K) (p : Planner K) (X X' V V' : Nat → K)
    (hnx : cfg.nx = nX * (cfg.N + 1))
    (hX : ∀ i j c, i < p.M → j ≤ cfg.N → c < nX →
      X' (nX * (cfg.N + 1) * i + nX * j + c) = X (nX * (cfg.N + 1) * i + nX * j + c))
    (hV : ∀ a, a < nU * (cfg.N + 1) * p.M → V' a = V a) (i : Nat) (hi : i < p.M) :
    constraint_stores cfg p X' V' i = constraint_stores cfg p X V i := by
  rw [constraint_stores_eq, constraint_stores_eq]
  congr 1
  · congr 1
    · apply List.flatMap_congr
      intro k hk
      have hk' : k ≤ cfg.N := by have := List.mem_range.mp hk; omega
      have h1 : nU * k + d < nU * (cfg.N + 1) := by simp only [nU, d]; omega
      have h2 : nU * k + F < nU * (cfg.N + 1) := by simp only [nU, F]; omega
      have e1 : V' (nU * (cfg.N + 1) * i + nU * k + d) = V (nU * (cfg.N + 1) * i + nU * k + d) := by
        rw [Nat.add_assoc]
        exact hV _ (slice_lt _ i p.M _ hi h1)
      have e2 : V' (nU * (cfg.N + 1) * i + nU * k + F) = V (nU * (cfg.N + 1) * i + nU * k + F) := by
        rw [Nat.add_assoc]
        exact hV _ (slice_lt _ i p.M _ hi h2)
      unfold input_stores
      simp only [e1, e2]
    · apply List.flatMap_congr
      intro k hk
      have hk' : k < p.M := List.mem_range.mp hk
      by_cases hki : k ≠ i
      · rw [if_pos hki, if_pos hki]
        apply List.map_congr_left
        intro j hj
        have hj' : j ≤ cfg.N := by have := List.mem_range.mp hj; omega
        rw [compute_squared_distances_vector_apply cfg uninit X' i k j hj',
          compute_squared_distances_vector_apply cfg uninit X i k j hj', hnx,
          hX i j x hi hj' (by decide), hX i j y hi hj' (by decide),
          hX k j x hk' hj' (by decide), hX k j y hk' hj' (by decide)]
      · rw [if_neg hki, if_neg hki]
  · apply List.map_congr_left
    intro j hj
    have hj' : j ≤ cfg.N := by have := List.mem_range.mp hj; omega
    rw [compute_squared_lateral_distance_vector_apply cfg p uninit X' i j hj',
      compute_squared_lateral_distance_vector_apply cfg p uninit X i j hj']
    unfold lane_dist2
    rw [hnx, hX i j x hi hj' (by decide), hX i j y hi hj' (by decide),
      hX i j s hi hj' (by decide)]

/-- The Lagrangian of agent `i` that a pass evaluates does not depend on what its buffers
held before, and reads the controls below `nU * (N + 1) * M` only. -/
theorem lagrangian_of_buffers (cfg : Config K) (p : Planner K) (X0 c0 V V' : Nat → K)
    (hnx : cfg.nx = nX * (cfg.N + 1))
    (hC : p.nC_i = 2 * nU * (cfg.N + 1) + (cfg.N + 1) * (p.M - 1) + (cfg.N + 1))
    (hV : ∀ a, a < nU * (cfg.N + 1) * p.M → V' a = V a) (i : Nat) (hi : i < p.M) :
    compute_lagrangian_vehicle_i p (compute_cost_vehicle_i cfg (integrate cfg p X0 V') i)
        (compute_constraints_vehicle_i cfg p c0 (integrate cfg p X0 V') V' i) i
      = lagrangian_of cfg p V i := by
  unfold lagrangian_of
  have hX : ∀ i j c, i < p.M → j ≤ cfg.N → c < nX →
      integrate cfg p X0 V' (nX * (cfg.N + 1) * i + nX * j + c)
        = integrate cfg p uninit V (nX * (cfg.N + 1) * i + nX * j + c) :=
    fun i j c hi hj hc => integrate_congr cfg p X0 uninit V V' hV i j c hi hj hc
  generalize integrate cfg p X0 V' = X' at hX ⊢
  generalize integrate cfg p uninit V = X at hX ⊢
  have hcost : compute_cost_vehicle_i cfg X' i = compute_cost_vehicle_i cfg X i := by
    unfold compute_cost_vehicle_i
    rw [hnx, hX i cfg.N l hi (le_refl _) (by decide)]
  rw [hcost]
  apply compute_lagrangian_vehicle_i_congr
  intro k hk
  rw [compute_constraints_vehicle_i_buffer cfg p c0 uninit X' V' i hi hC k hk]
  unfold compute_constraints_vehicle_i
  rw [constraint_stores_congr cfg p X X' V V' hnx hX hV i hi]

end Locality

section StoreRange

variable {K : Type}

/-- Stores at the indices `0, 1, ..., n - 1`, one each. -/
theorem store_all_range (g0 : Nat → K) (f : Nat → K) (n a : Nat) :
    store_all g0 ((List.range n).map (fun a => (a, f a))) a = if a < n then f a else g0 a := by
  unfold store_all
  induction n with
  | zero => simp
  | succ k ih =>
    rw [List.range_succ, List.map_append, List.foldl_append, List.map_singleton,
      List.foldl_cons, List.foldl_nil, Function.update_apply, ih]
    by_cases h : a = k
    · subst h; simp
    · rw [if_neg h]
      by_cases h2 : a < k
      · rw [if_pos h2, if_pos (by omega)]
      · rw [if_neg h2, if_neg (by omega)]

end StoreRange

section Workers

variable {K : Type} [LinearOrderedField K]

/-! ## The workers of `compute_gradient` -/

/-- Full blocks of `w` indices, one after the other. -/
theorem range_blocks (w m : Nat) :
    (List.range m).flatMap (fun t => List.range' (t * w) w) = List.range (m * w) := by
  induction m with
  | zero => simp
  | succ k ih =>
    have h := List.range'_append_1 0 (k * w) w
    rw [Nat.zero_add] at h
    rw [List.range_succ, List.flatMap_append, ih, List.flatMap_singleton,
      List.range_eq_range', List.range_eq_range', h, Nat.succ_mul, Nat.add_comm]

/-- The ranges of the workers, one after the other, are the range of all indices. -/
theorem worker_ranges (n T : Nat) (hT : 1 ≤ T) :
    (List.range T).flatMap
        (fun t => List.range' (start_index n T t) (end_index n T t - start_index n T t))
      = List.range n := by
  obtain ⟨T', rfl⟩ : ∃ T', T = T' + 1 := ⟨T - 1, by omega⟩
  have hle : T' * (n / (T' + 1)) ≤ n := by
    have h := Nat.div_mul_le_self n (T' + 1)
    rw [Nat.mul_succ] at h
    rw [Nat.mul_comm]
    exact le_trans (Nat.le_add_right _ _) h
  rw [List.range_succ, List.flatMap_append, List.flatMap_singleton]
  have hfirst : (List.range T').flatMap
      (fun t => List.range' (start_index n (T' + 1) t)
        (end_index n (T' + 1) t - start_index n (T' + 1) t))
      = (List.range T').flatMap (fun t => List.range' (t * (n / (T' + 1))) (n / (T' + 1))) := by
    apply List.flatMap_congr
    intro t ht
    have ht' : t ≠ T' + 1 - 1 := by have := List.mem_range.mp ht; omega
    unfold end_index start_index work_per_thread
    rw [if_neg ht', Nat.add_sub_cancel_left]
  rw [hfirst, range_blocks]
  unfold end_index start_index work_per_thread
  have h := List.range'_append_1 0 (T' * (n / (T' + 1))) (n - T' * (n / (T' + 1)))
  rw [Nat.zero_add, Nat.sub_add_cancel hle] at h
  simp only [Nat.add_sub_cancel, if_true]
  rw [List.range_eq_range', List.range_eq_range', h]

/-- A worker stores once at every index of its range, in order, whatever it computes. -/
theorem computeGradient_indices (cfg : Config K) (p : Planner K) (U_ : Nat → K)
    (start stop : Nat) :
    (computeGradient cfg p U_ start stop).map Prod.fst = List.range' start (stop - start) := by
  have h : ∀ n (w0 : WorkerState K),
      (forLoop n (fun k => computeGradient_pass cfg p U_
        (compute_lagrangian cfg p uninit (integrate cfg p uninit U_) U_) (start + k)) w0).stores.map
        Prod.fst = w0.stores.map Prod.fst ++ List.range' start n := by
    intro n w0
    induction n with
    | zero => simp
    | succ k ih =>
      rw [forLoop_succ, computeGradient_pass_stores, List.map_append, ih, List.range'_1_concat,
        List.append_assoc]
      rfl
  exact h (stop - start) _

/-- The stores of all workers: one flat list, worker by worker. -/
theorem gradient_stores_flatMap (cfg : Config K) (p : Planner K) (U_ : Nat → K) :
    gradient_stores cfg p U_
      = (List.range cfg.num_threads).flatMap (fun t =>
          computeGradient cfg p U_ (start_index p.nU_ cfg.num_threads t)
            (end_index p.nU_ cfg.num_threads t)) := by
  have h := forLoop_append cfg.num_threads (fun t =>
    computeGradient cfg p U_ (start_index p.nU_ cfg.num_threads t)
      (end_index p.nU_ cfg.num_threads t)) []
  rw [List.nil_append] at h
  exact h

/-- With at least one worker every index below `nU_` is stored at exactly once, in order. -/
theorem gradient_stores_indices (cfg : Config K) (p : Planner K) (U_ : Nat → K)
    (hT : 1 ≤ cfg.num_threads) :
    (gradient_stores cfg p U_).map Prod.fst = List.range p.nU_ := by
  rw [gradient_stores_flatMap, List.map_flatMap, ← worker_ranges p.nU_ cfg.num_threads hT]
  exact List.flatMap_congr (fun t _ => computeGradient_indices cfg p U_ _ _)

/-- The end of the range of a worker is not beyond `nU_`. -/
theorem end_index_le (n T t : Nat) (ht : t < T) : end_index n T t ≤ n := by
  unfold end_index start_index work_per_thread
  split_ifs with h
  · exact le_refl _
  · have h1 : t + 1 ≤ T := ht
    have h2 := Nat.div_mul_le_self n T
    calc t * (n / T) + n / T = (t + 1) * (n / T) := (Nat.succ_mul _ _).symm
      _ ≤ T * (n / T) := Nat.mul_le_mul_right _ h1
      _ = n / T * T := Nat.mul_comm _ _
      _ ≤ n := h2

/-- What a worker stores: at every index of its range the forward difference of the Lagrangian
of the owner of the index. -/
theorem computeGradient_eq (cfg : Config K) (p : Planner K) (U_ : Nat → K)
    (hnx : cfg.nx = nX * (cfg.N + 1)) (hnu : cfg.nu = nU * (cfg.N + 1))
    (hC : p.nC_i = 2 * nU * (cfg.N + 1) + (cfg.N + 1) * (p.M - 1) + (cfg.N + 1))
    (hU : p.nU_ = nU * (cfg.N + 1) * p.M) (start stop : Nat) (hs : stop ≤ p.nU_) :
    computeGradient cfg p U_ start stop
      = (List.range' start (stop - start)).map (fun a => (a, forward_difference cfg p U_ a)) := by
  have hcopy : ∀ b, b < p.nU_ →
      forLoop p.nU_ (fun i b => Function.update b i (U_ i)) (uninit : Nat → K) b = U_ b := by
    intro b hb
    rw [forLoop_update_apply, if_pos hb]
  have h : ∀ n, start + n ≤ p.nU_ →
      (forLoop n (fun k => computeGradient_pass cfg p U_
        (compute_lagrangian cfg p uninit (integrate cfg p uninit U_) U_) (start + k))
        ⟨forLoop p.nU_ (fun i b => Function.update b i (U_ i)) uninit, uninit, uninit, []⟩).dU
        = forLoop p.nU_ (fun i b => Function.update b i (U_ i)) uninit ∧
      (forLoop n (fun k => computeGradient_pass cfg p U_
        (compute_lagrangian cfg p uninit (integrate cfg p uninit U_) U_) (start + k))
        ⟨forLoop p.nU_ (fun i b => Function.update b i (U_ i)) uninit, uninit, uninit, []⟩).stores
        = (List.range' start n).map (fun a => (a, forward_difference cfg p U_ a)) := by
    intro n
    induction n with
    | zero => intro _; exact ⟨rfl, rfl⟩
    | succ k ih =>
      intro hk
      obtain ⟨ih1, ih2⟩ := ih (by omega)
      have ha : start + k < p.nU_ := by omega
      have hidx : (start + k) / cfg.nu < p.M := by
        rw [hnu]
        apply Nat.div_lt_of_lt_mul
        rw [← hU]
        exact ha
      rw [forLoop_succ]
      generalize forLoop k (fun k => computeGradient_pass cfg p U_
        (compute_lagrangian cfg p uninit (integrate cfg p uninit U_) U_) (start + k))
        ⟨forLoop p.nU_ (fun i b => Function.update b i (U_ i)) uninit, uninit, uninit, []⟩ = w
        at ih1 ih2 ⊢
      constructor
      · rw [computeGradient_pass_dU, ih1, Function.update_idem, Function.update_eq_self_iff]
        exact (hcopy _ ha).symm
      · have key := lagrangian_of_buffers cfg p w.dX w.constraints_i
          (Function.update U_ (start + k) (U_ (start + k) + cfg.eps))
          (Function.update w.dU (start + k) (U_ (start + k) + cfg.eps)) hnx hC
          (fun b hb => by
            rw [ih1, Function.update_apply, Function.update_apply,
              hcopy b (by rw [hU]; exact hb)])
          ((start + k) / cfg.nu) hidx
        have base := compute_lagrangian_apply cfg p uninit (integrate cfg p uninit U_) U_ hC
          ((start + k) / cfg.nu) hidx
        rw [computeGradient_pass_stores, ih2, List.range'_1_concat, List.map_append,
          List.map_singleton, key, base]
        rfl
  unfold computeGradient forRange
  by_cases hle : start ≤ stop
  · exact (h (stop - start) (by omega)).2
  · have h0 : stop - start = 0 := by omega
    rw [h0]
    rfl

/-- The stores of `compute_gradient`: the forward difference at every index below `nU_`. -/
theorem gradient_stores_eq (cfg : Config K) (p : Planner K) (U_ : Nat → K)
    (hT : 1 ≤ cfg.num_threads) (hnx : cfg.nx = nX * (cfg.N + 1))
    (hnu : cfg.nu = nU * (cfg.N + 1))
    (hC : p.nC_i = 2 * nU * (cfg.N + 1) + (cfg.N + 1) * (p.M - 1) + (cfg.N + 1))
    (hU : p.nU_ = nU * (cfg.N + 1) * p.M) :
    gradient_stores cfg p U_
      = (List.range p.nU_).map (fun a => (a, forward_difference cfg p U_ a)) := by
  rw [gradient_stores_flatMap, ← worker_ranges p.nU_ cfg.num_threads hT, List.map_flatMap]
  apply List.flatMap_congr
  intro t ht
  exact computeGradient_eq cfg p U_ hnx hnu hC hU _ _
    (end_index_le _ _ _ (List.mem_range.mp ht))

/-- The entries of `gradient` after `compute_gradient`. -/
theorem compute_gradient_apply (cfg : Config K) (p : Planner K) (g0 U_ : Nat → K)
    (hT : 1 ≤ cfg.num_threads) (hnx : cfg.nx = nX * (cfg.N + 1))
    (hnu : cfg.nu = nU * (cfg.N + 1))
    (hC : p.nC_i = 2 * nU * (cfg.N + 1) + (cfg.N + 1) * (p.M - 1) + (cfg.N + 1))
    (hU : p.nU_ = nU * (cfg.N + 1) * p.M) (a : Nat) :
    compute_gradient cfg p g0 U_ a
      = if a < p.nU_ then forward_difference cfg p U_ a else g0 a := by
  unfold compute_gradient
  rw [gradient_stores_eq cfg p U_ hT hnx hnu hC hU, store_all_range]

/-- The baseline of the workers: the entry of `compute_lagrangian` on the trajectory of `V`. -/
theorem lagrangian_of_eq (cfg : Config K) (p : Planner K) (V : Nat → K)
    (hC : p.nC_i = 2 * nU * (cfg.N + 1) + (cfg.N + 1) * (p.M - 1) + (cfg.N + 1)) (i : Nat)
    (hi : i < p.M) :
    lagrangian_of cfg p V i
      = compute_lagrangian cfg p uninit (integrate cfg p uninit V) V i :=
  (compute_lagrangian_apply cfg p uninit (integrate cfg p uninit V) V hC i hi).symm

end Workers

section SliceLoops

variable {K : Type}

/-! ## The slice loops of the solver -/

/-- A loop that stores the two entries of every step `j < n` of a column. -/
theorem pack_loop_apply (n : Nat) (val : Nat → Nat → K) (b0 : Nat → K) (r : Nat) :
    forLoop n (fun j b => Function.update (Function.update b (j * nU + d) (val j d))
        (j * nU + F) (val j F)) b0 r
      = if r < nU * n then val (r / nU) (r % nU) else b0 r := by
  induction n with
  | zero => simp
  | succ m ih =>
    rw [forLoop_succ, Function.update_apply, Function.update_apply, ih]
    simp only [nU, d, F]
    by_cases h1 : r = m * 2 + 1
    · have e1 : r / 2 = m := by omega
      have e2 : r % 2 = 1 := by omega
      rw [if_pos h1, if_pos (by omega), e1, e2]
    · rw [if_neg h1]
      by_cases h0 : r = m * 2 + 0
      · have e1 : r / 2 = m := by omega
        have e2 : r % 2 = 0 := by omega
        rw [if_pos h0, if_pos (by omega), e1, e2]
      · rw [if_neg h0]
        by_cases h2 : r < 2 * m
        · rw [if_pos h2, if_pos (by omega)]
        · rw [if_neg h2, if_neg (by omega)]

/-- A loop that stores the two entries of every step `j < n` of the slice at `base`. -/
theorem slice_loop_apply (n base : Nat) (val : Nat → Nat → K) (b0 : Nat → K) (a : Nat) :
    forLoop n (fun j b => Function.update (Function.update b (base + j * nU + d) (val j d))
        (base + j * nU + F) (val j F)) b0 a
      = if base ≤ a ∧ a < base + nU * n then val ((a - base) / nU) ((a - base) % nU)
        else b0 a := by
  induction n with
  | zero =>
    rw [forLoop_zero, if_neg]
    omega
  | succ m ih =>
    rw [forLoop_succ, Function.update_apply, Function.update_apply, ih]
    simp only [nU, d, F]
    by_cases h1 : a = base + m * 2 + 1
    · have e1 : (a - base) / 2 = m := by omega
      have e2 : (a - base) % 2 = 1 := by omega
      rw [if_pos h1, if_pos (by omega), e1, e2]
    · rw [if_neg h1]
      by_cases h0 : a = base + m * 2 + 0
      · have e1 : (a - base) / 2 = m := by omega
        have e2 : (a - base) % 2 = 0 := by omega
        rw [if_pos h0, if_pos (by omega), e1, e2]
      · rw [if_neg h0]
        by_cases h2 : base ≤ a ∧ a < base + 2 * m
        · rw [if_pos h2, if_pos (by omega)]
        · rw [if_neg h2, if_neg (by omega)]

theorem div_mod_nU (r : Nat) : r / nU * nU + r % nU = r := Nat.div_add_mod' r nU

theorem packed_column_apply (cfg : Config K) (src col : Nat → K) (i r : Nat) :
    packed_column cfg src col i r
      = if r < nU * (cfg.N + 1) then src (cfg.nu * i + r) else col r := by
  have h := pack_loop_apply (cfg.N + 1) (fun j c => src (cfg.nu * i + j * nU + c)) col r
  refine Eq.trans ?_ (h.trans ?_)
  · rfl
  · by_cases hr : r < nU * (cfg.N + 1)
    · rw [if_pos hr, if_pos hr]
      show src (cfg.nu * i + r / nU * nU + r % nU) = _
      rw [Nat.add_assoc, div_mod_nU]
    · rw [if_neg hr, if_neg hr]

end SliceLoops

section Acceptance

variable {K : Type} [LinearOrderedField K]

/-! ## The two agent loops of an iteration -/

theorem propose_step_g_eq (cfg : Config K) (i : Nat) (st : SolverState K) :
    (propose_step cfg i st).g_
      = Function.update st.g_ i (packed_column cfg st.gradient (st.g_ i) i) := rfl

theorem propose_step_s_eq (cfg : Config K) (i : Nat) (st : SolverState K) :
    (propose_step cfg i st).s_
      = Function.update st.s_ i (quadratic_problem_solver cfg
          (packed_column cfg st.gradient (st.g_ i) i) (st.H_ i) (st.delta i)) := rfl

theorem propose_step_dU_eq (cfg : Config K) (i : Nat) (st : SolverState K) :
    (propose_step cfg i st).dU
      = forLoop (cfg.N + 1) (fun j b =>
          Function.update (Function.update b (cfg.nu * i + j * nU + d)
            (st.dU_ (cfg.nu * i + j * nU + d) + quadratic_problem_solver cfg
              (packed_column cfg st.gradient (st.g_ i) i) (st.H_ i) (st.delta i) (j * nU + d)))
          (cfg.nu * i + j * nU + F)
            (st.dU_ (cfg.nu * i + j * nU + F) + quadratic_problem_solver cfg
              (packed_column cfg st.gradient (st.g_ i) i) (st.H_ i) (st.delta i) (j * nU + F)))
          st.dU := rfl

/-- The column `g_[i]` after the packing loop of pass `i`. -/
theorem propose_step_g (cfg : Config K) (i : Nat) (st : SolverState K) (r : Nat) :
    (propose_step cfg i st).g_ i r
      = if r < nU * (cfg.N + 1) then st.gradient (cfg.nu * i + r) else st.g_ i r := by
  rw [propose_step_g_eq, Function.update_same, packed_column_apply]

/-- The step `s_[i]` of pass `i`. -/
theorem propose_step_s (cfg : Config K) (i : Nat) (st : SolverState K) :
    (propose_step cfg i st).s_ i
      = quadratic_problem_solver cfg ((propose_step cfg i st).g_ i) (st.H_ i) (st.delta i) := by
  rw [propose_step_s_eq, propose_step_g_eq, Function.update_same, Function.update_same]

/-- The tentative controls after pass `i`: the slice of agent `i` is `dU_ + s`. -/
theorem propose_step_dU (cfg : Config K) (i : Nat) (st : SolverState K) (a : Nat) :
    (propose_step cfg i st).dU a
      = if cfg.nu * i ≤ a ∧ a < cfg.nu * i + nU * (cfg.N + 1) then
          st.dU_ a + (propose_step cfg i st).s_ i (a - cfg.nu * i)
        else st.dU a := by
  rw [propose_step_s_eq, Function.update_same, propose_step_dU_eq]
  have h := slice_loop_apply (cfg.N + 1) (cfg.nu * i)
    (fun j c => st.dU_ (cfg.nu * i + j * nU + c)
      + quadratic_problem_solver cfg (packed_column cfg st.gradient (st.g_ i) i) (st.H_ i)
          (st.delta i) (j * nU + c)) st.dU a
  refine h.trans ?_
  by_cases ha : cfg.nu * i ≤ a ∧ a < cfg.nu * i + nU * (cfg.N + 1)
  · rw [if_pos ha, if_pos ha]
    show st.dU_ (cfg.nu * i + (a - cfg.nu * i) / nU * nU + (a - cfg.nu * i) % nU)
      + quadratic_problem_solver cfg _ _ _
          ((a - cfg.nu * i) / nU * nU + (a - cfg.nu * i) % nU) = _
    rw [Nat.add_assoc, div_mod_nU, Nat.add_sub_cancel' ha.1]
  · rw [if_neg ha, if_neg ha]

/-- The first agent loop of an iteration, after `m` passes. -/
theorem propose_loop (cfg : Config K) (hnu : cfg.nu = nU * (cfg.N + 1)) (st : SolverState K)
    (m : Nat) :
    (forLoop m (propose_step cfg) st).gradient = st.gradient ∧
    (forLoop m (propose_step cfg) st).lagrangian = st.lagrangian ∧
    (forLoop m (propose_step cfg) st).dU_ = st.dU_ ∧
    (forLoop m (propose_step cfg) st).delta = st.delta ∧
    (forLoop m (propose_step cfg) st).H_ = st.H_ ∧
    (∀ i r, i < m → r < cfg.nu →
      (forLoop m (propose_step cfg) st).g_ i r = st.gradient (cfg.nu * i + r)) ∧
    (∀ i, i < m → (forLoop m (propose_step cfg) st).s_ i
      = quadratic_problem_solver cfg ((forLoop m (propose_step cfg) st).g_ i) (st.H_ i)
          (st.delta i)) ∧
    (∀ i r, i < m → r < cfg.nu →
      (forLoop m (propose_step cfg) st).dU (cfg.nu * i + r)
        = st.dU_ (cfg.nu * i + r) + (forLoop m (propose_step cfg) st).s_ i r) := by
  induction m with
  | zero =>
    exact ⟨rfl, rfl, rfl, rfl, rfl, fun i r hi => absurd hi (Nat.not_lt_zero i),
      fun i hi => absurd hi (Nat.not_lt_zero i), fun i r hi => absurd hi (Nat.not_lt_zero i)⟩
  | succ k ih =>
    obtain ⟨h1, h2, h3, h4, h5, h6, h7, h8⟩ := ih
    rw [forLoop_succ]
    generalize forLoop k (propose_step cfg) st = s at h1 h2 h3 h4 h5 h6 h7 h8 ⊢
    have hg : ∀ i, i ≠ k → (propose_step cfg k s).g_ i = s.g_ i :=
      fun i hi => Function.update_noteq hi _ _
    have hs : ∀ i, i ≠ k → (propose_step cfg k s).s_ i = s.s_ i :=
      fun i hi => Function.update_noteq hi _ _
    refine ⟨h1, h2, h3, h4, h5, ?_, ?_, ?_⟩
    · intro i r hi hr
      rcases Nat.lt_succ_iff_lt_or_eq.mp hi with hik | hik
      · rw [hg i (by omega)]
        exact h6 i r hik hr
      · subst hik
        rw [propose_step_g, if_pos (by rw [← hnu]; exact hr), h1]
    · intro i hi
      rcases Nat.lt_succ_iff_lt_or_eq.mp hi with hik | hik
      · rw [hs i (by omega), hg i (by omega)]
        exact h7 i hik
      · subst hik
        rw [propose_step_s, h5, h4]
    · intro i r hi hr
      have hnu' : nU * (cfg.N + 1) = cfg.nu := hnu.symm
      rw [propose_step_dU, hnu']
      rcases Nat.lt_succ_iff_lt_or_eq.mp hi with hik | hik
      · have hle : cfg.nu * (i + 1) ≤ cfg.nu * k := Nat.mul_le_mul_left _ hik
        rw [Nat.mul_succ] at hle
        rw [if_neg (by omega), hs i (by omega)]
        exact h8 i r hik hr
      · subst hik
        rw [if_pos ⟨by omega, by omega⟩, Nat.add_sub_cancel_left, h3]

/-- The radius of agent `i` after pass `i` of the acceptance loop. -/
theorem accept_step_delta (cfg : Config K) (i : Nat) (st : SolverState K) (k : Nat) :
    (accept_step cfg i st).delta k
      = if k = i then
          if step_ratio cfg st i > 3 / 4
              ∧ cfg.sqrt (dot cfg.nu (st.s_ i) (st.s_ i)) > (4 / 5) * st.delta i then
            2 * st.delta i
          else if step_ratio cfg st i < 1 / 10 then (1 / 2) * st.delta i
          else st.delta i
        else st.delta k := by
  have hlt : ¬ (step_ratio cfg st i > 3 / 4 ∧ step_ratio cfg st i < 1 / 10) := by
    rintro ⟨h1, h2⟩
    have : (3 : K) / 4 < 1 / 10 := lt_trans h1 h2
    norm_num at this
  show (if step_ratio cfg st i < 1 / 10 then
      Function.update (if step_ratio cfg st i > 3 / 4 then
          if cfg.sqrt (dot cfg.nu (st.s_ i) (st.s_ i)) > (4 / 5) * st.delta i then
            Function.update st.delta i (2 * st.delta i)
          else st.delta
        else st.delta) i
        ((1 / 2) * (if step_ratio cfg st i > 3 / 4 then
          if cfg.sqrt (dot cfg.nu (st.s_ i) (st.s_ i)) > (4 / 5) * st.delta i then
            Function.update st.delta i (2 * st.delta i)
          else st.delta
        else st.delta) i)
    else (if step_ratio cfg st i > 3 / 4 then
          if cfg.sqrt (dot cfg.nu (st.s_ i) (st.s_ i)) > (4 / 5) * st.delta i then
            Function.update st.delta i (2 * st.delta i)
          else st.delta
        else st.delta)) k = _
  by_cases hk : k = i
  · subst hk
    rw [if_pos rfl]
    by_cases h1 : step_ratio cfg st k > 3 / 4
    · have h2 : ¬ step_ratio cfg st k < 1 / 10 := fun h => hlt ⟨h1, h⟩
      by_cases h3 : cfg.sqrt (dot cfg.nu (st.s_ k) (st.s_ k)) > (4 / 5) * st.delta k
      · simp only [h1, h2, h3, if_true, if_false, and_self, Function.update_same]
      · simp only [h1, h2, h3, if_true, if_false, and_false]
    · by_cases h2 : step_ratio cfg st k < 1 / 10
      · simp only [h1, h2, if_true, if_false, false_and, Function.update_same]
      · simp only [h1, h2, if_false, false_and]
  · rw [if_neg hk]
    by_cases h2 : step_ratio cfg st i < 1 / 10
    · rw [if_pos h2, Function.update_noteq hk]
      split_ifs <;> first | rfl | exact Function.update_noteq hk _ _
    · rw [if_neg h2]
      split_ifs <;> first | rfl | exact Function.update_noteq hk _ _

/-- The committed controls after pass `i` of the acceptance loop: the slice of agent `i` is
the old one if the step is rejected and the tentative one otherwise. -/
theorem accept_step_dU_ (cfg : Config K) (i : Nat) (st : SolverState K) (a : Nat) :
    (accept_step cfg i st).dU_ a
      = if cfg.nu * i ≤ a ∧ a < cfg.nu * i + nU * (cfg.N + 1) then
          if step_ratio cfg st i < eta then st.dU_ a else st.dU a
        else st.dU_ a := by
  have hdU1 : ∀ b, (if step_ratio cfg st i < eta then
        forLoop (cfg.N + 1) (fun j b =>
          Function.update (Function.update b (cfg.nu * i + j * nU + d)
            (st.dU_ (cfg.nu * i + j * nU + d)))
            (cfg.nu * i + j * nU + F) (st.dU_ (cfg.nu * i + j * nU + F))) st.dU
      else st.dU) b
      = if step_ratio cfg st i < eta ∧ cfg.nu * i ≤ b ∧ b < cfg.nu * i + nU * (cfg.N + 1)
        then st.dU_ b else st.dU b := by
    intro b
    by_cases h : step_ratio cfg st i < eta
    · rw [if_pos h]
      have h' := slice_loop_apply (cfg.N + 1) (cfg.nu * i)
        (fun j c => st.dU_ (cfg.nu * i + j * nU + c)) st.dU b
      refine h'.trans ?_
      by_cases hb : cfg.nu * i ≤ b ∧ b < cfg.nu * i + nU * (cfg.N + 1)
      · rw [if_pos hb, if_pos ⟨h, hb⟩]
        show st.dU_ (cfg.nu * i + (b - cfg.nu * i) / nU * nU + (b - cfg.nu * i) % nU) = _
        rw [Nat.add_assoc, div_mod_nU, Nat.add_sub_cancel' hb.1]
      · rw [if_neg hb, if_neg (fun h => hb h.2)]
    · rw [if_neg h, if_neg (fun h' => h h'.1)]
  generalize hD : (if step_ratio cfg st i < eta then
        forLoop (cfg.N + 1) (fun j b =>
          Function.update (Function.update b (cfg.nu * i + j * nU + d)
            (st.dU_ (cfg.nu * i + j * nU + d)))
            (cfg.nu * i + j * nU + F) (st.dU_ (cfg.nu * i + j * nU + F))) st.dU
      else st.dU) = dU1 at hdU1
  have h := slice_loop_apply (cfg.N + 1) (cfg.nu * i)
    (fun j c => dU1 (cfg.nu * i + j * nU + c)) st.dU_ a
  have e : (accept_step cfg i st).dU_ a = forLoop (cfg.N + 1) (fun j b =>
      Function.update (Function.update b (cfg.nu * i + j * nU + d)
        ((fun j c => dU1 (cfg.nu * i + j * nU + c)) j d))
        (cfg.nu * i + j * nU + F) ((fun j c => dU1 (cfg.nu * i + j * nU + c)) j F)) st.dU_ a := by
    rw [← hD]
    rfl
  rw [e, h]
  by_cases ha : cfg.nu * i ≤ a ∧ a < cfg.nu * i + nU * (cfg.N + 1)
  · rw [if_pos ha, if_pos ha]
    show dU1 (cfg.nu * i + (a - cfg.nu * i) / nU * nU + (a - cfg.nu * i) % nU) = _
    rw [Nat.add_assoc, div_mod_nU, Nat.add_sub_cancel' ha.1, hdU1]
    by_cases hr : step_ratio cfg st i < eta
    · rw [if_pos ⟨hr, ha⟩, if_pos hr]
    · rw [if_neg (fun h => hr h.1), if_neg hr]
  · rw [if_neg ha, if_neg ha]

/-- The tentative controls after pass `i` of the acceptance loop: the slice of agent `i` is
reverted if the step is rejected. -/
theorem accept_step_dU (cfg : Config K) (i : Nat) (st : SolverState K) (a : Nat) :
    (accept_step cfg i st).dU a
      = if step_ratio cfg st i < eta ∧ cfg.nu * i ≤ a ∧ a < cfg.nu * i + nU * (cfg.N + 1)
        then st.dU_ a else st.dU a := by
  show (if step_ratio cfg st i < eta then
        forLoop (cfg.N + 1) (fun j b =>
          Function.update (Function.update b (cfg.nu * i + j * nU + d)
            (st.dU_ (cfg.nu * i + j * nU + d)))
            (cfg.nu * i + j * nU + F) (st.dU_ (cfg.nu * i + j * nU + F))) st.dU
      else st.dU) a = _
  by_cases h : step_ratio cfg st i < eta
  · rw [if_pos h]
    have h' := slice_loop_apply (cfg.N + 1) (cfg.nu * i)
      (fun j c => st.dU_ (cfg.nu * i + j * nU + c)) st.dU a
    refine h'.trans ?_
    by_cases hb : cfg.nu * i ≤ a ∧ a < cfg.nu * i + nU * (cfg.N + 1)
    · rw [if_pos hb, if_pos ⟨h, hb⟩]
      show st.dU_ (cfg.nu * i + (a - cfg.nu * i) / nU * nU + (a - cfg.nu * i) % nU) = _
      rw [Nat.add_assoc, div_mod_nU, Nat.add_sub_cancel' hb.1]
    · rw [if_neg hb, if_neg (fun h => hb h.2)]
  · rw [if_neg h, if_neg (fun h' => h h'.1)]

/-- The quotient of pass `i` reads the entries of agent `i` only. -/
theorem step_ratio_congr (cfg : Config K) (s ts : SolverState K) (i : Nat)
    (h1 : s.lagrangian = ts.lagrangian) (h2 : s.d_lagrangian = ts.d_lagrangian)
    (h3 : s.g_ = ts.g_) (h4 : s.s_ = ts.s_) (h5 : s.H_ i = ts.H_ i) :
    step_ratio cfg s i = step_ratio cfg ts i := by
  unfold step_ratio
  rw [h1, h2, h3, h4, h5]

/-- The acceptance loop after `m` passes: the radii. Pass `i` is the only one to touch the
radius and the Hessian of agent `i`, and its tests read the state the loop was entered
with. -/
theorem accept_loop_radius (cfg : Config K) (ts : SolverState K) (m : Nat) :
    ((forLoop m (accept_step cfg) ts).lagrangian = ts.lagrangian ∧
      (forLoop m (accept_step cfg) ts).d_lagrangian = ts.d_lagrangian ∧
      (forLoop m (accept_step cfg) ts).g_ = ts.g_ ∧
      (forLoop m (accept_step cfg) ts).s_ = ts.s_) ∧
    (∀ i, m ≤ i → (forLoop m (accept_step cfg) ts).H_ i = ts.H_ i ∧
      (forLoop m (accept_step cfg) ts).delta i = ts.delta i) ∧
    (∀ i, i < m → (forLoop m (accept_step cfg) ts).delta i
      = if step_ratio cfg ts i > 3 / 4
            ∧ cfg.sqrt (dot cfg.nu (ts.s_ i) (ts.s_ i)) > (4 / 5) * ts.delta i then
          2 * ts.delta i
        else if step_ratio cfg ts i < 1 / 10 then (1 / 2) * ts.delta i
        else ts.delta i) := by
  induction m with
  | zero =>
    exact ⟨⟨rfl, rfl, rfl, rfl⟩, fun i _ => ⟨rfl, rfl⟩, fun i hi => absurd hi (Nat.not_lt_zero i)⟩
  | succ k ih =>
    obtain ⟨⟨h1, h2, h3, h4⟩, h5, h6⟩ := ih
    rw [forLoop_succ]
    generalize forLoop k (accept_step cfg) ts = s at h1 h2 h3 h4 h5 h6 ⊢
    have hr : step_ratio cfg s k = step_ratio cfg ts k :=
      step_ratio_congr cfg s ts k h1 h2 h3 h4 (h5 k (le_refl _)).1
    refine ⟨⟨h1, h2, h3, h4⟩, ?_, ?_⟩
    · intro i hi
      have hik : i ≠ k := by omega
      constructor
      · show Function.update s.H_ k _ i = _
        rw [Function.update_noteq hik]
        exact (h5 i (by omega)).1
      · rw [accept_step_delta, if_neg hik]
        exact (h5 i (by omega)).2
    · intro i hi
      rw [accept_step_delta]
      rcases Nat.lt_succ_iff_lt_or_eq.mp hi with hik | hik
      · rw [if_neg (by omega)]
        exact h6 i hik
      · subst hik
        rw [if_pos rfl, hr, h4, (h5 i (le_refl _)).2]

/-- The acceptance loop after `m` passes: the controls. The slice of agent `i < m` holds the
old controls if the step of agent `i` was rejected and the tentative ones otherwise; the
slices of the other agents are as the loop found them. -/
theorem accept_loop_controls (cfg : Config K) (hnu : cfg.nu = nU * (cfg.N + 1))
    (ts : SolverState K) (m : Nat) :
    (∀ a, cfg.nu * m ≤ a → (forLoop m (accept_step cfg) ts).dU_ a = ts.dU_ a ∧
      (forLoop m (accept_step cfg) ts).dU a = ts.dU a) ∧
    (∀ i r, i < m → r < cfg.nu →
      (forLoop m (accept_step cfg) ts).dU_ (cfg.nu * i + r)
        = if step_ratio cfg ts i < eta then ts.dU_ (cfg.nu * i + r)
          else ts.dU (cfg.nu * i + r)) := by
  have hnu' : nU * (cfg.N + 1) = cfg.nu := hnu.symm
  induction m with
  | zero => exact ⟨fun a _ => ⟨rfl, rfl⟩, fun i r hi => absurd hi (Nat.not_lt_zero i)⟩
  | succ k ih =>
    obtain ⟨h1, h2⟩ := ih
    obtain ⟨⟨g1, g2, g3, g4⟩, g5, _⟩ := accept_loop_radius cfg ts k
    rw [forLoop_succ]
    generalize forLoop k (accept_step cfg) ts = s at h1 h2 g1 g2 g3 g4 g5 ⊢
    have hr : step_ratio cfg s k = step_ratio cfg ts k :=
      step_ratio_congr cfg s ts k g1 g2 g3 g4 (g5 k (le_refl _)).1
    constructor
    · intro a ha
      rw [Nat.mul_succ] at ha
      rw [accept_step_dU_, accept_step_dU, hnu', if_neg (by omega), if_neg (by omega)]
      exact h1 a (by omega)
    · intro i r hi hr'
      rw [accept_step_dU_, hnu']
      rcases Nat.lt_succ_iff_lt_or_eq.mp hi with hik | hik
      · have hle : cfg.nu * (i + 1) ≤ cfg.nu * k := Nat.mul_le_mul_left _ hik
        rw [Nat.mul_succ] at hle
        rw [if_neg (by omega)]
        exact h2 i r hik hr'
      · subst hik
        rw [if_pos ⟨by omega, by omega⟩, hr, (h1 _ (by omega)).1, (h1 _ (by omega)).2]

/-- The first part of an iteration is the acceptance loop run from the tentative state, up to
the convergence flag. -/
theorem commit_phase_eq (cfg : Config K) (st : SolverState K) :
    (commit_phase cfg st).dU_
      = (forLoop st.planner.M (accept_step cfg) (tentative_state cfg st)).dU_ ∧
    (commit_phase cfg st).delta
      = (forLoop st.planner.M (accept_step cfg) (tentative_state cfg st)).delta := by
  unfold commit_phase
  simp only
  split_ifs
  · exact ⟨rfl, rfl⟩
  · exact ⟨rfl, rfl⟩

/-- The state in which the acceptance loop is entered. -/
theorem tentative_state_fields (cfg : Config K) (hnu : cfg.nu = nU * (cfg.N + 1))
    (st : SolverState K) :
    (tentative_state cfg st).H_ = st.H_ ∧
    (tentative_state cfg st).delta = st.delta ∧
    (tentative_state cfg st).dU_ = st.dU_ ∧
    (tentative_state cfg st).lagrangian
      = compute_lagrangian cfg st.planner st.lagrangian
          (integrate cfg st.planner st.dX_ st.dU_) st.dU_ ∧
    (∃ L0 X0, (tentative_state cfg st).d_lagrangian
      = compute_lagrangian cfg st.planner L0
          (integrate cfg st.planner X0 (tentative_state cfg st).dU)
          (tentative_state cfg st).dU) ∧
    (∀ i r, i < st.planner.M → r < cfg.nu →
      (tentative_state cfg st).g_ i r
        = compute_gradient cfg st.planner st.gradient st.dU_ (cfg.nu * i + r)) ∧
    (∀ i, i < st.planner.M → (tentative_state cfg st).s_ i
      = quadratic_problem_solver cfg ((tentative_state cfg st).g_ i) (st.H_ i) (st.delta i)) ∧
    (∀ i r, i < st.planner.M → r < cfg.nu →
      (tentative_state cfg st).dU (cfg.nu * i + r)
        = st.dU_ (cfg.nu * i + r) + (tentative_state cfg st).s_ i r) := by
  obtain ⟨h1, h2, h3, h4, h5, h6, h7, h8⟩ := propose_loop cfg hnu
    { st with
      dX_ := integrate cfg st.planner st.dX_ st.dU_
      gradient := compute_gradient cfg st.planner st.gradient st.dU_
      lagrangian := compute_lagrangian cfg st.planner st.lagrangian
        (integrate cfg st.planner st.dX_ st.dU_) st.dU_ } st.planner.M
  exact ⟨h5, h4, h3, h2, ⟨_, _, rfl⟩, h6, h7, h8⟩

/-- The first agent loop leaves radii and Hessians as they are. -/
theorem propose_loop_radius (cfg : Config K) (st : SolverState K) (m : Nat) :
    (forLoop m (propose_step cfg) st).delta = st.delta ∧
    (forLoop m (propose_step cfg) st).H_ = st.H_ := by
  induction m with
  | zero => exact ⟨rfl, rfl⟩
  | succ k ih => rw [forLoop_succ]; exact ih

/-- The radius of agent `i` after an iteration. -/
theorem outer_iteration_delta (cfg : Config K) (st : SolverState K) (i : Nat)
    (hi : i < st.planner.M) :
    (outer_iteration cfg st).delta i
      = if step_ratio cfg (tentative_state cfg st) i > 3 / 4
            ∧ cfg.sqrt (dot cfg.nu ((tentative_state cfg st).s_ i)
                ((tentative_state cfg st).s_ i)) > (4 / 5) * st.delta i then
          2 * st.delta i
        else if step_ratio cfg (tentative_state cfg st) i < 1 / 10 then (1 / 2) * st.delta i
        else st.delta i := by
  have hd : (tentative_state cfg st).delta = st.delta := (propose_loop_radius cfg _ _).1
  have h := (accept_loop_radius cfg (tentative_state cfg st) st.planner.M).2.2 i hi
  rw [hd] at h
  exact (congrFun (commit_phase_eq cfg st).2 i).trans h

/-- An iteration keeps the radii of the agents positive. -/
theorem outer_iteration_delta_pos (cfg : Config K) (st : SolverState K)
    (h : ∀ i, i < st.planner.M → 0 < st.delta i) :
    ∀ i, i < (outer_iteration cfg st).planner.M → 0 < (outer_iteration cfg st).delta i := by
  intro i hi
  rw [(outer_iteration_sizes cfg st).1] at hi
  rw [outer_iteration_delta cfg st i hi]
  have hpos := h i hi
  split_ifs
  · exact mul_pos two_pos hpos
  · exact mul_pos (by norm_num) hpos
  · exact hpos

theorem iterate_delta_pos (cfg : Config K) (st : SolverState K)
    (h : ∀ i, i < st.planner.M → 0 < st.delta i) (t : Nat) :
    ∀ i, i < ((outer_iteration cfg)^[t] st).planner.M →
      0 < ((outer_iteration cfg)^[t] st).delta i := by
  induction t with
  | zero => exact h
  | succ n ih =>
    rw [Function.iterate_succ_apply']
    exact outer_iteration_delta_pos cfg _ ih

theorem iterate_M (cfg : Config K) (st : SolverState K) (t : Nat) :
    ((outer_iteration cfg)^[t] st).planner.M = st.planner.M := by
  induction t with
  | zero => rfl
  | succ n ih => rw [Function.iterate_succ_apply', (outer_iteration_sizes cfg _).1, ih]

theorem solver_loop_delta_pos (cfg : Config K) (fuel : Nat) (st : SolverState K)
    (h : ∀ i, i < st.planner.M → 0 < st.delta i) :
    ∀ i, i < st.planner.M → 0 < (solver_loop cfg fuel st).delta i := by
  induction fuel generalizing st with
  | zero => exact h
  | succ n ih =>
    intro i hi
    unfold solver_loop
    split_ifs with hc
    · exact ih (outer_iteration cfg st) (outer_iteration_delta_pos cfg st h) i
        (by rw [(outer_iteration_sizes cfg st).1]; exact hi)
    · exact h i hi

end Acceptance

section Gate

variable {K : Type} [LinearOrderedField K]

/-! ## The first convergence test -/

/-- The augmented Lagrangian of an agent reads the controls below `nU * (N + 1) * M` only. -/
theorem lagrangian_of_congr (cfg : Config K) (p : Planner K) (V V' : Nat → K)
    (hnx : cfg.nx = nX * (cfg.N + 1))
    (hC : p.nC_i = 2 * nU * (cfg.N + 1) + (cfg.N + 1) * (p.M - 1) + (cfg.N + 1))
    (hV : ∀ a, a < nU * (cfg.N + 1) * p.M → V' a = V a) (i : Nat) (hi : i < p.M) :
    lagrangian_of cfg p V' i = lagrangian_of cfg p V i :=
  lagrangian_of_buffers cfg p uninit uninit V V' hnx hC hV i hi

/-- The copy `dU_` of the controls that `trust_region_solver` makes. -/
theorem solver_init_dU_ (cfg : Config K) (p : Planner K) (U_ : Nat → K) (a : Nat) :
    (solver_init cfg p U_).dU_ a = if a < p.nU_ then U_ a else uninit a :=
  copy_pair_snd U_ uninit uninit p.nU_ a

/-- The gradient of the first convergence test is the gradient at the controls handed in. -/
theorem solver_init_gradient (cfg : Config K) (p : Planner K) (U_ : Nat → K)
    (hT : 1 ≤ cfg.num_threads) (hnx : cfg.nx = nX * (cfg.N + 1))
    (hnu : cfg.nu = nU * (cfg.N + 1))
    (hC : p.nC_i = 2 * nU * (cfg.N + 1) + (cfg.N + 1) * (p.M - 1) + (cfg.N + 1))
    (hU : p.nU_ = nU * (cfg.N + 1) * p.M) :
    (solver_init cfg p U_).gradient = compute_gradient cfg p uninit U_ := by
  funext a
  show compute_gradient cfg p uninit (solver_init cfg p U_).dU_ a = _
  rw [compute_gradient_apply cfg p uninit _ hT hnx hnu hC hU,
    compute_gradient_apply cfg p uninit _ hT hnx hnu hC hU]
  by_cases ha : a < p.nU_
  · rw [if_pos ha, if_pos ha]
    have hidx : a / cfg.nu < p.M := by
      rw [hnu]
      apply Nat.div_lt_of_lt_mul
      rw [← hU]
      exact ha
    unfold forward_difference
    rw [lagrangian_of_congr cfg p U_ (solver_init cfg p U_).dU_ hnx hC
        (fun b hb => by rw [solver_init_dU_, if_pos (by rw [hU]; exact hb)]) _ hidx,
      lagrangian_of_congr cfg p (Function.update U_ a (U_ a + cfg.eps))
        (Function.update (solver_init cfg p U_).dU_ a ((solver_init cfg p U_).dU_ a + cfg.eps))
        hnx hC (fun b hb => by
          have hb' : b < p.nU_ := by rw [hU]; exact hb
          by_cases hba : b = a
          · subst hba
            rw [Function.update_same, Function.update_same, solver_init_dU_, if_pos hb']
          · rw [Function.update_noteq hba, Function.update_noteq hba, solver_init_dU_,
              if_pos hb']) _ hidx]
  · rw [if_neg ha, if_neg ha]

/-- The squared norm of a gradient with no nonzero entry below `nG`. -/
theorem gradient_norm_zero (p : Planner K) (g : Nat → K) (h : ∀ j, j < p.nG → g j = 0) :
    gradient_norm p g = 0 := by
  unfold gradient_norm
  have key : ∀ n, n ≤ p.nG → forLoop n (fun j norm => norm + g j * g j) (0 : K) = 0 := by
    intro n hn
    induction n with
    | zero => rfl
    | succ m ih => rw [forLoop_succ, ih (by omega), h m (by omega)]; ring
  exact key p.nG (le_refl _)

/-- A loop entered with the convergence flag set makes no pass. -/
theorem solver_loop_converged (cfg : Config K) (fuel : Nat) (st : SolverState K)
    (h : st.convergence = true) : solver_loop cfg fuel st = st := by
  cases fuel with
  | zero => rfl
  | succ n =>
    unfold solver_loop
    rw [if_neg]
    rw [h]
    simp

/-- Controls that agree below `nU * (N + 1) * M` are corrected alike there. -/
theorem correctionU_congr (cfg : Config K) (p : Planner K) (U_ V : Nat → K) (hN : 1 ≤ cfg.N)
    (hV : ∀ a, a < nU * (cfg.N + 1) * p.M → V a = U_ a) (a : Nat)
    (ha : a < nU * (cfg.N + 1) * p.M) :
    correctionU cfg p V a = correctionU cfg p U_ a := by
  have hpos : 0 < nU * (cfg.N + 1) := by simp only [nU]; omega
  have hi : a / (nU * (cfg.N + 1)) < p.M := Nat.div_lt_of_lt_mul ha
  have h1 : nU * (cfg.N + 1) * (a / (nU * (cfg.N + 1))) ≤ a := Nat.mul_div_le a _
  have h2 : a < nU * (cfg.N + 1) * (a / (nU * (cfg.N + 1)) + 1) := by
    rw [Nat.mul_succ]
    have := Nat.mod_lt a hpos
    have := Nat.div_add_mod a (nU * (cfg.N + 1))
    omega
  rw [correctionU_apply cfg p V hN _ a hi h1 h2, correctionU_apply cfg p U_ hN _ a hi h1 h2]
  have hd : nU * (cfg.N - 1) + d < nU * (cfg.N + 1) := by simp only [nU, d]; omega
  have hF : nU * (cfg.N - 1) + F < nU * (cfg.N + 1) := by simp only [nU, F]; omega
  have e1 := hV _ (slice_lt _ _ p.M _ hi hd)
  have e2 := hV _ (slice_lt _ _ p.M _ hi hF)
  rw [← Nat.add_assoc] at e1 e2
  unfold corrected_entry
  rw [hV a ha, e1, e2]

end Gate

section RestExample

variable {K : Type} [LinearOrderedField K]

/-! ## A call of `trust_region_solver` that converges at once, evaluated -/

/-- The sample agent at rest at the origin with no force at step `0`: its state after the
first pass of `integrate` is zero, whatever the steering. -/
theorem sample_rest_state_one (cos sin tan sqrt : K → K) (U_ : Nat → K) (h1 : U_ 1 = 0) :
    agent_state (sampleConfig cos sin tan sqrt) (sampleAgent 0 0 0) U_ 0 1 x = 0 ∧
    agent_state (sampleConfig cos sin tan sqrt) (sampleAgent 0 0 0) U_ 0 1 y = 0 ∧
    agent_state (sampleConfig cos sin tan sqrt) (sampleAgent 0 0 0) U_ 0 1 v = 0 ∧
    agent_state (sampleConfig cos sin tan sqrt) (sampleAgent 0 0 0) U_ 0 1 psi = 0 ∧
    agent_state (sampleConfig cos sin tan sqrt) (sampleAgent 0 0 0) U_ 0 1 s = 0 ∧
    agent_state (sampleConfig cos sin tan sqrt) (sampleAgent 0 0 0) U_ 0 1 l = 0 := by
  rw [agent_state_succ]
  simp [agent_state, euler_update, dynamic_step, reference_state, control_at, initial_state,
    Function.update_apply, x, y, v, psi, s, l, d, F, nU, sampleConfig, sampleAgent,
    straightLane, uninit, h1]

/-- The same agent after the second pass: still at the origin, no running cost. -/
theorem sample_rest_state_two (cos sin tan sqrt : K → K) (U_ : Nat → K) (h1 : U_ 1 = 0) :
    agent_state (sampleConfig cos sin tan sqrt) (sampleAgent 0 0 0) U_ 0 2 x = 0 ∧
    agent_state (sampleConfig cos sin tan sqrt) (sampleAgent 0 0 0) U_ 0 2 y = 0 ∧
    agent_state (sampleConfig cos sin tan sqrt) (sampleAgent 0 0 0) U_ 0 2 s = 0 ∧
    agent_state (sampleConfig cos sin tan sqrt) (sampleAgent 0 0 0) U_ 0 2 l = 0 := by
  obtain ⟨e1, e2, e3, e4, e5, e6⟩ := sample_rest_state_one cos sin tan sqrt U_ h1
  rw [agent_state_succ]
  generalize agent_state (sampleConfig cos sin tan sqrt) (sampleAgent 0 0 0) U_ 0 1 = st
    at e1 e2 e3 e4 e5 e6 ⊢
  simp only [x, y, v, psi, s, l] at e1 e2 e3 e4 e5 e6
  unfold euler_update
  refine ⟨?_, ?_, ?_, ?_⟩ <;>
  · split_ifs <;>
    simp [dynamic_step, reference_state, control_at,
      Function.update_apply, x, y, v, psi, s, l, d, F, nU, sampleConfig, sampleAgent,
      straightLane, uninit, e1, e2, e3, e4, e5, e6]

/-- The entries of `X_` that cost and lane constraints of the sample agent read, at rest. -/
theorem sample_rest_integrate (q : Planner K) (cos sin tan sqrt : K → K) (X_ U_ : Nat → K)
    (h1 : U_ 1 = 0) :
    integrate (sampleConfig cos sin tan sqrt)
      (setup (sampleConfig cos sin tan sqrt) { q with traffic := [sampleAgent 0 0 0] }) X_ U_ 0 = 0 ∧
    integrate (sampleConfig cos sin tan sqrt)
      (setup (sampleConfig cos sin tan sqrt) { q with traffic := [sampleAgent 0 0 0] }) X_ U_ 1 = 0 ∧
    integrate (sampleConfig cos sin tan sqrt)
      (setup (sampleConfig cos sin tan sqrt) { q with traffic := [sampleAgent 0 0 0] }) X_ U_ 4 = 0 ∧
    integrate (sampleConfig cos sin tan sqrt)
      (setup (sampleConfig cos sin tan sqrt) { q with traffic := [sampleAgent 0 0 0] }) X_ U_ 6 = 0 ∧
    integrate (sampleConfig cos sin tan sqrt)
      (setup (sampleConfig cos sin tan sqrt) { q with traffic := [sampleAgent 0 0 0] }) X_ U_ 7 = 0 ∧
    integrate (sampleConfig cos sin tan sqrt)
      (setup (sampleConfig cos sin tan sqrt) { q with traffic := [sampleAgent 0 0 0] }) X_ U_ 10 = 0 ∧
    integrate (sampleConfig cos sin tan sqrt)
      (setup (sampleConfig cos sin tan sqrt) { q with traffic := [sampleAgent 0 0 0] }) X_ U_ 11
        = 0 := by
  obtain ⟨a1, a2, _, _, a5, _⟩ := sample_rest_state_one cos sin tan sqrt U_ h1
  obtain ⟨b1, b2, b3, b4⟩ := sample_rest_state_two cos sin tan sqrt U_ h1
  have hX : ∀ a j c, a = 6 * j + c → j ≤ 1 → c < 6 →
      integrate (sampleConfig cos sin tan sqrt)
        (setup (sampleConfig cos sin tan sqrt) { q with traffic := [sampleAgent 0 0 0] }) X_ U_ a
        = agent_state (sampleConfig cos sin tan sqrt) (sampleAgent 0 0 0) U_ 0 (j + 1) c := by
    intro a j c ha hj hcc
    have h := integrate_apply (sampleConfig cos sin tan sqrt)
      (setup (sampleConfig cos sin tan sqrt) { q with traffic := [sampleAgent 0 0 0] }) X_ U_ 0 j c
      Nat.zero_lt_one hj hcc
    rw [ha]
    simpa [nX] using h
  refine ⟨?_, ?_, ?_, ?_, ?_, ?_, ?_⟩
  · exact (hX 0 0 0 rfl (by decide) (by decide)).trans a1
  · exact (hX 1 0 1 rfl (by decide) (by decide)).trans a2
  · exact (hX 4 0 4 rfl (by decide) (by decide)).trans a5
  · exact (hX 6 1 0 rfl (by decide) (by decide)).trans b1
  · exact (hX 7 1 1 rfl (by decide) (by decide)).trans b2
  · exact (hX 10 1 4 rfl (by decide) (by decide)).trans b3
  · exact (hX 11 1 5 rfl (by decide) (by decide)).trans b4

/-- The constraints of the sample agent at rest, the controls within their bounds: no store is
positive. -/
theorem sample_rest_stores_nonpos (q : Planner K) (cos sin tan sqrt : K → K) (hc : cos 0 = 1)
    (hs : sin 0 = 0) (X_ U_ : Nat → K) (h1 : U_ 1 = 0)
    (h0 : -(7 / 10) ≤ U_ 0) (h0' : U_ 0 ≤ 7 / 10) (h2 : -(7 / 10) ≤ U_ 2) (h2' : U_ 2 ≤ 7 / 10)
    (hF3 : -1 ≤ U_ 3) (hF3' : U_ 3 ≤ 1) :
    ∀ w ∈ constraint_stores (sampleConfig cos sin tan sqrt)
        (setup (sampleConfig cos sin tan sqrt) { q with traffic := [sampleAgent 0 0 0] })
        (integrate (sampleConfig cos sin tan sqrt)
          (setup (sampleConfig cos sin tan sqrt) { q with traffic := [sampleAgent 0 0 0] }) X_ U_) U_ 0,
      w.2 ≤ 0 := by
  obtain ⟨x0, x1, x4, x6, x7, x10, _⟩ := sample_rest_integrate q cos sin tan sqrt X_ U_ h1
  generalize integrate (sampleConfig cos sin tan sqrt)
    (setup (sampleConfig cos sin tan sqrt) { q with traffic := [sampleAgent 0 0 0] }) X_ U_ = X
    at x0 x1 x4 x6 x7 x10 ⊢
  intro w hw
  rw [constraint_stores_eq] at hw
  rcases List.mem_append.mp hw with h | h
  · rcases List.mem_append.mp h with h | h
    · obtain ⟨k, hk, hwk⟩ := List.mem_flatMap.mp h
      have hk' : k ≤ (sampleConfig cos sin tan sqrt).N := by
        have := List.mem_range.mp hk
        omega
      obtain ⟨l1, l2, l3, l4⟩ := setup_limits_apply (sampleConfig cos sin tan sqrt)
        { q with traffic := [sampleAgent 0 0 0] } k hk'
      have hk2 : k = 0 ∨ k = 1 := by
        have : k ≤ 1 := hk'
        omega
      unfold input_stores at hwk
      simp only [List.mem_cons, List.mem_singleton, List.not_mem_nil, or_false] at hwk
      rcases hwk with rfl | rfl | rfl | rfl
      · show 1000 * (_ - (setup _ _).uu _) ≤ 0
        rw [l3]
        rcases hk2 with rfl | rfl <;> simp [nU, d, sampleConfig] <;> linarith
      · show 1000 * (_ - (setup _ _).uu _) ≤ 0
        rw [l4]
        rcases hk2 with rfl | rfl
        · simp [nU, F, sampleConfig, h1]
        · simp [nU, F, sampleConfig]
          linarith
      · show 1000 * ((setup _ _).ul _ - _) ≤ 0
        rw [l1]
        rcases hk2 with rfl | rfl <;> simp [nU, d, sampleConfig] <;> linarith
      · show 1000 * ((setup _ _).ul _ - _) ≤ 0
        rw [l2]
        rcases hk2 with rfl | rfl
        · simp [nU, F, sampleConfig, h1]
        · simp [nU, F, sampleConfig]
          linarith
    · obtain ⟨k, hk, hwk⟩ := List.mem_flatMap.mp h
      have hk0 : k = 0 := by
        have := List.mem_range.mp hk
        have hM : (setup (sampleConfig cos sin tan sqrt) { q with traffic := [sampleAgent 0 0 0] }).M = 1 :=
          rfl
        omega
      subst hk0
      simp at hwk
  · obtain ⟨k, hk, rfl⟩ := List.mem_map.mp h
    have hk' : k ≤ (sampleConfig cos sin tan sqrt).N := by
      have := List.mem_range.mp hk
      omega
    have hk2 : k = 0 ∨ k = 1 := by
      have : k ≤ 1 := hk'
      omega
    simp only
    rw [compute_squared_lateral_distance_vector_apply _ _ _ _ _ _ hk', lane_dist2_eq]
    have hag : (setup (sampleConfig cos sin tan sqrt) { q with traffic := [sampleAgent 0 0 0] }).agent 0
        = sampleAgent 0 0 0 := rfl
    rw [hag]
    rcases hk2 with rfl | rfl
    · simp [lane_lateral2, sampleAgent, straightLane, absentLane, sampleConfig, nX, x, y, s,
        x0, x1, x4, hc, hs]
    · simp [lane_lateral2, sampleAgent, straightLane, absentLane, sampleConfig, nX, x, y, s,
        x6, x7, x10, hc, hs]

/-- The augmented Lagrangian of the sample agent at rest, the controls within their bounds,
with the multipliers of `setup`: zero. -/
theorem sample_rest_lagrangian (q : Planner K) (cos sin tan sqrt : K → K) (hc : cos 0 = 1)
    (hs : sin 0 = 0) (U_ : Nat → K) (h1 : U_ 1 = 0)
    (h0 : -(7 / 10) ≤ U_ 0) (h0' : U_ 0 ≤ 7 / 10) (h2 : -(7 / 10) ≤ U_ 2) (h2' : U_ 2 ≤ 7 / 10)
    (hF3 : -1 ≤ U_ 3) (hF3' : U_ 3 ≤ 1) :
    lagrangian_of (sampleConfig cos sin tan sqrt)
      (setup (sampleConfig cos sin tan sqrt) { q with traffic := [sampleAgent 0 0 0] }) U_ 0
      = 0 := by
  have hC : (setup (sampleConfig cos sin tan sqrt) { q with traffic := [sampleAgent 0 0 0] }).nC_i
      = 2 * nU * ((sampleConfig cos sin tan sqrt).N + 1)
        + ((sampleConfig cos sin tan sqrt).N + 1)
          * ((setup (sampleConfig cos sin tan sqrt) { q with traffic := [sampleAgent 0 0 0] }).M - 1)
        + ((sampleConfig cos sin tan sqrt).N + 1) :=
    setup_nC_i (sampleConfig cos sin tan sqrt) _ (le_refl _)
  unfold lagrangian_of
  rw [compute_lagrangian_vehicle_i_feasible _ _ _ _
    (constraints_nonpos _ _ _ _ _ 0 Nat.zero_lt_one hC
      (sample_rest_stores_nonpos q cos sin tan sqrt hc hs uninit U_ h1 h0 h0' h2 h2' hF3 hF3'))
    (fun _ => rfl)]
  obtain ⟨_, _, _, _, _, _, x11⟩ := sample_rest_integrate q cos sin tan sqrt uninit U_ h1
  generalize integrate (sampleConfig cos sin tan sqrt)
    (setup (sampleConfig cos sin tan sqrt) { q with traffic := [sampleAgent 0 0 0] }) uninit U_ = X
    at x11 ⊢
  unfold compute_cost_vehicle_i
  simp only [sampleConfig, nX, l, Nat.mul_zero, Nat.zero_add, Nat.mul_one, Nat.reduceAdd, x11]
  ring

/-- The augmented Lagrangian of the sample agent driven straight ahead, as `lagrangian_of`. -/
theorem sample_lagrangian_of (q : Planner K) (cos sin tan sqrt : K → K) (hc : cos 0 = 1)
    (hs : sin 0 = 0) (ht : tan 0 = 0) (U_ : Nat → K) (h0 : U_ 0 = 0) (h2 : U_ 2 = 0)
    (hF : 0 ≤ U_ 1) (hF1 : U_ 1 ≤ 1) (hF3 : -1 ≤ U_ 3) (hF3' : U_ 3 ≤ 1) :
    lagrangian_of (sampleConfig cos sin tan sqrt)
      (setup (sampleConfig cos sin tan sqrt) { q with traffic := [sampleAgent 0 0 0] }) U_ 0
      = 50 * U_ 1 ^ 4 :=
  sample_lagrangian q cos sin tan sqrt hc hs ht uninit uninit U_ h0 h2 hF hF1 hF3 hF3'

/-- The gradient of the first convergence test for the sample agent at rest, no control: the
entry of the first force is the forward difference `50 * eps^4 / eps` of the terminal cost,
the others are zero. -/
theorem sample_rest_gradient (q : Planner K) (cos sin tan sqrt : K → K) (hc : cos 0 = 1)
    (hs : sin 0 = 0) (ht : tan 0 = 0) (a : Nat) (ha : a < 4) :
    (solver_init (sampleConfig cos sin tan sqrt)
      (setup (sampleConfig cos sin tan sqrt) { q with traffic := [sampleAgent 0 0 0] })
      (fun _ => 0)).gradient a
      = if a = 1 then 50 * (1 / 1000000) ^ 4 / (1 / 1000000) else 0 := by
  have hC : (setup (sampleConfig cos sin tan sqrt) { q with traffic := [sampleAgent 0 0 0] }).nC_i
      = 2 * nU * ((sampleConfig cos sin tan sqrt).N + 1)
        + ((sampleConfig cos sin tan sqrt).N + 1)
          * ((setup (sampleConfig cos sin tan sqrt) { q with traffic := [sampleAgent 0 0 0] }).M - 1)
        + ((sampleConfig cos sin tan sqrt).N + 1) :=
    setup_nC_i (sampleConfig cos sin tan sqrt) _ (le_refl _)
  rw [solver_init_gradient _ _ _ (le_refl _) rfl rfl hC rfl,
    compute_gradient_apply _ _ _ _ (le_refl _) rfl rfl hC rfl]
  have hn : (setup (sampleConfig cos sin tan sqrt)
      { q with traffic := [sampleAgent 0 0 0] }).nU_ = 4 := rfl
  rw [hn, if_pos ha]
  unfold forward_difference
  have hidx : a / (sampleConfig cos sin tan sqrt).nu = 0 := Nat.div_eq_of_lt ha
  have heps : (sampleConfig cos sin tan sqrt).eps = 1 / 1000000 := rfl
  rw [hidx, heps, sample_rest_lagrangian q cos sin tan sqrt hc hs (fun _ => 0) rfl
    (by norm_num) (by norm_num) (by norm_num) (by norm_num) (by norm_num) (by norm_num)]
  by_cases h1 : a = 1
  · subst h1
    rw [if_pos rfl, sample_lagrangian_of q cos sin tan sqrt hc hs ht _
      (by simp [Function.update_apply]) (by simp [Function.update_apply])
      (by simp [Function.update_apply]) (by simp [Function.update_apply]; norm_num)
      (by simp [Function.update_apply]) (by simp [Function.update_apply])]
    simp [Function.update_apply]
  · have h1' : ¬ 1 = a := fun h => h1 h.symm
    rw [if_neg h1, sample_rest_lagrangian q cos sin tan sqrt hc hs _
      (by simp [Function.update_apply, h1'])
      (by simp only [Function.update_apply]; split_ifs <;> norm_num)
      (by simp only [Function.update_apply]; split_ifs <;> norm_num)
      (by simp only [Function.update_apply]; split_ifs <;> norm_num)
      (by simp only [Function.update_apply]; split_ifs <;> norm_num)
      (by simp only [Function.update_apply]; split_ifs <;> norm_num)
      (by simp only [Function.update_apply]; split_ifs <;> norm_num)]
    simp

/-- A call of `trust_region_solver` for the sample agent at rest with no control finds the
squared norm of the gradient below the threshold at the first test. -/
theorem sample_rest_converged (q : Planner K) (cos sin tan sqrt : K → K) (hc : cos 0 = 1)
    (hs : sin 0 = 0) (ht : tan 0 = 0) :
    gradient_norm
        (setup (sampleConfig cos sin tan sqrt) { q with traffic := [sampleAgent 0 0 0] })
        (solver_init (sampleConfig cos sin tan sqrt)
          (setup (sampleConfig cos sin tan sqrt) { q with traffic := [sampleAgent 0 0 0] })
          (fun _ => 0)).gradient
      < threshold_gradient_norm
        (setup (sampleConfig cos sin tan sqrt) { q with traffic := [sampleAgent 0 0 0] }) := by
  have g0 := sample_rest_gradient q cos sin tan sqrt hc hs ht 0 (by omega)
  have g1 := sample_rest_gradient q cos sin tan sqrt hc hs ht 1 (by omega)
  have g2 := sample_rest_gradient q cos sin tan sqrt hc hs ht 2 (by omega)
  have g3 := sample_rest_gradient q cos sin tan sqrt hc hs ht 3 (by omega)
  generalize (solver_init (sampleConfig cos sin tan sqrt)
    (setup (sampleConfig cos sin tan sqrt) { q with traffic := [sampleAgent 0 0 0] })
    (fun _ => 0)).gradient = g at g0 g1 g2 g3 ⊢
  have hth : threshold_gradient_norm (setup (sampleConfig cos sin tan sqrt)
      { q with traffic := [sampleAgent 0 0 0] }) = (1 / 100 : K) := by
    show ((1 : Nat) : K) * (1 / 100) = 1 / 100
    simp
  have hn : gradient_norm (setup (sampleConfig cos sin tan sqrt)
      { q with traffic := [sampleAgent 0 0 0] }) g
      = 0 + g 0 * g 0 + g 1 * g 1 + g 2 * g 2 + g 3 * g 3 := rfl
  rw [hth, hn, g0, g1, g2, g3]
  norm_num

end RestExample

section Lateral

variable {K : Type} [LinearOrderedField K]

/-! ## The lateral distance to a lane -/

/-- With `cos² + sin² = 1`, the full squared distance minus the squared longitudinal
projection is the squared lateral projection. -/
theorem lateral_identity (c sn a b : K) (h : c * c + sn * sn = 1) :
    (a * a + b * b) - (a * c + b * sn) * (a * c + b * sn) = (-a * sn + b * c) ^ 2 := by
  linear_combination (-(a * a + b * b)) * h

theorem lane_lateral2_eq (cfg : Config K)
    (hcs : ∀ t, cfg.cos t * cfg.cos t + cfg.sin t * cfg.sin t = 1) (lane : Lane K)
    (s_ x_ y_ : K) :
    lane_lateral2 cfg lane s_ x_ y_
      = (-(x_ - lane.spline_x s_) * cfg.sin (lane.compute_heading s_)
          + (y_ - lane.spline_y s_) * cfg.cos (lane.compute_heading s_)) ^ 2 := by
  unfold lane_lateral2
  exact lateral_identity _ _ _ _ (hcs _)

theorem lane_lateral2_nonneg (cfg : Config K)
    (hcs : ∀ t, cfg.cos t * cfg.cos t + cfg.sin t * cfg.sin t = 1) (lane : Lane K)
    (s_ x_ y_ : K) : 0 ≤ lane_lateral2 cfg lane s_ x_ y_ := by
  rw [lane_lateral2_eq cfg hcs]
  exact sq_nonneg _

/-- The value the lane loop stores is not negative. -/
theorem lane_dist2_nonneg (cfg : Config K)
    (hcs : ∀ t, cfg.cos t * cfg.cos t + cfg.sin t * cfg.sin t = 1)
    (tr : TrafficParticipant K) (X_ : Nat → K) (i j : Nat) :
    0 ≤ lane_dist2 cfg tr X_ i j := by
  rw [lane_dist2_eq]
  have h1000 : (0 : K) ≤ 1000 := by norm_num
  refine le_min (le_min ?_ ?_) ?_ <;> split_ifs <;>
    first | exact lane_lateral2_nonneg cfg hcs _ _ _ _ | exact h1000

end Lateral

section Independence

variable {K : Type} [LinearOrderedField K]

/-! ## What the trajectory of an agent reads -/

/-- The running state of agent `i` after `n` passes depends on the controls of agent `i` at
the steps before `n` only. -/
theorem agent_state_prefix (cfg : Config K) (tr : TrafficParticipant K) (V V' : Nat → K)
    (i n : Nat)
    (hV : ∀ k, k < n →
      V' (nU * (cfg.N + 1) * i + nU * k + d) = V (nU * (cfg.N + 1) * i + nU * k + d) ∧
      V' (nU * (cfg.N + 1) * i + nU * k + F) = V (nU * (cfg.N + 1) * i + nU * k + F)) :
    agent_state cfg tr V' i n = agent_state cfg tr V i n := by
  induction n with
  | zero => simp only [agent_state, forLoop_zero]
  | succ m ih =>
    have hc : control_at V' (nU * (cfg.N + 1) * i + nU * m)
        = control_at V (nU * (cfg.N + 1) * i + nU * m) := by
      unfold control_at
      rw [(hV m (by omega)).1, (hV m (by omega)).2]
    have e1 := agent_state_succ cfg tr V' i m
    have e2 := agent_state_succ cfg tr V i m
    rw [ih (fun k hk => hV k (by omega)), hc] at e1
    exact e1.trans e2.symm

/-- The entries of agent `i` up to step `j` that `integrate` stores are those of any other call
with the same record of agent `i` and the same controls of agent `i` up to step `j`. -/
theorem integrate_prefix (cfg : Config K) (p p' : Planner K) (X_ X_' U_ U_' : Nat → K)
    (i j : Nat) (hi : i < p.M) (hi' : i < p'.M) (hj : j ≤ cfg.N)
    (hag : p'.agent i = p.agent i)
    (hU : ∀ k, k ≤ j →
      U_' (nU * (cfg.N + 1) * i + nU * k + d) = U_ (nU * (cfg.N + 1) * i + nU * k + d) ∧
      U_' (nU * (cfg.N + 1) * i + nU * k + F) = U_ (nU * (cfg.N + 1) * i + nU * k + F))
    (k c : Nat) (hk : k ≤ j) (hc : c < nX) :
    integrate cfg p' X_' U_' (nX * (cfg.N + 1) * i + nX * k + c)
      = integrate cfg p X_ U_ (nX * (cfg.N + 1) * i + nX * k + c) := by
  rw [integrate_apply cfg p' X_' U_' i k c hi' (by omega) hc,
    integrate_apply cfg p X_ U_ i k c hi (by omega) hc, hag,
    agent_state_prefix cfg (p.agent i) U_ U_' i (k + 1) (fun m hm => hU m (by omega))]

/-- Two control entries of the layout with different agent or step are different entries. -/
theorem control_index_ne (B i i0 r r0 : Nat) (hr : r < B) (hr0 : r0 < B)
    (h : i ≠ i0 ∨ r ≠ r0) : B * i + r ≠ B * i0 + r0 := by
  intro e
  rcases Nat.lt_trichotomy i i0 with hlt | heq | hgt
  · have h1 : B * (i + 1) ≤ B * i0 := Nat.mul_le_mul_left B hlt
    rw [Nat.mul_succ] at h1
    omega
  · subst heq
    rcases h with h | h
    · exact h rfl
    · omega
  · have h1 : B * (i0 + 1) ≤ B * i := Nat.mul_le_mul_left B hgt
    rw [Nat.mul_succ] at h1
    omega

end Independence

section Reduction

variable {K : Type} [LinearOrderedField K]

/-! ## The predicted reduction -/

/-- The quantity `predicted_reduction` of the acceptance loop is minus the quadratic model at
the step. -/
theorem predicted_reduction_eq (n : Nat) (g : Nat → K) (H : Nat → Nat → K) (s_ : Nat → K) :
    -(dot n g s_ + dot n (vecMul n (fun a => (1 / 2) * s_ a) H) s_)
      = -quadratic_model n g H s_ := by
  unfold quadratic_model
  rw [show vecMul n (fun a => (1 / 2) * s_ a) H = fun j => (1 / 2) * vecMul n s_ H j from
    funext (vecMul_smul n (1 / 2) s_ H)]
  have h := dot_smul_smul n (1 / 2) 1 (vecMul n s_ H) s_
  simp only [one_mul, mul_one] at h
  rw [h]

/-- Along the ray the decrease of the model at `t` is at least half the linear decrease, when
the curvature is not positive or `t` is not beyond the minimiser. -/
theorem ray_decrease (a b t : K) (ht : 0 ≤ t) (ha : 0 ≤ a) (h : b ≤ 0 ∨ t * b ≤ a) :
    1 / 2 * (t * a) ≤ -(-t * a + 1 / 2 * (-t * -t) * b) := by
  rcases h with h | h
  · nlinarith [mul_nonneg ht ha, mul_nonneg (mul_nonneg ht ht) (neg_nonneg.mpr h)]
  · nlinarith [mul_nonneg ht ha, mul_nonneg ht (sub_nonneg.mpr h)]

/-- The decrease of the model at `t = tau * Delta / n`, with `n * n = a`. -/
theorem ray_decrease_tau (a b n Delta : K) (hn : 0 < n) (hnn : n * n = a) (hD : 0 < Delta) :
    1 / 2 * (if b ≤ 0 then (1 : K) else min (n ^ 3 / (Delta * b)) 1) * Delta * n
      ≤ -(-((if b ≤ 0 then (1 : K) else min (n ^ 3 / (Delta * b)) 1) * Delta / n) * a
          + 1 / 2 * (-((if b ≤ 0 then (1 : K) else min (n ^ 3 / (Delta * b)) 1) * Delta / n)
            * -((if b ≤ 0 then (1 : K) else min (n ^ 3 / (Delta * b)) 1) * Delta / n)) * b) := by
  obtain ⟨ht0, _⟩ := subproblem_tau n b Delta hn hD
  have ha : 0 ≤ a := hnn ▸ mul_self_nonneg n
  have hb : b ≤ 0 ∨ (if b ≤ 0 then (1 : K) else min (n ^ 3 / (Delta * b)) 1) * Delta / n * b
      ≤ a := by
    by_cases hb : b ≤ 0
    · exact Or.inl hb
    · right
      have hb' : 0 < b := not_le.mp hb
      rw [if_neg hb]
      have h1 : min (n ^ 3 / (Delta * b)) 1 ≤ n ^ 3 / (Delta * b) := min_le_left _ _
      generalize min (n ^ 3 / (Delta * b)) 1 = tau at h1
      rw [le_div_iff₀ (mul_pos hD hb')] at h1
      rw [div_mul_eq_mul_div, div_le_iff₀ hn, ← hnn]
      calc tau * Delta * b = tau * (Delta * b) := by ring
        _ ≤ n ^ 3 := h1
        _ = n * n * n := by ring
  generalize (if b ≤ 0 then (1 : K) else min (n ^ 3 / (Delta * b)) 1) = tau at ht0 hb ⊢
  have htn : 0 ≤ tau * Delta / n :=
    div_nonneg (mul_nonneg (le_of_lt ht0) (le_of_lt hD)) (le_of_lt hn)
  have key := ray_decrease a b (tau * Delta / n) htn ha hb
  have e : 1 / 2 * (tau * Delta / n * a) = 1 / 2 * tau * Delta * n := by
    rw [← hnn]
    field_simp
    ring
  rw [e] at key
  exact key

/-- The decrease of the model that the step of `quadratic_problem_solver` predicts. -/
theorem quadratic_problem_solver_decrease (cfg : Config K) (G_ : Nat → K)
    (H_ : Nat → Nat → K) (Delta : K)
    (hsqrt : ∀ z, 0 ≤ z → 0 ≤ cfg.sqrt z ∧ cfg.sqrt z * cfg.sqrt z = z)
    (hg : ∃ i, i < cfg.nu ∧ G_ i ≠ 0) (hD : 0 < Delta) :
    1 / 2 * (if dot cfg.nu (vecMul cfg.nu G_ H_) G_ ≤ 0 then 1
          else min (cfg.sqrt (dot cfg.nu G_ G_) ^ 3
            / (Delta * dot cfg.nu (vecMul cfg.nu G_ H_) G_)) 1)
        * Delta * cfg.sqrt (dot cfg.nu G_ G_)
      ≤ -(dot cfg.nu G_ (quadratic_problem_solver cfg G_ H_ Delta)
          + dot cfg.nu (vecMul cfg.nu
              (fun a => (1 / 2) * quadratic_problem_solver cfg G_ H_ Delta a) H_)
            (quadratic_problem_solver cfg G_ H_ Delta)) ∧
    0 < -(dot cfg.nu G_ (quadratic_problem_solver cfg G_ H_ Delta)
          + dot cfg.nu (vecMul cfg.nu
              (fun a => (1 / 2) * quadratic_problem_solver cfg G_ H_ Delta a) H_)
            (quadratic_problem_solver cfg G_ H_ Delta)) := by
  obtain ⟨hn, hs, _⟩ := quadratic_problem_solver_norm cfg G_ H_ Delta hsqrt hg hD
  obtain ⟨ht0, _⟩ := subproblem_tau (cfg.sqrt (dot cfg.nu G_ G_))
    (dot cfg.nu (vecMul cfg.nu G_ H_) G_) Delta hn hD
  have hnn := (hsqrt _ (dot_self_nonneg cfg.nu G_)).2
  have key := ray_decrease_tau (dot cfg.nu G_ G_) (dot cfg.nu (vecMul cfg.nu G_ H_) G_)
    (cfg.sqrt (dot cfg.nu G_ G_)) Delta hn hnn hD
  have hpos : 0 < 1 / 2 * (if dot cfg.nu (vecMul cfg.nu G_ H_) G_ ≤ 0 then 1
          else min (cfg.sqrt (dot cfg.nu G_ G_) ^ 3
            / (Delta * dot cfg.nu (vecMul cfg.nu G_ H_) G_)) 1)
        * Delta * cfg.sqrt (dot cfg.nu G_ G_) :=
    mul_pos (mul_pos (mul_pos (by norm_num) ht0) hD) hn
  have e : -(dot cfg.nu G_ (quadratic_problem_solver cfg G_ H_ Delta)
          + dot cfg.nu (vecMul cfg.nu
              (fun a => (1 / 2) * quadratic_problem_solver cfg G_ H_ Delta a) H_)
            (quadratic_problem_solver cfg G_ H_ Delta))
      = -(-((if dot cfg.nu (vecMul cfg.nu G_ H_) G_ ≤ 0 then 1
            else min (cfg.sqrt (dot cfg.nu G_ G_) ^ 3
              / (Delta * dot cfg.nu (vecMul cfg.nu G_ H_) G_)) 1)
            * Delta / cfg.sqrt (dot cfg.nu G_ G_)) * dot cfg.nu G_ G_
          + 1 / 2 * (-((if dot cfg.nu (vecMul cfg.nu G_ H_) G_ ≤ 0 then 1
            else min (cfg.sqrt (dot cfg.nu G_ G_) ^ 3
              / (Delta * dot cfg.nu (vecMul cfg.nu G_ H_) G_)) 1)
            * Delta / cfg.sqrt (dot cfg.nu G_ G_))
            * -((if dot cfg.nu (vecMul cfg.nu G_ H_) G_ ≤ 0 then 1
            else min (cfg.sqrt (dot cfg.nu G_ G_) ^ 3
              / (Delta * dot cfg.nu (vecMul cfg.nu G_ H_) G_)) 1)
            * Delta / cfg.sqrt (dot cfg.nu G_ G_)))
            * dot cfg.nu (vecMul cfg.nu G_ H_) G_) := by
    rw [predicted_reduction_eq]
    conv_lhs => rw [hs]
    rw [quadratic_model_ray]
  rw [e]
  exact ⟨key, lt_of_lt_of_le hpos key⟩

/-- The steps after the first agent loop: for every agent the step of
`quadratic_problem_solver` for its packed gradient, with the Hessian and radius the iteration
started with. -/
theorem propose_loop_step (cfg : Config K) (st : SolverState K) (m : Nat) :
    (forLoop m (propose_step cfg) st).delta = st.delta ∧
    (forLoop m (propose_step cfg) st).H_ = st.H_ ∧
    (∀ i, i < m → (forLoop m (propose_step cfg) st).s_ i
      = quadratic_problem_solver cfg ((forLoop m (propose_step cfg) st).g_ i) (st.H_ i)
          (st.delta i)) := by
  induction m with
  | zero => exact ⟨rfl, rfl, fun i hi => absurd hi (Nat.not_lt_zero i)⟩
  | succ k ih =>
    obtain ⟨h4, h5, h7⟩ := ih
    rw [forLoop_succ]
    generalize forLoop k (propose_step cfg) st = s at h4 h5 h7 ⊢
    have hg : ∀ i, i ≠ k → (propose_step cfg k s).g_ i = s.g_ i :=
      fun i hi => Function.update_noteq hi _ _
    have hs : ∀ i, i ≠ k → (propose_step cfg k s).s_ i = s.s_ i :=
      fun i hi => Function.update_noteq hi _ _
    refine ⟨h4, h5, fun i hi => ?_⟩
    rcases Nat.lt_succ_iff_lt_or_eq.mp hi with hik | hik
    · rw [hs i (by omega), hg i (by omega)]
      exact h7 i hik
    · subst hik
      rw [propose_step_s, h5, h4]

/-- The step of agent `i` in the state in which the acceptance loop is entered. -/
theorem tentative_state_step (cfg : Config K) (st : SolverState K) (i : Nat)
    (hi : i < st.planner.M) :
    (tentative_state cfg st).H_ i = st.H_ i ∧
    (tentative_state cfg st).s_ i
      = quadratic_problem_solver cfg ((tentative_state cfg st).g_ i) (st.H_ i)
          (st.delta i) := by
  obtain ⟨_, h5, h7⟩ := propose_loop_step cfg
    { st with
      dX_ := integrate cfg st.planner st.dX_ st.dU_
      gradient := compute_gradient cfg st.planner st.gradient st.dU_
      lagrangian := compute_lagrangian cfg st.planner st.lagrangian
        (integrate cfg st.planner st.dX_ st.dU_) st.dU_ } st.planner.M
  exact ⟨congrFun h5 i, h7 i hi⟩

end Reduction

section Secant

variable {K : Type} [LinearOrderedField K]

/-! ## The SR1 update -/

theorem dot_comm (n : Nat) (a b : Nat → K) : dot n a b = dot n b a := by
  unfold dot
  exact Finset.sum_congr rfl (fun i _ => mul_comm _ _)

/-- When the test of `hessian_SR1_update` holds for a tolerance `r ≥ 0`, the divisor of the
update is not zero. -/
theorem sr1_divisor_ne (n : Nat) (s_ w : Nat → K) (r : K) (hr : 0 ≤ r)
    (h : |dot n s_ w| > r * dot n s_ s_ * dot n w w) : dot n w s_ ≠ 0 := by
  intro h0
  rw [dot_comm n s_ w, h0, abs_zero] at h
  have := mul_nonneg (mul_nonneg hr (dot_self_nonneg n s_)) (dot_self_nonneg n w)
  exact absurd h (not_lt.mpr this)

/-- The matrix that `hessian_SR1_update` returns. -/
theorem hessian_SR1_update_eq (cfg : Config K) (H_ : Nat → Nat → K) (s_ y_ : Nat → K) (r : K) :
    hessian_SR1_update cfg H_ s_ y_ r
      = if |dot cfg.nu s_ (fun i => y_ i - mulVec cfg.nu H_ s_ i)|
            > r * dot cfg.nu s_ s_
              * dot cfg.nu (fun i => y_ i - mulVec cfg.nu H_ s_ i)
                  (fun i => y_ i - mulVec cfg.nu H_ s_ i) then
          fun i j => H_ i j
            + ((y_ i - mulVec cfg.nu H_ s_ i) * (y_ j - mulVec cfg.nu H_ s_ j))
              / dot cfg.nu (fun i => y_ i - mulVec cfg.nu H_ s_ i) s_
        else H_ := rfl

/-- The product of the rank-one update and `s`. -/
theorem rank_one_mulVec (n : Nat) (H : Nat → Nat → K) (w s_ : Nat → K) (i : Nat)
    (hd : dot n w s_ ≠ 0) :
    mulVec n (fun i j => H i j + (w i * w j) / dot n w s_) s_ i = mulVec n H s_ i + w i := by
  unfold mulVec
  have e : ∀ j, (H i j + (w i * w j) / dot n w s_) * s_ j
      = H i j * s_ j + (w i / dot n w s_) * (w j * s_ j) := by
    intro j
    field_simp
    ring
  rw [Finset.sum_congr rfl (fun j _ => e j), Finset.sum_add_distrib, ← Finset.mul_sum]
  congr 1
  show w i / dot n w s_ * dot n w s_ = w i
  exact div_mul_cancel₀ _ hd

/-- The update keeps a symmetric matrix symmetric. -/
theorem hessian_SR1_update_symm (cfg : Config K) (H_ : Nat → Nat → K) (s_ y_ : Nat → K)
    (r : K) (hH : ∀ i j, H_ i j = H_ j i) (i j : Nat) :
    hessian_SR1_update cfg H_ s_ y_ r i j = hessian_SR1_update cfg H_ s_ y_ r j i := by
  rw [hessian_SR1_update_eq]
  split_ifs
  · show H_ i j + _ = H_ j i + _
    rw [hH i j, mul_comm]
  · exact hH i j

/-- The acceptance loop keeps the Hessian of every agent symmetric. -/
theorem accept_loop_symm (cfg : Config K) (ts : SolverState K) (k : Nat)
    (h : ∀ a b, ts.H_ k a b = ts.H_ k b a) (m : Nat) :
    ∀ a b, (forLoop m (accept_step cfg) ts).H_ k a b
      = (forLoop m (accept_step cfg) ts).H_ k b a := by
  induction m with
  | zero => exact h
  | succ n ih =>
    rw [forLoop_succ]
    generalize forLoop n (accept_step cfg) ts = s at ih ⊢
    intro a b
    show Function.update s.H_ n (hessian_SR1_update cfg (s.H_ n) (s.s_ n)
        (packed_column cfg (fun c => s.d_gradient c - s.gradient c) (s.y_ n) n) r_) k a b
      = Function.update s.H_ n (hessian_SR1_update cfg (s.H_ n) (s.s_ n)
        (packed_column cfg (fun c => s.d_gradient c - s.gradient c) (s.y_ n) n) r_) k b a
    by_cases hk : k = n
    · subst hk
      rw [Function.update_same]
      exact hessian_SR1_update_symm cfg _ _ _ _ ih a b
    · rw [Function.update_noteq hk]
      exact ih a b

/-- The Hessians after the first part of an iteration. -/
theorem commit_phase_H_ (cfg : Config K) (st : SolverState K) :
    (commit_phase cfg st).H_
      = (forLoop st.planner.M (accept_step cfg) (tentative_state cfg st)).H_ := by
  unfold commit_phase
  simp only
  split_ifs
  · rfl
  · rfl

/-- An iteration keeps the Hessian of every agent symmetric. -/
theorem outer_iteration_symm (cfg : Config K) (st : SolverState K) (k : Nat)
    (h : ∀ a b, st.H_ k a b = st.H_ k b a) :
    ∀ a b, (outer_iteration cfg st).H_ k a b = (outer_iteration cfg st).H_ k b a := by
  have hts : (tentative_state cfg st).H_ = st.H_ := (propose_loop_radius cfg _ _).2
  have h' : ∀ a b, (tentative_state cfg st).H_ k a b = (tentative_state cfg st).H_ k b a := by
    rw [hts]
    exact h
  have hl := accept_loop_symm cfg (tentative_state cfg st) k h' st.planner.M
  intro a b
  show (commit_phase cfg st).H_ k a b = (commit_phase cfg st).H_ k b a
  rw [commit_phase_H_]
  exact hl a b

theorem identity_symm (a b : Nat) : (identity : Nat → Nat → K) a b = identity b a := by
  unfold identity
  by_cases h : a = b
  · subst h; rfl
  · rw [if_neg h, if_neg (fun e => h e.symm)]

theorem iterate_symm (cfg : Config K) (st : SolverState K) (k : Nat)
    (h : ∀ a b, st.H_ k a b = st.H_ k b a) (t : Nat) :
    ∀ a b, ((outer_iteration cfg)^[t] st).H_ k a b = ((outer_iteration cfg)^[t] st).H_ k b a := by
  induction t with
  | zero => exact h
  | succ n ih =>
    rw [Function.iterate_succ_apply']
    exact outer_iteration_symm cfg _ k ih

theorem solver_loop_symm (cfg : Config K) (fuel : Nat) (st : SolverState K) (k : Nat)
    (h : ∀ a b, st.H_ k a b = st.H_ k b a) :
    ∀ a b, (solver_loop cfg fuel st).H_ k a b = (solver_loop cfg fuel st).H_ k b a := by
  induction fuel generalizing st with
  | zero => exact h
  | succ n ih =>
    unfold solver_loop
    split_ifs with hc
    · exact ih (outer_iteration cfg st) (outer_iteration_symm cfg st k h)
    · exact h

end Secant

section Bound

variable {K : Type} [LinearOrderedField K]

/-! ## The number of passes of the iteration loop -/

/-- The loop never moves the counter beyond `iter_lim`. -/
theorem solver_loop_iter_le (cfg : Config K) (fuel : Nat) (st : SolverState K)
    (h : st.iter ≤ iter_lim) : (solver_loop cfg fuel st).iter ≤ iter_lim := by
  induction fuel generalizing st with
  | zero => exact h
  | succ n ih =>
    unfold solver_loop
    split_ifs with hc
    · apply ih
      rw [outer_iteration_iter]
      exact hc.2
    · exact h

/-- The state the loop reaches is the body iterated as many times as the counter has moved,
and the loop condition held before every one of these passes. -/
theorem solver_loop_iterate (cfg : Config K) (fuel : Nat) (st : SolverState K) :
    solver_loop cfg fuel st
      = (outer_iteration cfg)^[(solver_loop cfg fuel st).iter - st.iter] st ∧
    (∀ k, k < (solver_loop cfg fuel st).iter - st.iter →
      ((outer_iteration cfg)^[k] st).convergence = false ∧
      ((outer_iteration cfg)^[k] st).iter < iter_lim) := by
  induction fuel generalizing st with
  | zero =>
    simp only [solver_loop, Nat.sub_self, Function.iterate_zero, id_eq, true_and]
    intro k hk
    omega
  | succ n ih =>
    unfold solver_loop
    split_ifs with hc
    · obtain ⟨ih1, ih2⟩ := ih (outer_iteration cfg st)
      have hle := (solver_loop_rho cfg n (outer_iteration cfg st)).1
      rw [outer_iteration_iter] at hle ih1 ih2
      have e : (solver_loop cfg n (outer_iteration cfg st)).iter - st.iter
          = ((solver_loop cfg n (outer_iteration cfg st)).iter - (st.iter + 1)) + 1 := by omega
      rw [e, Function.iterate_succ_apply]
      refine ⟨ih1, fun k hk => ?_⟩
      cases k with
      | zero => exact hc
      | succ k' =>
        rw [Function.iterate_succ_apply]
        exact ih2 k' (by omega)
    · simp only [Nat.sub_self, Function.iterate_zero, id_eq, true_and]
      intro k hk
      omega

/-- Once the loop condition is false, one more pass allowed changes nothing. -/
theorem solver_loop_stable_succ (cfg : Config K) (fuel : Nat) (st : SolverState K)
    (h : ¬ ((solver_loop cfg fuel st).convergence = false ∧
        (solver_loop cfg fuel st).iter < iter_lim)) :
    solver_loop cfg (fuel + 1) st = solver_loop cfg fuel st := by
  induction fuel generalizing st with
  | zero =>
    have h' : ¬ (st.convergence = false ∧ st.iter < iter_lim) := h
    show (if st.convergence = false ∧ st.iter < iter_lim then _ else st) = st
    rw [if_neg h']
  | succ n ih =>
    by_cases hc : st.convergence = false ∧ st.iter < iter_lim
    · have e1 : solver_loop cfg (n + 1) st = solver_loop cfg n (outer_iteration cfg st) := by
        show (if st.convergence = false ∧ st.iter < iter_lim then _ else st) = _
        rw [if_pos hc]
      have e2 : solver_loop cfg (n + 1 + 1) st
          = solver_loop cfg (n + 1) (outer_iteration cfg st) := by
        show (if st.convergence = false ∧ st.iter < iter_lim then _ else st) = _
        rw [if_pos hc]
      rw [e1] at h
      rw [e2, e1]
      exact ih (outer_iteration cfg st) h
    · have e1 : solver_loop cfg (n + 1) st = st := by
        show (if st.convergence = false ∧ st.iter < iter_lim then _ else st) = _
        rw [if_neg hc]
      have e2 : solver_loop cfg (n + 1 + 1) st = st := by
        show (if st.convergence = false ∧ st.iter < iter_lim then _ else st) = _
        rw [if_neg hc]
      rw [e2, e1]

/-- Once the loop condition is false, any larger bound on the passes gives the same state. -/
theorem solver_loop_stable (cfg : Config K) (fuel : Nat) (st : SolverState K)
    (h : ¬ ((solver_loop cfg fuel st).convergence = false ∧
        (solver_loop cfg fuel st).iter < iter_lim)) (extra : Nat) :
    solver_loop cfg (fuel + extra) st = solver_loop cfg fuel st := by
  induction extra with
  | zero => rfl
  | succ n ih =>
    have h' : ¬ ((solver_loop cfg (fuel + n) st).convergence = false ∧
        (solver_loop cfg (fuel + n) st).iter < iter_lim) := by
      rw [ih]
      exact h
    exact (solver_loop_stable_succ cfg (fuel + n) st h').trans ih

end Bound

section FirstIteration

variable {K : Type} [LinearOrderedField K]

/-! ## The first iteration of a call, evaluated -/

/-- In the first iteration of a call for the sample agent at rest with the force `3/10` at
both steps, the packed gradient of the agent has a nonzero entry: the one of the first
force. -/
theorem sample_slice_nonzero (q : Planner K) (cos sin tan sqrt : K → K) (hc : cos 0 = 1)
    (hs : sin 0 = 0) (ht : tan 0 = 0) :
    ∃ r, r < (sampleConfig cos sin tan sqrt).nu ∧
      (tentative_state (sampleConfig cos sin tan sqrt)
        (solver_init (sampleConfig cos sin tan sqrt)
          (setup (sampleConfig cos sin tan sqrt) { q with traffic := [sampleAgent 0 0 0] })
          (fun a => if a = 1 ∨ a = 3 then 3 / 10 else 0))).g_ 0 r ≠ 0 := by
  refine ⟨1, by show 1 < 4; omega, ?_⟩
  obtain ⟨_, _, _, _, _, h6, _, _⟩ := tentative_state_fields (sampleConfig cos sin tan sqrt) rfl
    (solver_init (sampleConfig cos sin tan sqrt)
      (setup (sampleConfig cos sin tan sqrt) { q with traffic := [sampleAgent 0 0 0] })
      (fun a => if a = 1 ∨ a = 3 then 3 / 10 else 0))
  rw [h6 0 1 Nat.zero_lt_one (by show 1 < 4; omega)]
  have hV : ∀ a, a < 4 → (solver_init (sampleConfig cos sin tan sqrt)
      (setup (sampleConfig cos sin tan sqrt) { q with traffic := [sampleAgent 0 0 0] })
      (fun a => if a = 1 ∨ a = 3 then 3 / 10 else 0)).dU_ a
      = if a = 1 ∨ a = 3 then 3 / 10 else 0 := by
    intro a ha
    rw [solver_init_dU_]
    exact if_pos ha
  have h0 := hV 0 (by omega)
  have h1 := hV 1 (by omega)
  have h2 := hV 2 (by omega)
  have h3 := hV 3 (by omega)
  simp only [Nat.zero_ne_one, OfNat.zero_ne_ofNat, or_self, if_false, true_or, or_true, if_true,
    OfNat.ofNat_ne_one, Nat.reduceEqDiff] at h0 h1 h2 h3
  have hg := sample_gradient_entry q cos sin tan sqrt hc hs ht
    (solver_init (sampleConfig cos sin tan sqrt)
      (setup (sampleConfig cos sin tan sqrt) { q with traffic := [sampleAgent 0 0 0] })
      (fun a => if a = 1 ∨ a = 3 then 3 / 10 else 0)).gradient
    (solver_init (sampleConfig cos sin tan sqrt)
      (setup (sampleConfig cos sin tan sqrt) { q with traffic := [sampleAgent 0 0 0] })
      (fun a => if a = 1 ∨ a = 3 then 3 / 10 else 0)).dU_ h0 h2
    (by rw [h1]; norm_num) (by rw [h1]; norm_num) (by rw [h3]; norm_num)
    (by rw [h3]; norm_num)
  rw [h1] at hg
  have e : (sampleConfig cos sin tan sqrt).nu * 0 + 1 = 1 := rfl
  rw [e]
  exact hg.trans_ne (by norm_num)

end FirstIteration

section RestAgent

variable {K : Type} [LinearOrderedField K]

/-! ## An agent at rest, evaluated -/

/-- The agent at rest after the first pass of `integrate`: only the speed has changed, to the
clipped first force. -/
theorem rest_state_one (cos sin tan sqrt : K → K) (vt : K) (U_ : Nat → K) :
    agent_state (sampleConfig cos sin tan sqrt) (restAgent vt) U_ 0 1 x = 0 ∧
    agent_state (sampleConfig cos sin tan sqrt) (restAgent vt) U_ 0 1 y = 0 ∧
    agent_state (sampleConfig cos sin tan sqrt) (restAgent vt) U_ 0 1 v = max 0 (U_ 1) ∧
    agent_state (sampleConfig cos sin tan sqrt) (restAgent vt) U_ 0 1 psi = 0 ∧
    agent_state (sampleConfig cos sin tan sqrt) (restAgent vt) U_ 0 1 s = 0 ∧
    agent_state (sampleConfig cos sin tan sqrt) (restAgent vt) U_ 0 1 l = 0 := by
  rw [agent_state_succ]
  by_cases h : U_ 1 < 0
  · simp [agent_state, euler_update, dynamic_step, reference_state, control_at, initial_state,
      Function.update_apply, x, y, v, psi, s, l, d, F, nU, sampleConfig, restAgent,
      straightLane, uninit, h, max_eq_left (le_of_lt h)]
  · simp [agent_state, euler_update, dynamic_step, reference_state, control_at, initial_state,
      Function.update_apply, x, y, v, psi, s, l, d, F, nU, sampleConfig, restAgent,
      straightLane, uninit, h, max_eq_right (not_lt.mp h)]

/-- The same agent after the second pass. -/
theorem rest_state_two (cos sin tan sqrt : K → K) (vt : K) (U_ : Nat → K) :
    agent_state (sampleConfig cos sin tan sqrt) (restAgent vt) U_ 0 2 x
      = max 0 (U_ 1) * cos (1 / 2 * U_ 2) ∧
    agent_state (sampleConfig cos sin tan sqrt) (restAgent vt) U_ 0 2 y
      = max 0 (U_ 1) * sin (1 / 2 * U_ 2) ∧
    agent_state (sampleConfig cos sin tan sqrt) (restAgent vt) U_ 0 2 s = max 0 (U_ 1) ∧
    agent_state (sampleConfig cos sin tan sqrt) (restAgent vt) U_ 0 2 l
      = 10 * (max 0 (U_ 1) - vt) * (max 0 (U_ 1) - vt) := by
  obtain ⟨e1, e2, e3, e4, e5, e6⟩ := rest_state_one cos sin tan sqrt vt U_
  rw [agent_state_succ]
  generalize agent_state (sampleConfig cos sin tan sqrt) (restAgent vt) U_ 0 1 = st
    at e1 e2 e3 e4 e5 e6 ⊢
  generalize max 0 (U_ 1) = w at e3 ⊢
  simp only [x, y, v, psi, s, l] at e1 e2 e3 e4 e5 e6
  unfold euler_update
  refine ⟨?_, ?_, ?_, ?_⟩ <;>
  · split_ifs <;>
    simp [dynamic_step, reference_state, control_at,
      Function.update_apply, x, y, v, psi, s, l, d, F, nU, sampleConfig, restAgent,
      straightLane, uninit, e1, e2, e3, e4, e5, e6]

/-- The entries of `X_` that cost and lane constraints of the agent at rest read. -/
theorem rest_integrate (q : Planner K) (cos sin tan sqrt : K → K) (vt : K) (X_ U_ : Nat → K) :
    integrate (sampleConfig cos sin tan sqrt)
      (setup (sampleConfig cos sin tan sqrt) { q with traffic := [restAgent vt] }) X_ U_ 0 = 0 ∧
    integrate (sampleConfig cos sin tan sqrt)
      (setup (sampleConfig cos sin tan sqrt) { q with traffic := [restAgent vt] }) X_ U_ 1 = 0 ∧
    integrate (sampleConfig cos sin tan sqrt)
      (setup (sampleConfig cos sin tan sqrt) { q with traffic := [restAgent vt] }) X_ U_ 4 = 0 ∧
    integrate (sampleConfig cos sin tan sqrt)
      (setup (sampleConfig cos sin tan sqrt) { q with traffic := [restAgent vt] }) X_ U_ 6
        = max 0 (U_ 1) * cos (1 / 2 * U_ 2) ∧
    integrate (sampleConfig cos sin tan sqrt)
      (setup (sampleConfig cos sin tan sqrt) { q with traffic := [restAgent vt] }) X_ U_ 7
        = max 0 (U_ 1) * sin (1 / 2 * U_ 2) ∧
    integrate (sampleConfig cos sin tan sqrt)
      (setup (sampleConfig cos sin tan sqrt) { q with traffic := [restAgent vt] }) X_ U_ 10
        = max 0 (U_ 1) ∧
    integrate (sampleConfig cos sin tan sqrt)
      (setup (sampleConfig cos sin tan sqrt) { q with traffic := [restAgent vt] }) X_ U_ 11
        = 10 * (max 0 (U_ 1) - vt) * (max 0 (U_ 1) - vt) := by
  obtain ⟨a1, a2, _, _, a5, _⟩ := rest_state_one cos sin tan sqrt vt U_
  obtain ⟨b1, b2, b3, b4⟩ := rest_state_two cos sin tan sqrt vt U_
  have hX : ∀ a j c, a = 6 * j + c → j ≤ 1 → c < 6 →
      integrate (sampleConfig cos sin tan sqrt)
        (setup (sampleConfig cos sin tan sqrt) { q with traffic := [restAgent vt] }) X_ U_ a
        = agent_state (sampleConfig cos sin tan sqrt) (restAgent vt) U_ 0 (j + 1) c := by
    intro a j c ha hj hcc
    have h := integrate_apply (sampleConfig cos sin tan sqrt)
      (setup (sampleConfig cos sin tan sqrt) { q with traffic := [restAgent vt] }) X_ U_ 0 j c
      Nat.zero_lt_one hj hcc
    rw [ha]
    simpa [nX] using h
  refine ⟨?_, ?_, ?_, ?_, ?_, ?_, ?_⟩
  · exact (hX 0 0 0 rfl (by decide) (by decide)).trans a1
  · exact (hX 1 0 1 rfl (by decide) (by decide)).trans a2
  · exact (hX 4 0 4 rfl (by decide) (by decide)).trans a5
  · exact (hX 6 1 0 rfl (by decide) (by decide)).trans b1
  · exact (hX 7 1 1 rfl (by decide) (by decide)).trans b2
  · exact (hX 10 1 4 rfl (by decide) (by decide)).trans b3
  · exact (hX 11 1 5 rfl (by decide) (by decide)).trans b4

/-- The constraints of the agent at rest, the controls within their bounds except for the
first force, which may be above `F_up`: no store other than the one of that bound is
positive, and that one is `1000 * (U_ 1 - 1)`. -/
theorem rest_stores (q : Planner K) (cos sin tan sqrt : K → K) (hc : cos 0 = 1)
    (hs : sin 0 = 0) (hs1 : ∀ z, sin z * sin z ≤ 1) (vt : K) (X_ U_ : Nat → K)
    (h0 : -(7 / 10) ≤ U_ 0) (h0' : U_ 0 ≤ 7 / 10) (h2 : -(7 / 10) ≤ U_ 2) (h2' : U_ 2 ≤ 7 / 10)
    (hF1 : -1 ≤ U_ 1) (hF1' : U_ 1 ≤ 2) (hF3 : -1 ≤ U_ 3) (hF3' : U_ 3 ≤ 1) :
    ∀ w ∈ constraint_stores (sampleConfig cos sin tan sqrt)
        (setup (sampleConfig cos sin tan sqrt) { q with traffic := [restAgent vt] })
        (integrate (sampleConfig cos sin tan sqrt)
          (setup (sampleConfig cos sin tan sqrt) { q with traffic := [restAgent vt] }) X_ U_) U_ 0,
      (w.1 ≠ 1 → w.2 ≤ 0) ∧ (w.1 = 1 → w.2 = 1000 * (U_ 1 - 1)) := by
  obtain ⟨x0, x1, x4, x6, x7, x10, _⟩ := rest_integrate q cos sin tan sqrt vt X_ U_
  generalize integrate (sampleConfig cos sin tan sqrt)
    (setup (sampleConfig cos sin tan sqrt) { q with traffic := [restAgent vt] }) X_ U_ = X
    at x0 x1 x4 x6 x7 x10 ⊢
  intro w hw
  rw [constraint_stores_eq] at hw
  rcases List.mem_append.mp hw with h | h
  · rcases List.mem_append.mp h with h | h
    · obtain ⟨k, hk, hwk⟩ := List.mem_flatMap.mp h
      have hk' : k ≤ (sampleConfig cos sin tan sqrt).N := by
        have := List.mem_range.mp hk
        omega
      obtain ⟨l1, l2, l3, l4⟩ := setup_limits_apply (sampleConfig cos sin tan sqrt)
        { q with traffic := [restAgent vt] } k hk'
      have hk2 : k = 0 ∨ k = 1 := by
        have : k ≤ 1 := hk'
        omega
      unfold input_stores at hwk
      simp only [List.mem_cons, List.mem_singleton, List.not_mem_nil, or_false] at hwk
      rcases hwk with rfl | rfl | rfl | rfl
      · refine ⟨fun _ => ?_, fun h1 => ?_⟩
        · show 1000 * (_ - (setup _ _).uu _) ≤ 0
          rw [l3]
          rcases hk2 with rfl | rfl <;> simp [nU, d, sampleConfig] <;> linarith
        · exfalso
          rcases hk2 with rfl | rfl <;> simp [nU, d] at h1
      · refine ⟨fun h1 => ?_, fun _ => ?_⟩
        · rcases hk2 with rfl | rfl
          · exact absurd rfl h1
          · show 1000 * (_ - (setup _ _).uu _) ≤ 0
            rw [l4]
            simp [nU, F, sampleConfig]
            linarith
        · rcases hk2 with rfl | rfl
          · show 1000 * (_ - (setup _ _).uu _) = _
            rw [l4]
            simp [nU, F, sampleConfig]
          · rename_i h1
            simp [nU, F] at h1
      · refine ⟨fun _ => ?_, fun h1 => ?_⟩
        · show 1000 * ((setup _ _).ul _ - _) ≤ 0
          rw [l1]
          rcases hk2 with rfl | rfl <;> simp [nU, d, sampleConfig] <;> linarith
        · exfalso
          rcases hk2 with rfl | rfl <;> simp [nU, d, sampleConfig] at h1
      · refine ⟨fun _ => ?_, fun h1 => ?_⟩
        · show 1000 * ((setup _ _).ul _ - _) ≤ 0
          rw [l2]
          rcases hk2 with rfl | rfl <;> simp [nU, F, sampleConfig] <;> linarith
        · exfalso
          rcases hk2 with rfl | rfl <;> simp [nU, F, sampleConfig] at h1
    · obtain ⟨k, hk, hwk⟩ := List.mem_flatMap.mp h
      have hk0 : k = 0 := by
        have := List.mem_range.mp hk
        have hM : (setup (sampleConfig cos sin tan sqrt) { q with traffic := [restAgent vt] }).M = 1 :=
          rfl
        omega
      subst hk0
      simp at hwk
  · obtain ⟨k, hk, rfl⟩ := List.mem_map.mp h
    have hk' : k ≤ (sampleConfig cos sin tan sqrt).N := by
      have := List.mem_range.mp hk
      omega
    have hk2 : k = 0 ∨ k = 1 := by
      have : k ≤ 1 := hk'
      omega
    refine ⟨fun _ => ?_, fun h1 => ?_⟩
    · simp only
      rw [compute_squared_lateral_distance_vector_apply _ _ _ _ _ _ hk', lane_dist2_eq]
      have hag : (setup (sampleConfig cos sin tan sqrt) { q with traffic := [restAgent vt] }).agent 0
          = restAgent vt := rfl
      rw [hag]
      have hm0 : (0 : K) ≤ max 0 (U_ 1) := le_max_left _ _
      have hm2 : max 0 (U_ 1) ≤ 2 := max_le (by norm_num) hF1'
      have h100 : max 0 (U_ 1) < 100 := by linarith
      rcases hk2 with rfl | rfl
      · simp [lane_lateral2, restAgent, straightLane, absentLane, sampleConfig, nX, x, y, s,
          x0, x1, x4, hc, hs]
      · simp only [lane_lateral2, restAgent, straightLane, absentLane, sampleConfig, nX, x, y, s,
          x6, x7, x10, hc, hs, h100, Nat.mul_zero, Nat.mul_one, Nat.zero_add, Nat.reduceAdd,
          if_true, Bool.false_eq_true, false_and, if_false, mul_one, mul_zero, add_zero]
        have hsq := hs1 (1 / 2 * U_ 2)
        generalize sin (1 / 2 * U_ 2) = sn at hsq
        generalize max 0 (U_ 1) = w at hm0 hm2
        have hle : min (min (1000 : K) 1000) ((w * cos (1 / 2 * U_ 2) - w) * (w * cos (1 / 2 * U_ 2) - w)
            + (w * sn - 0) * (w * sn - 0)
            - (w * cos (1 / 2 * U_ 2) - w) * (w * cos (1 / 2 * U_ 2) - w))
            ≤ w * sn * (w * sn) := by
          refine le_trans (min_le_right _ _) ?_
          apply le_of_eq
          ring
        have h4 : w * sn * (w * sn) ≤ 4 := by
          have : w * sn * (w * sn) = (w * w) * (sn * sn) := by ring
          rw [this]
          have hw4 : w * w ≤ 4 := by nlinarith
          calc w * w * (sn * sn) ≤ w * w * 1 :=
                mul_le_mul_of_nonneg_left hsq (mul_self_nonneg w)
            _ ≤ 4 := by rw [mul_one]; exact hw4
        refine le_trans (sub_le_sub_right hle _) ?_
        linarith
    · exfalso
      have hM : (setup (sampleConfig cos sin tan sqrt) { q with traffic := [restAgent vt] }).M = 1 :=
        rfl
      have hN : (sampleConfig cos sin tan sqrt).N = 1 := rfl
      simp only [hM, hN, nU] at h1
      omega

/-- The augmented Lagrangian of the agent at rest, with the multipliers of `setup`, the
controls within their bounds except for the first force, which may be above `F_up`: the
terminal cost and the penalty of that bound. -/
theorem rest_lagrangian (q : Planner K) (cos sin tan sqrt : K → K) (hc : cos 0 = 1)
    (hs : sin 0 = 0) (hs1 : ∀ z, sin z * sin z ≤ 1) (vt : K) (U_ : Nat → K)
    (h0 : -(7 / 10) ≤ U_ 0) (h0' : U_ 0 ≤ 7 / 10) (h2 : -(7 / 10) ≤ U_ 2) (h2' : U_ 2 ≤ 7 / 10)
    (hF1 : -1 ≤ U_ 1) (hF1' : U_ 1 ≤ 2) (hF3 : -1 ≤ U_ 3) (hF3' : U_ 3 ≤ 1) :
    lagrangian_of (sampleConfig cos sin tan sqrt)
      (setup (sampleConfig cos sin tan sqrt) { q with traffic := [restAgent vt] }) U_ 0
      = 50 * (max 0 (U_ 1) - vt) ^ 4
        + 1 / 2 * q.rho * (max 0 (1000 * (U_ 1 - 1)) * max 0 (1000 * (U_ 1 - 1))) := by
  have hC : (setup (sampleConfig cos sin tan sqrt) { q with traffic := [restAgent vt] }).nC_i
      = 2 * nU * ((sampleConfig cos sin tan sqrt).N + 1)
        + ((sampleConfig cos sin tan sqrt).N + 1)
          * ((setup (sampleConfig cos sin tan sqrt) { q with traffic := [restAgent vt] }).M - 1)
        + ((sampleConfig cos sin tan sqrt).N + 1) :=
    setup_nC_i (sampleConfig cos sin tan sqrt) _ (le_refl _)
  have hst := rest_stores q cos sin tan sqrt hc hs hs1 vt uninit U_ h0 h0' h2 h2' hF1 hF1'
    hF3 hF3'
  have hCk : ∀ k, k < (setup (sampleConfig cos sin tan sqrt)
      { q with traffic := [restAgent vt] }).nC_i →
      (k ≠ 1 → compute_constraints_vehicle_i (sampleConfig cos sin tan sqrt)
        (setup (sampleConfig cos sin tan sqrt) { q with traffic := [restAgent vt] }) uninit
        (integrate (sampleConfig cos sin tan sqrt)
          (setup (sampleConfig cos sin tan sqrt) { q with traffic := [restAgent vt] })
          uninit U_) U_ 0 k ≤ 0) ∧
      (k = 1 → compute_constraints_vehicle_i (sampleConfig cos sin tan sqrt)
        (setup (sampleConfig cos sin tan sqrt) { q with traffic := [restAgent vt] }) uninit
        (integrate (sampleConfig cos sin tan sqrt)
          (setup (sampleConfig cos sin tan sqrt) { q with traffic := [restAgent vt] })
          uninit U_) U_ 0 k = 1000 * (U_ 1 - 1)) := by
    intro k hk
    obtain ⟨w, hmem, hw1⟩ := List.mem_map.mp
      (constraint_stores_cover (sampleConfig cos sin tan sqrt) _ _ U_ 0 Nat.zero_lt_one k
        (by rw [← hC]; exact hk))
    rw [← hw1, compute_constraints_vehicle_i_apply _ _ uninit _ U_ 0 Nat.zero_lt_one w hmem]
    exact hst w hmem
  obtain ⟨_, _, _, _, _, _, x11⟩ := rest_integrate q cos sin tan sqrt vt uninit U_
  unfold lagrangian_of
  rw [compute_lagrangian_vehicle_i_sum]
  generalize compute_constraints_vehicle_i (sampleConfig cos sin tan sqrt)
    (setup (sampleConfig cos sin tan sqrt) { q with traffic := [restAgent vt] }) uninit
    (integrate (sampleConfig cos sin tan sqrt)
      (setup (sampleConfig cos sin tan sqrt) { q with traffic := [restAgent vt] })
      uninit U_) U_ 0 = C at hCk ⊢
  generalize integrate (sampleConfig cos sin tan sqrt)
    (setup (sampleConfig cos sin tan sqrt) { q with traffic := [restAgent vt] }) uninit U_ = X
    at x11 ⊢
  have hn : (setup (sampleConfig cos sin tan sqrt) { q with traffic := [restAgent vt] }).nC_i
      = 10 := rfl
  have hl : ∀ k, (setup (sampleConfig cos sin tan sqrt)
      { q with traffic := [restAgent vt] }).lagrangian_multipliers k = 0 := fun _ => rfl
  have hr : (setup (sampleConfig cos sin tan sqrt) { q with traffic := [restAgent vt] }).rho
      = q.rho := rfl
  rw [hn] at hCk ⊢
  rw [Finset.sum_eq_single 1]
  · rw [hl, hr, (hCk 1 (by omega)).2 rfl]
    unfold compute_cost_vehicle_i
    simp only [sampleConfig, nX, l, Nat.mul_zero, Nat.zero_add, Nat.mul_one, Nat.reduceAdd, x11]
    ring
  · intro k hk hk1
    rw [hl, max_eq_left ((hCk k (Finset.mem_range.mp hk)).1 hk1)]
    ring
  · intro h
    exact absurd (Finset.mem_range.mpr (by omega)) h

/-- The gradient of the agent at rest: only the first force has a nonzero forward
difference. -/
theorem rest_gradient (q : Planner K) (cos sin tan sqrt : K → K) (hc : cos 0 = 1)
    (hs : sin 0 = 0) (hs1 : ∀ z, sin z * sin z ≤ 1) (vt : K) (g0 U_ : Nat → K)
    (h0 : -(7 / 10) ≤ U_ 0) (h0' : U_ 0 + 1 / 1000000 ≤ 7 / 10)
    (h2 : -(7 / 10) ≤ U_ 2) (h2' : U_ 2 + 1 / 1000000 ≤ 7 / 10)
    (hF1 : -1 ≤ U_ 1) (hF1' : U_ 1 + 1 / 1000000 ≤ 2)
    (hF3 : -1 ≤ U_ 3) (hF3' : U_ 3 + 1 / 1000000 ≤ 1) (a : Nat) (ha : a < 4) :
    compute_gradient (sampleConfig cos sin tan sqrt)
      (setup (sampleConfig cos sin tan sqrt) { q with traffic := [restAgent vt] }) g0 U_ a
      = if a = 1 then
          (50 * (max 0 (U_ 1 + 1 / 1000000) - vt) ^ 4
            + 1 / 2 * q.rho * (max 0 (1000 * (U_ 1 + 1 / 1000000 - 1))
                * max 0 (1000 * (U_ 1 + 1 / 1000000 - 1)))
            - (50 * (max 0 (U_ 1) - vt) ^ 4
              + 1 / 2 * q.rho * (max 0 (1000 * (U_ 1 - 1)) * max 0 (1000 * (U_ 1 - 1)))))
            / (1 / 1000000)
        else 0 := by
  have hC : (setup (sampleConfig cos sin tan sqrt) { q with traffic := [restAgent vt] }).nC_i
      = 2 * nU * ((sampleConfig cos sin tan sqrt).N + 1)
        + ((sampleConfig cos sin tan sqrt).N + 1)
          * ((setup (sampleConfig cos sin tan sqrt) { q with traffic := [restAgent vt] }).M - 1)
        + ((sampleConfig cos sin tan sqrt).N + 1) :=
    setup_nC_i (sampleConfig cos sin tan sqrt) _ (le_refl _)
  rw [compute_gradient_apply _ _ _ _ (le_refl _) rfl rfl hC rfl]
  have hn : (setup (sampleConfig cos sin tan sqrt)
      { q with traffic := [restAgent vt] }).nU_ = 4 := rfl
  rw [hn, if_pos ha]
  unfold forward_difference
  have hidx : a / (sampleConfig cos sin tan sqrt).nu = 0 := Nat.div_eq_of_lt ha
  have heps : (sampleConfig cos sin tan sqrt).eps = 1 / 1000000 := rfl
  have e0 : (0 : K) ≤ 1 / 1000000 := by norm_num
  rw [hidx, heps, rest_lagrangian q cos sin tan sqrt hc hs hs1 vt U_ h0 (by linarith) h2
    (by linarith) hF1 (by linarith) hF3 (by linarith)]
  have hb : ∀ b, b < 4 → b ≠ a → Function.update U_ a (U_ a + 1 / 1000000) b = U_ b :=
    fun b _ hba => Function.update_noteq hba _ _
  have hs' : Function.update U_ a (U_ a + 1 / 1000000) a = U_ a + 1 / 1000000 :=
    Function.update_same _ _ _
  have hV0 : -(7 / 10) ≤ Function.update U_ a (U_ a + 1 / 1000000) 0
      ∧ Function.update U_ a (U_ a + 1 / 1000000) 0 ≤ 7 / 10 := by
    by_cases h : 0 = a
    · subst h; rw [hs']; exact ⟨by linarith, h0'⟩
    · rw [hb 0 (by omega) h]; exact ⟨h0, by linarith⟩
  have hV2 : -(7 / 10) ≤ Function.update U_ a (U_ a + 1 / 1000000) 2
      ∧ Function.update U_ a (U_ a + 1 / 1000000) 2 ≤ 7 / 10 := by
    by_cases h : 2 = a
    · subst h; rw [hs']; exact ⟨by linarith, h2'⟩
    · rw [hb 2 (by omega) h]; exact ⟨h2, by linarith⟩
  have hV1 : -1 ≤ Function.update U_ a (U_ a + 1 / 1000000) 1
      ∧ Function.update U_ a (U_ a + 1 / 1000000) 1 ≤ 2 := by
    by_cases h : 1 = a
    · subst h; rw [hs']; exact ⟨by linarith, hF1'⟩
    · rw [hb 1 (by omega) h]; exact ⟨hF1, by linarith⟩
  have hV3 : -1 ≤ Function.update U_ a (U_ a + 1 / 1000000) 3
      ∧ Function.update U_ a (U_ a + 1 / 1000000) 3 ≤ 1 := by
    by_cases h : 3 = a
    · subst h; rw [hs']; exact ⟨by linarith, hF3'⟩
    · rw [hb 3 (by omega) h]; exact ⟨hF3, by linarith⟩
  rw [rest_lagrangian q cos sin tan sqrt hc hs hs1 vt _ hV0.1 hV0.2 hV2.1 hV2.2 hV1.1 hV1.2
    hV3.1 hV3.2]
  by_cases h1 : a = 1
  · subst h1
    rw [if_pos rfl, hs']
  · rw [if_neg h1, hb 1 (by omega) (fun h => h1 h.symm), sub_self, zero_div]

end RestAgent

section ForceBound

variable {K : Type} [LinearOrderedField K]

/-! ## A call of `trust_region_solver` that returns a force above `F_up` -/

end ForceBound

section SecondPass

variable {K : Type} [LinearOrderedField K]

/-! ## The first two passes of the loop in a call for an agent at rest, evaluated -/

theorem propose_loop_flag (cfg : Config K) (m : Nat) (st : SolverState K) :
    (forLoop m (propose_step cfg) st).convergence = st.convergence ∧
    (forLoop m (propose_step cfg) st).gradient = st.gradient := by
  induction m with
  | zero => exact ⟨rfl, rfl⟩
  | succ k ih => rw [forLoop_succ]; exact ih

theorem accept_loop_flag (cfg : Config K) (m : Nat) (st : SolverState K) :
    (forLoop m (accept_step cfg) st).convergence = st.convergence ∧
    (forLoop m (accept_step cfg) st).gradient = st.gradient := by
  induction m with
  | zero => exact ⟨rfl, rfl⟩
  | succ k ih => rw [forLoop_succ]; exact ih

/-- The convergence flag after the first part of a pass: set when the squared norm of the
gradient computed at the start of the pass is below the threshold, left as it is otherwise. -/
theorem commit_phase_convergence (cfg : Config K) (st : SolverState K) :
    (commit_phase cfg st).convergence
      = if gradient_norm st.planner (compute_gradient cfg st.planner st.gradient st.dU_)
            < threshold_gradient_norm st.planner then true
        else st.convergence := by
  have key : ∀ (s2 : SolverState K) (c : Prop) [Decidable c],
      (if c then { s2 with convergence := true } else s2).convergence
        = if c then true else s2.convergence := by
    intro s2 c _
    split_ifs <;> rfl
  unfold commit_phase
  simp only
  rw [key, (accept_loop_flag cfg _ _).2, (accept_loop_flag cfg _ _).1]
  show (if gradient_norm st.planner (forLoop st.planner.M (propose_step cfg) _).gradient
      < threshold_gradient_norm st.planner then true
    else (forLoop st.planner.M (propose_step cfg) _).convergence) = _
  rw [(propose_loop_flag cfg _ _).2, (propose_loop_flag cfg _ _).1]

/-- The step of `quadratic_problem_solver` for a gradient whose only nonzero entry is the
second one, at least `1`, with the identity as Hessian and the radius `1`: one unit against
that entry. -/
theorem quadratic_problem_solver_single (cfg : Config K) (hnu : cfg.nu = 4)
    (hsqrt : ∀ z, 0 ≤ z → 0 ≤ cfg.sqrt z ∧ cfg.sqrt z * cfg.sqrt z = z)
    (G : Nat → K) (g : K) (hg : 1 ≤ g) (hG : ∀ r, r < 4 → G r = if r = 1 then g else 0)
    (r : Nat) (hr : r < 4) :
    quadratic_problem_solver cfg G identity 1 r = if r = 1 then -1 else 0 := by
  have g0 := hG 0 (by omega)
  have g1 := hG 1 (by omega)
  have g2 := hG 2 (by omega)
  have g3 := hG 3 (by omega)
  simp only [Nat.zero_ne_one, if_false, if_true, OfNat.ofNat_ne_one] at g0 g1 g2 g3
  have hgg : dot cfg.nu G G = g * g := by
    unfold dot
    rw [hnu]
    simp [Finset.sum_range_succ, g0, g1, g2, g3]
  have hgHg : dot cfg.nu (vecMul cfg.nu G identity) G = g * g := by
    unfold dot vecMul identity
    rw [hnu]
    simp [Finset.sum_range_succ, g0, g1, g2, g3]
  have hpos : (0 : K) < g := lt_of_lt_of_le one_pos hg
  have hs : cfg.sqrt (g * g) = g := sqrt_unique cfg.sqrt hsqrt _ g (le_of_lt hpos) rfl
  rw [quadratic_problem_solver_eq, hgg, hgHg, hs, if_neg (not_le.mpr (mul_pos hpos hpos))]
  have htau : min (g ^ 3 / (1 * (g * g))) 1 = 1 := by
    apply min_eq_right
    rw [le_div_iff₀ (by positivity)]
    nlinarith [mul_pos hpos hpos]
  rw [htau, hG r hr]
  split_ifs
  · field_simp
  · simp

/-- The first pass of the loop for the agent at rest with target speed `0` and the force
`3/10` at both steps: the packed gradient, the step, the tentative controls. -/
theorem sample_first_step (q : Planner K) (cos sin tan sqrt : K → K) (hc : cos 0 = 1)
    (hs : sin 0 = 0) (hs1 : ∀ z, sin z * sin z ≤ 1)
    (hsqrt : ∀ z, 0 ≤ z → 0 ≤ sqrt z ∧ sqrt z * sqrt z = z) (V : Nat → K)
    (h0 : V 0 = 0) (h1 : V 1 = 3 / 10) (h2 : V 2 = 0) (h3 : V 3 = 3 / 10) (r : Nat)
    (hr : r < 4) :
    (tentative_state (sampleConfig cos sin tan sqrt)
      (solver_init (sampleConfig cos sin tan sqrt)
        (setup (sampleConfig cos sin tan sqrt) { q with traffic := [restAgent 0] }) V)).g_ 0 r
      = (if r = 1 then 108000540001200001 / 20000000000000000 else 0) ∧
    (tentative_state (sampleConfig cos sin tan sqrt)
      (solver_init (sampleConfig cos sin tan sqrt)
        (setup (sampleConfig cos sin tan sqrt) { q with traffic := [restAgent 0] }) V)).s_ 0 r
      = (if r = 1 then -1 else 0) ∧
    (tentative_state (sampleConfig cos sin tan sqrt)
      (solver_init (sampleConfig cos sin tan sqrt)
        (setup (sampleConfig cos sin tan sqrt) { q with traffic := [restAgent 0] }) V)).dU r
      = (if r = 1 then -(7 / 10) else if r = 3 then 3 / 10 else 0) := by
  obtain ⟨_, _, _, _, _, h6, h7, h8⟩ := tentative_state_fields (sampleConfig cos sin tan sqrt)
    rfl (solver_init (sampleConfig cos sin tan sqrt)
      (setup (sampleConfig cos sin tan sqrt) { q with traffic := [restAgent 0] }) V)
  have hV : ∀ a, a < 4 → (solver_init (sampleConfig cos sin tan sqrt)
      (setup (sampleConfig cos sin tan sqrt) { q with traffic := [restAgent 0] }) V).dU_ a
      = V a := by
    intro a ha
    rw [solver_init_dU_]
    exact if_pos ha
  have e0 := (hV 0 (by omega)).trans h0
  have e1 := (hV 1 (by omega)).trans h1
  have e2 := (hV 2 (by omega)).trans h2
  have e3 := (hV 3 (by omega)).trans h3
  have hidx : ∀ b, (sampleConfig cos sin tan sqrt).nu * 0 + b = b := fun b => by simp
  have hg : ∀ b, b < 4 → (tentative_state (sampleConfig cos sin tan sqrt)
      (solver_init (sampleConfig cos sin tan sqrt)
        (setup (sampleConfig cos sin tan sqrt) { q with traffic := [restAgent 0] }) V)).g_ 0 b
      = (if b = 1 then 108000540001200001 / 20000000000000000 else 0) := by
    intro b hb
    rw [h6 0 b Nat.zero_lt_one hb, hidx]
    show compute_gradient (sampleConfig cos sin tan sqrt)
      (setup (sampleConfig cos sin tan sqrt) { q with traffic := [restAgent 0] }) _ _ b = _
    rw [rest_gradient q cos sin tan sqrt hc hs hs1 0 _ _
      (by rw [e0]; norm_num) (by rw [e0]; norm_num) (by rw [e2]; norm_num)
      (by rw [e2]; norm_num) (by rw [e1]; norm_num) (by rw [e1]; norm_num)
      (by rw [e3]; norm_num) (by rw [e3]; norm_num) b hb, e1]
    by_cases hb1 : b = 1
    · rw [if_pos hb1, if_pos hb1, max_eq_right (by norm_num), max_eq_left (by norm_num),
        max_eq_right (by norm_num), max_eq_left (by norm_num)]
      norm_num
    · rw [if_neg hb1, if_neg hb1]
  obtain ⟨hd, hH⟩ := solver_init_radius (sampleConfig cos sin tan sqrt)
    (setup (sampleConfig cos sin tan sqrt) { q with traffic := [restAgent 0] }) V 0
    Nat.zero_lt_one
  have hstep : ∀ b, b < 4 → (tentative_state (sampleConfig cos sin tan sqrt)
      (solver_init (sampleConfig cos sin tan sqrt)
        (setup (sampleConfig cos sin tan sqrt) { q with traffic := [restAgent 0] }) V)).s_ 0 b
      = (if b = 1 then -1 else 0) := by
    intro b hb
    rw [h7 0 Nat.zero_lt_one, hd, hH]
    exact quadratic_problem_solver_single (sampleConfig cos sin tan sqrt) rfl hsqrt _
      (108000540001200001 / 20000000000000000) (by norm_num) hg b hb
  refine ⟨hg r hr, hstep r hr, ?_⟩
  have h := h8 0 r Nat.zero_lt_one hr
  rw [hidx] at h
  rw [h, hstep r hr, hV r hr]
  have hr4 : r = 0 ∨ r = 1 ∨ r = 2 ∨ r = 3 := by omega
  rcases hr4 with rfl | rfl | rfl | rfl
  · simp [h0]
  · simp [h1]; norm_num
  · simp [h2]
  · simp [h3]

/-- In that first pass the step is accepted: the quotient of the reductions is not below
`eta`. -/
theorem sample_first_ratio (q : Planner K) (cos sin tan sqrt : K → K) (hc : cos 0 = 1)
    (hs : sin 0 = 0) (hs1 : ∀ z, sin z * sin z ≤ 1)
    (hsqrt : ∀ z, 0 ≤ z → 0 ≤ sqrt z ∧ sqrt z * sqrt z = z) (V : Nat → K)
    (h0 : V 0 = 0) (h1 : V 1 = 3 / 10) (h2 : V 2 = 0) (h3 : V 3 = 3 / 10) :
    step_ratio (sampleConfig cos sin tan sqrt)
      (tentative_state (sampleConfig cos sin tan sqrt)
        (solver_init (sampleConfig cos sin tan sqrt)
          (setup (sampleConfig cos sin tan sqrt) { q with traffic := [restAgent 0] }) V)) 0
      = 2700000000000000 / 32666846667066667 := by
  have hC : (setup (sampleConfig cos sin tan sqrt) { q with traffic := [restAgent 0] }).nC_i
      = 2 * nU * ((sampleConfig cos sin tan sqrt).N + 1)
        + ((sampleConfig cos sin tan sqrt).N + 1)
          * ((setup (sampleConfig cos sin tan sqrt) { q with traffic := [restAgent 0] }).M - 1)
        + ((sampleConfig cos sin tan sqrt).N + 1) :=
    setup_nC_i (sampleConfig cos sin tan sqrt) _ (le_refl _)
  have hf := fun r hr => sample_first_step q cos sin tan sqrt hc hs hs1 hsqrt V h0 h1 h2 h3 r hr
  obtain ⟨hH, _, hdU_, h4, ⟨L0, X0, h5⟩, _, _, _⟩ := tentative_state_fields
    (sampleConfig cos sin tan sqrt) rfl (solver_init (sampleConfig cos sin tan sqrt)
      (setup (sampleConfig cos sin tan sqrt) { q with traffic := [restAgent 0] }) V)
  have hV : ∀ a, a < 4 → (solver_init (sampleConfig cos sin tan sqrt)
      (setup (sampleConfig cos sin tan sqrt) { q with traffic := [restAgent 0] }) V).dU_ a
      = V a := by
    intro a ha
    rw [solver_init_dU_]
    exact if_pos ha
  have e0 := (hV 0 (by omega)).trans h0
  have e1 := (hV 1 (by omega)).trans h1
  have e2 := (hV 2 (by omega)).trans h2
  have e3 := (hV 3 (by omega)).trans h3
  -- the Lagrangian at the controls of the start of the pass
  have hL : (tentative_state (sampleConfig cos sin tan sqrt)
      (solver_init (sampleConfig cos sin tan sqrt)
        (setup (sampleConfig cos sin tan sqrt) { q with traffic := [restAgent 0] }) V)).lagrangian 0
      = 81 / 200 := by
    rw [h4, (solver_init_planner (sampleConfig cos sin tan sqrt)
      (setup (sampleConfig cos sin tan sqrt) { q with traffic := [restAgent 0] }) V).1]
    rw [compute_lagrangian_apply _ _ _ _ _ hC 0 Nat.zero_lt_one,
      lagrangian_of_buffers _ _ _ _ _ _ rfl hC (fun _ _ => rfl) 0 Nat.zero_lt_one,
      rest_lagrangian q cos sin tan sqrt hc hs hs1 0 _
        (by rw [e0]; norm_num) (by rw [e0]; norm_num) (by rw [e2]; norm_num)
        (by rw [e2]; norm_num) (by rw [e1]; norm_num) (by rw [e1]; norm_num)
        (by rw [e3]; norm_num) (by rw [e3]; norm_num), e1,
      max_eq_right (by norm_num), max_eq_left (by norm_num)]
    norm_num
  -- the Lagrangian at the tentative controls
  have d0 := (hf 0 (by omega)).2.2
  have d1 := (hf 1 (by omega)).2.2
  have d2 := (hf 2 (by omega)).2.2
  have d3 := (hf 3 (by omega)).2.2
  simp only [Nat.zero_ne_one, if_false, if_true, OfNat.ofNat_ne_one, OfNat.zero_ne_ofNat,
    Nat.reduceEqDiff] at d0 d1 d2 d3
  have hLd : (tentative_state (sampleConfig cos sin tan sqrt)
      (solver_init (sampleConfig cos sin tan sqrt)
        (setup (sampleConfig cos sin tan sqrt) { q with traffic := [restAgent 0] }) V)).d_lagrangian
        0 = 0 := by
    rw [h5, (solver_init_planner (sampleConfig cos sin tan sqrt)
      (setup (sampleConfig cos sin tan sqrt) { q with traffic := [restAgent 0] }) V).1]
    rw [compute_lagrangian_apply _ _ _ _ _ hC 0 Nat.zero_lt_one,
      lagrangian_of_buffers _ _ _ _ _ _ rfl hC (fun _ _ => rfl) 0 Nat.zero_lt_one,
      rest_lagrangian q cos sin tan sqrt hc hs hs1 0 _
        (by rw [d0]; norm_num) (by rw [d0]; norm_num) (by rw [d2]; norm_num)
        (by rw [d2]; norm_num) (by rw [d1]; norm_num) (by rw [d1]; norm_num)
        (by rw [d3]; norm_num) (by rw [d3]; norm_num), d1,
      max_eq_left (by norm_num), max_eq_left (by norm_num)]
    norm_num
  obtain ⟨_, hHs⟩ := solver_init_radius (sampleConfig cos sin tan sqrt)
    (setup (sampleConfig cos sin tan sqrt) { q with traffic := [restAgent 0] }) V 0
    Nat.zero_lt_one
  unfold step_ratio
  rw [hL, hLd, hH, hHs]
  have g0 := (hf 0 (by omega)).1
  have g1 := (hf 1 (by omega)).1
  have g2 := (hf 2 (by omega)).1
  have g3 := (hf 3 (by omega)).1
  have s0 := (hf 0 (by omega)).2.1
  have s1 := (hf 1 (by omega)).2.1
  have s2 := (hf 2 (by omega)).2.1
  have s3 := (hf 3 (by omega)).2.1
  simp only [Nat.zero_ne_one, if_false, if_true, OfNat.ofNat_ne_one] at g0 g1 g2 g3 s0 s1 s2 s3
  generalize (tentative_state (sampleConfig cos sin tan sqrt)
      (solver_init (sampleConfig cos sin tan sqrt)
        (setup (sampleConfig cos sin tan sqrt) { q with traffic := [restAgent 0] }) V)).g_ 0 = g
    at g0 g1 g2 g3 ⊢
  generalize (tentative_state (sampleConfig cos sin tan sqrt)
      (solver_init (sampleConfig cos sin tan sqrt)
        (setup (sampleConfig cos sin tan sqrt) { q with traffic := [restAgent 0] }) V)).s_ 0 = st
    at s0 s1 s2 s3 ⊢
  have hnu : (sampleConfig cos sin tan sqrt).nu = 4 := rfl
  have hgs : dot (sampleConfig cos sin tan sqrt).nu g st
      = -(108000540001200001 / 20000000000000000) := by
    unfold dot
    rw [hnu]
    simp [Finset.sum_range_succ, g0, g1, g2, g3, s0, s1, s2, s3]
  have hsHs : dot (sampleConfig cos sin tan sqrt).nu
      (vecMul (sampleConfig cos sin tan sqrt).nu (fun a => (1 / 2) * st a) identity) st
      = 1 / 2 := by
    unfold dot vecMul identity
    rw [hnu]
    simp [Finset.sum_range_succ, s0, s1, s2, s3]
  rw [hgs, hsHs]
  norm_num

/-- The controls that the first pass commits: the first force has gone from `3/10` to
`-7/10`. -/
theorem sample_first_commit (q : Planner K) (cos sin tan sqrt : K → K) (hc : cos 0 = 1)
    (hs : sin 0 = 0) (hs1 : ∀ z, sin z * sin z ≤ 1)
    (hsqrt : ∀ z, 0 ≤ z → 0 ≤ sqrt z ∧ sqrt z * sqrt z = z) (V : Nat → K)
    (h0 : V 0 = 0) (h1 : V 1 = 3 / 10) (h2 : V 2 = 0) (h3 : V 3 = 3 / 10) (r : Nat)
    (hr : r < 4) :
    (outer_iteration (sampleConfig cos sin tan sqrt)
      (solver_init (sampleConfig cos sin tan sqrt)
        (setup (sampleConfig cos sin tan sqrt) { q with traffic := [restAgent 0] }) V)).dU_ r
      = (if r = 1 then -(7 / 10) else if r = 3 then 3 / 10 else 0) := by
  rw [outer_iteration_dU_, (commit_phase_eq _ _).1]
  have hM : (solver_init (sampleConfig cos sin tan sqrt)
      (setup (sampleConfig cos sin tan sqrt) { q with traffic := [restAgent 0] }) V).planner.M
      = 1 := rfl
  rw [hM]
  have h := (accept_loop_controls (sampleConfig cos sin tan sqrt) rfl
    (tentative_state (sampleConfig cos sin tan sqrt)
      (solver_init (sampleConfig cos sin tan sqrt)
        (setup (sampleConfig cos sin tan sqrt) { q with traffic := [restAgent 0] }) V)) 1).2
    0 r Nat.zero_lt_one hr
  have hidx : (sampleConfig cos sin tan sqrt).nu * 0 + r = r := by simp
  rw [hidx] at h
  rw [h, sample_first_ratio q cos sin tan sqrt hc hs hs1 hsqrt V h0 h1 h2 h3,
    if_neg (by unfold eta; norm_num)]
  exact (sample_first_step q cos sin tan sqrt hc hs hs1 hsqrt V h0 h1 h2 h3 r hr).2.2

/-- The first pass does not set the convergence flag: the squared norm of its gradient is
above the threshold. -/
theorem sample_first_flag (q : Planner K) (cos sin tan sqrt : K → K) (hc : cos 0 = 1)
    (hs : sin 0 = 0) (hs1 : ∀ z, sin z * sin z ≤ 1) (V : Nat → K)
    (h0 : V 0 = 0) (h1 : V 1 = 3 / 10) (h2 : V 2 = 0) (h3 : V 3 = 3 / 10) :
    (outer_iteration (sampleConfig cos sin tan sqrt)
      (solver_init (sampleConfig cos sin tan sqrt)
        (setup (sampleConfig cos sin tan sqrt) { q with traffic := [restAgent 0] }) V)).convergence
      = (solver_init (sampleConfig cos sin tan sqrt)
        (setup (sampleConfig cos sin tan sqrt) { q with traffic := [restAgent 0] }) V).convergence
      := by
  show (commit_phase _ _).convergence = _
  rw [commit_phase_convergence, if_neg]
  rw [not_lt]
  have hV : ∀ a, a < 4 → (solver_init (sampleConfig cos sin tan sqrt)
      (setup (sampleConfig cos sin tan sqrt) { q with traffic := [restAgent 0] }) V).dU_ a
      = V a := by
    intro a ha
    rw [solver_init_dU_]
    exact if_pos ha
  have e0 := (hV 0 (by omega)).trans h0
  have e1 := (hV 1 (by omega)).trans h1
  have e2 := (hV 2 (by omega)).trans h2
  have e3 := (hV 3 (by omega)).trans h3
  rw [(solver_init_planner (sampleConfig cos sin tan sqrt)
      (setup (sampleConfig cos sin tan sqrt) { q with traffic := [restAgent 0] }) V).1]
  have hge := gradient_norm_ge (setup (sampleConfig cos sin tan sqrt)
    { q with traffic := [restAgent 0] })
    (compute_gradient (sampleConfig cos sin tan sqrt)
      (setup (sampleConfig cos sin tan sqrt) { q with traffic := [restAgent 0] })
      (solver_init (sampleConfig cos sin tan sqrt)
        (setup (sampleConfig cos sin tan sqrt) { q with traffic := [restAgent 0] }) V).gradient
      (solver_init (sampleConfig cos sin tan sqrt)
        (setup (sampleConfig cos sin tan sqrt) { q with traffic := [restAgent 0] }) V).dU_) 1
    (by show 1 < 4; omega)
  rw [rest_gradient q cos sin tan sqrt hc hs hs1 0 _ _
      (by rw [e0]; norm_num) (by rw [e0]; norm_num) (by rw [e2]; norm_num)
      (by rw [e2]; norm_num) (by rw [e1]; norm_num) (by rw [e1]; norm_num)
      (by rw [e3]; norm_num) (by rw [e3]; norm_num) 1 (by omega), if_pos rfl, e1,
    max_eq_right (by norm_num), max_eq_left (by norm_num),
    max_eq_right (by norm_num), max_eq_left (by norm_num)] at hge
  have hth : threshold_gradient_norm (setup (sampleConfig cos sin tan sqrt)
      { q with traffic := [restAgent 0] }) = (1 / 100 : K) := by
    show ((1 : Nat) : K) * (1 / 100) = 1 / 100
    simp
  rw [hth]
  refine le_trans ?_ hge
  norm_num

/-- Two planners with the same members are equal. -/
theorem planner_eq {α : Type} (p p' : Planner α) (h1 : p.traffic = p'.traffic) (h2 : p.M = p'.M)
    (h3 : p.nC_i = p'.nC_i) (h4 : p.nC = p'.nC) (h5 : p.nX_ = p'.nX_) (h6 : p.nU_ = p'.nU_)
    (h7 : p.nG = p'.nG) (h8 : p.ul = p'.ul) (h9 : p.uu = p'.uu)
    (h10 : p.lagrangian_multipliers = p'.lagrangian_multipliers) (h11 : p.rho = p'.rho) :
    p = p' := by
  cases p
  cases p'
  simp only at h1 h2 h3 h4 h5 h6 h7 h8 h9 h10 h11
  subst h1 h2 h3 h4 h5 h6 h7 h8 h9 h10 h11
  rfl

/-- The planner after the first pass: no constraint is violated at the committed controls, so
the multipliers are still zero and only the penalty has changed. -/
theorem sample_first_planner (q : Planner K) (cos sin tan sqrt : K → K) (hc : cos 0 = 1)
    (hs : sin 0 = 0) (hs1 : ∀ z, sin z * sin z ≤ 1)
    (hsqrt : ∀ z, 0 ≤ z → 0 ≤ sqrt z ∧ sqrt z * sqrt z = z) (hq : 0 ≤ q.rho) (V : Nat → K)
    (h0 : V 0 = 0) (h1 : V 1 = 3 / 10) (h2 : V 2 = 0) (h3 : V 3 = 3 / 10) :
    (outer_iteration (sampleConfig cos sin tan sqrt)
      (solver_init (sampleConfig cos sin tan sqrt)
        (setup (sampleConfig cos sin tan sqrt) { q with traffic := [restAgent 0] }) V)).planner
      = setup (sampleConfig cos sin tan sqrt)
          { q with traffic := [restAgent 0], rho := 13 / 10 * q.rho } := by
  have hC : (setup (sampleConfig cos sin tan sqrt) { q with traffic := [restAgent 0] }).nC_i
      = 2 * nU * ((sampleConfig cos sin tan sqrt).N + 1)
        + ((sampleConfig cos sin tan sqrt).N + 1)
          * ((setup (sampleConfig cos sin tan sqrt) { q with traffic := [restAgent 0] }).M - 1)
        + ((sampleConfig cos sin tan sqrt).N + 1) :=
    setup_nC_i (sampleConfig cos sin tan sqrt) _ (le_refl _)
  have hcp := (commit_phase_planner (sampleConfig cos sin tan sqrt)
    (solver_init (sampleConfig cos sin tan sqrt)
      (setup (sampleConfig cos sin tan sqrt) { q with traffic := [restAgent 0] }) V)).1
  have hd := fun r hr =>
    sample_first_commit q cos sin tan sqrt hc hs hs1 hsqrt V h0 h1 h2 h3 r hr
  have d0 := hd 0 (by omega)
  have d1 := hd 1 (by omega)
  have d2 := hd 2 (by omega)
  have d3 := hd 3 (by omega)
  simp only [Nat.zero_ne_one, if_false, if_true, OfNat.ofNat_ne_one, OfNat.zero_ne_ofNat,
    Nat.reduceEqDiff, outer_iteration_dU_] at d0 d1 d2 d3
  have hm : ∀ k, (outer_iteration (sampleConfig cos sin tan sqrt)
      (solver_init (sampleConfig cos sin tan sqrt)
        (setup (sampleConfig cos sin tan sqrt) { q with traffic := [restAgent 0] }) V)).planner.lagrangian_multipliers
        k = 0 := by
    intro k
    rw [outer_iteration_multipliers]
    have hl : ∀ k, (solver_init (sampleConfig cos sin tan sqrt)
        (setup (sampleConfig cos sin tan sqrt) { q with traffic := [restAgent 0] })
        V).planner.lagrangian_multipliers k = 0 := fun _ => rfl
    have hr : (solver_init (sampleConfig cos sin tan sqrt)
        (setup (sampleConfig cos sin tan sqrt) { q with traffic := [restAgent 0] })
        V).planner.rho = q.rho := rfl
    have hn : (solver_init (sampleConfig cos sin tan sqrt)
        (setup (sampleConfig cos sin tan sqrt) { q with traffic := [restAgent 0] })
        V).planner.nC = 10 := rfl
    rw [hl, hr, hn, (solver_init_planner (sampleConfig cos sin tan sqrt)
      (setup (sampleConfig cos sin tan sqrt) { q with traffic := [restAgent 0] }) V).1]
    split_ifs with hk
    · apply max_eq_right
      rw [zero_add]
      apply mul_nonpos_of_nonneg_of_nonpos hq
      have hloop := (compute_constraints_loop (sampleConfig cos sin tan sqrt)
        (setup (sampleConfig cos sin tan sqrt) { q with traffic := [restAgent 0] })
        (commit_phase (sampleConfig cos sin tan sqrt)
          (solver_init (sampleConfig cos sin tan sqrt)
            (setup (sampleConfig cos sin tan sqrt) { q with traffic := [restAgent 0] })
            V)).constraints
        (integrate (sampleConfig cos sin tan sqrt)
          (setup (sampleConfig cos sin tan sqrt) { q with traffic := [restAgent 0] })
          (commit_phase (sampleConfig cos sin tan sqrt)
            (solver_init (sampleConfig cos sin tan sqrt)
              (setup (sampleConfig cos sin tan sqrt) { q with traffic := [restAgent 0] })
              V)).dX_
          (commit_phase (sampleConfig cos sin tan sqrt)
            (solver_init (sampleConfig cos sin tan sqrt)
              (setup (sampleConfig cos sin tan sqrt) { q with traffic := [restAgent 0] })
              V)).dU_)
        (commit_phase (sampleConfig cos sin tan sqrt)
          (solver_init (sampleConfig cos sin tan sqrt)
            (setup (sampleConfig cos sin tan sqrt) { q with traffic := [restAgent 0] })
            V)).dU_ hC 1 (le_refl _)).2 0 k Nat.zero_lt_one hk
      have hidx : (setup (sampleConfig cos sin tan sqrt)
          { q with traffic := [restAgent 0] }).nC_i * 0 + k = k := by simp
      rw [hidx] at hloop
      unfold compute_constraints
      have hM : (setup (sampleConfig cos sin tan sqrt)
          { q with traffic := [restAgent 0] }).M = 1 := rfl
      rw [hM, hloop]
      obtain ⟨w, hmem, hw1⟩ := List.mem_map.mp
        (constraint_stores_cover (sampleConfig cos sin tan sqrt) _ _ _ 0 Nat.zero_lt_one k
          (by rw [← hC]; exact hk))
      rw [← hw1, compute_constraints_vehicle_i_apply _ _ uninit _ _ 0 Nat.zero_lt_one w hmem]
      have hst := rest_stores q cos sin tan sqrt hc hs hs1 0 _ _
        (by rw [d0]; norm_num) (by rw [d0]; norm_num) (by rw [d2]; norm_num)
        (by rw [d2]; norm_num) (by rw [d1]; norm_num) (by rw [d1]; norm_num)
        (by rw [d3]; norm_num) (by rw [d3]; norm_num) w hmem
      by_cases hw : w.1 = 1
      · rw [hst.2 hw, d1]
        norm_num
      · exact hst.1 hw
    · rfl
  apply planner_eq
  · exact (outer_iteration_sizes _ _).2.2.2.2
  · exact (outer_iteration_sizes _ _).1
  · exact (outer_iteration_sizes _ _).2.2.1
  · exact (outer_iteration_sizes _ _).2.1
  · show (commit_phase _ _).planner.nX_ = _
    rw [hcp]
    rfl
  · exact (outer_iteration_sizes _ _).2.2.2.1
  · show (commit_phase _ _).planner.nG = _
    rw [hcp]
    rfl
  · show (commit_phase _ _).planner.ul = _
    rw [hcp]
    rfl
  · show (commit_phase _ _).planner.uu = _
    rw [hcp]
    rfl
  · funext k
    rw [hm]
    rfl
  · rw [outer_iteration_rho]
    rfl

/-- The gradient of the second pass: the first force is negative now, the speed is clipped to
zero at both steps, the Lagrangian is zero at the committed controls and at each of the four
forward points, and every forward difference is zero. -/
theorem sample_second_gradient (q : Planner K) (cos sin tan sqrt : K → K) (hc : cos 0 = 1)
    (hs : sin 0 = 0) (hs1 : ∀ z, sin z * sin z ≤ 1)
    (hsqrt : ∀ z, 0 ≤ z → 0 ≤ sqrt z ∧ sqrt z * sqrt z = z) (hq : 0 ≤ q.rho) (V : Nat → K)
    (h0 : V 0 = 0) (h1 : V 1 = 3 / 10) (h2 : V 2 = 0) (h3 : V 3 = 3 / 10) (r : Nat)
    (hr : r < 4) :
    (tentative_state (sampleConfig cos sin tan sqrt)
      (outer_iteration (sampleConfig cos sin tan sqrt)
        (solver_init (sampleConfig cos sin tan sqrt)
          (setup (sampleConfig cos sin tan sqrt) { q with traffic := [restAgent 0] }) V))).g_ 0 r
      = 0 := by
  obtain ⟨_, _, _, _, _, h6, _, _⟩ := tentative_state_fields (sampleConfig cos sin tan sqrt)
    rfl (outer_iteration (sampleConfig cos sin tan sqrt)
      (solver_init (sampleConfig cos sin tan sqrt)
        (setup (sampleConfig cos sin tan sqrt) { q with traffic := [restAgent 0] }) V))
  have hM : (outer_iteration (sampleConfig cos sin tan sqrt)
      (solver_init (sampleConfig cos sin tan sqrt)
        (setup (sampleConfig cos sin tan sqrt) { q with traffic := [restAgent 0] }) V)).planner.M
      = 1 := (outer_iteration_sizes _ _).1
  have hidx : (sampleConfig cos sin tan sqrt).nu * 0 + r = r := by simp
  rw [h6 0 r (by rw [hM]; exact Nat.zero_lt_one) hr, hidx,
    sample_first_planner q cos sin tan sqrt hc hs hs1 hsqrt hq V h0 h1 h2 h3]
  have hd := fun b hb =>
    sample_first_commit q cos sin tan sqrt hc hs hs1 hsqrt V h0 h1 h2 h3 b hb
  have d0 := hd 0 (by omega)
  have d1 := hd 1 (by omega)
  have d2 := hd 2 (by omega)
  have d3 := hd 3 (by omega)
  simp only [Nat.zero_ne_one, if_false, if_true, OfNat.ofNat_ne_one, OfNat.zero_ne_ofNat,
    Nat.reduceEqDiff] at d0 d1 d2 d3
  have hg := rest_gradient { q with rho := 13 / 10 * q.rho } cos sin tan sqrt hc hs hs1 0
    (outer_iteration (sampleConfig cos sin tan sqrt)
      (solver_init (sampleConfig cos sin tan sqrt)
        (setup (sampleConfig cos sin tan sqrt) { q with traffic := [restAgent 0] }) V)).gradient
    (outer_iteration (sampleConfig cos sin tan sqrt)
      (solver_init (sampleConfig cos sin tan sqrt)
        (setup (sampleConfig cos sin tan sqrt) { q with traffic := [restAgent 0] }) V)).dU_
    (by rw [d0]; norm_num) (by rw [d0]; norm_num) (by rw [d2]; norm_num)
    (by rw [d2]; norm_num) (by rw [d1]; norm_num) (by rw [d1]; norm_num)
    (by rw [d3]; norm_num) (by rw [d3]; norm_num) r hr
  refine hg.trans ?_
  split_ifs
  · rw [d1, max_eq_left (by norm_num), max_eq_left (by norm_num), max_eq_left (by norm_num),
      max_eq_left (by norm_num)]
    norm_num
  · rfl

/-- The initial guess of `run` for one agent and `N = 1`. -/
theorem sample_initial_guess (q : Planner K) (cos sin tan sqrt : K → K) (vt : K) (j : Nat) :
    (initial_guess (sampleConfig cos sin tan sqrt)
      (setup (sampleConfig cos sin tan sqrt) { q with traffic := [restAgent vt] })
      uninit uninit).2 j = if j = 1 ∨ j = 3 then 3 / 10 else 0 := by
  have hM : (setup (sampleConfig cos sin tan sqrt)
    { q with traffic := [restAgent vt] }).M = 1 := rfl
  unfold initial_guess
  simp only [hM]
  rw [forLoop_succ, forLoop_zero]
  have hN : (sampleConfig cos sin tan sqrt).N + 1 = 2 := rfl
  rw [hN, forLoop_succ, forLoop_succ, forLoop_zero]
  unfold initial_guess_step
  simp only [Function.update_apply, nU, d, F, hN, uninit]
  split_ifs <;> first | rfl | (exfalso; omega)

/-- A call of `run` for one agent at rest with target speed `0`: the loop is entered without
convergence and makes a first pass; after it the flag is still not set and the counter is
`2`, so a second pass is made; the packed gradient of that pass is zero in every entry, the
norm `normG` of `quadratic_problem_solver` is the square root of zero, and the step of the
pass is what `quadratic_problem_solver` returns for that gradient. -/
theorem sample_second_pass (q : Planner K) (cos sin tan sqrt : K → K) (hc : cos 0 = 1)
    (hs : sin 0 = 0) (ht : tan 0 = 0) (hs1 : ∀ z, sin z * sin z ≤ 1)
    (hsqrt : ∀ z, 0 ≤ z → 0 ≤ sqrt z ∧ sqrt z * sqrt z = z) (hq : 0 ≤ q.rho) :
    ((run_loop_entry (sampleConfig cos sin tan sqrt) q [restAgent 0]).convergence = false ∧
      (run_loop_entry (sampleConfig cos sin tan sqrt) q [restAgent 0]).iter = 1) ∧
    ((outer_iteration (sampleConfig cos sin tan sqrt)
        (run_loop_entry (sampleConfig cos sin tan sqrt) q [restAgent 0])).convergence = false ∧
      (outer_iteration (sampleConfig cos sin tan sqrt)
        (run_loop_entry (sampleConfig cos sin tan sqrt) q [restAgent 0])).iter = 2) ∧
    (∀ r, r < 4 → (tentative_state (sampleConfig cos sin tan sqrt)
      (outer_iteration (sampleConfig cos sin tan sqrt)
        (run_loop_entry (sampleConfig cos sin tan sqrt) q [restAgent 0]))).g_ 0 r = 0) ∧
    sqrt (dot (sampleConfig cos sin tan sqrt).nu
      ((tentative_state (sampleConfig cos sin tan sqrt)
        (outer_iteration (sampleConfig cos sin tan sqrt)
          (run_loop_entry (sampleConfig cos sin tan sqrt) q [restAgent 0]))).g_ 0)
      ((tentative_state (sampleConfig cos sin tan sqrt)
        (outer_iteration (sampleConfig cos sin tan sqrt)
          (run_loop_entry (sampleConfig cos sin tan sqrt) q [restAgent 0]))).g_ 0)) = 0 ∧
    (tentative_state (sampleConfig cos sin tan sqrt)
      (outer_iteration (sampleConfig cos sin tan sqrt)
        (run_loop_entry (sampleConfig cos sin tan sqrt) q [restAgent 0]))).s_ 0
      = quadratic_problem_solver (sampleConfig cos sin tan sqrt)
          ((tentative_state (sampleConfig cos sin tan sqrt)
            (outer_iteration (sampleConfig cos sin tan sqrt)
              (run_loop_entry (sampleConfig cos sin tan sqrt) q [restAgent 0]))).g_ 0)
          ((outer_iteration (sampleConfig cos sin tan sqrt)
            (run_loop_entry (sampleConfig cos sin tan sqrt) q [restAgent 0])).H_ 0)
          ((outer_iteration (sampleConfig cos sin tan sqrt)
            (run_loop_entry (sampleConfig cos sin tan sqrt) q [restAgent 0])).delta 0) := by
  have hnc : (run_loop_entry (sampleConfig cos sin tan sqrt) q [restAgent 0]).convergence
      = false := sample_not_converged q cos sin tan sqrt hc hs ht
  have hg := sample_initial_guess q cos sin tan sqrt 0
  have g0 := hg 0
  have g1 := hg 1
  have g2 := hg 2
  have g3 := hg 3
  simp only [Nat.zero_ne_one, OfNat.zero_ne_ofNat, or_self, if_false, true_or, or_true, if_true,
    OfNat.ofNat_ne_one, Nat.reduceEqDiff] at g0 g1 g2 g3
  have hz := fun r hr => sample_second_gradient q cos sin tan sqrt hc hs hs1 hsqrt hq
    (initial_guess (sampleConfig cos sin tan sqrt)
      (setup (sampleConfig cos sin tan sqrt) { q with traffic := [restAgent 0] })
      uninit uninit).2 g0 g1 g2 g3 r hr
  have hM : (outer_iteration (sampleConfig cos sin tan sqrt)
      (run_loop_entry (sampleConfig cos sin tan sqrt) q [restAgent 0])).planner.M = 1 :=
    (outer_iteration_sizes _ _).1
  refine ⟨⟨hnc, rfl⟩, ⟨?_, ?_⟩, hz, ?_, ?_⟩
  · exact (sample_first_flag q cos sin tan sqrt hc hs hs1 _ g0 g1 g2 g3).trans hnc
  · rw [outer_iteration_iter]
    rfl
  · have hdot : dot (sampleConfig cos sin tan sqrt).nu
        ((tentative_state (sampleConfig cos sin tan sqrt)
          (outer_iteration (sampleConfig cos sin tan sqrt)
            (run_loop_entry (sampleConfig cos sin tan sqrt) q [restAgent 0]))).g_ 0)
        ((tentative_state (sampleConfig cos sin tan sqrt)
          (outer_iteration (sampleConfig cos sin tan sqrt)
            (run_loop_entry (sampleConfig cos sin tan sqrt) q [restAgent 0]))).g_ 0) = 0 := by
      unfold dot
      apply Finset.sum_eq_zero
      intro r hr
      have hr4 : r < 4 := Finset.mem_range.mp hr
      show _ * _ = (0 : K)
      rw [show (tentative_state (sampleConfig cos sin tan sqrt)
          (outer_iteration (sampleConfig cos sin tan sqrt)
            (run_loop_entry (sampleConfig cos sin tan sqrt) q [restAgent 0]))).g_ 0 r = 0
        from hz r hr4]
      ring
    rw [hdot]
    exact sqrt_unique sqrt hsqrt 0 0 (le_refl _) (mul_zero _)
  · exact (tentative_state_step _ _ 0 (by rw [hM]; exact Nat.zero_lt_one)).2

end SecondPass

section SecondPassLoop

variable {K : Type} [LinearOrderedField K]

/-- A loop whose condition holds before the first and before the second pass makes both. -/
theorem solver_loop_two_passes (cfg : Config K) (fuel : Nat) (st : SolverState K)
    (h1 : st.convergence = false ∧ st.iter < iter_lim)
    (h2 : (outer_iteration cfg st).convergence = false
      ∧ (outer_iteration cfg st).iter < iter_lim) :
    solver_loop cfg (fuel + 2) st
      = solver_loop cfg fuel (outer_iteration cfg (outer_iteration cfg st)) := by
  show (if st.convergence = false ∧ st.iter < iter_lim then
      solver_loop cfg (fuel + 1) (outer_iteration cfg st) else st) = _
  rw [if_pos h1]
  show (if (outer_iteration cfg st).convergence = false
      ∧ (outer_iteration cfg st).iter < iter_lim then
      solver_loop cfg fuel (outer_iteration cfg (outer_iteration cfg st))
    else outer_iteration cfg st) = _
  rw [if_pos h2]

/-- A call of `run` on a newly constructed planner for one agent at rest with target speed
`0`, over the reals: the loop makes a first and a second pass, and the second pass calls
`quadratic_problem_solver` with a gradient that is zero in every entry, so that `normG` is the
square root of zero. -/
theorem sample_zero_gradient :
    solver_loop (sampleConfig Real.cos Real.sin Real.tan Real.sqrt) iter_lim
        (run_loop_entry (sampleConfig Real.cos Real.sin Real.tan Real.sqrt)
          (Planner.fresh (sampleConfig Real.cos Real.sin Real.tan Real.sqrt))
          [sampleAgent (0 : ℝ) 0 0])
      = solver_loop (sampleConfig Real.cos Real.sin Real.tan Real.sqrt) 18
          (outer_iteration (sampleConfig Real.cos Real.sin Real.tan Real.sqrt)
            (second_pass_entry (sampleConfig Real.cos Real.sin Real.tan Real.sqrt)
              (Planner.fresh (sampleConfig Real.cos Real.sin Real.tan Real.sqrt))
              [sampleAgent (0 : ℝ) 0 0])) ∧
    (∀ r, r < 4 → (tentative_state (sampleConfig Real.cos Real.sin Real.tan Real.sqrt)
      (second_pass_entry (sampleConfig Real.cos Real.sin Real.tan Real.sqrt)
        (Planner.fresh (sampleConfig Real.cos Real.sin Real.tan Real.sqrt))
        [sampleAgent (0 : ℝ) 0 0])).g_ 0 r = 0) ∧
    Real.sqrt (dot (sampleConfig Real.cos Real.sin Real.tan Real.sqrt).nu
      ((tentative_state (sampleConfig Real.cos Real.sin Real.tan Real.sqrt)
        (second_pass_entry (sampleConfig Real.cos Real.sin Real.tan Real.sqrt)
          (Planner.fresh (sampleConfig Real.cos Real.sin Real.tan Real.sqrt))
          [sampleAgent (0 : ℝ) 0 0])).g_ 0)
      ((tentative_state (sampleConfig Real.cos Real.sin Real.tan Real.sqrt)
        (second_pass_entry (sampleConfig Real.cos Real.sin Real.tan Real.sqrt)
          (Planner.fresh (sampleConfig Real.cos Real.sin Real.tan Real.sqrt))
          [sampleAgent (0 : ℝ) 0 0])).g_ 0)) = 0 ∧
    (tentative_state (sampleConfig Real.cos Real.sin Real.tan Real.sqrt)
      (second_pass_entry (sampleConfig Real.cos Real.sin Real.tan Real.sqrt)
        (Planner.fresh (sampleConfig Real.cos Real.sin Real.tan Real.sqrt))
        [sampleAgent (0 : ℝ) 0 0])).s_ 0
      = quadratic_problem_solver (sampleConfig Real.cos Real.sin Real.tan Real.sqrt)
          ((tentative_state (sampleConfig Real.cos Real.sin Real.tan Real.sqrt)
            (second_pass_entry (sampleConfig Real.cos Real.sin Real.tan Real.sqrt)
              (Planner.fresh (sampleConfig Real.cos Real.sin Real.tan Real.sqrt))
              [sampleAgent (0 : ℝ) 0 0])).g_ 0)
          ((second_pass_entry (sampleConfig Real.cos Real.sin Real.tan Real.sqrt)
            (Planner.fresh (sampleConfig Real.cos Real.sin Real.tan Real.sqrt))
            [sampleAgent (0 : ℝ) 0 0]).H_ 0)
          ((second_pass_entry (sampleConfig Real.cos Real.sin Real.tan Real.sqrt)
            (Planner.fresh (sampleConfig Real.cos Real.sin Real.tan Real.sqrt))
            [sampleAgent (0 : ℝ) 0 0]).delta 0) := by
  obtain ⟨⟨a1, a2⟩, ⟨b1, b2⟩, hz, hn, hs⟩ := sample_second_pass
    (Planner.fresh (sampleConfig Real.cos Real.sin Real.tan Real.sqrt))
    Real.cos Real.sin Real.tan Real.sqrt Real.cos_zero Real.sin_zero Real.tan_zero
    (fun z => by nlinarith [Real.sin_sq_add_cos_sq z, sq_nonneg (Real.cos z)])
    (fun z hz => ⟨Real.sqrt_nonneg z, Real.mul_self_sqrt hz⟩)
    (by show (0 : ℝ) ≤ 1 / 1000; norm_num)
  refine ⟨?_, hz, hn, hs⟩
  exact solver_loop_two_passes _ 18 _ ⟨a1, a2.trans_lt (by decide)⟩ ⟨b1, b2.trans_lt (by decide)⟩

end SecondPassLoop

section SecondPassPlanner

variable {K : Type} [LinearOrderedField K]

/-- The planner with which the second pass starts in the call for the agent at rest: the
multipliers are still zero, the penalty has grown once. -/
theorem sample_second_planner (q : Planner K) (cos sin tan sqrt : K → K) (hc : cos 0 = 1)
    (hs : sin 0 = 0) (hs1 : ∀ z, sin z * sin z ≤ 1)
    (hsqrt : ∀ z, 0 ≤ z → 0 ≤ sqrt z ∧ sqrt z * sqrt z = z) (hq : 0 ≤ q.rho) :
    (second_pass_entry (sampleConfig cos sin tan sqrt) q [restAgent 0]).planner
      = setup (sampleConfig cos sin tan sqrt)
          { q with traffic := [restAgent 0], rho := 13 / 10 * q.rho } := by
  have hg := sample_initial_guess q cos sin tan sqrt 0
  have g0 := hg 0
  have g1 := hg 1
  have g2 := hg 2
  have g3 := hg 3
  simp only [Nat.zero_ne_one, OfNat.zero_ne_ofNat, or_self, if_false, true_or, or_true, if_true,
    OfNat.ofNat_ne_one, Nat.reduceEqDiff] at g0 g1 g2 g3
  exact sample_first_planner q cos sin tan sqrt hc hs hs1 hsqrt hq _ g0 g1 g2 g3

end SecondPassPlanner

section NaN

variable {K : Type} [LinearOrderedField K]

/-! ## NaN in the tests of the source -/

theorem lt_nan_none_left (b : Option K) : lt_nan none b = false := rfl

theorem lt_nan_none_right (a : Option K) : lt_nan a none = false := by
  cases a <;> rfl

theorem lt_nan_some (u w : K) : lt_nan (some u) (some w) = decide (u < w) := rfl

/-- The two tests of `correctionU` leave NaN as it is. -/
theorem clamp_steering_nan_none (cfg : Config K) : clamp_steering_nan cfg none = none := rfl

/-- On a number the two tests of `correctionU` are those of the embedding over the field. -/
theorem clamp_steering_nan_some (cfg : Config K) (u : K) :
    clamp_steering_nan cfg (some u) = some (clamp_steering cfg u) := by
  unfold clamp_steering_nan clamp_steering
  simp only [lt_nan_some, decide_eq_true_eq, gt_iff_lt]
  by_cases h1 : cfg.d_up < u
  · simp only [h1, if_true, lt_nan_some, decide_eq_true_eq]
    split_ifs <;> rfl
  · simp only [h1, if_false, lt_nan_some, decide_eq_true_eq]
    split_ifs <;> rfl

/-- A pass of `correctionU` on a buffer that may hold NaN: the copy (in the last pass), then
the two tests on the steering entry. -/
theorem correctionU_step_nan_eq (cfg : Config K) (i j : Nat) (U_ : Nat → Option K) :
    correctionU_step_nan cfg i j U_
      = Function.update (copy_last_nan cfg i j U_) (nU * (cfg.N + 1) * i + nU * j + d)
          (clamp_steering_nan cfg
            (copy_last_nan cfg i j U_ (nU * (cfg.N + 1) * i + nU * j + d))) := by
  have key : ∀ (W : Nat → Option K) (I : Nat),
      (if lt_nan ((if lt_nan (some cfg.d_up) (W I) then Function.update W I (some cfg.d_up)
            else W) I) (some cfg.d_low) then
          Function.update (if lt_nan (some cfg.d_up) (W I) then
            Function.update W I (some cfg.d_up) else W) I (some cfg.d_low)
        else (if lt_nan (some cfg.d_up) (W I) then Function.update W I (some cfg.d_up)
          else W))
        = Function.update W I (clamp_steering_nan cfg (W I)) := by
    intro W I
    unfold clamp_steering_nan
    cases h1 : lt_nan (some cfg.d_up) (W I)
    · simp only [Bool.false_eq_true, if_false]
      cases h2 : lt_nan (W I) (some cfg.d_low)
      · simp only [Bool.false_eq_true, if_false, Function.update_eq_self]
      · simp only [if_true]
    · simp only [if_true, Function.update_same]
      cases h2 : lt_nan (some cfg.d_up) (some cfg.d_low)
      · simp only [Bool.false_eq_true, if_false]
      · simp only [if_true, Function.update_idem]
  exact key (copy_last_nan cfg i j U_) _

/-- The slice of agent `i` after the first `n ≤ N` passes of the inner loop. -/
theorem correctionU_nan_passes (cfg : Config K) (i n : Nat) (U0 : Nat → Option K)
    (hn : n ≤ cfg.N) :
    ∀ a, forLoop n (correctionU_step_nan cfg i) U0 a
      = if nU * (cfg.N + 1) * i ≤ a ∧ a < nU * (cfg.N + 1) * i + nU * n
            ∧ (a - nU * (cfg.N + 1) * i) % nU = 0 then
          clamp_steering_nan cfg (U0 a)
        else U0 a := by
  induction n with
  | zero => intro a; rw [if_neg (by omega)]; rfl
  | succ m ih =>
    have ihf := ih (by omega)
    intro a
    rw [forLoop_succ, correctionU_step_nan_eq]
    have hcopy : copy_last_nan cfg i m (forLoop m (correctionU_step_nan cfg i) U0)
        = forLoop m (correctionU_step_nan cfg i) U0 := by
      unfold copy_last_nan
      rw [if_neg (by omega)]
    rw [hcopy, Function.update_apply, ihf, ihf]
    generalize nU * (cfg.N + 1) * i = B
    simp only [nU, d, Nat.add_zero]
    by_cases h1 : a = B + 2 * m
    · subst h1
      split_ifs <;> first | rfl | (exfalso; omega)
    · split_ifs <;> first | rfl | (exfalso; omega)

/-- The inner loop of `correctionU` for agent `i`, entry by entry. -/
theorem correctionU_nan_agent_apply (cfg : Config K) (i : Nat) (U0 : Nat → Option K)
    (hN : 1 ≤ cfg.N) (a : Nat) :
    forLoop (cfg.N + 1) (correctionU_step_nan cfg i) U0 a = corrected_entry_nan cfg i U0 a := by
  have hp := correctionU_nan_passes cfg i cfg.N U0 (le_refl _)
  rw [forLoop_succ, correctionU_step_nan_eq]
  unfold copy_last_nan corrected_entry_nan
  rw [if_pos rfl]
  simp only [Function.update_apply, hp]
  generalize nU * (cfg.N + 1) * i = B
  simp only [nU, d, F, Nat.add_zero]
  by_cases h1 : a = B + 2 * cfg.N
  · subst h1
    split_ifs <;> first | rfl | (exfalso; omega)
  · by_cases h2 : a = B + 2 * cfg.N + 1
    · subst h2
      split_ifs <;> first | rfl | (exfalso; omega)
    · split_ifs <;> first | rfl | (exfalso; omega)

/-- What `correctionU` leaves in a buffer that may hold NaN: the slice of every agent `i < M`
is corrected from the content it had at the call, the rest is untouched. -/
theorem correctionU_nan_loop (cfg : Config K) (U0 : Nat → Option K) (hN : 1 ≤ cfg.N)
    (m : Nat) :
    (∀ a, nU * (cfg.N + 1) * m ≤ a →
      forLoop m (fun i U => forLoop (cfg.N + 1) (correctionU_step_nan cfg i) U) U0 a = U0 a) ∧
    (∀ i a, i < m → nU * (cfg.N + 1) * i ≤ a → a < nU * (cfg.N + 1) * (i + 1) →
      forLoop m (fun i U => forLoop (cfg.N + 1) (correctionU_step_nan cfg i) U) U0 a
        = corrected_entry_nan cfg i U0 a) := by
  induction m with
  | zero => exact ⟨fun a _ => rfl, fun i a hi => absurd hi (Nat.not_lt_zero i)⟩
  | succ m ih =>
    obtain ⟨ih1, ih2⟩ := ih
    have hB : nU * (cfg.N + 1) * (m + 1) = nU * (cfg.N + 1) * m + nU * (cfg.N + 1) := by ring
    have hS : nU * (cfg.N + 1) = nU * cfg.N + nU := by ring
    constructor
    · intro a ha
      rw [forLoop_succ, correctionU_nan_agent_apply cfg m _ hN]
      unfold corrected_entry_nan
      simp only [nU, d, F] at hB hS ha ⊢
      rw [if_neg (by omega), if_neg (by omega), if_neg (by omega)]
      exact ih1 a (by simp only [nU]; omega)
    · intro i a hi ha1 ha2
      rw [forLoop_succ, correctionU_nan_agent_apply cfg m _ hN]
      rcases Nat.lt_succ_iff_lt_or_eq.mp hi with him | him
      · have hle : nU * (cfg.N + 1) * (i + 1) ≤ nU * (cfg.N + 1) * m :=
          Nat.mul_le_mul_left _ him
        rw [← ih2 i a him ha1 ha2]
        unfold corrected_entry_nan
        simp only [nU, d, F] at hB hS ha1 ha2 hle ⊢
        rw [if_neg (by omega), if_neg (by omega), if_neg (by omega)]
      · subst him
        have e1 : nU * cfg.N = nU * (cfg.N - 1) + nU := by
          simp only [nU]; omega
        unfold corrected_entry_nan
        simp only [nU, d, F] at hB hS ha1 ha2 e1 ⊢
        have g1 : ∀ b, 2 * (cfg.N + 1) * i ≤ b →
            forLoop i (fun i U => forLoop (cfg.N + 1) (correctionU_step_nan cfg i) U) U0 b
              = U0 b := by
          intro b hb
          exact ih1 b (by simp only [nU]; exact hb)
        rw [g1 a ha1, g1 _ (by omega), g1 _ (by omega)]

/-- The entries of agent `i < M` after `correctionU` on a buffer that may hold NaN, step by
step (for `N ≥ 1`): the steering entries have gone through the two tests, the force entries
are as they were handed over, step `N` holds the entries of step `N - 1`. -/
theorem correctionU_nan_entries (cfg : Config K) (p : Planner K) (U_ : Nat → Option K)
    (hN : 1 ≤ cfg.N) (i : Nat) (hi : i < p.M) :
    (∀ j, j < cfg.N →
      correctionU_nan cfg p U_ (nU * (cfg.N + 1) * i + nU * j + d)
        = clamp_steering_nan cfg (U_ (nU * (cfg.N + 1) * i + nU * j + d)) ∧
      correctionU_nan cfg p U_ (nU * (cfg.N + 1) * i + nU * j + F)
        = U_ (nU * (cfg.N + 1) * i + nU * j + F)) ∧
    correctionU_nan cfg p U_ (nU * (cfg.N + 1) * i + nU * cfg.N + d)
      = clamp_steering_nan cfg
          (clamp_steering_nan cfg (U_ (nU * (cfg.N + 1) * i + nU * (cfg.N - 1) + d))) ∧
    correctionU_nan cfg p U_ (nU * (cfg.N + 1) * i + nU * cfg.N + F)
      = U_ (nU * (cfg.N + 1) * i + nU * (cfg.N - 1) + F) := by
  have hB : nU * (cfg.N + 1) * (i + 1) = nU * (cfg.N + 1) * i + nU * (cfg.N + 1) := by ring
  have hS : nU * (cfg.N + 1) = nU * cfg.N + nU := by ring
  have happ : ∀ a, nU * (cfg.N + 1) * i ≤ a → a < nU * (cfg.N + 1) * (i + 1) →
      correctionU_nan cfg p U_ a = corrected_entry_nan cfg i U_ a :=
    fun a ha1 ha2 => (correctionU_nan_loop cfg U_ hN p.M).2 i a hi ha1 ha2
  refine ⟨fun j hj => ⟨?_, ?_⟩, ?_, ?_⟩
  · rw [happ _ (by omega) (by simp only [nU, d] at hB hS ⊢; omega)]
    unfold corrected_entry_nan
    simp only [nU, d, F] at hB hS ⊢
    rw [if_pos (by omega), if_pos (by omega)]
  · rw [happ _ (by omega) (by simp only [nU, F] at hB hS ⊢; omega)]
    unfold corrected_entry_nan
    simp only [nU, d, F] at hB hS ⊢
    rw [if_pos (by omega), if_neg (by omega)]
  · rw [happ _ (by omega) (by simp only [nU, d] at hB hS ⊢; omega)]
    unfold corrected_entry_nan
    simp only [nU, d, F] at hB hS ⊢
    rw [if_neg (by omega), if_pos trivial]
  · rw [happ _ (by omega) (by simp only [nU, F] at hB hS ⊢; omega)]
    unfold corrected_entry_nan
    simp only [nU, d, F] at hB hS ⊢
    rw [if_neg (by omega), if_neg (by omega), if_pos trivial]

/-- On a buffer of numbers `correctionU` with the tests of doubles does what the embedding
over the field does. -/
theorem correctionU_nan_some (cfg : Config K) (p : Planner K) (U_ : Nat → K) (hN : 1 ≤ cfg.N)
    (a : Nat) :
    correctionU_nan cfg p (fun b => some (U_ b)) a = some (correctionU cfg p U_ a) := by
  have hpos : 0 < nU * (cfg.N + 1) := by simp only [nU]; omega
  by_cases ha : a < nU * (cfg.N + 1) * p.M
  · have hi : a / (nU * (cfg.N + 1)) < p.M := Nat.div_lt_of_lt_mul ha
    have h1 : nU * (cfg.N + 1) * (a / (nU * (cfg.N + 1))) ≤ a := Nat.mul_div_le a _
    have h2 : a < nU * (cfg.N + 1) * (a / (nU * (cfg.N + 1)) + 1) := by
      rw [Nat.mul_succ]
      have := Nat.mod_lt a hpos
      have := Nat.div_add_mod a (nU * (cfg.N + 1))
      omega
    rw [correctionU_apply cfg p U_ hN _ a hi h1 h2]
    unfold correctionU_nan
    rw [(correctionU_nan_loop cfg _ hN p.M).2 _ a hi h1 h2]
    unfold corrected_entry_nan corrected_entry
    simp only [clamp_steering_nan_some]
    split_ifs <;> rfl
  · unfold correctionU_nan correctionU
    rw [(correctionU_nan_loop cfg _ hN p.M).1 a (by omega),
      (correctionU_loop cfg _ hN p.M).1 a (by omega)]

/-- A NaN force gives a NaN speed: the test `v < 0.0` of `integrate` is false for it. -/
theorem speed_update_nan_force (cfg : Config K) (v_ : Option K) :
    speed_update_nan cfg v_ none = none := by
  cases v_ <;> rfl

/-- A NaN speed stays NaN. -/
theorem speed_update_nan_speed (cfg : Config K) (F_ : Option K) :
    speed_update_nan cfg none F_ = none := by
  cases F_ <;> rfl

/-- On numbers, the speed of a pass of `integrate` is the clipped Euler step. -/
theorem speed_update_nan_some (cfg : Config K) (v_ F_ : K) :
    speed_update_nan cfg (some v_) (some F_)
      = some (if v_ + cfg.dt * ((-1 / cfg.tau) * v_ + cfg.k * F_) < 0 then 0
          else v_ + cfg.dt * ((-1 / cfg.tau) * v_ + cfg.k * F_)) := by
  unfold speed_update_nan
  simp only [add_nan, mul_nan, lt_nan_some, decide_eq_true_eq]
  split_ifs <;> rfl

/-- From the first step with a NaN force on, every speed that `integrate` stores is NaN. -/
theorem stored_speed_nan_none (cfg : Config K) (v0 : Option K) (F_ : Nat → Option K)
    (j0 : Nat) (h : F_ j0 = none) (j : Nat) (hj : j0 ≤ j) :
    stored_speed_nan cfg v0 F_ j = none := by
  induction j with
  | zero =>
    have h0 : j0 = 0 := by omega
    subst h0
    show speed_update_nan cfg v0 (F_ 0) = none
    rw [h, speed_update_nan_force]
  | succ n ih =>
    show speed_update_nan cfg (stored_speed_nan cfg v0 F_ n) (F_ (n + 1)) = none
    by_cases hn : j0 ≤ n
    · rw [ih hn, speed_update_nan_speed]
    · have h1 : j0 = n + 1 := by omega
      subst h1
      rw [h, speed_update_nan_force]

/-- The speed component of the running state of `integrate` after a pass, over the field. -/
theorem agent_state_speed (cfg : Config K) (tr : TrafficParticipant K) (U_ : Nat → K)
    (i n : Nat) :
    agent_state cfg tr U_ i (n + 1) v
      = if agent_state cfg tr U_ i n v + cfg.dt * ((-1 / cfg.tau) * agent_state cfg tr U_ i n v
            + cfg.k * U_ (nU * (cfg.N + 1) * i + nU * n + F)) < 0 then 0
        else agent_state cfg tr U_ i n v + cfg.dt * ((-1 / cfg.tau) * agent_state cfg tr U_ i n v
            + cfg.k * U_ (nU * (cfg.N + 1) * i + nU * n + F)) := by
  rw [agent_state_succ]
  generalize agent_state cfg tr U_ i n = st
  have key : ∀ (c : Prop) [Decidable c] (f g : Nat → K) (a : Nat),
      (if c then f else g) a = if c then f a else g a := by
    intro c _ f g a
    split_ifs <;> rfl
  unfold euler_update
  simp only [key, dynamic_step, control_at, Function.update_apply, x, y, v, psi, s, l, d, F,
    Nat.reduceEqDiff, if_false, if_true, Nat.add_zero]

/-- On numbers, the speeds that `integrate` stores for agent `i` are those of the embedding
over the field. -/
theorem stored_speed_nan_some (cfg : Config K) (p : Planner K) (X_ U_ : Nat → K) (i j : Nat)
    (hi : i < p.M) (hj : j ≤ cfg.N) :
    stored_speed_nan cfg (some (p.agent i).v)
        (fun n => some (U_ (nU * (cfg.N + 1) * i + nU * n + F))) j
      = some (integrate cfg p X_ U_ (nX * (cfg.N + 1) * i + nX * j + v)) := by
  rw [integrate_apply cfg p X_ U_ i j v hi hj (by decide)]
  clear hj
  induction j with
  | zero =>
    show speed_update_nan cfg _ _ = _
    rw [speed_update_nan_some, agent_state_speed]
    rfl
  | succ n ih =>
    show speed_update_nan cfg (stored_speed_nan cfg _ _ n) _ = _
    rw [ih, speed_update_nan_some, agent_state_speed cfg _ _ _ (n + 1)]

/-- The entries of the buffer after `compute_lagrangian_multipliers` on doubles. -/
theorem compute_lagrangian_multipliers_nan_apply (nC : Nat)
    (lam : Nat → Option K) (rho : Option K) (lm0 C : Nat → Option K) (k : Nat) :
    compute_lagrangian_multipliers_nan nC lam rho lm0 C k
      = if k < nC then max_nan (add_nan (lam k) (mul_nan rho (C k))) (some 0) else lm0 k := by
  unfold compute_lagrangian_multipliers_nan
  induction nC with
  | zero => simp
  | succ m ih =>
    rw [forLoop_succ, Function.update_apply, ih]
    by_cases h1 : k = m
    · subst h1
      rw [if_pos rfl, if_pos (Nat.lt_succ_self _)]
    · rw [if_neg h1]
      by_cases h2 : k < m
      · rw [if_pos h2, if_pos (by omega)]
      · rw [if_neg h2, if_neg (by omega)]

/-- A NaN constraint gives a NaN multiplier: `std::max(l, 0.0)` returns its first argument
when the comparison is false. -/
theorem compute_lagrangian_multipliers_nan_none (nC : Nat)
    (lam : Nat → Option K) (rho : Option K) (lm0 C : Nat → Option K) (k : Nat) (hk : k < nC)
    (h : C k = none) :
    compute_lagrangian_multipliers_nan nC lam rho lm0 C k = none := by
  rw [compute_lagrangian_multipliers_nan_apply, if_pos hk, h]
  cases rho <;> cases lam k <;> rfl

/-- On numbers, `compute_lagrangian_multipliers` with the operations of doubles does what the
embedding over the field does. -/
theorem compute_lagrangian_multipliers_nan_some (p : Planner K) (lm0 C : Nat → K) (k : Nat) :
    compute_lagrangian_multipliers_nan p.nC (fun i => some (p.lagrangian_multipliers i))
        (some p.rho) (fun i => some (lm0 i)) (fun i => some (C i)) k
      = some (compute_lagrangian_multipliers p lm0 C k) := by
  unfold compute_lagrangian_multipliers_nan compute_lagrangian_multipliers
  generalize p.nC = n
  induction n with
  | zero => rfl
  | succ m ih =>
    rw [forLoop_succ, forLoop_succ, Function.update_apply, Function.update_apply, ih]
    by_cases h1 : k = m
    · subst h1
      rw [if_pos rfl, if_pos rfl]
      simp only [add_nan, mul_nan, max_nan, lt_nan_some, decide_eq_true_eq]
      split_ifs with h2
      · rw [max_eq_right (le_of_lt h2)]
      · rw [max_eq_left (not_lt.mp h2)]
    · rw [if_neg h1, if_neg h1]

end NaN

section Numbers

variable {K : Type} [LinearOrderedField K]

/-! ## What holds on buffers of numbers -/

/-- In the embedding over the field, whose buffers hold numbers: with `N ≥ 1` and
`d_low ≤ d_up`, `correctionU` yields for every agent `i < M`: at every step `j < N` the
steering entry is the input steering clamped into `[d_low, d_up]` and the force entry is
unchanged; at step `N` both entries are those of step `N - 1` after its own correction; every
steering entry of the result lies in `[d_low, d_up]`. A buffer with NaN entries is outside
this statement, see `correctionU_nan_entries`. -/
theorem correctionU_spec (cfg : Config K) (p : Planner K) (U_ : Nat → K) (hN : 1 ≤ cfg.N)
    (hd : cfg.d_low ≤ cfg.d_up) (i : Nat) (hi : i < p.M) :
    (∀ j, j < cfg.N →
      correctionU cfg p U_ (nU * (cfg.N + 1) * i + nU * j + d)
        = max cfg.d_low (min (U_ (nU * (cfg.N + 1) * i + nU * j + d)) cfg.d_up) ∧
      correctionU cfg p U_ (nU * (cfg.N + 1) * i + nU * j + F)
        = U_ (nU * (cfg.N + 1) * i + nU * j + F)) ∧
    correctionU cfg p U_ (nU * (cfg.N + 1) * i + nU * cfg.N + d)
      = max cfg.d_low (min (U_ (nU * (cfg.N + 1) * i + nU * (cfg.N - 1) + d)) cfg.d_up) ∧
    correctionU cfg p U_ (nU * (cfg.N + 1) * i + nU * cfg.N + F)
      = U_ (nU * (cfg.N + 1) * i + nU * (cfg.N - 1) + F) ∧
    correctionU cfg p U_ (nU * (cfg.N + 1) * i + nU * cfg.N + d)
      = correctionU cfg p U_ (nU * (cfg.N + 1) * i + nU * (cfg.N - 1) + d) ∧
    correctionU cfg p U_ (nU * (cfg.N + 1) * i + nU * cfg.N + F)
      = correctionU cfg p U_ (nU * (cfg.N + 1) * i + nU * (cfg.N - 1) + F) ∧
    (∀ j, j ≤ cfg.N →
      cfg.d_low ≤ correctionU cfg p U_ (nU * (cfg.N + 1) * i + nU * j + d) ∧
      correctionU cfg p U_ (nU * (cfg.N + 1) * i + nU * j + d) ≤ cfg.d_up) := by
  obtain ⟨h1, h2, h3⟩ := correctionU_entries cfg p U_ hN i hi
  have hprev := h1 (cfg.N - 1) (by omega)
  have hrange : ∀ u : K, cfg.d_low ≤ max cfg.d_low (min u cfg.d_up) ∧
      max cfg.d_low (min u cfg.d_up) ≤ cfg.d_up :=
    fun u => ⟨le_max_left _ _, max_le hd (min_le_right _ _)⟩
  refine ⟨fun j hj => ⟨?_, (h1 j hj).2⟩, ?_, h3, ?_, ?_, ?_⟩
  · rw [(h1 j hj).1, clamp_steering_eq cfg _ hd]
  · rw [h2, clamp_steering_idem cfg _ hd, clamp_steering_eq cfg _ hd]
  · rw [h2, clamp_steering_idem cfg _ hd, hprev.1]
  · rw [h3, hprev.2]
  · intro j hj
    rcases Nat.lt_or_eq_of_le hj with hlt | heq
    · rw [(h1 j hlt).1, clamp_steering_eq cfg _ hd]
      exact hrange _
    · subst heq
      rw [h2, clamp_steering_idem cfg _ hd, clamp_steering_eq cfg _ hd]
      exact hrange _

/-- In the embedding over the field, whose buffers hold numbers: every speed that `integrate`
stores is non-negative. Forces that are NaN are outside this statement, see
`stored_speed_nan_none`. -/
theorem integrate_speed_nonneg (cfg : Config K) (p : Planner K) (X_ U_ : Nat → K) (i j : Nat)
    (hi : i < p.M) (hj : j ≤ cfg.N) :
    0 ≤ integrate cfg p X_ U_ (nX * (cfg.N + 1) * i + nX * j + v) := by
  rw [integrate_apply cfg p X_ U_ i j v hi hj (by decide), agent_state_succ]
  exact euler_update_speed cfg _ _

/-- In the embedding over the field, which has no NaN and divides by zero with the result
`0`: the multipliers are all zero after `setup`; every outer iteration replaces each
`lambda_k` (`k < nC`) by `max 0 (lambda_k + rho * C_k)`, with `rho` the penalty before the
growth of that iteration and `C` the constraints of the committed controls; and
`lambda_k ≥ 0` for every `k` at the entry of the loop and after any number `t` of outer
iterations of the embedding. An iteration in which the source divides `0` by `0`, and
constraints that are NaN, are outside this statement, see
`compute_lagrangian_multipliers_nan_none`. -/
theorem multipliers_nonneg (cfg : Config K) (p : Planner K) (st : SolverState K)
    (U_ : Nat → K) (t : Nat) :
    (∀ k, (setup cfg p).lagrangian_multipliers k = 0) ∧
    (∀ k, k < st.planner.nC →
      (outer_iteration cfg st).planner.lagrangian_multipliers k
        = max 0 (st.planner.lagrangian_multipliers k + st.planner.rho
            * compute_constraints cfg st.planner (commit_phase cfg st).constraints
                (integrate cfg st.planner (commit_phase cfg st).dX_
                  (outer_iteration cfg st).dU_)
                (outer_iteration cfg st).dU_ k)) ∧
    (∀ k, 0 ≤ ((outer_iteration cfg)^[t]
      (solver_init cfg (setup cfg p) U_)).planner.lagrangian_multipliers k) := by
  refine ⟨fun _ => rfl, ?_, ?_⟩
  · intro k hk
    rw [outer_iteration_multipliers, if_pos hk, outer_iteration_dU_, max_comm]
  · induction t with
    | zero =>
      intro k
      exact le_of_eq rfl
    | succ n ih =>
      intro k
      rw [Function.iterate_succ_apply', outer_iteration_multipliers]
      split_ifs
      · exact le_max_right _ _
      · exact ih k

end Numbers

section Claims

variable {K : Type} [LinearOrderedField K]

/-! ## The claims -/

/-- C1, evaluated at two successive calls of `run` on one planner (a newly constructed
planner, the sample configuration over the reals, one agent at rest on a straight lane, the
same traffic in both calls): when the loop of the second call starts, the multipliers are all
`0`, the radius of the agent is `1` and its Hessian the identity, but the penalty `rho` is
above its initial value `rho_0`: `setup` does not reset it, and the first call has multiplied
it by `gamma` at least once. -/
theorem run_twice_loop_entry :
    (∀ k, (run_loop_entry (sampleConfig Real.cos Real.sin Real.tan Real.sqrt)
        (run (sampleConfig Real.cos Real.sin Real.tan Real.sqrt)
          (Planner.fresh (sampleConfig Real.cos Real.sin Real.tan Real.sqrt))
          [sampleAgent (0 : ℝ) 0 0])
        [sampleAgent (0 : ℝ) 0 0]).planner.lagrangian_multipliers k = 0) ∧
    (run_loop_entry (sampleConfig Real.cos Real.sin Real.tan Real.sqrt)
        (run (sampleConfig Real.cos Real.sin Real.tan Real.sqrt)
          (Planner.fresh (sampleConfig Real.cos Real.sin Real.tan Real.sqrt))
          [sampleAgent (0 : ℝ) 0 0])
        [sampleAgent (0 : ℝ) 0 0]).delta 0 = 1 ∧
    (run_loop_entry (sampleConfig Real.cos Real.sin Real.tan Real.sqrt)
        (run (sampleConfig Real.cos Real.sin Real.tan Real.sqrt)
          (Planner.fresh (sampleConfig Real.cos Real.sin Real.tan Real.sqrt))
          [sampleAgent (0 : ℝ) 0 0])
        [sampleAgent (0 : ℝ) 0 0]).H_ 0 = identity ∧
    (sampleConfig Real.cos Real.sin Real.tan Real.sqrt).rho_0
      < (run_loop_entry (sampleConfig Real.cos Real.sin Real.tan Real.sqrt)
          (run (sampleConfig Real.cos Real.sin Real.tan Real.sqrt)
            (Planner.fresh (sampleConfig Real.cos Real.sin Real.tan Real.sqrt))
            [sampleAgent (0 : ℝ) 0 0])
          [sampleAgent (0 : ℝ) 0 0]).planner.rho := by
  obtain ⟨h1, h2, h3, _⟩ := run_loop_entry_members
    (sampleConfig Real.cos Real.sin Real.tan Real.sqrt)
    (run (sampleConfig Real.cos Real.sin Real.tan Real.sqrt)
      (Planner.fresh (sampleConfig Real.cos Real.sin Real.tan Real.sqrt))
      [sampleAgent (0 : ℝ) 0 0])
    [sampleAgent (0 : ℝ) 0 0]
  refine ⟨h1, (h2 0 (by decide)).1, (h2 0 (by decide)).2, ?_⟩
  rw [h3]
  exact sample_run_rho (Planner.fresh (sampleConfig Real.cos Real.sin Real.tan Real.sqrt))
    Real.cos Real.sin Real.tan Real.sqrt Real.cos_zero Real.sin_zero Real.tan_zero
    (by show (0 : ℝ) < 1 / 1000; norm_num)

/-- C2: for every state vector `X_` and control vector `U_`, `set_prediction` returns the
traffic in which the record of every agent `i < M` keeps all its other fields and carries a
predicted trajectory and a predicted control of exactly `N + 1` samples; sample `j` has
`x, y, v, psi` read from `X_` at `(i, j)`, `delta = d` read from `U_` at `(i, j)`,
`a = -v/tau + k*F`, `omega = v*tan(d)*cos(kappa*d)/L`, `beta = d/2`, `t_start = j*dt` and
`t_end = (j+1)*dt`. The strides `nx`, `nu` of the header are assumed to be `nX*(N+1)` and
`nU*(N+1)`, and `M` the number of records. -/
theorem set_prediction_spec (cfg : Config K) (p : Planner K) (X_ U_ : Nat → K)
    (hM : p.M = p.traffic.length) (hnx : cfg.nx = nX * (cfg.N + 1))
    (hnu : cfg.nu = nU * (cfg.N + 1)) (i : Nat) (hi : i < p.M) :
    (set_prediction cfg p X_ U_).length = p.traffic.length ∧
    (set_prediction cfg p X_ U_)[i]? = some { p.agent i with
      predicted_trajectory := (List.range (cfg.N + 1)).map (fun j =>
        { x := X_ (nX * (cfg.N + 1) * i + nX * j + x)
          y := X_ (nX * (cfg.N + 1) * i + nX * j + y)
          psi := X_ (nX * (cfg.N + 1) * i + nX * j + psi)
          v := X_ (nX * (cfg.N + 1) * i + nX * j + v)
          omega := X_ (nX * (cfg.N + 1) * i + nX * j + v)
            * cfg.tan (U_ (nU * (cfg.N + 1) * i + nU * j + d))
            * cfg.cos (cfg.cg_ratio * U_ (nU * (cfg.N + 1) * i + nU * j + d)) / cfg.length
          beta := U_ (nU * (cfg.N + 1) * i + nU * j + d) / 2
          t_start := (j : K) * cfg.dt
          t_end := ((j : K) + 1) * cfg.dt })
      predicted_control := (List.range (cfg.N + 1)).map (fun j =>
        { a := -(X_ (nX * (cfg.N + 1) * i + nX * j + v)) / cfg.tau
            + cfg.k * U_ (nU * (cfg.N + 1) * i + nU * j + F)
          delta := U_ (nU * (cfg.N + 1) * i + nU * j + d) }) } := by
  obtain ⟨hlen, hget⟩ := set_prediction_loop cfg X_ U_ p.traffic p.M
  refine ⟨hlen, ?_⟩
  have hg := hget i
  rw [if_pos hi] at hg
  unfold set_prediction
  rw [hg, List.getElem?_eq_getElem (by omega : i < p.traffic.length)]
  have hag : p.agent i = p.traffic[i] := by
    unfold Planner.agent
    rw [List.getD_eq_getElem?_getD, List.getElem?_eq_getElem (by omega : i < p.traffic.length)]
    rfl
  rw [hag]
  simp only [Option.map_some']
  have e1 : predicted_point cfg X_ U_ i = fun j =>
      ({ x := X_ (nX * (cfg.N + 1) * i + nX * j + x)
         y := X_ (nX * (cfg.N + 1) * i + nX * j + y)
         psi := X_ (nX * (cfg.N + 1) * i + nX * j + psi)
         v := X_ (nX * (cfg.N + 1) * i + nX * j + v)
         omega := X_ (nX * (cfg.N + 1) * i + nX * j + v)
           * cfg.tan (U_ (nU * (cfg.N + 1) * i + nU * j + d))
           * cfg.cos (cfg.cg_ratio * U_ (nU * (cfg.N + 1) * i + nU * j + d)) / cfg.length
         beta := U_ (nU * (cfg.N + 1) * i + nU * j + d) / 2
         t_start := (j : K) * cfg.dt
         t_end := ((j : K) + 1) * cfg.dt } : TrajectoryPoint K) := by
    funext j
    unfold predicted_point
    rw [hnx, hnu]
    congr 1 <;> ring
  have e2 : predicted_input cfg X_ U_ i = fun j =>
      ({ a := -(X_ (nX * (cfg.N + 1) * i + nX * j + v)) / cfg.tau
           + cfg.k * U_ (nU * (cfg.N + 1) * i + nU * j + F)
         delta := U_ (nU * (cfg.N + 1) * i + nU * j + d) } : Input K) := by
    funext j
    unfold predicted_input
    rw [hnx, hnu]
    congr 1
    ring
  rw [e1, e2]

/-- C2, instance: one agent, the sample configuration over the reals. -/
theorem set_prediction_spec_witness :
    (set_prediction (sampleConfig Real.cos Real.sin Real.tan Real.sqrt)
      (samplePlanner (sampleConfig Real.cos Real.sin Real.tan Real.sqrt)
        [sampleAgent (0 : ℝ) 0 5]) (fun _ => 1) (fun _ => 0)).length = 1 :=
  (set_prediction_spec (sampleConfig Real.cos Real.sin Real.tan Real.sqrt)
    (samplePlanner (sampleConfig Real.cos Real.sin Real.tan Real.sqrt)
      [sampleAgent (0 : ℝ) 0 5]) (fun _ => 1) (fun _ => 0) rfl rfl rfl 0 (by decide)).1

/-- C3, evaluated at a call of `run` (a newly constructed planner, the sample configuration
over the reals, one agent at rest with target speed `0` on a straight lane). Stated:
(1) the loop of `trust_region_solver` makes a first and a second pass; (2) the packed gradient
of the second pass is zero in every entry, `normG` is the square root of zero, and the step of
the pass is what `quadratic_problem_solver` returns for that gradient; (3) `correctionU`
followed on doubles (`correctionU_nan`, whose comparisons are false for NaN) returns NaN in
every entry for the buffer of four NaN entries; (4) on every buffer of numbers
`correctionU_nan` is `correctionU` of the embedding over the field. Between (2) and (3) lies
the arithmetic of doubles, which the field does not have: `0 / 0` is NaN there, so the step of
the second pass and the controls it commits are NaN (the test `ratio < eta` is false for a NaN
quotient), and these are the controls handed to `correctionU`. By (3) they come back as NaN:
no steering entry of the result lies in `[d_low, d_up]`. -/
theorem correctionU_nan_steering :
    solver_loop (sampleConfig Real.cos Real.sin Real.tan Real.sqrt) iter_lim
        (run_loop_entry (sampleConfig Real.cos Real.sin Real.tan Real.sqrt)
          (Planner.fresh (sampleConfig Real.cos Real.sin Real.tan Real.sqrt))
          [sampleAgent (0 : ℝ) 0 0])
      = solver_loop (sampleConfig Real.cos Real.sin Real.tan Real.sqrt) 18
          (outer_iteration (sampleConfig Real.cos Real.sin Real.tan Real.sqrt)
            (second_pass_entry (sampleConfig Real.cos Real.sin Real.tan Real.sqrt)
              (Planner.fresh (sampleConfig Real.cos Real.sin Real.tan Real.sqrt))
              [sampleAgent (0 : ℝ) 0 0])) ∧
    (∀ r, r < 4 → (tentative_state (sampleConfig Real.cos Real.sin Real.tan Real.sqrt)
      (second_pass_entry (sampleConfig Real.cos Real.sin Real.tan Real.sqrt)
        (Planner.fresh (sampleConfig Real.cos Real.sin Real.tan Real.sqrt))
        [sampleAgent (0 : ℝ) 0 0])).g_ 0 r = 0) ∧
    Real.sqrt (dot (sampleConfig Real.cos Real.sin Real.tan Real.sqrt).nu
      ((tentative_state (sampleConfig Real.cos Real.sin Real.tan Real.sqrt)
        (second_pass_entry (sampleConfig Real.cos Real.sin Real.tan Real.sqrt)
          (Planner.fresh (sampleConfig Real.cos Real.sin Real.tan Real.sqrt))
          [sampleAgent (0 : ℝ) 0 0])).g_ 0)
      ((tentative_state (sampleConfig Real.cos Real.sin Real.tan Real.sqrt)
        (second_pass_entry (sampleConfig Real.cos Real.sin Real.tan Real.sqrt)
          (Planner.fresh (sampleConfig Real.cos Real.sin Real.tan Real.sqrt))
          [sampleAgent (0 : ℝ) 0 0])).g_ 0)) = 0 ∧
    (tentative_state (sampleConfig Real.cos Real.sin Real.tan Real.sqrt)
      (second_pass_entry (sampleConfig Real.cos Real.sin Real.tan Real.sqrt)
        (Planner.fresh (sampleConfig Real.cos Real.sin Real.tan Real.sqrt))
        [sampleAgent (0 : ℝ) 0 0])).s_ 0
      = quadratic_problem_solver (sampleConfig Real.cos Real.sin Real.tan Real.sqrt)
          ((tentative_state (sampleConfig Real.cos Real.sin Real.tan Real.sqrt)
            (second_pass_entry (sampleConfig Real.cos Real.sin Real.tan Real.sqrt)
              (Planner.fresh (sampleConfig Real.cos Real.sin Real.tan Real.sqrt))
              [sampleAgent (0 : ℝ) 0 0])).g_ 0)
          ((second_pass_entry (sampleConfig Real.cos Real.sin Real.tan Real.sqrt)
            (Planner.fresh (sampleConfig Real.cos Real.sin Real.tan Real.sqrt))
            [sampleAgent (0 : ℝ) 0 0]).H_ 0)
          ((second_pass_entry (sampleConfig Real.cos Real.sin Real.tan Real.sqrt)
            (Planner.fresh (sampleConfig Real.cos Real.sin Real.tan Real.sqrt))
            [sampleAgent (0 : ℝ) 0 0]).delta 0) ∧
    (∀ a, a < 4 →
      correctionU_nan (sampleConfig Real.cos Real.sin Real.tan Real.sqrt)
        (samplePlanner (sampleConfig Real.cos Real.sin Real.tan Real.sqrt)
          [sampleAgent (0 : ℝ) 0 0]) (fun _ => none) a = none) ∧
    (∀ (U_ : Nat → ℝ) a,
      correctionU_nan (sampleConfig Real.cos Real.sin Real.tan Real.sqrt)
        (samplePlanner (sampleConfig Real.cos Real.sin Real.tan Real.sqrt)
          [sampleAgent (0 : ℝ) 0 0]) (fun b => some (U_ b)) a
        = some (correctionU (sampleConfig Real.cos Real.sin Real.tan Real.sqrt)
            (samplePlanner (sampleConfig Real.cos Real.sin Real.tan Real.sqrt)
              [sampleAgent (0 : ℝ) 0 0]) U_ a)) := by
  obtain ⟨h1, h2, h3, h4⟩ := sample_zero_gradient
  refine ⟨h1, h2, h3, h4, ?_, fun U_ a => correctionU_nan_some _ _ U_ (le_refl _) a⟩
  obtain ⟨e1, e2, e3⟩ := correctionU_nan_entries
    (sampleConfig Real.cos Real.sin Real.tan Real.sqrt)
    (samplePlanner (sampleConfig Real.cos Real.sin Real.tan Real.sqrt)
      [sampleAgent (0 : ℝ) 0 0]) (fun _ => none) (le_refl _) 0 Nat.zero_lt_one
  intro a ha
  have ha4 : a = 0 ∨ a = 1 ∨ a = 2 ∨ a = 3 := by omega
  rcases ha4 with rfl | rfl | rfl | rfl
  · exact (e1 0 Nat.zero_lt_one).1
  · exact (e1 0 Nat.zero_lt_one).2
  · exact e2
  · exact e3

/-- C5, evaluated at a call of `run` (a newly constructed planner, the sample configuration
over the reals, one agent at rest with target speed `0` on a straight lane). Stated:
(1) the loop of `trust_region_solver` makes a first and a second pass; (2) the packed gradient
of the second pass is zero in every entry and `normG` is the square root of zero; (3) the
speeds that `integrate` stores, followed on doubles (`stored_speed_nan`, whose comparison is
false for NaN), are NaN at every step when the forces are NaN; (4) on numbers
`stored_speed_nan` is the speed that `integrate` of the embedding over the field stores.
Between (2) and (3) lies the arithmetic of doubles, which the field does not have: `0 / 0` is
NaN there, so the controls that the second pass commits are NaN, `correctionU` returns them as
they are, and `run` integrates them. By (3) the test `v < 0.0` does not clip the speed and
every stored speed is NaN, not a number `≥ 0`. -/
theorem integrate_nan_speed :
    solver_loop (sampleConfig Real.cos Real.sin Real.tan Real.sqrt) iter_lim
        (run_loop_entry (sampleConfig Real.cos Real.sin Real.tan Real.sqrt)
          (Planner.fresh (sampleConfig Real.cos Real.sin Real.tan Real.sqrt))
          [sampleAgent (0 : ℝ) 0 0])
      = solver_loop (sampleConfig Real.cos Real.sin Real.tan Real.sqrt) 18
          (outer_iteration (sampleConfig Real.cos Real.sin Real.tan Real.sqrt)
            (second_pass_entry (sampleConfig Real.cos Real.sin Real.tan Real.sqrt)
              (Planner.fresh (sampleConfig Real.cos Real.sin Real.tan Real.sqrt))
              [sampleAgent (0 : ℝ) 0 0])) ∧
    (∀ r, r < 4 → (tentative_state (sampleConfig Real.cos Real.sin Real.tan Real.sqrt)
      (second_pass_entry (sampleConfig Real.cos Real.sin Real.tan Real.sqrt)
        (Planner.fresh (sampleConfig Real.cos Real.sin Real.tan Real.sqrt))
        [sampleAgent (0 : ℝ) 0 0])).g_ 0 r = 0) ∧
    Real.sqrt (dot (sampleConfig Real.cos Real.sin Real.tan Real.sqrt).nu
      ((tentative_state (sampleConfig Real.cos Real.sin Real.tan Real.sqrt)
        (second_pass_entry (sampleConfig Real.cos Real.sin Real.tan Real.sqrt)
          (Planner.fresh (sampleConfig Real.cos Real.sin Real.tan Real.sqrt))
          [sampleAgent (0 : ℝ) 0 0])).g_ 0)
      ((tentative_state (sampleConfig Real.cos Real.sin Real.tan Real.sqrt)
        (second_pass_entry (sampleConfig Real.cos Real.sin Real.tan Real.sqrt)
          (Planner.fresh (sampleConfig Real.cos Real.sin Real.tan Real.sqrt))
          [sampleAgent (0 : ℝ) 0 0])).g_ 0)) = 0 ∧
    (∀ j, stored_speed_nan (sampleConfig Real.cos Real.sin Real.tan Real.sqrt)
      (some (sampleAgent (0 : ℝ) 0 0).v) (fun _ => none) j = none) ∧
    (∀ (X_ U_ : Nat → ℝ) j, j ≤ 1 →
      stored_speed_nan (sampleConfig Real.cos Real.sin Real.tan Real.sqrt)
        (some (sampleAgent (0 : ℝ) 0 0).v)
        (fun n => some (U_ (nU * (1 + 1) * 0 + nU * n + F))) j
      = some (integrate (sampleConfig Real.cos Real.sin Real.tan Real.sqrt)
          (samplePlanner (sampleConfig Real.cos Real.sin Real.tan Real.sqrt)
            [sampleAgent (0 : ℝ) 0 0]) X_ U_ (nX * (1 + 1) * 0 + nX * j + v))) := by
  obtain ⟨h1, h2, h3, _⟩ := sample_zero_gradient
  refine ⟨h1, h2, h3, fun j => stored_speed_nan_none _ _ _ 0 rfl j (Nat.zero_le _), ?_⟩
  intro X_ U_ j hj
  exact stored_speed_nan_some (sampleConfig Real.cos Real.sin Real.tan Real.sqrt)
    (samplePlanner (sampleConfig Real.cos Real.sin Real.tan Real.sqrt)
      [sampleAgent (0 : ℝ) 0 0]) X_ U_ 0 j Nat.zero_lt_one hj

/-- C6, evaluated at a call of `run` (a newly constructed planner, the sample configuration
over the reals, one agent at rest with target speed `0` on a straight lane). Stated:
(1) the loop of `trust_region_solver` makes a first and a second pass; (2) the packed gradient
of the second pass is zero in every entry and `normG` is the square root of zero; (3) when the
second pass starts the multipliers are all zero, the penalty is `rho_0 * gamma = 13/10000` and
there are ten constraints; (4) `compute_lagrangian_multipliers` followed on doubles
(`compute_lagrangian_multipliers_nan`: `std::max(l, 0.0)` returns `l` when `l` is NaN), for
these multipliers and this penalty and the constraints NaN in the eight input-bound entries and
`991` in the two lane entries, stores NaN in the first eight multipliers and `12883/10000` in
the other two; (5) on numbers `compute_lagrangian_multipliers_nan` is
`compute_lagrangian_multipliers` of the embedding over the field. Between (2) and (4) lies the
arithmetic of doubles, which the field does not have: `0 / 0` is NaN there, so the controls
that the second pass commits are NaN, and the constraints of the pass are the ones of (4).
After the second outer iteration eight multipliers are NaN, not numbers `≥ 0`. -/
theorem multipliers_nan :
    solver_loop (sampleConfig Real.cos Real.sin Real.tan Real.sqrt) iter_lim
        (run_loop_entry (sampleConfig Real.cos Real.sin Real.tan Real.sqrt)
          (Planner.fresh (sampleConfig Real.cos Real.sin Real.tan Real.sqrt))
          [sampleAgent (0 : ℝ) 0 0])
      = solver_loop (sampleConfig Real.cos Real.sin Real.tan Real.sqrt) 18
          (outer_iteration (sampleConfig Real.cos Real.sin Real.tan Real.sqrt)
            (second_pass_entry (sampleConfig Real.cos Real.sin Real.tan Real.sqrt)
              (Planner.fresh (sampleConfig Real.cos Real.sin Real.tan Real.sqrt))
              [sampleAgent (0 : ℝ) 0 0])) ∧
    (∀ r, r < 4 → (tentative_state (sampleConfig Real.cos Real.sin Real.tan Real.sqrt)
      (second_pass_entry (sampleConfig Real.cos Real.sin Real.tan Real.sqrt)
        (Planner.fresh (sampleConfig Real.cos Real.sin Real.tan Real.sqrt))
        [sampleAgent (0 : ℝ) 0 0])).g_ 0 r = 0) ∧
    Real.sqrt (dot (sampleConfig Real.cos Real.sin Real.tan Real.sqrt).nu
      ((tentative_state (sampleConfig Real.cos Real.sin Real.tan Real.sqrt)
        (second_pass_entry (sampleConfig Real.cos Real.sin Real.tan Real.sqrt)
          (Planner.fresh (sampleConfig Real.cos Real.sin Real.tan Real.sqrt))
          [sampleAgent (0 : ℝ) 0 0])).g_ 0)
      ((tentative_state (sampleConfig Real.cos Real.sin Real.tan Real.sqrt)
        (second_pass_entry (sampleConfig Real.cos Real.sin Real.tan Real.sqrt)
          (Planner.fresh (sampleConfig Real.cos Real.sin Real.tan Real.sqrt))
          [sampleAgent (0 : ℝ) 0 0])).g_ 0)) = 0 ∧
    (∀ k, (second_pass_entry (sampleConfig Real.cos Real.sin Real.tan Real.sqrt)
      (Planner.fresh (sampleConfig Real.cos Real.sin Real.tan Real.sqrt))
      [sampleAgent (0 : ℝ) 0 0]).planner.lagrangian_multipliers k = 0) ∧
    (second_pass_entry (sampleConfig Real.cos Real.sin Real.tan Real.sqrt)
      (Planner.fresh (sampleConfig Real.cos Real.sin Real.tan Real.sqrt))
      [sampleAgent (0 : ℝ) 0 0]).planner.rho = 13 / 10000 ∧
    (second_pass_entry (sampleConfig Real.cos Real.sin Real.tan Real.sqrt)
      (Planner.fresh (sampleConfig Real.cos Real.sin Real.tan Real.sqrt))
      [sampleAgent (0 : ℝ) 0 0]).planner.nC = 10 ∧
    (∀ k, k < 10 →
      compute_lagrangian_multipliers_nan 10 (fun _ => some 0) (some (13 / 10000 : ℝ))
        (fun _ => some 0) (fun c => if c < 8 then none else some 991) k
        = if k < 8 then none else some (12883 / 10000)) ∧
    (∀ (p : Planner ℝ) (lm0 C : Nat → ℝ) k,
      compute_lagrangian_multipliers_nan p.nC (fun i => some (p.lagrangian_multipliers i))
          (some p.rho) (fun i => some (lm0 i)) (fun i => some (C i)) k
        = some (compute_lagrangian_multipliers p lm0 C k)) := by
  obtain ⟨h1, h2, h3, _⟩ := sample_zero_gradient
  have hp := sample_second_planner
    (Planner.fresh (sampleConfig Real.cos Real.sin Real.tan Real.sqrt))
    Real.cos Real.sin Real.tan Real.sqrt Real.cos_zero Real.sin_zero
    (fun z => by nlinarith [Real.sin_sq_add_cos_sq z, sq_nonneg (Real.cos z)])
    (fun z hz => ⟨Real.sqrt_nonneg z, Real.mul_self_sqrt hz⟩)
    (by show (0 : ℝ) ≤ 1 / 1000; norm_num)
  refine ⟨h1, h2, h3, ?_, ?_, ?_, ?_,
    fun p lm0 C k => compute_lagrangian_multipliers_nan_some p lm0 C k⟩
  · intro k
    exact (congrArg (fun P => P.lagrangian_multipliers k) hp).trans rfl
  · refine (congrArg (fun P => P.rho) hp).trans ?_
    show (13 / 10 * (1 / 1000) : ℝ) = 13 / 10000
    norm_num
  · exact (congrArg (fun P => P.nC) hp).trans rfl
  · intro k hk
    rw [compute_lagrangian_multipliers_nan_apply, if_pos hk]
    by_cases h8 : k < 8
    · rw [if_pos h8, if_pos h8]
      rfl
    · rw [if_neg h8, if_neg h8]
      simp only [add_nan, mul_nan, max_nan, lt_nan_some, decide_eq_true_eq]
      rw [if_neg (by norm_num)]
      norm_num

/-- C7, evaluated at the second of two successive calls of `run` on one planner (the input of
C1): the loop of the second call is entered and makes a first outer iteration; after any
number `t` of outer iterations the penalty is the one at the entry of the loop times
`gamma^t`, so it grows by the factor `gamma` once per iteration; but the penalty at the entry
is not `rho_0`, and after the first outer iteration the penalty is not `rho_0 * gamma^1`. -/
theorem run_twice_penalty :
    (run_loop_entry (sampleConfig Real.cos Real.sin Real.tan Real.sqrt)
        (run (sampleConfig Real.cos Real.sin Real.tan Real.sqrt)
          (Planner.fresh (sampleConfig Real.cos Real.sin Real.tan Real.sqrt))
          [sampleAgent (0 : ℝ) 0 0])
        [sampleAgent (0 : ℝ) 0 0]).convergence = false ∧
    (run_loop_entry (sampleConfig Real.cos Real.sin Real.tan Real.sqrt)
        (run (sampleConfig Real.cos Real.sin Real.tan Real.sqrt)
          (Planner.fresh (sampleConfig Real.cos Real.sin Real.tan Real.sqrt))
          [sampleAgent (0 : ℝ) 0 0])
        [sampleAgent (0 : ℝ) 0 0]).iter < iter_lim ∧
    (∀ t, ((outer_iteration (sampleConfig Real.cos Real.sin Real.tan Real.sqrt))^[t]
        (run_loop_entry (sampleConfig Real.cos Real.sin Real.tan Real.sqrt)
          (run (sampleConfig Real.cos Real.sin Real.tan Real.sqrt)
            (Planner.fresh (sampleConfig Real.cos Real.sin Real.tan Real.sqrt))
            [sampleAgent (0 : ℝ) 0 0])
          [sampleAgent (0 : ℝ) 0 0])).planner.rho
      = (run_loop_entry (sampleConfig Real.cos Real.sin Real.tan Real.sqrt)
          (run (sampleConfig Real.cos Real.sin Real.tan Real.sqrt)
            (Planner.fresh (sampleConfig Real.cos Real.sin Real.tan Real.sqrt))
            [sampleAgent (0 : ℝ) 0 0])
          [sampleAgent (0 : ℝ) 0 0]).planner.rho
        * (sampleConfig Real.cos Real.sin Real.tan Real.sqrt).gamma ^ t) ∧
    (outer_iteration (sampleConfig Real.cos Real.sin Real.tan Real.sqrt)
        (run_loop_entry (sampleConfig Real.cos Real.sin Real.tan Real.sqrt)
          (run (sampleConfig Real.cos Real.sin Real.tan Real.sqrt)
            (Planner.fresh (sampleConfig Real.cos Real.sin Real.tan Real.sqrt))
            [sampleAgent (0 : ℝ) 0 0])
          [sampleAgent (0 : ℝ) 0 0])).planner.rho
      ≠ (sampleConfig Real.cos Real.sin Real.tan Real.sqrt).rho_0
        * (sampleConfig Real.cos Real.sin Real.tan Real.sqrt).gamma ^ 1 := by
  have hrho := sample_run_rho
    (Planner.fresh (sampleConfig Real.cos Real.sin Real.tan Real.sqrt))
    Real.cos Real.sin Real.tan Real.sqrt Real.cos_zero Real.sin_zero Real.tan_zero
    (by show (0 : ℝ) < 1 / 1000; norm_num)
  refine ⟨sample_not_converged _ Real.cos Real.sin Real.tan Real.sqrt Real.cos_zero
    Real.sin_zero Real.tan_zero, by decide, fun t => iterate_rho _ _ t, ?_⟩
  rw [outer_iteration_rho, pow_one]
  have h3 : (run_loop_entry (sampleConfig Real.cos Real.sin Real.tan Real.sqrt)
      (run (sampleConfig Real.cos Real.sin Real.tan Real.sqrt)
        (Planner.fresh (sampleConfig Real.cos Real.sin Real.tan Real.sqrt))
        [sampleAgent (0 : ℝ) 0 0])
      [sampleAgent (0 : ℝ) 0 0]).planner.rho
      = (run (sampleConfig Real.cos Real.sin Real.tan Real.sqrt)
        (Planner.fresh (sampleConfig Real.cos Real.sin Real.tan Real.sqrt))
        [sampleAgent (0 : ℝ) 0 0]).rho := rfl
  rw [h3]
  have hg : (0 : ℝ) < (sampleConfig Real.cos Real.sin Real.tan Real.sqrt).gamma := by
    show (0 : ℝ) < 13 / 10
    norm_num
  have hlt := mul_lt_mul_of_pos_left hrho hg
  have e : (Planner.fresh (sampleConfig Real.cos Real.sin Real.tan Real.sqrt)).rho
      = (sampleConfig Real.cos Real.sin Real.tan Real.sqrt).rho_0 := rfl
  rw [e] at hlt
  rw [mul_comm (sampleConfig Real.cos Real.sin Real.tan Real.sqrt).rho_0]
  exact ne_of_gt hlt

/-- C8: for every agent `i` of a planner set up for its traffic, and all `X_`, `U_`:
`compute_constraints_vehicle_i` stores into every index below
`nC_i = 2*nU*(N+1) + (N+1)*(M-1) + (N+1)` exactly once and into no other; entry `nU*k + c`
is `10^3 * (U[i,k,c] - upper_c)`, entry `nU*(N+1) + nU*k + c` is `10^3 * (lower_c - U[i,k,c])`;
the next `(N+1)*(M-1)` entries are the collision entries (block `b` holds
`r_safe^2 - dist2t` against the `b`-th other agent); the last `N+1` entries are the lane
entries `latdist2t - r_lane^2`; and `compute_constraints` puts the block of agent `i` at
offset `nC_i * i`. -/
theorem constraint_ordering (cfg : Config K) (p0 : Planner K) (c0 c1 X_ U_ : Nat → K) (i : Nat)
    (hi : i < p0.traffic.length) :
    (setup cfg p0).nC_i
      = 2 * nU * (cfg.N + 1) + (cfg.N + 1) * ((setup cfg p0).M - 1) + (cfg.N + 1) ∧
    ((constraint_stores cfg (setup cfg p0) X_ U_ i).map Prod.fst).Perm
      (List.range (setup cfg p0).nC_i) ∧
    (∀ k, k ≤ cfg.N →
      compute_constraints_vehicle_i cfg (setup cfg p0) c0 X_ U_ i (nU * k + d)
        = 1000 * (U_ (nU * (cfg.N + 1) * i + nU * k + d) - cfg.d_up) ∧
      compute_constraints_vehicle_i cfg (setup cfg p0) c0 X_ U_ i (nU * k + F)
        = 1000 * (U_ (nU * (cfg.N + 1) * i + nU * k + F) - cfg.F_up) ∧
      compute_constraints_vehicle_i cfg (setup cfg p0) c0 X_ U_ i (nU * (cfg.N + 1) + nU * k + d)
        = 1000 * (cfg.d_low - U_ (nU * (cfg.N + 1) * i + nU * k + d)) ∧
      compute_constraints_vehicle_i cfg (setup cfg p0) c0 X_ U_ i (nU * (cfg.N + 1) + nU * k + F)
        = 1000 * (cfg.F_low - U_ (nU * (cfg.N + 1) * i + nU * k + F))) ∧
    (∀ b j, b < (setup cfg p0).M - 1 → j ≤ cfg.N →
      compute_constraints_vehicle_i cfg (setup cfg p0) c0 X_ U_ i
          (2 * nU * (cfg.N + 1) + (cfg.N + 1) * b + j)
        = cfg.r_safe * cfg.r_safe
          - compute_squared_distances_vector cfg uninit X_ i (if b < i then b else b + 1) j) ∧
    (∀ k, k ≤ cfg.N →
      compute_constraints_vehicle_i cfg (setup cfg p0) c0 X_ U_ i
          (2 * nU * (cfg.N + 1) + (cfg.N + 1) * ((setup cfg p0).M - 1) + k)
        = compute_squared_lateral_distance_vector cfg (setup cfg p0) uninit X_ i k
          - cfg.r_lane * cfg.r_lane) ∧
    (∀ j, j < (setup cfg p0).nC_i →
      compute_constraints cfg (setup cfg p0) c1 X_ U_ ((setup cfg p0).nC_i * i + j)
        = compute_constraints_vehicle_i cfg (setup cfg p0) c0 X_ U_ i j) := by
  have hM : (setup cfg p0).M = p0.traffic.length := rfl
  have hiM : i < (setup cfg p0).M := hi
  have hC : (setup cfg p0).nC_i
      = 2 * nU * (cfg.N + 1) + (cfg.N + 1) * ((setup cfg p0).M - 1) + (cfg.N + 1) :=
    setup_nC_i cfg p0 (by omega)
  refine ⟨hC, ?_, ?_, ?_, ?_, ?_⟩
  · rw [hC]
    exact constraint_stores_perm cfg (setup cfg p0) X_ U_ i hiM
  · intro k hk
    obtain ⟨l1, l2, l3, l4⟩ := setup_limits_apply cfg p0 k hk
    obtain ⟨e1, e2, e3, e4⟩ := input_entries cfg (setup cfg p0) c0 X_ U_ i k hiM hk
    rw [l3] at e1
    rw [l4] at e2
    rw [l1] at e3
    rw [l2] at e4
    exact ⟨e1, e2, e3, e4⟩
  · intro b j hb hj
    by_cases hbi : b < i
    · have h := collision_entry cfg (setup cfg p0) c0 X_ U_ i b j hiM (by omega) (by omega) hj
      rw [if_pos hbi] at h ⊢
      exact h
    · have h := collision_entry cfg (setup cfg p0) c0 X_ U_ i (b + 1) j hiM (by omega)
        (by omega) hj
      have e : ¬ (b + 1 < i) := by omega
      rw [if_neg e, Nat.add_sub_cancel] at h
      rw [if_neg hbi]
      exact h
  · intro k hk
    rw [lane_entry cfg (setup cfg p0) c0 X_ U_ i k hiM hk,
      compute_squared_lateral_distance_vector_apply cfg (setup cfg p0) uninit X_ i k hk]
  · intro j hj
    have h := (compute_constraints_loop cfg (setup cfg p0) c1 X_ U_ hC (setup cfg p0).M
      (le_refl _)).2 i j hiM hj
    have hmem := constraint_stores_cover cfg (setup cfg p0) X_ U_ i hiM j
      (by rw [← hC]; exact hj)
    obtain ⟨w, hw, hw1⟩ := List.mem_map.mp hmem
    unfold compute_constraints
    rw [h, ← hw1,
      compute_constraints_vehicle_i_apply cfg (setup cfg p0) uninit X_ U_ i hiM w hw,
      compute_constraints_vehicle_i_apply cfg (setup cfg p0) c0 X_ U_ i hiM w hw]

/-- C8, instance: two agents, `N = 1`: the size of a block is `4*2 + 2*1 + 2 = 12`. -/
theorem constraint_ordering_witness :
    (setup (sampleConfig Real.cos Real.sin Real.tan Real.sqrt)
      { Planner.fresh (sampleConfig Real.cos Real.sin Real.tan Real.sqrt) with
        traffic := [sampleAgent (0 : ℝ) 0 5, sampleAgent (10 : ℝ) 0 5] }).nC_i = 12 :=
  (constraint_ordering (sampleConfig Real.cos Real.sin Real.tan Real.sqrt)
    { Planner.fresh (sampleConfig Real.cos Real.sin Real.tan Real.sqrt) with
      traffic := [sampleAgent (0 : ℝ) 0 5, sampleAgent (10 : ℝ) 0 5] }
    uninit uninit uninit uninit 1 (by decide)).1

/-- C9: for every agent `i`, every other agent `k ≠ i` and every step `j ≤ N`, the constraint
entry of agent `i` at offset `2*nU*(N+1) + (N+1)*b + j`, with `b = k` if `k < i` and
`b = k - 1` if `k > i`, is `r_safe^2 - ((x_i(j) - x_k(j))^2 + (y_i(j) - y_k(j))^2)`, the
positions read from `X_` at step `j` of both agents; the stride `nx` of the header is assumed
to be `nX*(N+1)`. -/
theorem collision_blocks (cfg : Config K) (p : Planner K) (c0 X_ U_ : Nat → K) (i k j : Nat)
    (hnx : cfg.nx = nX * (cfg.N + 1)) (hi : i < p.M) (hk : k < p.M) (hki : k ≠ i)
    (hj : j ≤ cfg.N) :
    compute_constraints_vehicle_i cfg p c0 X_ U_ i
        (2 * nU * (cfg.N + 1) + (cfg.N + 1) * (if k < i then k else k - 1) + j)
      = cfg.r_safe ^ 2
        - ((X_ (nX * (cfg.N + 1) * i + nX * j + x) - X_ (nX * (cfg.N + 1) * k + nX * j + x)) ^ 2
          + (X_ (nX * (cfg.N + 1) * i + nX * j + y)
              - X_ (nX * (cfg.N + 1) * k + nX * j + y)) ^ 2) := by
  rw [collision_entry cfg p c0 X_ U_ i k j hi hk hki hj,
    compute_squared_distances_vector_apply cfg uninit X_ i k j hj, hnx]
  ring

/-- C9, instance: two agents `10` apart on the `x` axis at step `0`, `r_safe = 3`: the entry
of agent `1` against agent `0` is `9 - 100`. -/
theorem collision_blocks_witness :
    compute_constraints_vehicle_i (sampleConfig Real.cos Real.sin Real.tan Real.sqrt)
      (samplePlanner (sampleConfig Real.cos Real.sin Real.tan Real.sqrt)
        [sampleAgent (0 : ℝ) 0 5, sampleAgent (10 : ℝ) 0 5]) uninit
      (fun a => if a = 12 then 10 else 0) uninit 1
      (2 * nU * (1 + 1) + (1 + 1) * (if 0 < 1 then 0 else 0 - 1) + 0) = -91 :=
  (collision_blocks (sampleConfig Real.cos Real.sin Real.tan Real.sqrt)
    (samplePlanner (sampleConfig Real.cos Real.sin Real.tan Real.sqrt)
      [sampleAgent (0 : ℝ) 0 5, sampleAgent (10 : ℝ) 0 5]) uninit
    (fun a => if a = 12 then 10 else 0) uninit 1 0 0 rfl (by decide) (by decide) (by decide)
    (by decide)).trans (by simp [sampleConfig, nX, x, y]; norm_num)

/-- C10 as amended: for every agent `i < M` and step `j ≤ N` at which at least one lane is
available, with `m` the minimum over the available lanes of `d_full^2 - d_long^2`: an omitted
lane is represented by the sentinel `1000`, so the lane entry is `m - r_lane^2` when all three
lanes are available and `min(m, 1000) - r_lane^2` when a lane is omitted; in particular it is
`m - r_lane^2` whenever `m ≤ 1000`. The stride `nx` of the header is assumed to be
`nX*(N+1)`. -/
theorem lane_containment (cfg : Config K) (p : Planner K) (c0 X_ U_ : Nat → K) (i j : Nat)
    (hnx : cfg.nx = nX * (cfg.N + 1)) (hi : i < p.M) (hj : j ≤ cfg.N) (m : K)
    (hm : m ∈ available_lane_values cfg (p.agent i) (X_ (nX * (cfg.N + 1) * i + nX * j + s))
      (X_ (nX * (cfg.N + 1) * i + nX * j + x)) (X_ (nX * (cfg.N + 1) * i + nX * j + y)))
    (hmin : ∀ u ∈ available_lane_values cfg (p.agent i)
      (X_ (nX * (cfg.N + 1) * i + nX * j + s)) (X_ (nX * (cfg.N + 1) * i + nX * j + x))
      (X_ (nX * (cfg.N + 1) * i + nX * j + y)), m ≤ u) :
    compute_constraints_vehicle_i cfg p c0 X_ U_ i
        (2 * nU * (cfg.N + 1) + (cfg.N + 1) * (p.M - 1) + j)
      = (if (available_lane_values cfg (p.agent i) (X_ (nX * (cfg.N + 1) * i + nX * j + s))
            (X_ (nX * (cfg.N + 1) * i + nX * j + x))
            (X_ (nX * (cfg.N + 1) * i + nX * j + y))).length = 3 then m else min m 1000)
        - cfg.r_lane ^ 2 ∧
    (m ≤ 1000 →
      compute_constraints_vehicle_i cfg p c0 X_ U_ i
          (2 * nU * (cfg.N + 1) + (cfg.N + 1) * (p.M - 1) + j) = m - cfg.r_lane ^ 2) := by
  have key : compute_constraints_vehicle_i cfg p c0 X_ U_ i
        (2 * nU * (cfg.N + 1) + (cfg.N + 1) * (p.M - 1) + j)
      = (if (available_lane_values cfg (p.agent i) (X_ (nX * (cfg.N + 1) * i + nX * j + s))
            (X_ (nX * (cfg.N + 1) * i + nX * j + x))
            (X_ (nX * (cfg.N + 1) * i + nX * j + y))).length = 3 then m else min m 1000)
        - cfg.r_lane ^ 2 := by
    rw [lane_entry cfg p c0 X_ U_ i j hi hj, lane_dist2_eq, hnx, pow_two]
    congr 1
    exact min_with_sentinels _ _ _ _ _ _ m hm hmin
  refine ⟨key, fun hle => ?_⟩
  rw [key]
  split_ifs
  · rfl
  · rw [min_eq_left hle]

/-- C10 as amended, instance: one agent on the straight lane without side lanes, at lateral
distance `2`; the minimum over the available lanes is `4` and the lane entry is `4 - 9`. -/
theorem lane_containment_witness :
    compute_constraints_vehicle_i (sampleConfig Real.cos Real.sin Real.tan Real.sqrt)
      (samplePlanner (sampleConfig Real.cos Real.sin Real.tan Real.sqrt)
        [sampleAgent (0 : ℝ) 2 0]) uninit (fun a => if a = 1 then 2 else 0) uninit 0
      (2 * nU * (1 + 1) + (1 + 1) * (1 - 1) + 0) = 4 - 3 ^ 2 :=
  (lane_containment (sampleConfig Real.cos Real.sin Real.tan Real.sqrt)
    (samplePlanner (sampleConfig Real.cos Real.sin Real.tan Real.sqrt)
      [sampleAgent (0 : ℝ) 2 0]) uninit (fun a => if a = 1 then 2 else 0) uninit 0 0 rfl
    (by decide) (by decide) 4
    (by
      simp [available_lane_values, lane_lateral2, samplePlanner, setup, Planner.agent,
        Planner.fresh, sampleAgent, straightLane, absentLane, sampleConfig, nX, x, y, s]
      norm_num)
    (by
      simp [available_lane_values, lane_lateral2, samplePlanner, setup, Planner.agent,
        Planner.fresh, sampleAgent, straightLane, absentLane, sampleConfig, nX, x, y, s]
      norm_num)).2 (by norm_num)

/-- C10 as stated fails: one agent on the straight lane without side lanes, `40` to the side
of it (`x = 0`, `y = 40`, `s = 0` at step `0`), `r_lane = 3`. The only available lane is the
centre lane, with `d_full^2 - d_long^2 = 1600`; the lane entry is `1000 - 9`, the value from
the sentinel of the omitted side lanes, not `1600 - 9`. -/
theorem lane_containment_counterexample :
    available_lane_values (sampleConfig Real.cos Real.sin Real.tan Real.sqrt)
        ((samplePlanner (sampleConfig Real.cos Real.sin Real.tan Real.sqrt)
          [sampleAgent (0 : ℝ) 40 0]).agent 0) 0 0 40 = [1600] ∧
    compute_constraints_vehicle_i (sampleConfig Real.cos Real.sin Real.tan Real.sqrt)
      (samplePlanner (sampleConfig Real.cos Real.sin Real.tan Real.sqrt)
        [sampleAgent (0 : ℝ) 40 0]) uninit (fun a => if a = 1 then 40 else 0) uninit 0
      (2 * nU * (1 + 1) + (1 + 1) * (1 - 1) + 0) = 1000 - 3 ^ 2 ∧
    compute_constraints_vehicle_i (sampleConfig Real.cos Real.sin Real.tan Real.sqrt)
      (samplePlanner (sampleConfig Real.cos Real.sin Real.tan Real.sqrt)
        [sampleAgent (0 : ℝ) 40 0]) uninit (fun a => if a = 1 then 40 else 0) uninit 0
      (2 * nU * (1 + 1) + (1 + 1) * (1 - 1) + 0) ≠ 1600 - 3 ^ 2 := by
  have h := lane_entry (sampleConfig Real.cos Real.sin Real.tan Real.sqrt)
    (samplePlanner (sampleConfig Real.cos Real.sin Real.tan Real.sqrt)
      [sampleAgent (0 : ℝ) 40 0]) uninit (fun a => if a = 1 then 40 else 0) uninit 0 0
    (by decide) (by decide)
  have hv : lane_dist2 (sampleConfig Real.cos Real.sin Real.tan Real.sqrt)
      ((samplePlanner (sampleConfig Real.cos Real.sin Real.tan Real.sqrt)
        [sampleAgent (0 : ℝ) 40 0]).agent 0) (fun a => if a = 1 then 40 else 0) 0 0 = 1000 := by
    rw [lane_dist2_eq]
    simp [lane_lateral2, samplePlanner, setup, Planner.agent, Planner.fresh, sampleAgent,
      straightLane, absentLane, sampleConfig, nX, x, y, s]
    norm_num
  refine ⟨?_, ?_, ?_⟩
  · simp [available_lane_values, lane_lateral2, samplePlanner, setup, Planner.agent,
      Planner.fresh, sampleAgent, straightLane, absentLane, sampleConfig]
    norm_num
  · refine h.trans ?_
    rw [hv]
    simp only [sampleConfig]
    norm_num
  · rw [show compute_constraints_vehicle_i (sampleConfig Real.cos Real.sin Real.tan Real.sqrt)
        (samplePlanner (sampleConfig Real.cos Real.sin Real.tan Real.sqrt)
          [sampleAgent (0 : ℝ) 40 0]) uninit (fun a => if a = 1 then 40 else 0) uninit 0
        (2 * nU * (1 + 1) + (1 + 1) * (1 - 1) + 0) = 1000 - 3 * 3 from h.trans (by
          rw [hv]; simp only [sampleConfig])]
    norm_num

/-- C11: for every agent `i < M` and component `c`, the value `integrate` writes to `X_` at
index `nX*(N+1)*i + nX*j + c` is, for every step `j` in `[1, N]`, the forward Euler step
`state + dt * f(state, ref, u)` of the dynamics of section 4.1, with the speed clipped at `0`,
applied to the state stored at `(i, j-1)`, with the control `U[i, j]`, the reference point on
the centre lane at `s = X[i, j-1, s]` and `v_ref = v_0 + j*(v_target - v_0)/N`; and at step
`0` it is the same step applied to the measured pose with `s = l = 0` and control
`U[i, 0]`. -/
theorem integrate_euler_step (cfg : Config K) (p : Planner K) (X_ U_ : Nat → K) (i : Nat)
    (hi : i < p.M) :
    (∀ c, c < nX →
      integrate cfg p X_ U_ (nX * (cfg.N + 1) * i + nX * 0 + c)
        = reference_euler_step cfg (p.agent i) 0 (measured_pose (p.agent i))
            (U_ (nU * (cfg.N + 1) * i + nU * 0 + d))
            (U_ (nU * (cfg.N + 1) * i + nU * 0 + F)) c) ∧
    (∀ j c, 1 ≤ j → j ≤ cfg.N → c < nX →
      integrate cfg p X_ U_ (nX * (cfg.N + 1) * i + nX * j + c)
        = reference_euler_step cfg (p.agent i) j
            (fun c' => integrate cfg p X_ U_ (nX * (cfg.N + 1) * i + nX * (j - 1) + c'))
            (U_ (nU * (cfg.N + 1) * i + nU * j + d))
            (U_ (nU * (cfg.N + 1) * i + nU * j + F)) c) := by
  constructor
  · intro c hc
    rw [integrate_apply cfg p X_ U_ i 0 c hi (Nat.zero_le _) hc, agent_state_succ]
    exact euler_step_component cfg (p.agent i) U_ _ 0 _ _
      (fun c' hc' => initial_state_components (p.agent i) c' hc') c hc
  · intro j c hj1 hjN hc
    rw [integrate_apply cfg p X_ U_ i j c hi hjN hc, agent_state_succ]
    refine euler_step_component cfg (p.agent i) U_ _ j _ _ (fun c' hc' => ?_) c hc
    rw [integrate_apply cfg p X_ U_ i (j - 1) c' hi (by omega) hc']
    congr 1
    omega

/-- C11, instance: one agent at `(0, 0)` with speed `5`, no control; the speed stored at step
`0` is the step of the spec applied to the measured pose. -/
theorem integrate_euler_step_witness :
    integrate (sampleConfig Real.cos Real.sin Real.tan Real.sqrt)
        (samplePlanner (sampleConfig Real.cos Real.sin Real.tan Real.sqrt)
          [sampleAgent (0 : ℝ) 0 5]) uninit (fun _ => 0) (nX * (1 + 1) * 0 + nX * 0 + v)
      = reference_euler_step (sampleConfig Real.cos Real.sin Real.tan Real.sqrt)
          ((samplePlanner (sampleConfig Real.cos Real.sin Real.tan Real.sqrt)
            [sampleAgent (0 : ℝ) 0 5]).agent 0) 0
          (measured_pose ((samplePlanner (sampleConfig Real.cos Real.sin Real.tan Real.sqrt)
            [sampleAgent (0 : ℝ) 0 5]).agent 0)) 0 0 v :=
  (integrate_euler_step (sampleConfig Real.cos Real.sin Real.tan Real.sqrt)
    (samplePlanner (sampleConfig Real.cos Real.sin Real.tan Real.sqrt)
      [sampleAgent (0 : ℝ) 0 5]) uninit (fun _ => 0) 0 (by decide)).1 v (by decide)

/-- C12: for every agent `i < M`, every `X`, `U`, penalty `rho` and multiplier vector `lambda`
(the members of the planner), `compute_lagrangian` stores
`L_i = 1/2 * qf * l_i(N)^2 + sum over k < nC_i of
(1/2 * rho * max(0, C_k)^2 + lambda (i * nC_i + k) * C_k)`, with `l_i(N)` the entry of `X` for
agent `i`, step `N`, component `l`, and `C` the output of `compute_constraints_vehicle_i` for
agent `i`: the multiplier term has the raw `C_k`, the quadratic term its positive part. In
particular `L_i` is the cost `1/2 * qf * l_i(N)^2` when the multipliers of the agent are zero
and no `C_k` is positive. The size `nC_i` is the one `setup` computes, the stride `nx` of the
header is `nX * (N + 1)`. -/
theorem compute_lagrangian_spec (cfg : Config K) (p : Planner K) (L0 X_ U_ : Nat → K) (i : Nat)
    (hi : i < p.M)
    (hC : p.nC_i = 2 * nU * (cfg.N + 1) + (cfg.N + 1) * (p.M - 1) + (cfg.N + 1))
    (hnx : cfg.nx = nX * (cfg.N + 1)) :
    compute_lagrangian cfg p L0 X_ U_ i
      = 1 / 2 * cfg.qf * X_ (nX * (cfg.N + 1) * i + nX * cfg.N + l) ^ 2
        + ∑ k ∈ Finset.range p.nC_i,
          (1 / 2 * p.rho * max 0 (compute_constraints_vehicle_i cfg p uninit X_ U_ i k) ^ 2
            + p.lagrangian_multipliers (i * p.nC_i + k)
              * compute_constraints_vehicle_i cfg p uninit X_ U_ i k) ∧
    ((∀ k, k < p.nC_i → p.lagrangian_multipliers (i * p.nC_i + k) = 0) →
      (∀ k, k < p.nC_i → compute_constraints_vehicle_i cfg p uninit X_ U_ i k ≤ 0) →
      compute_lagrangian cfg p L0 X_ U_ i
        = 1 / 2 * cfg.qf * X_ (nX * (cfg.N + 1) * i + nX * cfg.N + l) ^ 2) := by
  have hL : compute_lagrangian cfg p L0 X_ U_ i
      = 1 / 2 * cfg.qf * X_ (nX * (cfg.N + 1) * i + nX * cfg.N + l) ^ 2
        + ∑ k ∈ Finset.range p.nC_i,
          (1 / 2 * p.rho * max 0 (compute_constraints_vehicle_i cfg p uninit X_ U_ i k) ^ 2
            + p.lagrangian_multipliers (i * p.nC_i + k)
              * compute_constraints_vehicle_i cfg p uninit X_ U_ i k) := by
    rw [compute_lagrangian_apply cfg p L0 X_ U_ hC i hi, compute_lagrangian_vehicle_i_sum]
    unfold compute_cost_vehicle_i
    rw [hnx]
    congr 1
    · ring
    · exact Finset.sum_congr rfl (fun k _ => by ring)
  refine ⟨hL, fun hl hc => ?_⟩
  rw [hL, Finset.sum_eq_zero, add_zero]
  intro k hk
  rw [hl k (Finset.mem_range.mp hk), max_eq_left (hc k (Finset.mem_range.mp hk))]
  ring

/-- C12, instance: the sample agent at rest at the origin, no control, the multipliers of
`setup`: the entry of `compute_lagrangian` is the sum of the spec. -/
theorem compute_lagrangian_spec_witness :
    compute_lagrangian (sampleConfig Real.cos Real.sin Real.tan Real.sqrt)
        (samplePlanner (sampleConfig Real.cos Real.sin Real.tan Real.sqrt)
          [sampleAgent (0 : ℝ) 0 0]) uninit (fun _ => 0) (fun _ => 0) 0
      = 1 / 2 * (sampleConfig Real.cos Real.sin Real.tan Real.sqrt).qf
          * (fun _ => (0 : ℝ)) (nX * ((sampleConfig Real.cos Real.sin Real.tan Real.sqrt).N + 1) * 0
            + nX * (sampleConfig Real.cos Real.sin Real.tan Real.sqrt).N + l) ^ 2
        + ∑ k ∈ Finset.range (samplePlanner (sampleConfig Real.cos Real.sin Real.tan Real.sqrt)
            [sampleAgent (0 : ℝ) 0 0]).nC_i,
          (1 / 2 * (samplePlanner (sampleConfig Real.cos Real.sin Real.tan Real.sqrt)
              [sampleAgent (0 : ℝ) 0 0]).rho
            * max 0 (compute_constraints_vehicle_i
                (sampleConfig Real.cos Real.sin Real.tan Real.sqrt)
                (samplePlanner (sampleConfig Real.cos Real.sin Real.tan Real.sqrt)
                  [sampleAgent (0 : ℝ) 0 0]) uninit (fun _ => 0) (fun _ => 0) 0 k) ^ 2
            + (samplePlanner (sampleConfig Real.cos Real.sin Real.tan Real.sqrt)
                [sampleAgent (0 : ℝ) 0 0]).lagrangian_multipliers
                (0 * (samplePlanner (sampleConfig Real.cos Real.sin Real.tan Real.sqrt)
                  [sampleAgent (0 : ℝ) 0 0]).nC_i + k)
              * compute_constraints_vehicle_i
                (sampleConfig Real.cos Real.sin Real.tan Real.sqrt)
                (samplePlanner (sampleConfig Real.cos Real.sin Real.tan Real.sqrt)
                  [sampleAgent (0 : ℝ) 0 0]) uninit (fun _ => 0) (fun _ => 0) 0 k) :=
  (compute_lagrangian_spec (sampleConfig Real.cos Real.sin Real.tan Real.sqrt)
    (samplePlanner (sampleConfig Real.cos Real.sin Real.tan Real.sqrt)
      [sampleAgent (0 : ℝ) 0 0]) uninit (fun _ => 0) (fun _ => 0) 0 Nat.zero_lt_one
    (setup_nC_i (sampleConfig Real.cos Real.sin Real.tan Real.sqrt) _ (le_refl _)) rfl).1

/-- C13: for every control vector `U_`, every number of workers `≥ 1` and every index
`a < nU * (N + 1) * M`, `compute_gradient` stores
`g[a] = (L_owner(U + eps * e_a) - L_owner(U)) / eps`, where `owner = a / (nU * (N + 1))` and
`L_owner(V)` is the entry of the owner that `compute_lagrangian` computes on the trajectory
integrated from the whole vector `V`; entries of `gradient` from `nU_` on are left as they
were. `U_` is read only. The sizes `nC_i`, `nU_` are those `setup` computes, the strides `nx`,
`nu` of the header are `nX * (N + 1)`, `nU * (N + 1)`. -/
theorem compute_gradient_spec (cfg : Config K) (p : Planner K) (g0 U_ : Nat → K)
    (hT : 1 ≤ cfg.num_threads) (hnx : cfg.nx = nX * (cfg.N + 1))
    (hnu : cfg.nu = nU * (cfg.N + 1))
    (hC : p.nC_i = 2 * nU * (cfg.N + 1) + (cfg.N + 1) * (p.M - 1) + (cfg.N + 1))
    (hU : p.nU_ = nU * (cfg.N + 1) * p.M) (a : Nat) (ha : a < nU * (cfg.N + 1) * p.M) :
    compute_gradient cfg p g0 U_ a
      = (lagrangian_of cfg p (Function.update U_ a (U_ a + cfg.eps)) (a / (nU * (cfg.N + 1)))
          - lagrangian_of cfg p U_ (a / (nU * (cfg.N + 1)))) / cfg.eps ∧
    (∀ V, lagrangian_of cfg p V (a / (nU * (cfg.N + 1)))
      = compute_lagrangian cfg p uninit (integrate cfg p uninit V) V
          (a / (nU * (cfg.N + 1)))) ∧
    (∀ b, p.nU_ ≤ b → compute_gradient cfg p g0 U_ b = g0 b) := by
  have hidx : a / (nU * (cfg.N + 1)) < p.M := Nat.div_lt_of_lt_mul ha
  refine ⟨?_, fun V => lagrangian_of_eq cfg p V hC _ hidx, fun b hb => ?_⟩
  · rw [compute_gradient_apply cfg p g0 U_ hT hnx hnu hC hU, if_pos (by rw [hU]; exact ha)]
    unfold forward_difference
    rw [hnu]
  · rw [compute_gradient_apply cfg p g0 U_ hT hnx hnu hC hU, if_neg (by omega)]

/-- C13, instance: the sample agent, one worker, the entry of the first force. -/
theorem compute_gradient_spec_witness :
    compute_gradient (sampleConfig Real.cos Real.sin Real.tan Real.sqrt)
        (samplePlanner (sampleConfig Real.cos Real.sin Real.tan Real.sqrt)
          [sampleAgent (0 : ℝ) 0 0]) uninit (fun _ => 0) 1
      = (lagrangian_of (sampleConfig Real.cos Real.sin Real.tan Real.sqrt)
            (samplePlanner (sampleConfig Real.cos Real.sin Real.tan Real.sqrt)
              [sampleAgent (0 : ℝ) 0 0])
            (Function.update (fun _ => 0) 1 ((fun _ => (0 : ℝ)) 1
              + (sampleConfig Real.cos Real.sin Real.tan Real.sqrt).eps))
            (1 / (nU * ((sampleConfig Real.cos Real.sin Real.tan Real.sqrt).N + 1)))
          - lagrangian_of (sampleConfig Real.cos Real.sin Real.tan Real.sqrt)
            (samplePlanner (sampleConfig Real.cos Real.sin Real.tan Real.sqrt)
              [sampleAgent (0 : ℝ) 0 0]) (fun _ => 0)
            (1 / (nU * ((sampleConfig Real.cos Real.sin Real.tan Real.sqrt).N + 1))))
        / (sampleConfig Real.cos Real.sin Real.tan Real.sqrt).eps :=
  (compute_gradient_spec (sampleConfig Real.cos Real.sin Real.tan Real.sqrt)
    (samplePlanner (sampleConfig Real.cos Real.sin Real.tan Real.sqrt)
      [sampleAgent (0 : ℝ) 0 0]) uninit (fun _ => 0) (le_refl _) rfl rfl
    (setup_nC_i (sampleConfig Real.cos Real.sin Real.tan Real.sqrt) _ (le_refl _)) rfl 1
    (by decide)).1

/-- C14: for every length `n` and every number `T ≥ 1` of workers, the index ranges of the
workers (`start_index` to `end_index`: `t * (n / T)` to `(t + 1) * (n / T)` for `t < T - 1`,
and `(T - 1) * (n / T)` to `n` for the last worker), put one after the other, are exactly the
indices `0, ..., n - 1`, each once, and are pairwise disjoint; the workers of
`compute_gradient` get these ranges, so every entry of the gradient below `nU_` is stored
exactly once, and the stores of `T` workers are those of one sequential worker run over the
whole range `0 .. nU_`: the gradient is the same for every number of workers. For the values
the sizes `nC_i`, `nU_` are those `setup` computes and the strides `nx`, `nu` of the header
are `nX * (N + 1)`, `nU * (N + 1)`. -/
theorem compute_gradient_workers (cfg : Config K) (p : Planner K) (g0 U_ : Nat → K)
    (hT : 1 ≤ cfg.num_threads) (hnx : cfg.nx = nX * (cfg.N + 1))
    (hnu : cfg.nu = nU * (cfg.N + 1))
    (hC : p.nC_i = 2 * nU * (cfg.N + 1) + (cfg.N + 1) * (p.M - 1) + (cfg.N + 1))
    (hU : p.nU_ = nU * (cfg.N + 1) * p.M) :
    (∀ n T, 1 ≤ T →
      (List.range T).flatMap
          (fun t => List.range' (start_index n T t) (end_index n T t - start_index n T t))
        = List.range n ∧
      (List.range T).Pairwise (fun t t' =>
        (List.range' (start_index n T t) (end_index n T t - start_index n T t)).Disjoint
          (List.range' (start_index n T t') (end_index n T t' - start_index n T t')))) ∧
    gradient_stores cfg p U_
      = (List.range cfg.num_threads).flatMap (fun t =>
          computeGradient cfg p U_ (start_index p.nU_ cfg.num_threads t)
            (end_index p.nU_ cfg.num_threads t)) ∧
    (gradient_stores cfg p U_).map Prod.fst = List.range p.nU_ ∧
    gradient_stores cfg p U_ = computeGradient cfg p U_ 0 p.nU_ ∧
    compute_gradient cfg p g0 U_ = store_all g0 (computeGradient cfg p U_ 0 p.nU_) := by
  have hone : gradient_stores cfg p U_ = computeGradient cfg p U_ 0 p.nU_ := by
    rw [gradient_stores_eq cfg p U_ hT hnx hnu hC hU,
      computeGradient_eq cfg p U_ hnx hnu hC hU 0 p.nU_ (le_refl _), Nat.sub_zero,
      List.range_eq_range']
  refine ⟨fun n T hT' => ⟨worker_ranges n T hT', ?_⟩, gradient_stores_flatMap cfg p U_,
    gradient_stores_indices cfg p U_ hT, hone, ?_⟩
  · have hnd := List.nodup_range n
    rw [← worker_ranges n T hT'] at hnd
    exact (List.nodup_flatMap.mp hnd).2
  · unfold compute_gradient
    rw [hone]

/-- C14, instance: the sample agent with two workers: the stores of the two workers are those
of one worker run over the whole range. -/
theorem compute_gradient_workers_witness :
    gradient_stores { sampleConfig Real.cos Real.sin Real.tan Real.sqrt with num_threads := 2 }
        (samplePlanner
          { sampleConfig Real.cos Real.sin Real.tan Real.sqrt with num_threads := 2 }
          [sampleAgent (0 : ℝ) 0 0]) (fun _ => 0)
      = computeGradient
          { sampleConfig Real.cos Real.sin Real.tan Real.sqrt with num_threads := 2 }
          (samplePlanner
            { sampleConfig Real.cos Real.sin Real.tan Real.sqrt with num_threads := 2 }
            [sampleAgent (0 : ℝ) 0 0]) (fun _ => 0) 0
          (samplePlanner
            { sampleConfig Real.cos Real.sin Real.tan Real.sqrt with num_threads := 2 }
            [sampleAgent (0 : ℝ) 0 0]).nU_ :=
  (compute_gradient_workers
    { sampleConfig Real.cos Real.sin Real.tan Real.sqrt with num_threads := 2 }
    (samplePlanner
      { sampleConfig Real.cos Real.sin Real.tan Real.sqrt with num_threads := 2 }
      [sampleAgent (0 : ℝ) 0 0]) uninit (fun _ => 0) (by decide) rfl rfl
    (setup_nC_i { sampleConfig Real.cos Real.sin Real.tan Real.sqrt with num_threads := 2 } _
      (le_refl _)) rfl).2.2.2.1

/-- C15: for every gradient `g` with a nonzero entry, every matrix `H` and every radius
`Delta > 0`, `quadratic_problem_solver` returns `s = tau * (-Delta * g / ‖g‖)`, with `tau = 1`
if `gᵀ H g ≤ 0` and `tau = min (‖g‖^3 / (Delta * gᵀ H g)) 1` otherwise; so `‖s‖ ≤ Delta`, and
`‖s‖ = Delta` whenever `gᵀ H g ≤ 0`. The square root of the code is assumed to be one:
non-negative, with square its argument. -/
theorem quadratic_problem_solver_step (cfg : Config K) (G_ : Nat → K) (H_ : Nat → Nat → K)
    (Delta : K) (hsqrt : ∀ z, 0 ≤ z → 0 ≤ cfg.sqrt z ∧ cfg.sqrt z * cfg.sqrt z = z)
    (hg : ∃ i, i < cfg.nu ∧ G_ i ≠ 0) (hD : 0 < Delta) :
    (∀ i, quadratic_problem_solver cfg G_ H_ Delta i
      = (if dot cfg.nu (vecMul cfg.nu G_ H_) G_ ≤ 0 then 1
          else min (cfg.sqrt (dot cfg.nu G_ G_) ^ 3
            / (Delta * dot cfg.nu (vecMul cfg.nu G_ H_) G_)) 1)
        * (-Delta * (G_ i / cfg.sqrt (dot cfg.nu G_ G_)))) ∧
    cfg.sqrt (dot cfg.nu (quadratic_problem_solver cfg G_ H_ Delta)
        (quadratic_problem_solver cfg G_ H_ Delta)) ≤ Delta ∧
    (dot cfg.nu (vecMul cfg.nu G_ H_) G_ ≤ 0 →
      cfg.sqrt (dot cfg.nu (quadratic_problem_solver cfg G_ H_ Delta)
        (quadratic_problem_solver cfg G_ H_ Delta)) = Delta) := by
  obtain ⟨hn, _, hnorm⟩ := quadratic_problem_solver_norm cfg G_ H_ Delta hsqrt hg hD
  obtain ⟨_, ht1⟩ := subproblem_tau (cfg.sqrt (dot cfg.nu G_ G_))
    (dot cfg.nu (vecMul cfg.nu G_ H_) G_) Delta hn hD
  refine ⟨quadratic_problem_solver_eq cfg G_ H_ Delta, ?_, ?_⟩
  · rw [hnorm]
    calc _ ≤ 1 * Delta := mul_le_mul_of_nonneg_right ht1 (le_of_lt hD)
      _ = Delta := one_mul _
  · intro hb
    rw [hnorm, if_pos hb, one_mul]

/-- C15, instance: the gradient `(1, 1, 1, 1)`, `H` the identity, radius `1`, over the reals:
the step is not longer than `1`. -/
theorem quadratic_problem_solver_step_witness :
    Real.sqrt (dot 4
        (quadratic_problem_solver (sampleConfig Real.cos Real.sin Real.tan Real.sqrt)
          (fun _ => 1) identity 1)
        (quadratic_problem_solver (sampleConfig Real.cos Real.sin Real.tan Real.sqrt)
          (fun _ => 1) identity 1)) ≤ 1 :=
  (quadratic_problem_solver_step (sampleConfig Real.cos Real.sin Real.tan Real.sqrt)
    (fun _ => 1) identity 1 (fun z hz => ⟨Real.sqrt_nonneg z, Real.mul_self_sqrt hz⟩)
    ⟨0, by decide, one_ne_zero⟩ one_pos).2.1

/-- C16, evaluated at `nu = 4`, `H` the identity, `s = (1, 0, 0, 0)`,
`y = (1 + 5e-5, 100, 0, 0)` (so `ω = y - H s = (5e-5, 100, 0, 0)`) and the tolerance
`r = 10^-8` of the solver: `|sᵀω| = 5e-5` is above `r * ‖s‖ * ‖ω‖ < 1.01e-6`, so the rule of
the spec makes the update, and entry `(1, 1)` of the new matrix is
`1 + 100^2 / 5e-5 = 1 + 200000000`; `hessian_SR1_update` compares with
`r * (sᵀs) * (ωᵀω) > 1e-4` instead, skips the update and returns `H`. -/
theorem hessian_SR1_update_squared_norms :
    reference_SR1_update (sampleConfig Real.cos Real.sin Real.tan Real.sqrt) identity
        (fun i => if i = 0 then 1 else 0)
        (fun i => if i = 0 then 1 + 1 / 20000 else if i = 1 then 100 else 0) r_ 1 1
      = 1 + 200000000 ∧
    hessian_SR1_update (sampleConfig Real.cos Real.sin Real.tan Real.sqrt) identity
        (fun i => if i = 0 then 1 else 0)
        (fun i => if i = 0 then 1 + 1 / 20000 else if i = 1 then 100 else 0) r_
      = identity := by
  have hw : (fun i => (fun i => if i = 0 then (1 : ℝ) + 1 / 20000
        else if i = 1 then 100 else 0) i
        - mulVec (sampleConfig Real.cos Real.sin Real.tan Real.sqrt).nu identity
            (fun i => if i = 0 then (1 : ℝ) else 0) i)
      = fun i => if i = 0 then (1 : ℝ) / 20000 else if i = 1 then 100 else 0 := by
    funext i
    simp only [mulVec, identity, sampleConfig, Finset.sum_range_succ, Finset.sum_range_zero]
    rcases Nat.lt_or_ge i 2 with h | h
    · interval_cases i <;> norm_num
    · have h0 : i ≠ 0 := by omega
      have h1 : i ≠ 1 := by omega
      simp [h0, h1]
  have hsw : dot 4 (fun i => if i = 0 then (1 : ℝ) else 0)
      (fun i => if i = 0 then (1 : ℝ) / 20000 else if i = 1 then 100 else 0)
      = 1 / 20000 := by
    simp [dot, Finset.sum_range_succ]
  have hws : dot 4 (fun i => if i = 0 then (1 : ℝ) / 20000 else if i = 1 then 100 else 0)
      (fun i => if i = 0 then (1 : ℝ) else 0) = 1 / 20000 := by
    simp [dot, Finset.sum_range_succ]
  have hss : dot 4 (fun i => if i = 0 then (1 : ℝ) else 0)
      (fun i => if i = 0 then (1 : ℝ) else 0) = 1 := by
    simp [dot, Finset.sum_range_succ]
  have hww : dot 4 (fun i => if i = 0 then (1 : ℝ) / 20000 else if i = 1 then 100 else 0)
      (fun i => if i = 0 then (1 : ℝ) / 20000 else if i = 1 then 100 else 0)
      = 1 / 20000 * (1 / 20000) + 100 * 100 := by
    simp [dot, Finset.sum_range_succ]
  have hm : mulVec 4 identity (fun i => if i = 0 then (1 : ℝ) else 0) 1 = 0 := by
    simp [mulVec, identity, Finset.sum_range_succ]
  constructor
  · unfold reference_SR1_update
    simp only [sampleConfig] at hw ⊢
    simp only [hw]
    split_ifs with h
    · beta_reduce
      rw [hm, hws]
      norm_num [identity]
    · exfalso
      apply h
      have h1 : Real.sqrt (1 / 20000 * (1 / 20000) + 100 * 100) ≤ 101 :=
        Real.sqrt_le_iff.mpr ⟨by norm_num, by norm_num⟩
      rw [hsw, hss, hww, Real.sqrt_one, abs_of_pos (by norm_num), r_]
      show (1 : ℝ) / 100000000 * 1
        * Real.sqrt (1 / 20000 * (1 / 20000) + 100 * 100) < 1 / 20000
      linarith
  · unfold hessian_SR1_update
    simp only [sampleConfig] at hw ⊢
    simp only [hw]
    rw [if_neg]
    rw [hsw, hss, hww, abs_of_pos (by norm_num), r_]
    norm_num

/-- C17: in every outer iteration (from any state `st` of the solver) and for every agent
`i < M`, with `ratio_i = (L_i - L~_i) / predicted_reduction_i` and
`predicted_reduction_i = -(g_iᵀ s_i + 1/2 * s_iᵀ H_i s_i)` (`step_ratio`, read from the state in
which the acceptance loop is entered: `g_i` the entries of agent `i` of the gradient at the
current controls, `H_i` and `Delta_i` the Hessian and radius the iteration started with,
`s_i` the step of `quadratic_problem_solver`, `L` and `L~` the Lagrangians at the current and
at the tentative controls `U + s` of all agents), the controls committed for agent `i` are
the previous `U_i` if `ratio_i < eta = 10^-4` and `U_i + s_i` otherwise: the commit of agent
`i` reads `ratio_i` only, not the tests of the other agents. The stride `nu` of the header is
`nU * (N + 1)`. -/
theorem step_acceptance (cfg : Config K) (st : SolverState K)
    (hnu : cfg.nu = nU * (cfg.N + 1)) (i : Nat) (hi : i < st.planner.M) :
    ((tentative_state cfg st).H_ i = st.H_ i ∧
      (∀ r, r < cfg.nu → (tentative_state cfg st).g_ i r
        = compute_gradient cfg st.planner st.gradient st.dU_ (cfg.nu * i + r)) ∧
      (tentative_state cfg st).s_ i
        = quadratic_problem_solver cfg ((tentative_state cfg st).g_ i) (st.H_ i)
            (st.delta i) ∧
      (tentative_state cfg st).lagrangian
        = compute_lagrangian cfg st.planner st.lagrangian
            (integrate cfg st.planner st.dX_ st.dU_) st.dU_ ∧
      (∃ L0 X0, (tentative_state cfg st).d_lagrangian
        = compute_lagrangian cfg st.planner L0
            (integrate cfg st.planner X0 (tentative_state cfg st).dU)
            (tentative_state cfg st).dU) ∧
      (∀ k r, k < st.planner.M → r < cfg.nu →
        (tentative_state cfg st).dU (cfg.nu * k + r)
          = st.dU_ (cfg.nu * k + r) + (tentative_state cfg st).s_ k r)) ∧
    (eta : K) = 1 / 10000 ∧
    (∀ r, r < cfg.nu →
      (outer_iteration cfg st).dU_ (cfg.nu * i + r)
        = if step_ratio cfg (tentative_state cfg st) i < eta then st.dU_ (cfg.nu * i + r)
          else st.dU_ (cfg.nu * i + r) + (tentative_state cfg st).s_ i r) := by
  obtain ⟨h1, h2, h3, h4, h5, h6, h7, h8⟩ := tentative_state_fields cfg hnu st
  refine ⟨⟨congrFun h1 i, fun r hr => h6 i r hi hr, h7 i hi, h4, h5, h8⟩, rfl, fun r hr => ?_⟩
  have h := (accept_loop_controls cfg hnu (tentative_state cfg st) st.planner.M).2 i r hi hr
  rw [h3, h8 i r hi hr] at h
  exact (congrFun (commit_phase_eq cfg st).1 _).trans h

/-- C17, instance: the sample agent, the state with which the loop is entered: the Hessian of
the acceptance test is the one the iteration starts with. -/
theorem step_acceptance_witness :
    (tentative_state (sampleConfig Real.cos Real.sin Real.tan Real.sqrt)
      (solver_init (sampleConfig Real.cos Real.sin Real.tan Real.sqrt)
        (samplePlanner (sampleConfig Real.cos Real.sin Real.tan Real.sqrt)
          [sampleAgent (0 : ℝ) 0 0]) (fun _ => 0))).H_ 0
      = (solver_init (sampleConfig Real.cos Real.sin Real.tan Real.sqrt)
        (samplePlanner (sampleConfig Real.cos Real.sin Real.tan Real.sqrt)
          [sampleAgent (0 : ℝ) 0 0]) (fun _ => 0)).H_ 0 :=
  (step_acceptance (sampleConfig Real.cos Real.sin Real.tan Real.sqrt)
    (solver_init (sampleConfig Real.cos Real.sin Real.tan Real.sqrt)
      (samplePlanner (sampleConfig Real.cos Real.sin Real.tan Real.sqrt)
        [sampleAgent (0 : ℝ) 0 0]) (fun _ => 0)) rfl 0 Nat.zero_lt_one).1.1

/-- C18: in every outer iteration (from any state `st` of the solver) and for every agent
`i < M`, the new radius is `2 * Delta_i` if `ratio_i > 3/4` and `‖s_i‖ > 4/5 * Delta_i`, is
`1/2 * Delta_i` if `ratio_i < 1/10`, and is `Delta_i` otherwise; the two cases exclude each
other. The radius is `1` when the loop is entered, and it is positive after any number `t` of
outer iterations and in the state with which the loop is left, whatever bound `fuel` on the
passes is taken. -/
theorem radius_update (cfg : Config K) (st : SolverState K) (p : Planner K) (U_ : Nat → K)
    (i : Nat) (hi : i < st.planner.M) (hp : i < p.M) :
    (outer_iteration cfg st).delta i
      = (if step_ratio cfg (tentative_state cfg st) i > 3 / 4
            ∧ cfg.sqrt (dot cfg.nu ((tentative_state cfg st).s_ i)
                ((tentative_state cfg st).s_ i)) > (4 / 5) * st.delta i then
          2 * st.delta i
        else if step_ratio cfg (tentative_state cfg st) i < 1 / 10 then (1 / 2) * st.delta i
        else st.delta i) ∧
    ¬ (step_ratio cfg (tentative_state cfg st) i > 3 / 4
        ∧ step_ratio cfg (tentative_state cfg st) i < 1 / 10) ∧
    (solver_init cfg p U_).delta i = 1 ∧
    (∀ t, 0 < ((outer_iteration cfg)^[t] (solver_init cfg p U_)).delta i) ∧
    (∀ fuel, 0 < (solver_loop cfg fuel (solver_init cfg p U_)).delta i) := by
  have h0 : ∀ k, k < (solver_init cfg p U_).planner.M → 0 < (solver_init cfg p U_).delta k := by
    intro k hk
    rw [(solver_init_radius cfg p U_ k hk).1]
    exact one_pos
  refine ⟨outer_iteration_delta cfg st i hi, ?_, (solver_init_radius cfg p U_ i hp).1,
    fun t => ?_, fun fuel => ?_⟩
  · rintro ⟨h1, h2⟩
    have : (3 : K) / 4 < 1 / 10 := lt_trans h1 h2
    norm_num at this
  · exact iterate_delta_pos cfg _ h0 t i (by rw [iterate_M]; exact hp)
  · exact solver_loop_delta_pos cfg fuel _ h0 i hp

/-- C18, instance: the sample agent at rest, no control: the radius with which the loop is
left is positive. -/
theorem radius_update_witness :
    0 < (solver_loop (sampleConfig Real.cos Real.sin Real.tan Real.sqrt) iter_lim
      (solver_init (sampleConfig Real.cos Real.sin Real.tan Real.sqrt)
        (samplePlanner (sampleConfig Real.cos Real.sin Real.tan Real.sqrt)
          [sampleAgent (0 : ℝ) 0 0]) (fun _ => 0))).delta 0 :=
  (radius_update (sampleConfig Real.cos Real.sin Real.tan Real.sqrt)
    (solver_init (sampleConfig Real.cos Real.sin Real.tan Real.sqrt)
      (samplePlanner (sampleConfig Real.cos Real.sin Real.tan Real.sqrt)
        [sampleAgent (0 : ℝ) 0 0]) (fun _ => 0))
    (samplePlanner (sampleConfig Real.cos Real.sin Real.tan Real.sqrt)
      [sampleAgent (0 : ℝ) 0 0]) (fun _ => 0) 0 Nat.zero_lt_one Nat.zero_lt_one).2.2.2.2
    iter_lim

/-- C19: for `M ≥ 1` (and `N ≥ 1`, `nU_` as `setup` computes it), if the squared norm of the
gradient that `trust_region_solver` computes at the controls handed in is below `M * 10^-2`,
in particular if that gradient has no nonzero entry, the solver makes no outer iteration: the
state with which the loop is left is the state with which it is entered, the iteration
counter is `1`, the planner (its multipliers `lambda` and its penalty `rho`) is unchanged,
and the controls returned are `correctionU` applied to the controls handed in. The gradient
of the test is `compute_gradient` at the controls handed in when the sizes are those of
`setup` and the strides of the header are `nX * (N + 1)`, `nU * (N + 1)`. -/
theorem convergence_gate (cfg : Config K) (p : Planner K) (U_ : Nat → K) (hM : 1 ≤ p.M)
    (hN : 1 ≤ cfg.N) (hU : p.nU_ = nU * (cfg.N + 1) * p.M)
    (hconv : gradient_norm p (solver_init cfg p U_).gradient < threshold_gradient_norm p
      ∨ ∀ j, j < p.nG → (solver_init cfg p U_).gradient j = 0) :
    (1 ≤ cfg.num_threads → cfg.nx = nX * (cfg.N + 1) → cfg.nu = nU * (cfg.N + 1) →
      p.nC_i = 2 * nU * (cfg.N + 1) + (cfg.N + 1) * (p.M - 1) + (cfg.N + 1) →
      (solver_init cfg p U_).gradient = compute_gradient cfg p uninit U_) ∧
    solver_exit cfg p U_ = solver_init cfg p U_ ∧
    (solver_exit cfg p U_).iter = 1 ∧
    (trust_region_solver cfg p U_).1 = p ∧
    (trust_region_solver cfg p U_).1.lagrangian_multipliers = p.lagrangian_multipliers ∧
    (trust_region_solver cfg p U_).1.rho = p.rho ∧
    (trust_region_solver cfg p U_).2 = correctionU cfg p U_ := by
  have hlt : gradient_norm p (solver_init cfg p U_).gradient < threshold_gradient_norm p := by
    rcases hconv with h | h
    · exact h
    · rw [gradient_norm_zero p _ h]
      unfold threshold_gradient_norm
      have hMK : (0 : K) < (p.M : K) := Nat.cast_pos.mpr hM
      exact mul_pos hMK (by norm_num)
  have hc : (solver_init cfg p U_).convergence = true := by
    show (if gradient_norm p (solver_init cfg p U_).gradient < threshold_gradient_norm p
      then true else false) = true
    rw [if_pos hlt]
  have hexit : solver_exit cfg p U_ = solver_init cfg p U_ :=
    solver_loop_converged cfg iter_lim _ hc
  have hpl : (trust_region_solver cfg p U_).1 = p := by
    show (solver_exit cfg p U_).planner = p
    rw [hexit]
    rfl
  refine ⟨fun hT hnx hnu hC => solver_init_gradient cfg p U_ hT hnx hnu hC hU, hexit, ?_, hpl,
    ?_, ?_, ?_⟩
  · rw [hexit]
    rfl
  · rw [hpl]
  · rw [hpl]
  · funext a
    by_cases ha : a < p.nU_
    · rw [trust_region_solver_controls cfg p U_ a ha, hexit]
      show correctionU cfg p (solver_init cfg p U_).dU_ a = _
      exact correctionU_congr cfg p U_ _ hN
        (fun b hb => by rw [solver_init_dU_, if_pos (by rw [hU]; exact hb)]) a
        (by rw [← hU]; exact ha)
    · have hn : (solver_exit cfg p U_).planner.nU_ = p.nU_ := by rw [hexit]; rfl
      have h1 : (trust_region_solver cfg p U_).2 a = U_ a := by
        show forLoop (solver_exit cfg p U_).planner.nU_ (fun k b => Function.update b k
          (correctionU cfg (solver_exit cfg p U_).planner (solver_exit cfg p U_).dU_ k)) U_ a
          = U_ a
        rw [forLoop_update_apply, hn, if_neg ha]
      rw [h1]
      exact ((correctionU_loop cfg U_ hN p.M).1 a (by rw [← hU]; omega)).symm

/-- C19, instance: the sample agent at rest at the origin, no control: the squared norm of the
gradient, `(50 * eps^3)^2`, is below `10^-2`, and the counter stays `1`. -/
theorem convergence_gate_witness :
    (solver_exit (sampleConfig Real.cos Real.sin Real.tan Real.sqrt)
      (samplePlanner (sampleConfig Real.cos Real.sin Real.tan Real.sqrt)
        [sampleAgent (0 : ℝ) 0 0]) (fun _ => 0)).iter = 1 :=
  (convergence_gate (sampleConfig Real.cos Real.sin Real.tan Real.sqrt)
    (samplePlanner (sampleConfig Real.cos Real.sin Real.tan Real.sqrt)
      [sampleAgent (0 : ℝ) 0 0]) (fun _ => 0) (le_refl _) (le_refl _) rfl
    (Or.inl (sample_rest_converged _ Real.cos Real.sin Real.tan Real.sqrt Real.cos_zero
      Real.sin_zero Real.tan_zero))).2.2.1

/-- C20: for every gradient `g` with a nonzero entry, every matrix `H` (symmetric or not) and
every radius `Delta > 0`, the step `s` of `quadratic_problem_solver` lies in the set
`{p = -t * g : t ≥ 0, ‖p‖ ≤ Delta}` and the quadratic model `m(p) = gᵀp + ½ pᵀHp` is least
there at `s`: `m(s) ≤ m(-t * g)` for every `t ≥ 0` with `‖-t * g‖ ≤ Delta`. The square root of
the code is assumed to be one. -/
theorem quadratic_problem_solver_cauchy (cfg : Config K) (G_ : Nat → K) (H_ : Nat → Nat → K)
    (Delta : K) (hsqrt : ∀ z, 0 ≤ z → 0 ≤ cfg.sqrt z ∧ cfg.sqrt z * cfg.sqrt z = z)
    (hg : ∃ i, i < cfg.nu ∧ G_ i ≠ 0) (hD : 0 < Delta) :
    (∃ t0, 0 ≤ t0 ∧ quadratic_problem_solver cfg G_ H_ Delta = (fun i => -t0 * G_ i) ∧
      cfg.sqrt (dot cfg.nu (quadratic_problem_solver cfg G_ H_ Delta)
        (quadratic_problem_solver cfg G_ H_ Delta)) ≤ Delta) ∧
    (∀ t, 0 ≤ t →
      cfg.sqrt (dot cfg.nu (fun i => -t * G_ i) (fun i => -t * G_ i)) ≤ Delta →
      quadratic_model cfg.nu G_ H_ (quadratic_problem_solver cfg G_ H_ Delta)
        ≤ quadratic_model cfg.nu G_ H_ (fun i => -t * G_ i)) := by
  obtain ⟨hn, hs, hnorm⟩ := quadratic_problem_solver_norm cfg G_ H_ Delta hsqrt hg hD
  obtain ⟨ht0, ht1⟩ := subproblem_tau (cfg.sqrt (dot cfg.nu G_ G_))
    (dot cfg.nu (vecMul cfg.nu G_ H_) G_) Delta hn hD
  have hnn := (hsqrt _ (dot_self_nonneg cfg.nu G_)).2
  constructor
  · refine ⟨_, ?_, hs, ?_⟩
    · exact div_nonneg (mul_nonneg (le_of_lt ht0) (le_of_lt hD)) (le_of_lt hn)
    · rw [hnorm]
      calc _ ≤ 1 * Delta := mul_le_mul_of_nonneg_right ht1 (le_of_lt hD)
        _ = Delta := one_mul _
  · intro t ht hp
    have hpn : cfg.sqrt (dot cfg.nu (fun i => -t * G_ i) (fun i => -t * G_ i))
        = t * cfg.sqrt (dot cfg.nu G_ G_) := by
      apply sqrt_unique cfg.sqrt hsqrt
      · exact mul_nonneg ht (le_of_lt hn)
      · rw [dot_smul_smul]
        linear_combination (t * t) * hnn
    rw [hpn] at hp
    rw [hs, quadratic_model_ray, quadratic_model_ray]
    exact ray_min _ _ _ Delta t hn hnn hD ht hp

/-- C20, instance: the gradient `(1, 1, 1, 1)`, `H` the identity, radius `1`, over the reals:
the model at the step is not above the model at `p = 0`. -/
theorem quadratic_problem_solver_cauchy_witness :
    quadratic_model 4 (fun _ => (1 : ℝ)) identity
        (quadratic_problem_solver (sampleConfig Real.cos Real.sin Real.tan Real.sqrt)
          (fun _ => 1) identity 1)
      ≤ quadratic_model 4 (fun _ => (1 : ℝ)) identity (fun _ => -0 * 1) :=
  (quadratic_problem_solver_cauchy (sampleConfig Real.cos Real.sin Real.tan Real.sqrt)
    (fun _ => 1) identity 1 (fun z hz => ⟨Real.sqrt_nonneg z, Real.mul_self_sqrt hz⟩)
    ⟨0, by decide, one_ne_zero⟩ one_pos).2 0 (le_refl _)
    (by simp [dot, sampleConfig])

/-- C21: when the `cos` and `sin` of the code satisfy `cos² + sin² = 1`, then for every
position `(x_, y_)`, every lane (its point `(x_c, y_c)` and heading `psi` at `s_`) the value
`d_full² - d_long²` that `compute_squared_lateral_distance_vector` computes for an available
lane, with `d_full² = (x - x_c)² + (y - y_c)²` and
`d_long = (x - x_c) * cos psi + (y - y_c) * sin psi`, is the squared lateral distance
`(-(x - x_c) * sin psi + (y - y_c) * cos psi)²`, so it is not negative; the value stored for a
step (the minimum over the lanes, sentinel `1000` for a lane that is not available) is not
negative, and every lane-containment entry of an agent `i < M` is at least `-r_lane²`. -/
theorem lateral_distance_identity (cfg : Config K)
    (hcs : ∀ t, cfg.cos t * cfg.cos t + cfg.sin t * cfg.sin t = 1) :
    (∀ (lane : Lane K) (s_ x_ y_ : K),
      lane_dist2_center cfg lane s_ x_ y_
        = (if s_ < lane.s_max then
            (-(x_ - lane.spline_x s_) * cfg.sin (lane.compute_heading s_)
              + (y_ - lane.spline_y s_) * cfg.cos (lane.compute_heading s_)) ^ 2
          else 1000) ∧
      lane_dist2_side cfg lane s_ x_ y_
        = (if lane.present = true ∧ s_ < lane.s_max ∧ lane.s_max > 10 then
            (-(x_ - lane.spline_x s_) * cfg.sin (lane.compute_heading s_)
              + (y_ - lane.spline_y s_) * cfg.cos (lane.compute_heading s_)) ^ 2
          else 1000) ∧
      0 ≤ lane_dist2_center cfg lane s_ x_ y_ ∧ 0 ≤ lane_dist2_side cfg lane s_ x_ y_) ∧
    (∀ (p : Planner K) (sq X_ : Nat → K) (i j : Nat), j ≤ cfg.N →
      0 ≤ compute_squared_lateral_distance_vector cfg p sq X_ i j) ∧
    (∀ (p : Planner K) (c0 X_ U_ : Nat → K) (i j : Nat), i < p.M → j ≤ cfg.N →
      -(cfg.r_lane * cfg.r_lane)
        ≤ compute_constraints_vehicle_i cfg p c0 X_ U_ i
            (2 * nU * (cfg.N + 1) + (cfg.N + 1) * (p.M - 1) + j)) := by
  have hc : ∀ (lane : Lane K) (s_ x_ y_ : K),
      lane_dist2_center cfg lane s_ x_ y_
        = (if s_ < lane.s_max then
            (-(x_ - lane.spline_x s_) * cfg.sin (lane.compute_heading s_)
              + (y_ - lane.spline_y s_) * cfg.cos (lane.compute_heading s_)) ^ 2
          else 1000) := by
    intro lane s_ x_ y_
    unfold lane_dist2_center
    split_ifs
    · exact lateral_identity _ _ _ _ (hcs _)
    · rfl
  have hs : ∀ (lane : Lane K) (s_ x_ y_ : K),
      lane_dist2_side cfg lane s_ x_ y_
        = (if lane.present = true ∧ s_ < lane.s_max ∧ lane.s_max > 10 then
            (-(x_ - lane.spline_x s_) * cfg.sin (lane.compute_heading s_)
              + (y_ - lane.spline_y s_) * cfg.cos (lane.compute_heading s_)) ^ 2
          else 1000) := by
    intro lane s_ x_ y_
    unfold lane_dist2_side
    split_ifs
    · exact lateral_identity _ _ _ _ (hcs _)
    · rfl
  have h1000 : (0 : K) ≤ 1000 := by norm_num
  refine ⟨fun lane s_ x_ y_ => ⟨hc lane s_ x_ y_, hs lane s_ x_ y_, ?_, ?_⟩, ?_, ?_⟩
  · rw [hc]
    split_ifs
    · exact sq_nonneg _
    · exact h1000
  · rw [hs]
    split_ifs
    · exact sq_nonneg _
    · exact h1000
  · intro p sq X_ i j hj
    rw [compute_squared_lateral_distance_vector_apply cfg p sq X_ i j hj]
    exact lane_dist2_nonneg cfg hcs _ _ _ _
  · intro p c0 X_ U_ i j hi hj
    rw [lane_entry cfg p c0 X_ U_ i j hi hj]
    have := lane_dist2_nonneg cfg hcs (p.agent i) X_ i j
    linarith

/-- C21, instance: over the reals with the real `cos` and `sin`, one agent on the straight
lane: its lane-containment entry of step `0` is at least `-r_lane²`. -/
theorem lateral_distance_identity_witness :
    -((sampleConfig Real.cos Real.sin Real.tan Real.sqrt).r_lane
        * (sampleConfig Real.cos Real.sin Real.tan Real.sqrt).r_lane)
      ≤ compute_constraints_vehicle_i (sampleConfig Real.cos Real.sin Real.tan Real.sqrt)
          (samplePlanner (sampleConfig Real.cos Real.sin Real.tan Real.sqrt)
            [sampleAgent (0 : ℝ) 2 0]) uninit (fun _ => 1) (fun _ => 0) 0
          (2 * nU * ((sampleConfig Real.cos Real.sin Real.tan Real.sqrt).N + 1)
            + ((sampleConfig Real.cos Real.sin Real.tan Real.sqrt).N + 1)
              * ((samplePlanner (sampleConfig Real.cos Real.sin Real.tan Real.sqrt)
                  [sampleAgent (0 : ℝ) 2 0]).M - 1) + 0) :=
  (lateral_distance_identity (sampleConfig Real.cos Real.sin Real.tan Real.sqrt)
    (fun t => by
      have h := Real.cos_sq_add_sin_sq t
      rw [sq, sq] at h
      exact h)).2.2
    (samplePlanner (sampleConfig Real.cos Real.sin Real.tan Real.sqrt)
      [sampleAgent (0 : ℝ) 2 0]) uninit (fun _ => 1) (fun _ => 0) 0 0 Nat.zero_lt_one
    (Nat.zero_le _)

/-- C22: for every traffic (two planners `p`, `p'` with the same record for agent `i`), all
buffers and any two control vectors `U_`, `U_'` that agree on the entries of agent `i` at the
steps `0 .. j`, `integrate` stores the same states for agent `i` at the steps `0 .. j`: the
trajectory of agent `i` depends on the record and the controls of agent `i` only. So moving
the single control entry of agent `i0` at step `k0` (component `c0`) to any value `w` leaves the
states of every other agent `i ≠ i0` at all steps, and the states of agent `i0` at the steps
before `k0`, as they are. -/
theorem integrate_agent_independence (cfg : Config K) (p p' : Planner K)
    (X_ X_' U_ U_' : Nat → K) (i j : Nat) (hi : i < p.M) (hi' : i < p'.M) (hj : j ≤ cfg.N)
    (hag : p'.agent i = p.agent i)
    (hU : ∀ k, k ≤ j →
      U_' (nU * (cfg.N + 1) * i + nU * k + d) = U_ (nU * (cfg.N + 1) * i + nU * k + d) ∧
      U_' (nU * (cfg.N + 1) * i + nU * k + F) = U_ (nU * (cfg.N + 1) * i + nU * k + F)) :
    (∀ k c, k ≤ j → c < nX →
      integrate cfg p' X_' U_' (nX * (cfg.N + 1) * i + nX * k + c)
        = integrate cfg p X_ U_ (nX * (cfg.N + 1) * i + nX * k + c)) ∧
    (∀ (i0 k0 c0 : Nat) (w : K), k0 ≤ cfg.N → c0 < nU →
      (i ≠ i0 → ∀ k c, k ≤ cfg.N → c < nX →
        integrate cfg p X_
            (Function.update U_ (nU * (cfg.N + 1) * i0 + nU * k0 + c0) w)
            (nX * (cfg.N + 1) * i + nX * k + c)
          = integrate cfg p X_ U_ (nX * (cfg.N + 1) * i + nX * k + c)) ∧
      (i = i0 → ∀ k c, k < k0 → c < nX →
        integrate cfg p X_
            (Function.update U_ (nU * (cfg.N + 1) * i0 + nU * k0 + c0) w)
            (nX * (cfg.N + 1) * i + nX * k + c)
          = integrate cfg p X_ U_ (nX * (cfg.N + 1) * i + nX * k + c))) := by
  refine ⟨fun k c hk hc => integrate_prefix cfg p p' X_ X_' U_ U_' i j hi hi' hj hag hU k c hk hc,
    fun i0 k0 c0 w hk0 hc0 => ⟨fun hne k c hk hc => ?_, fun heq k c hk hc => ?_⟩⟩
  · refine integrate_prefix cfg p p X_ X_ U_ _ i k hi hi hk rfl (fun m hm => ?_) k c
      (le_refl _) hc
    have hm' : m ≤ cfg.N := by omega
    simp only [nU, d, F] at hc0 ⊢
    constructor
    · rw [Nat.add_assoc (2 * (cfg.N + 1) * i), Nat.add_assoc (2 * (cfg.N + 1) * i0),
        Function.update_noteq (control_index_ne _ i i0 _ _ (by omega) (by omega) (Or.inl hne))]
    · rw [Nat.add_assoc (2 * (cfg.N + 1) * i), Nat.add_assoc (2 * (cfg.N + 1) * i0),
        Function.update_noteq (control_index_ne _ i i0 _ _ (by omega) (by omega) (Or.inl hne))]
  · subst heq
    refine integrate_prefix cfg p p X_ X_ U_ _ i k hi hi (by omega) rfl (fun m hm => ?_) k c
      (le_refl _) hc
    simp only [nU, d, F] at hc0 ⊢
    constructor
    · rw [Function.update_noteq (by omega)]
    · rw [Function.update_noteq (by omega)]

/-- C22, instance: one agent, `N = 1`; the controls `(0, 0, 1, 0)` and `(0, 0, 0, 0)` agree at
step `0`, and the speed stored at step `0` is the same. -/
theorem integrate_agent_independence_witness :
    integrate (sampleConfig Real.cos Real.sin Real.tan Real.sqrt)
        (samplePlanner (sampleConfig Real.cos Real.sin Real.tan Real.sqrt)
          [sampleAgent (0 : ℝ) 0 5]) uninit (fun a => if a = 2 then 1 else 0)
        (nX * ((sampleConfig Real.cos Real.sin Real.tan Real.sqrt).N + 1) * 0 + nX * 0 + v)
      = integrate (sampleConfig Real.cos Real.sin Real.tan Real.sqrt)
        (samplePlanner (sampleConfig Real.cos Real.sin Real.tan Real.sqrt)
          [sampleAgent (0 : ℝ) 0 5]) uninit (fun _ => 0)
        (nX * ((sampleConfig Real.cos Real.sin Real.tan Real.sqrt).N + 1) * 0 + nX * 0 + v) :=
  (integrate_agent_independence (sampleConfig Real.cos Real.sin Real.tan Real.sqrt)
    (samplePlanner (sampleConfig Real.cos Real.sin Real.tan Real.sqrt)
      [sampleAgent (0 : ℝ) 0 5])
    (samplePlanner (sampleConfig Real.cos Real.sin Real.tan Real.sqrt)
      [sampleAgent (0 : ℝ) 0 5]) uninit uninit (fun _ => 0) (fun a => if a = 2 then 1 else 0)
    0 0 Nat.zero_lt_one Nat.zero_lt_one (Nat.zero_le _) rfl
    (fun k hk => by
      obtain rfl : k = 0 := Nat.le_zero.mp hk
      simp [nU, d, F])).1 0 v (le_refl _) (by decide)

/-- C23: for every gradient `g` with a nonzero entry, every matrix `H` and every radius
`Delta > 0`, the step `s` of `quadratic_problem_solver` satisfies
`-(gᵀs + 1/2 * sᵀ H s) ≥ 1/2 * tau * Delta * ‖g‖ > 0`, with `tau` the factor of the step. So in
`trust_region_solver`, after any number `t` of outer iterations of a call, the denominator
`predicted_reduction[i]` of the acceptance quotient of an agent `i < M` whose packed gradient
`g_[i]` has a nonzero entry is positive. The square root of the code is assumed to be one. -/
theorem predicted_reduction_pos (cfg : Config K) (G_ : Nat → K) (H_ : Nat → Nat → K)
    (Delta : K) (hsqrt : ∀ z, 0 ≤ z → 0 ≤ cfg.sqrt z ∧ cfg.sqrt z * cfg.sqrt z = z)
    (hg : ∃ i, i < cfg.nu ∧ G_ i ≠ 0) (hD : 0 < Delta) :
    (1 / 2 * (if dot cfg.nu (vecMul cfg.nu G_ H_) G_ ≤ 0 then 1
          else min (cfg.sqrt (dot cfg.nu G_ G_) ^ 3
            / (Delta * dot cfg.nu (vecMul cfg.nu G_ H_) G_)) 1)
        * Delta * cfg.sqrt (dot cfg.nu G_ G_)
      ≤ -(dot cfg.nu G_ (quadratic_problem_solver cfg G_ H_ Delta)
          + dot cfg.nu (vecMul cfg.nu
              (fun a => (1 / 2) * quadratic_problem_solver cfg G_ H_ Delta a) H_)
            (quadratic_problem_solver cfg G_ H_ Delta))) ∧
    0 < -(dot cfg.nu G_ (quadratic_problem_solver cfg G_ H_ Delta)
          + dot cfg.nu (vecMul cfg.nu
              (fun a => (1 / 2) * quadratic_problem_solver cfg G_ H_ Delta a) H_)
            (quadratic_problem_solver cfg G_ H_ Delta)) ∧
    (∀ (p : Planner K) (U_ : Nat → K) (t i : Nat), i < p.M →
      (∃ r, r < cfg.nu ∧
        (tentative_state cfg ((outer_iteration cfg)^[t] (solver_init cfg p U_))).g_ i r ≠ 0) →
      step_ratio cfg (tentative_state cfg ((outer_iteration cfg)^[t] (solver_init cfg p U_))) i
        = ((tentative_state cfg ((outer_iteration cfg)^[t]
              (solver_init cfg p U_))).lagrangian i
            - (tentative_state cfg ((outer_iteration cfg)^[t]
              (solver_init cfg p U_))).d_lagrangian i)
          / predicted_reduction_of cfg
              (tentative_state cfg ((outer_iteration cfg)^[t] (solver_init cfg p U_))) i ∧
      0 < predicted_reduction_of cfg
        (tentative_state cfg ((outer_iteration cfg)^[t] (solver_init cfg p U_))) i) := by
  obtain ⟨h1, h2⟩ := quadratic_problem_solver_decrease cfg G_ H_ Delta hsqrt hg hD
  refine ⟨h1, h2, fun p U_ t i hi hgi => ?_⟩
  have hM : ((outer_iteration cfg)^[t] (solver_init cfg p U_)).planner.M = p.M :=
    iterate_M cfg _ t
  have h0 : ∀ k, k < (solver_init cfg p U_).planner.M → 0 < (solver_init cfg p U_).delta k := by
    intro k hk
    rw [(solver_init_radius cfg p U_ k hk).1]
    exact one_pos
  have hpos : 0 < ((outer_iteration cfg)^[t] (solver_init cfg p U_)).delta i :=
    iterate_delta_pos cfg _ h0 t i (by rw [hM]; exact hi)
  generalize (outer_iteration cfg)^[t] (solver_init cfg p U_) = st at hM hpos hgi ⊢
  obtain ⟨hH, hs⟩ := tentative_state_step cfg st i (by rw [hM]; exact hi)
  refine ⟨rfl, ?_⟩
  unfold predicted_reduction_of
  rw [hH, hs]
  exact (quadratic_problem_solver_decrease cfg _ (st.H_ i) (st.delta i) hsqrt hgi hpos).2

/-- C23, instance: the gradient `(1, 1, 1, 1)`, `H` the identity, radius `1`, over the reals;
and the first iteration of a call for the sample agent at rest with the force `3/10` at both
steps: the predicted reduction of the agent is positive. -/
theorem predicted_reduction_pos_witness :
    0 < predicted_reduction_of (sampleConfig Real.cos Real.sin Real.tan Real.sqrt)
      (tentative_state (sampleConfig Real.cos Real.sin Real.tan Real.sqrt)
        (solver_init (sampleConfig Real.cos Real.sin Real.tan Real.sqrt)
          (samplePlanner (sampleConfig Real.cos Real.sin Real.tan Real.sqrt)
            [sampleAgent (0 : ℝ) 0 0])
          (fun a => if a = 1 ∨ a = 3 then 3 / 10 else 0))) 0 :=
  ((predicted_reduction_pos (sampleConfig Real.cos Real.sin Real.tan Real.sqrt)
    (fun _ => 1) identity 1 (fun z hz => ⟨Real.sqrt_nonneg z, Real.mul_self_sqrt hz⟩)
    ⟨0, by decide, one_ne_zero⟩ one_pos).2.2
    (samplePlanner (sampleConfig Real.cos Real.sin Real.tan Real.sqrt)
      [sampleAgent (0 : ℝ) 0 0])
    (fun a => if a = 1 ∨ a = 3 then 3 / 10 else 0) 0 0 Nat.zero_lt_one
    (sample_slice_nonzero _ Real.cos Real.sin Real.tan Real.sqrt Real.cos_zero Real.sin_zero
      Real.tan_zero)).2

/-- C24: for every `H`, `s`, `y` and tolerance `r ≥ 0`, with `ω = y - H s`: whenever the test
of `hessian_SR1_update` holds (the update is made), the divisor `ωᵀ s` is not zero, the matrix
returned is `H + ω ωᵀ / (ωᵀ s)`, and it satisfies the secant equation `H+ s = y`; whether the
update is made or not, a symmetric `H` gives a symmetric result. So the Hessian of every
agent `i < M`, the identity when the loop of `trust_region_solver` is entered (with the
tolerance `r_ = 10^-8 ≥ 0`), is symmetric after any number `t` of outer iterations and in the
state with which the loop is left. -/
theorem hessian_SR1_update_secant (cfg : Config K) (H_ : Nat → Nat → K) (s_ y_ : Nat → K)
    (r : K) (hr : 0 ≤ r)
    (happ : |dot cfg.nu s_ (fun i => y_ i - mulVec cfg.nu H_ s_ i)|
      > r * dot cfg.nu s_ s_
        * dot cfg.nu (fun i => y_ i - mulVec cfg.nu H_ s_ i)
            (fun i => y_ i - mulVec cfg.nu H_ s_ i)) :
    dot cfg.nu (fun i => y_ i - mulVec cfg.nu H_ s_ i) s_ ≠ 0 ∧
    hessian_SR1_update cfg H_ s_ y_ r
      = (fun i j => H_ i j
          + ((y_ i - mulVec cfg.nu H_ s_ i) * (y_ j - mulVec cfg.nu H_ s_ j))
            / dot cfg.nu (fun i => y_ i - mulVec cfg.nu H_ s_ i) s_) ∧
    (∀ i, mulVec cfg.nu (hessian_SR1_update cfg H_ s_ y_ r) s_ i = y_ i) ∧
    (∀ (H' : Nat → Nat → K) (s' y' : Nat → K) (r' : K), (∀ i j, H' i j = H' j i) →
      ∀ i j, hessian_SR1_update cfg H' s' y' r' i j = hessian_SR1_update cfg H' s' y' r' j i) ∧
    (0 : K) ≤ r_ ∧
    (∀ (p : Planner K) (U_ : Nat → K) (i : Nat), i < p.M →
      (solver_init cfg p U_).H_ i = identity ∧
      (∀ t a b, ((outer_iteration cfg)^[t] (solver_init cfg p U_)).H_ i a b
        = ((outer_iteration cfg)^[t] (solver_init cfg p U_)).H_ i b a) ∧
      (∀ a b, (solver_exit cfg p U_).H_ i a b = (solver_exit cfg p U_).H_ i b a)) := by
  have hd := sr1_divisor_ne cfg.nu s_ _ r hr happ
  have hup : hessian_SR1_update cfg H_ s_ y_ r
      = (fun i j => H_ i j
          + ((y_ i - mulVec cfg.nu H_ s_ i) * (y_ j - mulVec cfg.nu H_ s_ j))
            / dot cfg.nu (fun i => y_ i - mulVec cfg.nu H_ s_ i) s_) := by
    rw [hessian_SR1_update_eq, if_pos happ]
  refine ⟨hd, hup, fun i => ?_, fun H' s' y' r' hH' i j =>
    hessian_SR1_update_symm cfg H' s' y' r' hH' i j, ?_, fun p U_ i hi => ?_⟩
  · rw [hup]
    have h := rank_one_mulVec cfg.nu H_ (fun i => y_ i - mulVec cfg.nu H_ s_ i) s_ i hd
    refine h.trans ?_
    ring
  · unfold r_
    norm_num
  · have hid := (solver_init_radius cfg p U_ i hi).2
    have h0 : ∀ a b, (solver_init cfg p U_).H_ i a b = (solver_init cfg p U_).H_ i b a := by
      rw [hid]
      exact identity_symm
    exact ⟨hid, fun t => iterate_symm cfg _ i h0 t, solver_loop_symm cfg iter_lim _ i h0⟩

/-- C24, instance: `nu = 4`, `H` the identity, `s = (1, 0, 0, 0)`, `y = (2, 0, 0, 0)`, the
tolerance of the solver, over the reals: the update is made and the first row of the secant
equation holds. -/
theorem hessian_SR1_update_secant_witness :
    mulVec 4
        (hessian_SR1_update (sampleConfig Real.cos Real.sin Real.tan Real.sqrt) identity
          (fun i => if i = 0 then 1 else 0) (fun i => if i = 0 then 2 else 0) r_)
        (fun i => if i = 0 then 1 else 0) 0
      = (fun i => if i = 0 then (2 : ℝ) else 0) 0 :=
  (hessian_SR1_update_secant (sampleConfig Real.cos Real.sin Real.tan Real.sqrt) identity
    (fun i => if i = 0 then 1 else 0) (fun i => if i = 0 then 2 else 0) r_
    (by unfold r_; norm_num)
    (by
      simp [sampleConfig, dot, mulVec, identity, Finset.sum_range_succ, r_]
      norm_num)).2.2.1 0

/-- C25: `trust_region_solver` terminates for every input: the counter starts at `1`,
`iter_lim = 20`, and the state with which the loop is left is the loop body iterated
`n = iter - 1 ≤ 19` times from the state of entry, the loop condition
`convergence == false && iter < iter_lim` holding before each of these passes and failing
after them; a larger bound on the number of passes gives the same state. After the loop the
penalty is `gamma^n` times the penalty of before the call; if the convergence test never
fired (the flag is still `false`), then `n = 19` and the factor is `gamma^19`. In either case
the controls with which the loop is left are returned, after `correctionU`. -/
theorem iteration_bound (cfg : Config K) (p : Planner K) (U_ : Nat → K) :
    (solver_init cfg p U_).iter = 1 ∧ iter_lim = 20 ∧
    solver_exit cfg p U_
      = (outer_iteration cfg)^[(solver_exit cfg p U_).iter - 1] (solver_init cfg p U_) ∧
    (solver_exit cfg p U_).iter - 1 ≤ 19 ∧
    (∀ k, k < (solver_exit cfg p U_).iter - 1 →
      ((outer_iteration cfg)^[k] (solver_init cfg p U_)).convergence = false ∧
      ((outer_iteration cfg)^[k] (solver_init cfg p U_)).iter < iter_lim) ∧
    ¬ ((solver_exit cfg p U_).convergence = false ∧ (solver_exit cfg p U_).iter < iter_lim) ∧
    (∀ fuel, iter_lim ≤ fuel →
      solver_loop cfg fuel (solver_init cfg p U_) = solver_exit cfg p U_) ∧
    (solver_exit cfg p U_).planner.rho
      = cfg.gamma ^ ((solver_exit cfg p U_).iter - 1) * p.rho ∧
    ((solver_exit cfg p U_).convergence = false →
      (solver_exit cfg p U_).iter - 1 = 19 ∧
      (trust_region_solver cfg p U_).1.rho = cfg.gamma ^ 19 * p.rho) ∧
    (∀ a, a < p.nU_ → (trust_region_solver cfg p U_).2 a
      = correctionU cfg (solver_exit cfg p U_).planner (solver_exit cfg p U_).dU_ a) := by
  have hit := solver_loop_iterate cfg iter_lim (solver_init cfg p U_)
  have hle : (solver_exit cfg p U_).iter ≤ iter_lim :=
    solver_loop_iter_le cfg iter_lim (solver_init cfg p U_) (by show 1 ≤ 20; omega)
  have hge : 1 ≤ (solver_exit cfg p U_).iter :=
    (solver_loop_rho cfg iter_lim (solver_init cfg p U_)).1
  have hexit : ¬ ((solver_exit cfg p U_).convergence = false ∧
      (solver_exit cfg p U_).iter < iter_lim) :=
    solver_loop_exit cfg iter_lim (solver_init cfg p U_) (by show 20 ≤ 1 + 20; omega)
  have hrho : (solver_exit cfg p U_).planner.rho
      = cfg.gamma ^ ((solver_exit cfg p U_).iter - 1) * p.rho :=
    (solver_loop_rho cfg iter_lim (solver_init cfg p U_)).2
  have hlim : iter_lim = 20 := rfl
  refine ⟨rfl, rfl, hit.1, ?_, hit.2, hexit, fun fuel hf => ?_, hrho, fun hc => ?_,
    fun a ha => trust_region_solver_controls cfg p U_ a ha⟩
  · omega
  · obtain ⟨extra, rfl⟩ : ∃ extra, fuel = iter_lim + extra := ⟨fuel - iter_lim, by omega⟩
    exact solver_loop_stable cfg iter_lim (solver_init cfg p U_) hexit extra
  · have h19 : (solver_exit cfg p U_).iter - 1 = 19 := by
      have : ¬ (solver_exit cfg p U_).iter < iter_lim := fun h => hexit ⟨hc, h⟩
      omega
    refine ⟨h19, ?_⟩
    show (solver_exit cfg p U_).planner.rho = _
    rw [hrho, h19]

end Claims

end DynamicGamePlanner
